import Mathlib

/-!
# SCXLNX communication layer (security/smc/scxlnx_comm.c)

A shallow embedding of the coarse-page-table allocator, the shared-memory
mapper, the command/answer rings and the send engine, followed by the
properties proved about them.

Conventions.  Machine words are naturals reduced modulo `2^32` (or `2^64`)
wherever the C arithmetic can wrap.  Kernel objects that the C code reaches
through pointers are named by natural-number identities.  Values produced by
collaborators that are not part of this file (the slab allocator, the page
allocator, `get_user_pages`, the secure world) are explicit inputs.
-/

namespace SCXLNX

/-! ## Coarse page table allocator: data -/

/-- Constant of scxlnx_defs.h (the header is not part of the embedded file);
only its being different from the preallocated tag matters. -/
def SCXLNX_PAGE_DESCRIPTOR_TYPE_NORMAL : Nat := 0

/-- Constant of scxlnx_defs.h (the header is not part of the embedded file). -/
def SCXLNX_PAGE_DESCRIPTOR_TYPE_PREALLOCATED : Nat := 1

/-- One of the four 1KB coarse page tables of a page record: `pParent` names
the owning `SCXLNX_COARSE_PAGE_TABLE_ARRAY`, `index` is the position in its
`sCoarsePageTables[4]`. -/
structure SCXLNX_COARSE_PAGE_TABLE where
  pParent : Nat
  index : Nat
deriving DecidableEq, Repr

/-- A page record.  `id` stands for the address of the record,
`pDescriptors0` for `sCoarsePageTables[0].pDescriptors` (`none` is NULL,
`some p` the physical page `p`). -/
structure SCXLNX_COARSE_PAGE_TABLE_ARRAY where
  id : Nat
  nType : Nat
  nReferenceCount : Nat
  pDescriptors0 : Option Nat
deriving DecidableEq, Repr

/-- The allocation context.  The two lists are the kernel lists of the C
structure, head first.  `nextId` supplies fresh identities for records and
pages; `allocated` and `freed` log the pages obtained from
`internal_get_zeroed_page` and handed to `internal_free_page`.

The last two fields follow what the kernel's `list_del` leaves behind.
`unlinked` holds the coarse page tables whose `list` member was taken off the
free list by the `list_del` of line 177 and has not been linked again since:
`list_del` leaves the poisoned pointers `LIST_POISON1` and `LIST_POISON2` in
such a member, and a second `list_del` on it dereferences them.  `fault` is
set by a call that dereferences poisoned pointers or reads a page record
that was freed: the real call does not return, and a state in which `fault`
is set stands for no state of the running kernel. -/
structure SCXLNX_COARSE_PAGE_TABLE_ALLOCATION_CONTEXT where
  sCoarsePageTableArrays : List SCXLNX_COARSE_PAGE_TABLE_ARRAY
  sFreeCoarsePageTables : List SCXLNX_COARSE_PAGE_TABLE
  nextId : Nat
  allocated : List Nat
  freed : List Nat
  unlinked : List SCXLNX_COARSE_PAGE_TABLE := []
  fault : Bool := false
deriving DecidableEq, Repr

/-- State after `SCXLNXInitializeCoarsePageTableAllocator`. -/
def SCXLNXInitializeCoarsePageTableAllocator :
    SCXLNX_COARSE_PAGE_TABLE_ALLOCATION_CONTEXT :=
  { sCoarsePageTableArrays := [], sFreeCoarsePageTables := [],
    nextId := 0, allocated := [], freed := [] }

/-- The record `pCoarsePageTable->pParent` points to, if it is still on the
list of page records. -/
def findArray (id : Nat) :
    List SCXLNX_COARSE_PAGE_TABLE_ARRAY → Option SCXLNX_COARSE_PAGE_TABLE_ARRAY
  | [] => none
  | a :: rest => if a.id = id then some a else findArray id rest

/-- Writes `pArray->nReferenceCount` of the record named `id`. -/
def setReferenceCount (id rc : Nat) :
    List SCXLNX_COARSE_PAGE_TABLE_ARRAY → List SCXLNX_COARSE_PAGE_TABLE_ARRAY
  | [] => []
  | a :: rest =>
    if a.id = id then { a with nReferenceCount := rc } :: rest
    else a :: setReferenceCount id rc rest

/-- Effect of `list_del(&(pArray->list))` for the record named `id`. -/
def delArray (id : Nat) :
    List SCXLNX_COARSE_PAGE_TABLE_ARRAY → List SCXLNX_COARSE_PAGE_TABLE_ARRAY
  | [] => []
  | a :: rest => if a.id = id then rest else a :: delArray id rest

/-- 32-bit increment. -/
def inc32 (x : Nat) : Nat := (x + 1) % 2 ^ 32

/-- 32-bit decrement. -/
def dec32 (x : Nat) : Nat := (x + (2 ^ 32 - 1)) % 2 ^ 32

/-- 32-bit addition. -/
def add32 (x y : Nat) : Nat := (x + y) % 2 ^ 32

/-- 32-bit subtraction. -/
def sub32 (x y : Nat) : Nat := (x % 2 ^ 32 + (2 ^ 32 - y % 2 ^ 32)) % 2 ^ 32

/-! ## Coarse page table allocator: operations -/

/-- Embedding of `SCXLNXAllocateCoarsePageTable`.

`kmalloc` is the outcome of `internal_kmalloc(sizeof(*pArray))`: `none` for
NULL, `some r` for a record whose `nReferenceCount` field reads `r` when the
allocator hands it over (the function assigns `nType` and the list head but
never assigns `nReferenceCount` before incrementing it).  `getPage` tells
whether `internal_get_zeroed_page` succeeds.

The table taken off the free list goes through `list_del` (line 177) and is
recorded in `unlinked`.  When its page record is no longer tracked the
increment of line 179 writes to freed memory: `fault` is set.  A table
handed out with a new page is entry 0 of the record, whose `list` member
went through `INIT_LIST_HEAD` only: it is neither on the free list nor in
`unlinked`. -/
def SCXLNXAllocateCoarsePageTable
    (ctx : SCXLNX_COARSE_PAGE_TABLE_ALLOCATION_CONTEXT) (nType : Nat)
    (kmalloc : Option Nat) (getPage : Bool) :
    Option SCXLNX_COARSE_PAGE_TABLE × SCXLNX_COARSE_PAGE_TABLE_ALLOCATION_CONTEXT :=
  match ctx.sFreeCoarsePageTables with
  | t :: rest =>
    -- the free list can provide a coarse page table
    let arrays :=
      match findArray t.pParent ctx.sCoarsePageTableArrays with
      | some a =>
        setReferenceCount t.pParent (inc32 a.nReferenceCount)
          ctx.sCoarsePageTableArrays
      | none => ctx.sCoarsePageTableArrays
    (some t, { ctx with sFreeCoarsePageTables := rest,
                        sCoarsePageTableArrays := arrays,
                        unlinked := t :: ctx.unlinked,
                        fault :=
                          ctx.fault ||
                            (findArray t.pParent ctx.sCoarsePageTableArrays).isNone })
  | [] =>
    match kmalloc with
    | none => (none, ctx)
    | some r =>
      if getPage then
        let id := ctx.nextId
        let pArray : SCXLNX_COARSE_PAGE_TABLE_ARRAY :=
          { id := id, nType := nType, nReferenceCount := inc32 r,
            pDescriptors0 := some id }
        (some ⟨id, 0⟩,
          { ctx with
            sFreeCoarsePageTables :=
              ⟨id, 3⟩ :: ⟨id, 2⟩ :: ⟨id, 1⟩ :: ctx.sFreeCoarsePageTables,
            sCoarsePageTableArrays := pArray :: ctx.sCoarsePageTableArrays,
            nextId := id + 1,
            allocated := id :: ctx.allocated })
      else (none, ctx)

/-- The `list_del` calls of the whole-page branch of
`SCXLNXFreeCoarsePageTable` (lines 282-286), for the siblings they unlink:
every entry of the page other than the released one that is on the free list
is taken off it.  A sibling that is not on the free list is the matter of
`poisonedSibling`. -/
def delSiblings (t : SCXLNX_COARSE_PAGE_TABLE) :
    List Nat → List SCXLNX_COARSE_PAGE_TABLE → List SCXLNX_COARSE_PAGE_TABLE
  | [], free => free
  | i :: is, free =>
    if (⟨t.pParent, i⟩ : SCXLNX_COARSE_PAGE_TABLE) ≠ t then
      delSiblings t is (free.erase ⟨t.pParent, i⟩)
    else delSiblings t is free

/-- The loop of lines 282-286 calls `list_del` on every sibling of the
released table, on the free list or not.  For a sibling that was handed out
by the `list_del` of line 177 and not given back since, the `list` member
holds poisoned pointers and the call faults: this is the case told here.
(The one sibling that can be off the free list without having gone through
`list_del` is entry 0 of a page that was never given back; its `list` member
is linked to itself and `list_del` on it changes no list.) -/
def poisonedSibling (ctx : SCXLNX_COARSE_PAGE_TABLE_ALLOCATION_CONTEXT)
    (t : SCXLNX_COARSE_PAGE_TABLE) : Bool :=
  [0, 1, 2, 3].any fun i =>
    decide ((⟨t.pParent, i⟩ : SCXLNX_COARSE_PAGE_TABLE) ≠ t ∧
      (⟨t.pParent, i⟩ : SCXLNX_COARSE_PAGE_TABLE) ∉ ctx.sFreeCoarsePageTables ∧
      (⟨t.pParent, i⟩ : SCXLNX_COARSE_PAGE_TABLE) ∈ ctx.unlinked)

/-- Embedding of `SCXLNXFreeCoarsePageTable`.

When the page record of the table is no longer tracked, the record (and the
table, which is a member of it) lies in freed memory that line 255 reads and
line 257 writes: `fault` is set and nothing else is followed.  In the
whole-page branch, when one of the siblings holds poisoned pointers the
`list_del` of line 284 faults, after the decrement of line 257 and before
`internal_free_page`: `fault` is set, the count is the decremented one, and
the page log is unchanged (the siblings unlinked before the faulting call
are not followed).  `list_add` links the released table again, so it leaves
`unlinked`; the tables of a freed record are forgotten. -/
def SCXLNXFreeCoarsePageTable
    (ctx : SCXLNX_COARSE_PAGE_TABLE_ALLOCATION_CONTEXT)
    (pCoarsePageTable : SCXLNX_COARSE_PAGE_TABLE) (nForce : Nat) :
    SCXLNX_COARSE_PAGE_TABLE_ALLOCATION_CONTEXT :=
  match findArray pCoarsePageTable.pParent ctx.sCoarsePageTableArrays with
  | none => { ctx with fault := true }
  | some pArray =>
    let rc := dec32 pArray.nReferenceCount
    if rc = 0 then
      if pArray.nType = SCXLNX_PAGE_DESCRIPTOR_TYPE_PREALLOCATED ∧ nForce = 0 then
        { ctx with
          sCoarsePageTableArrays :=
            setReferenceCount pArray.id rc ctx.sCoarsePageTableArrays,
          sFreeCoarsePageTables :=
            pCoarsePageTable :: ctx.sFreeCoarsePageTables,
          unlinked := ctx.unlinked.filter fun x => decide (x ≠ pCoarsePageTable) }
      else if poisonedSibling ctx pCoarsePageTable then
        { ctx with
          sCoarsePageTableArrays :=
            setReferenceCount pArray.id rc ctx.sCoarsePageTableArrays,
          fault := true }
      else
        { ctx with
          sFreeCoarsePageTables :=
            delSiblings pCoarsePageTable [0, 1, 2, 3] ctx.sFreeCoarsePageTables,
          sCoarsePageTableArrays := delArray pArray.id ctx.sCoarsePageTableArrays,
          freed :=
            match pArray.pDescriptors0 with
            | some p => p :: ctx.freed
            | none => ctx.freed,
          unlinked :=
            ctx.unlinked.filter fun x => decide (x.pParent ≠ pCoarsePageTable.pParent) }
    else
      { ctx with
        sCoarsePageTableArrays :=
          setReferenceCount pArray.id rc ctx.sCoarsePageTableArrays,
        sFreeCoarsePageTables :=
          pCoarsePageTable :: ctx.sFreeCoarsePageTables,
        unlinked := ctx.unlinked.filter fun x => decide (x ≠ pCoarsePageTable) }

/-- The loop of `SCXLNXReleaseCoarsePageTableAllocator` over the list of page
records: returns the pages passed to `internal_free_page`, most recent first,
in front of the log so far. -/
def releaseArrays :
    List SCXLNX_COARSE_PAGE_TABLE_ARRAY → List Nat → List Nat
  | [], freed => freed
  | pPageDesc :: rest, freed =>
    match pPageDesc.pDescriptors0 with
    | some p => releaseArrays rest (p :: freed)
    | none => releaseArrays rest freed

/-- Embedding of `SCXLNXReleaseCoarsePageTableAllocator`: every page record is
unlinked and freed; the free list of coarse page tables is not touched. -/
def SCXLNXReleaseCoarsePageTableAllocator
    (ctx : SCXLNX_COARSE_PAGE_TABLE_ALLOCATION_CONTEXT) :
    SCXLNX_COARSE_PAGE_TABLE_ALLOCATION_CONTEXT :=
  { ctx with
    sCoarsePageTableArrays := [],
    freed := releaseArrays ctx.sCoarsePageTableArrays ctx.freed }

/-! ## Coarse page table allocator: runs -/

/-- A coarse page table is in use when its page record is tracked and it is
not on the free list. -/
def inUse (ctx : SCXLNX_COARSE_PAGE_TABLE_ALLOCATION_CONTEXT)
    (t : SCXLNX_COARSE_PAGE_TABLE) : Prop :=
  t.index < 4 ∧ (findArray t.pParent ctx.sCoarsePageTableArrays).isSome = true ∧
    t ∉ ctx.sFreeCoarsePageTables

instance (ctx : SCXLNX_COARSE_PAGE_TABLE_ALLOCATION_CONTEXT)
    (t : SCXLNX_COARSE_PAGE_TABLE) : Decidable (inUse ctx t) := by
  unfold inUse; exact inferInstance

/-- Number of the four coarse page tables of record `id` that are not on
the list `free`. -/
def inUseCountOf (free : List SCXLNX_COARSE_PAGE_TABLE) (id : Nat) : Nat :=
  (List.range 4).countP
    (fun i => decide ((⟨id, i⟩ : SCXLNX_COARSE_PAGE_TABLE) ∉ free))

/-- Number of the four coarse page tables of record `id` that are not on the
free list. -/
def inUseCount (ctx : SCXLNX_COARSE_PAGE_TABLE_ALLOCATION_CONTEXT) (id : Nat) : Nat :=
  inUseCountOf ctx.sFreeCoarsePageTables id

/-- Total number of coarse page tables in use over all tracked records. -/
def totalInUse (ctx : SCXLNX_COARSE_PAGE_TABLE_ALLOCATION_CONTEXT) : Nat :=
  (ctx.sCoarsePageTableArrays.map (fun a => inUseCount ctx a.id)).sum

/-- One call made by a client of the allocator. -/
inductive PoolOp where
  | acquire (nType : Nat) (kmalloc : Option Nat) (getPage : Bool)
  | release (t : SCXLNX_COARSE_PAGE_TABLE) (nForce : Nat)
deriving DecidableEq, Repr

/-- Runs a sequence of calls; `none` when a release names a coarse page table
that is not in use at that point, or when a call faults (the sequence then
stops in that call). -/
def runPool (ctx : SCXLNX_COARSE_PAGE_TABLE_ALLOCATION_CONTEXT) :
    List PoolOp → Option SCXLNX_COARSE_PAGE_TABLE_ALLOCATION_CONTEXT
  | [] => some ctx
  | .acquire nType kmalloc getPage :: ops =>
    if (SCXLNXAllocateCoarsePageTable ctx nType kmalloc getPage).2.fault then none
    else runPool (SCXLNXAllocateCoarsePageTable ctx nType kmalloc getPage).2 ops
  | .release t nForce :: ops =>
    if inUse ctx t then
      if (SCXLNXFreeCoarsePageTable ctx t nForce).fault then none
      else runPool (SCXLNXFreeCoarsePageTable ctx t nForce) ops
    else none

/-- The slab allocator hands out records whose reference count field reads
zero in every acquire of the sequence. -/
def ZeroedRecords : List PoolOp → Prop
  | [] => True
  | .acquire _ kmalloc _ :: ops => (kmalloc = none ∨ kmalloc = some 0) ∧ ZeroedRecords ops
  | .release _ _ :: ops => ZeroedRecords ops

/-- The reference count of every tracked record equals the number of its
coarse page tables in use. -/
def RefCountsExact (ctx : SCXLNX_COARSE_PAGE_TABLE_ALLOCATION_CONTEXT) : Prop :=
  ∀ a ∈ ctx.sCoarsePageTableArrays, a.nReferenceCount = inUseCount ctx a.id

/-- What the page log keeps true: every page obtained and not yet handed back
belongs to exactly one tracked record, which still points to it. -/
def PagesAccounted (s : SCXLNX_COARSE_PAGE_TABLE_ALLOCATION_CONTEXT) : Prop :=
  (∀ p, (s.sCoarsePageTableArrays.map (fun a => a.id)).count p + s.freed.count p =
      s.allocated.count p) ∧
  (∀ a ∈ s.sCoarsePageTableArrays, a.pDescriptors0 = some a.id) ∧
  s.allocated.Nodup ∧ (∀ p ∈ s.allocated, p < s.nextId)

/-- What the allocator keeps true when page records arrive with a zero
reference count: records have distinct identities below `nextId`, the free
list has no duplicates and holds only tables of tracked records, and every
reference count equals the number of the record's tables in use. -/
def PoolInv (s : SCXLNX_COARSE_PAGE_TABLE_ALLOCATION_CONTEXT) : Prop :=
  (s.sCoarsePageTableArrays.map (fun a => a.id)).Nodup ∧
  s.sFreeCoarsePageTables.Nodup ∧
  (∀ t ∈ s.sFreeCoarsePageTables,
    t.index < 4 ∧ t.pParent ∈ s.sCoarsePageTableArrays.map (fun a => a.id)) ∧
  RefCountsExact s ∧
  (∀ a ∈ s.sCoarsePageTableArrays, a.id < s.nextId)

/-- The allocator together with the coarse page tables handed out by acquire
calls and not yet given back by a release. -/
structure OwnedPool where
  ctx : SCXLNX_COARSE_PAGE_TABLE_ALLOCATION_CONTEXT
  owned : List SCXLNX_COARSE_PAGE_TABLE
deriving DecidableEq, Repr

/-- What acquire and release keep true in a run in which no call faults:
records have distinct identities below `nextId`; the free list has no
duplicates and holds only tables (index below 4) of tracked records; the
tables handed out are pairwise distinct and none of them is on the free
list. -/
def OwnershipInv (s : OwnedPool) : Prop :=
  (s.ctx.sCoarsePageTableArrays.map (fun a => a.id)).Nodup ∧
  s.ctx.sFreeCoarsePageTables.Nodup ∧
  (∀ t ∈ s.ctx.sFreeCoarsePageTables,
    t.index < 4 ∧ t.pParent ∈ s.ctx.sCoarsePageTableArrays.map (fun a => a.id)) ∧
  (∀ a ∈ s.ctx.sCoarsePageTableArrays, a.id < s.ctx.nextId) ∧
  s.owned.Nodup ∧
  (∀ t ∈ s.owned,
    t ∉ s.ctx.sFreeCoarsePageTables ∧ t.pParent < s.ctx.nextId ∧ t.index < 4)

/-! ## Shared memory mapper: data -/

/-- The kernel's `PAGE_SHIFT` on this architecture. -/
def PAGE_SHIFT : Nat := 12

/-- The kernel's `PAGE_SIZE`. -/
def PAGE_SIZE : Nat := 4096

/-- Number of descriptors of a coarse page table (a 1KB table of 32-bit
words, `u32 pCoarsePageTableDescriptors[256]`). -/
def SCX_DESCRIPTOR_TABLE_CAPACITY : Nat := 256

/-- Shift that goes with `SCX_DESCRIPTOR_TABLE_CAPACITY`. -/
def SCX_DESCRIPTOR_TABLE_CAPACITY_BIT_SHIFT : Nat := 8

/-- Mask that goes with `SCX_DESCRIPTOR_TABLE_CAPACITY`. -/
def SCX_DESCRIPTOR_TABLE_CAPACITY_MASK : Nat := 255

/-- Bytes mapped by one coarse page table. -/
def SCX_MAX_COARSE_PAGE_MAPPED_SIZE : Nat := PAGE_SIZE * SCX_DESCRIPTOR_TABLE_CAPACITY

/-- The fault descriptor: the value `memset(.., 0x00, ..)` leaves in every
entry ("Set the fault descriptors"). -/
def L2_DESCRIPTOR_FAULT : Nat := 0x00000000

/-- Address bits of a small-page descriptor. -/
def L2_DESCRIPTOR_ADDR_MASK : Nat := 0xFFFFF000

/-- Bits 13:12 of a virtual address. -/
def DESCRIPTOR_V13_12_GET (a : Nat) : Nat := (a &&& 0x3000) >>> PAGE_SHIFT

def DESCRIPTOR_B_MASK : Nat := 1 <<< 2
def DESCRIPTOR_C_MASK : Nat := 1 <<< 3
def DESCRIPTOR_S_MASK : Nat := 1 <<< 10
def L1_COARSE_DESCRIPTOR_BASE : Nat := 0x00000001
def L1_COARSE_DESCRIPTOR_ADDR_MASK : Nat := 0xFFFFFC00
def L1_COARSE_DESCRIPTOR_V13_12_SHIFT : Nat := 5
def L2_PAGE_DESCRIPTOR_BASE : Nat := 0x00000003
def L2_PAGE_DESCRIPTOR_AP_APX_READ : Nat := 0x220
def L2_PAGE_DESCRIPTOR_AP_APX_READ_WRITE : Nat := 0x30
def L2_TEX_C_B_MASK : Nat := (1 <<< 8) ||| (1 <<< 7) ||| (1 <<< 6) ||| (1 <<< 3) ||| (1 <<< 2)
def L2_TEX_C_B_STRONGLY_ORDERED : Nat := 0
def L2_TEX_C_B_SHARED_DEVICE : Nat := 1 <<< 2
def L2_TEX_C_B_NON_SHARED_DEVICE : Nat := 1 <<< 7

/-- The macro `CACHE_S`. -/
def CACHE_S (x : Nat) : Nat := x &&& (1 <<< 24)

/-- The macro `CACHE_DSIZE`. -/
def CACHE_DSIZE (x : Nat) : Nat := (x >>> 12) &&& 4095

/-- The test "the 16k alignment restriction applies" of lines 361 and 636. -/
def alignmentRestricted (info : Nat) : Bool :=
  decide (CACHE_S info ≠ 0) && decide (CACHE_DSIZE info &&& (1 <<< 11) ≠ 0)

/-- The macro `IS_STRONGLY_ORDERED_OR_DEVICE_MEM`. -/
def IS_STRONGLY_ORDERED_OR_DEVICE_MEM (x : Nat) : Bool :=
  decide (x &&& L2_TEX_C_B_MASK = L2_TEX_C_B_STRONGLY_ORDERED) ||
  decide (x &&& L2_TEX_C_B_MASK = L2_TEX_C_B_SHARED_DEVICE) ||
  decide (x &&& L2_TEX_C_B_MASK = L2_TEX_C_B_NON_SHARED_DEVICE)

/-- Bits of the ARM Linux page tables tested by
`SCXLNXCommGetL2DescriptorCommon` (asm/pgtable.h). -/
def PMD_TYPE_SECT : Nat := 2
def PMD_SECT_BUFFERABLE : Nat := 1 <<< 2
def PMD_SECT_CACHEABLE : Nat := 1 <<< 3
def PMD_SECT_S : Nat := 1 <<< 16
def L_PTE_MT_BUFFERABLE : Nat := 0x01 <<< 2
def L_PTE_MT_WRITETHROUGH : Nat := 0x02 <<< 2
def L_PTE_MT_DEV_SHARED : Nat := 0x04 <<< 2

/-- What the page-table walk of `SCXLNXCommGetL2DescriptorCommon` finds for
one virtual address: a missing level, or the `pmd` entry together with the
Linux pte, the hardware pte and `pte_present` of the table it may point to. -/
inductive PageWalk where
  | missing
  | pmd (pmd pte hwpte : Nat) (present : Bool)
deriving DecidableEq, Repr

/-- What the mapper takes from headers, the CPU and kernel services that are
not part of the embedded file. `info` is `read_cpuid(CPUID_CACHETYPE)`;
`tableAddress` is the kernel virtual address of a table's `pDescriptors`;
`userWalk` and `kernelWalk` are the page tables of `current->mm` and
`init_mm`. -/
structure MapConfig where
  SCX_MAX_COARSE_PAGES : Nat
  SCXLNX_SHMEM_TYPE_REGISTERED_SHMEM : Nat
  SCXLNX_SHMEM_TYPE_PM_HIBERNATE : Nat
  SCX_SHMEM_TYPE_WRITE : Nat
  info : Nat
  page_to_phys : Nat → Nat
  page_address : Nat → Nat
  pte_page : Nat → Nat
  PageReserved : Nat → Bool
  virt_to_phys : Nat → Nat
  vmalloc_to_page : Nat → Nat
  tableAddress : SCXLNX_COARSE_PAGE_TABLE → Nat
  userWalk : Nat → PageWalk
  kernelWalk : Nat → PageWalk

/-- The structure `SCXLNX_SHMEM_DESC`. -/
structure SCXLNX_SHMEM_DESC where
  nType : Nat
  pCoarsePageTable : Nat → SCXLNX_COARSE_PAGE_TABLE
  nNumberOfCoarsePageTables : Nat

/-- Kernel state the mapper works on: the allocation context, the contents
of every coarse page table, and the reference count and dirty flag of every
`struct page`. -/
structure MapState where
  ctx : SCXLNX_COARSE_PAGE_TABLE_ALLOCATION_CONTEXT
  descriptors : SCXLNX_COARSE_PAGE_TABLE → Nat → Nat
  pageRefs : Nat → Int
  pageDirty : Nat → Bool

/-- What the environment answers during one call of
`SCXLNXCommFillDescriptorTable`: for the coarse page of each index the
outcome of the two allocations of `SCXLNXAllocateCoarsePageTable`, and for
each call of `internal_get_user_pages` (start address, page count, write
flag) the returned int and the pages stored in the array. -/
structure MapEnv where
  kmalloc : Nat → Option Nat
  getPage : Nat → Bool
  get_user_pages : Nat → Nat → Bool → Int × List Nat

/-- The error numbers ENOMEM and EFAULT of the kernel. -/
def ENOMEM : Int := 12
def EFAULT : Int := 14

/-! ## Shared memory mapper: operations -/

/-- Embedding of `SCXLNXCommGetL1CoarseDescriptor`, for the table whose
descriptors live at kernel virtual address `addr`. -/
def SCXLNXCommGetL1CoarseDescriptor (mc : MapConfig) (addr : Nat) : Nat :=
  let nDescriptor := L1_COARSE_DESCRIPTOR_BASE |||
    (mc.virt_to_phys addr &&& L1_COARSE_DESCRIPTOR_ADDR_MASK)
  if alignmentRestricted mc.info then
    nDescriptor ||| (DESCRIPTOR_V13_12_GET addr <<< L1_COARSE_DESCRIPTOR_V13_12_SHIFT)
  else nDescriptor

/-- Embedding of `SCXLNXCommGetL2DescriptorCommon` on the result of the walk. -/
def SCXLNXCommGetL2DescriptorCommon : PageWalk → Nat
  | .missing => 0
  | .pmd pmd pte hwpte present =>
    if PMD_TYPE_SECT &&& pmd ≠ 0 then
      (if pmd &&& PMD_SECT_BUFFERABLE ≠ 0 then DESCRIPTOR_B_MASK else 0) |||
      (if pmd &&& PMD_SECT_CACHEABLE ≠ 0 then DESCRIPTOR_C_MASK else 0) |||
      (if pmd &&& PMD_SECT_S ≠ 0 then DESCRIPTOR_S_MASK else 0) |||
      (((pmd >>> 12) &&& 7) <<< 6)
    else if present then
      if hwpte &&& L2_DESCRIPTOR_ADDR_MASK ≠ pte &&& L2_DESCRIPTOR_ADDR_MASK then 0
      else
        (if pte &&& L_PTE_MT_BUFFERABLE ≠ 0 then DESCRIPTOR_B_MASK else 0) |||
        (if pte &&& L_PTE_MT_WRITETHROUGH ≠ 0 then DESCRIPTOR_C_MASK else 0) |||
        (if pte &&& L_PTE_MT_DEV_SHARED ≠ 0 then DESCRIPTOR_S_MASK else 0) |||
        (((hwpte >>> 6) &&& 7) <<< 6)
    else 0

/-- Embedding of `SCXLNXCommL2PageDescriptorToPage`. -/
def SCXLNXCommL2PageDescriptorToPage (mc : MapConfig) (nL2PageDescriptor : Nat) : Nat :=
  mc.pte_page (nL2PageDescriptor &&& L2_DESCRIPTOR_ADDR_MASK)

/-- Embedding of `SCXLNXCommGetL2PageDescriptor`: the new value of
`*pL2PageDescriptor`, which holds a `struct page *` on entry. -/
def SCXLNXCommGetL2PageDescriptor (mc : MapConfig) (walk : Nat → PageWalk)
    (nFlags : Nat) (pL2PageDescriptor : Nat) : Nat :=
  if pL2PageDescriptor = L2_DESCRIPTOR_FAULT then pL2PageDescriptor
  else
    let nPageVirtAddr := mc.page_address pL2PageDescriptor
    L2_PAGE_DESCRIPTOR_BASE |||
      (mc.page_to_phys pL2PageDescriptor &&& L2_DESCRIPTOR_ADDR_MASK) |||
      (if nFlags &&& mc.SCX_SHMEM_TYPE_WRITE = 0 then L2_PAGE_DESCRIPTOR_AP_APX_READ
       else L2_PAGE_DESCRIPTOR_AP_APX_READ_WRITE) |||
      SCXLNXCommGetL2DescriptorCommon (walk nPageVirtAddr)

/-- The inner loop of `SCXLNXCommReleaseSharedMemory` (lines 554-574) over
the entries `nPageIndex, .., nPageIndex + remaining - 1` of one table:
every entry that is not the fault descriptor has its page marked dirty
(unless reserved) and released; the scan stops at the first fault
descriptor met after a real entry. -/
def releasePages (mc : MapConfig) (table : Nat → Nat) :
    Nat → Nat → Bool → MapState → MapState
  | 0, _, _, st => st
  | remaining + 1, nPageIndex, nFoundStart, st =>
    let nL2PageDescriptor := table nPageIndex
    if nL2PageDescriptor ≠ L2_DESCRIPTOR_FAULT then
      let page := SCXLNXCommL2PageDescriptorToPage mc nL2PageDescriptor
      let st1 : MapState :=
        { st with
          pageDirty :=
            if mc.PageReserved page then st.pageDirty
            else Function.update st.pageDirty page true,
          pageRefs := Function.update st.pageRefs page (st.pageRefs page - 1) }
      releasePages mc table remaining (nPageIndex + 1) true st1
    else if nFoundStart then st
    else releasePages mc table remaining (nPageIndex + 1) nFoundStart st

/-- The outer loop of `SCXLNXCommReleaseSharedMemory` (lines 547-584) over
the coarse pages `nCoarsePageIndex, .., nCoarsePageIndex + remaining - 1`.
A call of `SCXLNXFreeCoarsePageTable` that faults ends the real loop in that
turn; the allocator then has `fault` set, which no later turn clears, and
the state the function returns stands for no state of the running kernel
(the state of the kernel at the fault is the one after that turn). -/
def releaseCoarsePages (mc : MapConfig) (pShmemDesc : SCXLNX_SHMEM_DESC)
    (nFullCleanup : Nat) : Nat → Nat → MapState → MapState
  | 0, _, st => st
  | remaining + 1, nCoarsePageIndex, st =>
    let t := pShmemDesc.pCoarsePageTable nCoarsePageIndex
    let st1 := releasePages mc (st.descriptors t) SCX_DESCRIPTOR_TABLE_CAPACITY 0 false st
    let st2 : MapState :=
      if pShmemDesc.nType = mc.SCXLNX_SHMEM_TYPE_REGISTERED_SHMEM ∨ nFullCleanup ≠ 0 then
        { st1 with ctx := SCXLNXFreeCoarsePageTable st1.ctx t 0 }
      else st1
    releaseCoarsePages mc pShmemDesc nFullCleanup remaining (nCoarsePageIndex + 1) st2

/-- Embedding of `SCXLNXCommReleaseSharedMemory`; a fault in one of its calls
of `SCXLNXFreeCoarsePageTable` shows in `ctx.fault` of the result (see
`releaseCoarsePages`). -/
def SCXLNXCommReleaseSharedMemory (mc : MapConfig) (st : MapState)
    (pShmemDesc : SCXLNX_SHMEM_DESC) (nFullCleanup : Nat) :
    MapState × SCXLNX_SHMEM_DESC :=
  (releaseCoarsePages mc pShmemDesc nFullCleanup
      pShmemDesc.nNumberOfCoarsePageTables 0 st,
    { pShmemDesc with nNumberOfCoarsePageTables := 0 })

/-- Stores the page pointers returned by `internal_get_user_pages` at
`pDescriptors + nIndex` onwards and counts the reference taken on each. -/
def storePinned (t : SCXLNX_COARSE_PAGE_TABLE) : List Nat → Nat → MapState → MapState
  | [], _, st => st
  | page :: pages, nIndex, st =>
    storePinned t pages (nIndex + 1)
      { st with
        descriptors :=
          Function.update st.descriptors t (Function.update (st.descriptors t) nIndex page),
        pageRefs := Function.update st.pageRefs page (st.pageRefs page + 1) }

/-- The loop of lines 758-787 over `remaining` entries from `nIndex`: each
entry is turned into its L2 descriptor; the result is `true` with the state
at that point when a strongly-ordered or device descriptor is met. -/
def describeUserPages (mc : MapConfig) (nFlags : Nat) (t : SCXLNX_COARSE_PAGE_TABLE) :
    Nat → Nat → MapState → Bool × MapState
  | 0, _, st => (false, st)
  | remaining + 1, nIndex, st =>
    let d := SCXLNXCommGetL2PageDescriptor mc mc.userWalk nFlags (st.descriptors t nIndex)
    let st1 : MapState :=
      { st with
        descriptors := Function.update st.descriptors t
          (Function.update (st.descriptors t) nIndex d) }
    if IS_STRONGLY_ORDERED_OR_DEVICE_MEM d then (true, st1)
    else describeUserPages mc nFlags t remaining (nIndex + 1) st1

/-- The loop of lines 790-807 over `remaining` entries from `nIndex`, for
kernel-space memory. -/
def describeKernelPages (mc : MapConfig) (nFlags nBufferOffsetVAddr nPageShift : Nat)
    (t : SCXLNX_COARSE_PAGE_TABLE) : Nat → Nat → MapState → MapState
  | 0, _, st => st
  | remaining + 1, nIndex, st =>
    let addr := add32 nBufferOffsetVAddr (sub32 nIndex nPageShift * PAGE_SIZE % 2 ^ 32)
    let page := mc.vmalloc_to_page addr
    let d := SCXLNXCommGetL2PageDescriptor mc mc.kernelWalk nFlags page
    describeKernelPages mc nFlags nBufferOffsetVAddr nPageShift t remaining (nIndex + 1)
      { st with
        descriptors := Function.update st.descriptors t
          (Function.update (st.descriptors t) nIndex d),
        pageRefs := Function.update st.pageRefs page (st.pageRefs page + 1) }

/-- The variables carried round the loop "map each coarse page" of
`SCXLNXCommFillDescriptorTable`. -/
structure FillLocals where
  st : MapState
  pShmemDesc : SCXLNX_SHMEM_DESC
  pDescriptors : Nat → Nat
  nPageCount : Nat
  nPageShift : Nat

/-- The body of the loop "map each coarse page" (lines 672-832) for the
coarse page of index `nCoarsePageIndex`: `some nError` when the body jumps to
the label `error`, together with the variables at that point. -/
def fillCoarsePage (mc : MapConfig) (env : MapEnv) (nBufferVAddr nFlags : Nat)
    (bInUserSpace : Bool) (nCoarsePageIndex : Nat) (l : FillLocals) :
    Option Int × FillLocals :=
  let nBufferOffsetVAddr :=
    add32 nBufferVAddr (nCoarsePageIndex * SCX_MAX_COARSE_PAGE_MAPPED_SIZE % 2 ^ 32)
  let nPagesToGet :=
    if l.nPageCount >>> SCX_DESCRIPTOR_TABLE_CAPACITY_BIT_SHIFT ≠ 0
    then SCX_DESCRIPTOR_TABLE_CAPACITY else l.nPageCount
  let nPageCount := sub32 l.nPageCount nPagesToGet
  -- the coarse page table of this index, freshly allocated or already there
  let a : Option SCXLNX_COARSE_PAGE_TABLE × FillLocals :=
    if l.pShmemDesc.nType = mc.SCXLNX_SHMEM_TYPE_REGISTERED_SHMEM ∨
        l.pShmemDesc.nType = mc.SCXLNX_SHMEM_TYPE_PM_HIBERNATE then
      let r := SCXLNXAllocateCoarsePageTable l.st.ctx SCXLNX_PAGE_DESCRIPTOR_TYPE_NORMAL
        (env.kmalloc nCoarsePageIndex) (env.getPage nCoarsePageIndex)
      match r.1 with
      | none => (none, { l with st := { l.st with ctx := r.2 }, nPageCount := nPageCount })
      | some t =>
        (some t,
          { l with
            st := { l.st with ctx := r.2 },
            pShmemDesc :=
              { l.pShmemDesc with
                pCoarsePageTable :=
                  Function.update l.pShmemDesc.pCoarsePageTable nCoarsePageIndex t },
            nPageCount := nPageCount })
    else
      (some (l.pShmemDesc.pCoarsePageTable nCoarsePageIndex),
        { l with nPageCount := nPageCount })
  match a with
  | (none, l1) => (some (-ENOMEM), l1)
  | (some t, l1) =>
    -- memset of the table
    let st0 : MapState :=
      { l1.st with descriptors := Function.update l1.st.descriptors t (fun _ => 0) }
    let finish (st : MapState) : Option Int × FillLocals :=
      (none,
        { l1 with
          st := st,
          pDescriptors :=
            Function.update l1.pDescriptors nCoarsePageIndex
              (SCXLNXCommGetL1CoarseDescriptor mc (mc.tableAddress t)),
          nPageShift := 0 })
    if bInUserSpace then
      let wanted := sub32 nPagesToGet l1.nPageShift
      let g := env.get_user_pages nBufferOffsetVAddr wanted
        (decide (nFlags &&& mc.SCX_SHMEM_TYPE_WRITE ≠ 0))
      let nPages := g.1
      let st1 := storePinned t (g.2.take nPages.toNat) l1.nPageShift st0
      if nPages ≤ 0 ∨ nPages ≠ (wanted : Int) then
        (some (-EFAULT), { l1 with st := st1 })
      else
        let r := describeUserPages mc nFlags t nPages.toNat l1.nPageShift st1
        if r.1 then (some (-EFAULT), { l1 with st := r.2 })
        else finish r.2
    else
      finish (describeKernelPages mc nFlags nBufferOffsetVAddr l1.nPageShift t
        (nPagesToGet - l1.nPageShift) l1.nPageShift st0)

/-- The loop "map each coarse page" over the indices
`nCoarsePageIndex, .., nCoarsePageIndex + remaining - 1`. -/
def fillCoarsePages (mc : MapConfig) (env : MapEnv) (nBufferVAddr nFlags : Nat)
    (bInUserSpace : Bool) : Nat → Nat → FillLocals → Option Int × FillLocals
  | 0, _, l => (none, l)
  | remaining + 1, nCoarsePageIndex, l =>
    match fillCoarsePage mc env nBufferVAddr nFlags bInUserSpace nCoarsePageIndex l with
    | (some nError, l1) => (some nError, l1)
    | (none, l1) =>
      fillCoarsePages mc env nBufferVAddr nFlags bInUserSpace remaining
        (nCoarsePageIndex + 1) l1

/-- What a call of `SCXLNXCommFillDescriptorTable` leaves behind: the
returned int, the kernel state, the shared memory descriptor, the output
array `pDescriptors`, and the values stored through `pBufferStartOffset` and
`pnDescriptorCount` (when they are stored). -/
structure FillResult where
  nError : Int
  st : MapState
  pShmemDesc : SCXLNX_SHMEM_DESC
  pDescriptors : Nat → Nat
  pBufferStartOffset : Option Nat
  pnDescriptorCount : Option Nat

/-- The page count of lines 632-633, in 32 bits. -/
def pageCount (nBufferVAddr nBufferSize : Nat) : Nat :=
  add32 (add32 (nBufferVAddr &&& 0xFFF) nBufferSize) 0xFFF >>> PAGE_SHIFT

/-- Embedding of `SCXLNXCommFillDescriptorTable`. -/
def SCXLNXCommFillDescriptorTable (mc : MapConfig) (env : MapEnv) (st : MapState)
    (pShmemDesc : SCXLNX_SHMEM_DESC) (nBufferVAddr : Nat) (pDescriptors : Nat → Nat)
    (nBufferSize : Nat) (bInUserSpace : Bool) (nFlags : Nat) : FillResult :=
  let nPageShift :=
    if alignmentRestricted mc.info then DESCRIPTOR_V13_12_GET nBufferVAddr else 0
  let nPageCount := add32 (pageCount nBufferVAddr nBufferSize) nPageShift
  if nPageCount > SCX_DESCRIPTOR_TABLE_CAPACITY * mc.SCX_MAX_COARSE_PAGES then
    let r := SCXLNXCommReleaseSharedMemory mc st pShmemDesc 0
    { nError := -ENOMEM, st := r.1, pShmemDesc := r.2, pDescriptors := pDescriptors,
      pBufferStartOffset := none, pnDescriptorCount := none }
  else
    let nNumberOfCoarsePages :=
      add32 nPageCount SCX_DESCRIPTOR_TABLE_CAPACITY_MASK >>>
        SCX_DESCRIPTOR_TABLE_CAPACITY_BIT_SHIFT
    let offset := (nBufferVAddr &&& 0xFFF) ||| (nPageShift <<< PAGE_SHIFT)
    match fillCoarsePages mc env nBufferVAddr nFlags bInUserSpace nNumberOfCoarsePages 0
        { st := st, pShmemDesc := pShmemDesc, pDescriptors := pDescriptors,
          nPageCount := nPageCount, nPageShift := nPageShift } with
    | (some nError, l) =>
      let r := SCXLNXCommReleaseSharedMemory mc l.st l.pShmemDesc 0
      { nError := nError, st := r.1, pShmemDesc := r.2, pDescriptors := l.pDescriptors,
        pBufferStartOffset := some offset, pnDescriptorCount := none }
    | (none, l) =>
      { nError := 0, st := l.st,
        pShmemDesc :=
          { l.pShmemDesc with nNumberOfCoarsePageTables := nNumberOfCoarsePages },
        pDescriptors := l.pDescriptors,
        pBufferStartOffset := some offset,
        pnDescriptorCount := some nNumberOfCoarsePages }

/-! ## Shared memory mapper: pages resolved by a map -/

/-- The pages that the body of the loop "map each coarse page" resolves for
the coarse page of index `nCoarsePageIndex`, in the order of the entries
they are stored in: for user-space memory the pages stored by
`internal_get_user_pages` (lines 730-743), for kernel-space memory the pages
found by `vmalloc_to_page` (lines 790-800). -/
def fragmentPages (mc : MapConfig) (env : MapEnv) (nBufferVAddr nFlags : Nat)
    (bInUserSpace : Bool) (nCoarsePageIndex nPageCount nPageShift : Nat) : List Nat :=
  let nBufferOffsetVAddr :=
    add32 nBufferVAddr (nCoarsePageIndex * SCX_MAX_COARSE_PAGE_MAPPED_SIZE % 2 ^ 32)
  let nPagesToGet :=
    if nPageCount >>> SCX_DESCRIPTOR_TABLE_CAPACITY_BIT_SHIFT ≠ 0
    then SCX_DESCRIPTOR_TABLE_CAPACITY else nPageCount
  if bInUserSpace then
    let wanted := sub32 nPagesToGet nPageShift
    (env.get_user_pages nBufferOffsetVAddr wanted
      (decide (nFlags &&& mc.SCX_SHMEM_TYPE_WRITE ≠ 0))).2.take wanted
  else
    (List.range' nPageShift (nPagesToGet - nPageShift)).map fun nIndex =>
      mc.vmalloc_to_page
        (add32 nBufferOffsetVAddr (sub32 nIndex nPageShift * PAGE_SIZE % 2 ^ 32))

/-- The pages resolved for the coarse pages of indices
`nCoarsePageIndex, .., nCoarsePageIndex + remaining - 1`, with the page count
and page shift the loop carries. -/
def resolvedPages (mc : MapConfig) (env : MapEnv) (nBufferVAddr nFlags : Nat)
    (bInUserSpace : Bool) : Nat → Nat → Nat → Nat → List Nat
  | 0, _, _, _ => []
  | remaining + 1, nCoarsePageIndex, nPageCount, nPageShift =>
    fragmentPages mc env nBufferVAddr nFlags bInUserSpace nCoarsePageIndex nPageCount
        nPageShift ++
      resolvedPages mc env nBufferVAddr nFlags bInUserSpace remaining (nCoarsePageIndex + 1)
        (sub32 nPageCount
          (if nPageCount >>> SCX_DESCRIPTOR_TABLE_CAPACITY_BIT_SHIFT ≠ 0
           then SCX_DESCRIPTOR_TABLE_CAPACITY else nPageCount))
        0

/-- The pages a call of `SCXLNXCommFillDescriptorTable` resolves when no
step fails, one entry per descriptor written. -/
def mappedPages (mc : MapConfig) (env : MapEnv) (nBufferVAddr nBufferSize : Nat)
    (bInUserSpace : Bool) (nFlags : Nat) : List Nat :=
  let nPageShift :=
    if alignmentRestricted mc.info then DESCRIPTOR_V13_12_GET nBufferVAddr else 0
  let nPageCount := add32 (pageCount nBufferVAddr nBufferSize) nPageShift
  resolvedPages mc env nBufferVAddr nFlags bInUserSpace
    (add32 nPageCount SCX_DESCRIPTOR_TABLE_CAPACITY_MASK >>>
      SCX_DESCRIPTOR_TABLE_CAPACITY_BIT_SHIFT)
    0 nPageCount nPageShift

/-- The state `st1` is `st` after one reference was taken on each entry of
`pages` (a page listed `k` times has `k` references more). -/
def PagesPinned (pages : List Nat) (st st1 : MapState) : Prop :=
  st1.pageDirty = st.pageDirty ∧
  ∀ p, st1.pageRefs p = st.pageRefs p + (pages.count p : Int)

/-- The state `st1` is `st` after each entry of `pages` was marked dirty
unless reserved and had one reference dropped (a page listed `k` times has
`k` references less); no other page is touched and the coarse page tables
keep their contents. -/
def PagesReleased (mc : MapConfig) (pages : List Nat) (st st1 : MapState) : Prop :=
  st1.descriptors = st.descriptors ∧
  (∀ p, st1.pageRefs p = st.pageRefs p - (pages.count p : Int)) ∧
  ∀ p, st1.pageDirty p = (st.pageDirty p || (decide (p ∈ pages) && !mc.PageReserved p))

/-- The table `table` holds a packed run: fault descriptors below `lo`, then
one descriptor that is not the fault descriptor for each entry of `pages`,
naming that page, then fault descriptors up to the end; the run fits in the
table. -/
def Packed (mc : MapConfig) (table : Nat → Nat) (lo : Nat) (pages : List Nat) : Prop :=
  lo + pages.length ≤ SCX_DESCRIPTOR_TABLE_CAPACITY ∧
  (∀ j, j < lo → table j = L2_DESCRIPTOR_FAULT) ∧
  (∀ i (hi : i < pages.length),
    table (lo + i) ≠ L2_DESCRIPTOR_FAULT ∧
    SCXLNXCommL2PageDescriptorToPage mc (table (lo + i)) = pages.get ⟨i, hi⟩) ∧
  (∀ j, lo + pages.length ≤ j → table j = L2_DESCRIPTOR_FAULT)

/-- The pages named by the entries of one coarse page table that are not the
fault descriptor, from entry 0 to entry 255. -/
def filledEntriesOfTable (mc : MapConfig) (table : Nat → Nat) : List Nat :=
  ((List.range SCX_DESCRIPTOR_TABLE_CAPACITY).filter
      fun i => decide (table i ≠ L2_DESCRIPTOR_FAULT)).map
    fun i => SCXLNXCommL2PageDescriptorToPage mc (table i)

/-- The pages named by the filled entries of the coarse page tables of
indices `k, .., k + n - 1` of a mapping, counted table by table and, within a
table, from the low index to the high one. -/
def filledEntries (mc : MapConfig) (st : MapState) (pShmemDesc : SCXLNX_SHMEM_DESC) :
    Nat → Nat → List Nat
  | 0, _ => []
  | n + 1, k =>
    filledEntriesOfTable mc (st.descriptors (pShmemDesc.pCoarsePageTable k)) ++
      filledEntries mc st pShmemDesc n (k + 1)

/-! ## Message rings and answer delivery: data -/

/-- What scxlnx_comm.c takes from headers and kernel services that are not
part of the embedded file.  The capacities and header sizes are those of
scx_protocol.h; `commandMessageWords` and `answerMessageWords` are
`sizeof(union SCX_COMMAND_MESSAGE)` and `sizeof(union SCX_ANSWER_MESSAGE)`
in 32-bit words; the two decoders read `sHeader.nMessageSize` and
`sHeader.nOperationID` off the words of an answer; the last three fields are
the kernel's `MAX_SCHEDULE_TIMEOUT`, `MAX_JIFFY_OFFSET` and
`msecs_to_jiffies`. -/
structure Config where
  SCX_N_MESSAGE_QUEUE_CAPACITY : Nat
  SCX_S_ANSWER_QUEUE_CAPACITY : Nat
  commandHeaderWords : Nat
  answerHeaderWords : Nat
  commandMessageWords : Nat
  answerMessageWords : Nat
  answerMessageSize : List Nat → Nat
  answerOperationID : List Nat → Nat
  CONFIG_TF_MSHIELD : Bool
  MAX_SCHEDULE_TIMEOUT : Int
  MAX_JIFFY_OFFSET : Int
  msecs_to_jiffies : Nat → Int

/-- The L1 shared buffer `pComm->pBuffer`.  Cursors and serials are 32-bit
registers, the time slots 64-bit ones, the two queues arrays of words. -/
structure L1_SHARED_BUFFER where
  nSyncSerial_N : Nat
  nSyncSerial_S : Nat
  sTime_N : Nat → Nat
  sTimeout_S : Nat → Nat
  nStatus_S : Nat
  nFirstCommand : Nat
  nFirstFreeCommand : Nat
  nFirstAnswer : Nat
  nFirstFreeAnswer : Nat
  sCommandQueue : Nat → Nat
  sAnswerQueue : Nat → Nat

/-- The bits of `pComm->nFlags` the file tests, and the shared buffer. -/
structure SCXLNX_COMM where
  SCXLNX_COMM_FLAG_L1_SHARED_ALLOCATED : Bool
  SCXLNX_COMM_FLAG_PA_AVAILABLE : Bool
  SCXLNX_COMM_FLAG_TERMINATING : Bool
  pBuffer : L1_SHARED_BUFFER

/-- A command as `SCXLNXCommSendMessage` sees it: the two header fields it
reads and the memory read through `(uint32_t *) pMessage`.  The message is a
`union SCX_COMMAND_MESSAGE` of `commandMessageWords` words: `words i` is a
word of the message for `i` below that size, and beyond it stands for what
lies behind the message in memory. -/
structure SCX_COMMAND_MESSAGE where
  nMessageSize : Nat
  nOperationID : Nat
  words : Nat → Nat

/-- The record `struct SCXLNX_ANSWER_STRUCT`: `pAnswer` is the address of the
destination buffer. -/
structure SCXLNX_ANSWER_STRUCT where
  pAnswer : Nat
  bAnswerCopied : Bool
deriving DecidableEq, Repr

/-- Kernel memory reached through operation identifiers: the answer record
at each address, and the words of the answer buffer at each address. -/
structure AnswerMemory where
  records : Nat → SCXLNX_ANSWER_STRUCT
  buffers : Nat → Nat → Nat

/-- Channel and answer memory together. -/
structure World where
  comm : SCXLNX_COMM
  mem : AnswerMemory

/-- The error number EINTR of the kernel. -/
def EINTR : Int := 4

/-! ## Message rings: operations -/

/-- The slot `(cursor + i) % capacity` with the sum taken in 32 bits. -/
def slot (capacity cursor i : Nat) : Nat := add32 cursor i % capacity

/-- The copy loop of lines 1077-1081: words `0 .. n-1` of the message are
stored, in that order, at the slots following `nFirstFreeCommand`. -/
def copyToQueue (capacity nFirstFreeCommand : Nat) (pMessage : Nat → Nat) :
    Nat → (Nat → Nat) → (Nat → Nat)
  | 0, q => q
  | n + 1, q =>
    Function.update (copyToQueue capacity nFirstFreeCommand pMessage n q)
      (slot capacity nFirstFreeCommand n) (pMessage n)

/-- The read loops of lines 1012-1026: `n` words starting at `nFirstAnswer`. -/
def readFromQueue (capacity nFirstAnswer : Nat) (q : Nat → Nat) (n : Nat) : List Nat :=
  (List.range n).map (fun i => q (slot capacity nFirstAnswer i))

/-- The value `nCommandSize` of lines 1068-1069. -/
def commandSize (cfg : Config) (pMessage : SCX_COMMAND_MESSAGE) : Nat :=
  add32 pMessage.nMessageSize cfg.commandHeaderWords

/-- The value `nQueueWordsCount` of line 1067. -/
def queueWordsCount (b : L1_SHARED_BUFFER) : Nat :=
  sub32 b.nFirstFreeCommand b.nFirstCommand

/-- The test of lines 1070-1071, in the 32-bit arithmetic of the C code. -/
def commandFits (cfg : Config) (b : L1_SHARED_BUFFER) (pMessage : SCX_COMMAND_MESSAGE) :
    Bool :=
  decide (add32 (queueWordsCount b) (commandSize cfg pMessage)
    < cfg.SCX_N_MESSAGE_QUEUE_CAPACITY)

/-- Lines 1062-1089: the body guarded by `!bMessageCopied`, for a run in
which the copy loop reaches its end.  Returns the buffer and the new value of
`bMessageCopied`.  The loop reads `nCommandSize` words through `pMessage`;
whether its reads stay within the message union is the matter of
`enqueueCommand`. -/
def writeMessage (cfg : Config) (b : L1_SHARED_BUFFER) (pMessage : SCX_COMMAND_MESSAGE) :
    L1_SHARED_BUFFER × Bool :=
  if commandFits cfg b pMessage then
    ({ b with
        sCommandQueue :=
          copyToQueue cfg.SCX_N_MESSAGE_QUEUE_CAPACITY b.nFirstFreeCommand
            pMessage.words (commandSize cfg pMessage) b.sCommandQueue,
        nFirstFreeCommand := add32 b.nFirstFreeCommand (commandSize cfg pMessage) },
      true)
  else (b, false)

/-- Lines 1044-1092: the enqueue step of `SCXLNXCommSendMessage`.

The copy loop of lines 1077-1081 reads `nCommandSize` words through
`pMessage`, which points to a `union SCX_COMMAND_MESSAGE` of
`commandMessageWords` words, and nothing bounds `nCommandSize` by that size.
When the room test passes for a longer length (a declared length that makes
the 32-bit sum of line 1070 wrap does), the loop stores the words of the
union and then reads past it: what it stores from there on, and whether and
where a read faults before the cursor is stored, depends on what lies behind
the message.  The result is `none` for such a run; the ring at the point
where the loop leaves the union is `copyToQueue` over `commandMessageWords`
words, with the cursors as before. -/
def enqueueCommand (cfg : Config) (pComm : SCXLNX_COMM)
    (pMessage : Option SCX_COMMAND_MESSAGE) (bMessageCopied : Bool) :
    Option (SCXLNX_COMM × Bool) :=
  match pMessage with
  | none => some (pComm, bMessageCopied)
  | some m =>
    if pComm.SCXLNX_COMM_FLAG_L1_SHARED_ALLOCATED && !bMessageCopied then
      if commandFits cfg pComm.pBuffer m &&
          decide (cfg.commandMessageWords < commandSize cfg m) then none
      else
        let r := writeMessage cfg pComm.pBuffer m
        some ({ pComm with pBuffer := r.1 }, r.2)
    else some (pComm, bMessageCopied)

/-- Number of words moved by `memcpy(.., .., nCommandSize * sizeof(u32))`,
the byte count being a 32-bit `size_t`. -/
def memcpyWords (nCommandSize : Nat) : Nat := (nCommandSize * 4 % 2 ^ 32) / 4

/-- Lines 1028-1035: the answer `sComAnswer` (as a list of words) is copied
to the buffer of the record its operation identifier points to, and the
record is flagged.  Both `sComAnswer` and the destination `*pAnswer` are
objects of type `union SCX_ANSWER_MESSAGE`; the function describes the
`memcpy` for an answer that fits them, which `drainLoop` sees to. -/
def deliverAnswer (cfg : Config) (mem : AnswerMemory) (sComAnswer : List Nat) :
    AnswerMemory :=
  let pAnswerStructure := cfg.answerOperationID sComAnswer
  let pAnswer := (mem.records pAnswerStructure).pAnswer
  { records :=
      Function.update mem.records pAnswerStructure
        { pAnswer := pAnswer, bAnswerCopied := true },
    buffers :=
      Function.update mem.buffers pAnswer
        (fun i =>
          if i < memcpyWords sComAnswer.length then sComAnswer.getD i 0
          else mem.buffers pAnswer i) }

/-- The full answer read at lines 1019-1026 when the first answer cursor is
`nFirstAnswer`: `nCommandSize` words, where `nCommandSize` is the header
length plus the payload length found in the header.  (The words are stored
into the local `sComAnswer`; see `drainLoop` for its size.) -/
def answerAt (cfg : Config) (q : Nat → Nat) (nFirstAnswer : Nat) : List Nat :=
  let sHeader := readFromQueue cfg.SCX_S_ANSWER_QUEUE_CAPACITY nFirstAnswer q
    cfg.answerHeaderWords
  let nCommandSize := add32 (cfg.answerMessageSize sHeader) cfg.answerHeaderWords
  readFromQueue cfg.SCX_S_ANSWER_QUEUE_CAPACITY nFirstAnswer q nCommandSize

/-- One turn of the loop of lines 995-1040. -/
def drainOne (cfg : Config) (w : World) (nFirstAnswer : Nat) : World × Nat :=
  let sComAnswer := answerAt cfg w.comm.pBuffer.sAnswerQueue nFirstAnswer
  let next := add32 nFirstAnswer sComAnswer.length
  ({ comm := { w.comm with pBuffer := { w.comm.pBuffer with nFirstAnswer := next } },
     mem := deliverAnswer cfg w.mem sComAnswer }, next)

/-- The loop of lines 995-1040 with the locals `nFirstFreeAnswer` and
`nFirstAnswer`; `none` when `fuel` turns do not empty the queue.

The loop of lines 1023-1026 stores `nCommandSize` words into the local
`sComAnswer`, a `union SCX_ANSWER_MESSAGE` of `answerMessageWords` words on
the stack, and the `memcpy` of line 1033 moves as many into `*pAnswer`, an
object of the same type; nothing bounds `nCommandSize` by that size.  For an
answer declaring more words the stores run past `sComAnswer` and overwrite
the stack of the function: the result is `none` for such a turn. -/
def drainLoop (cfg : Config) (nFirstFreeAnswer : Nat) : Nat → World → Nat → Option World
  | fuel, w, nFirstAnswer =>
    if nFirstAnswer = nFirstFreeAnswer then some w
    else
      match fuel with
      | 0 => none
      | fuel + 1 =>
        if cfg.answerMessageWords <
            (answerAt cfg w.comm.pBuffer.sAnswerQueue nFirstAnswer).length then none
        else
          let r := drainOne cfg w nFirstAnswer
          drainLoop cfg nFirstFreeAnswer fuel r.1 r.2

/-- Lines 987-1042: the drain step of `SCXLNXCommSendMessage`; `none` as for
`drainLoop`. -/
def drainAnswers (cfg : Config) (fuel : Nat) (w : World) : Option World :=
  if w.comm.SCXLNX_COMM_FLAG_L1_SHARED_ALLOCATED then
    drainLoop cfg w.comm.pBuffer.nFirstFreeAnswer fuel w w.comm.pBuffer.nFirstAnswer
  else some w

/-! ## Timeouts -/

/-- The value `TIME_IMMEDIATE`. -/
def TIME_IMMEDIATE : Nat := 0x0000000000000000

/-- The value `TIME_INFINITE`. -/
def TIME_INFINITE : Nat := 0xFFFFFFFFFFFFFFFF

/-- Lines 920-923 (and 113-115): the millisecond clock computed from the
`struct timeval` returned by `do_gettimeofday`, in 64 bits. -/
def timeOfDay64 (tv_sec tv_usec : Nat) : Nat :=
  (tv_sec * 1000 + tv_usec / 1000) % 2 ^ 64

/-- Embedding of `SCXLNXCommTestSTimeout`.  `sTime64` is the clock value of
lines 920-923.  The result is the returned int and the value left in
`*pnRelativeTimeoutJiffies`. -/
def SCXLNXCommTestSTimeout (cfg : Config) (sTimeout sTime64 : Nat) : Int × Int :=
  if sTimeout = TIME_IMMEDIATE then (1, 0)
  else if sTimeout = TIME_INFINITE then (0, cfg.MAX_SCHEDULE_TIMEOUT)
  else if sTime64 ≥ sTimeout then (1, 0)
  else
    let sTimeout := (sTimeout - sTime64) % 2 ^ 64
    if sTimeout >>> 32 ≠ 0 then (0, cfg.MAX_JIFFY_OFFSET)
    else (0, cfg.msecs_to_jiffies (sTimeout % 2 ^ 32))

/-- Embedding of `SCXLNXCommReadTimeout` when nothing else writes the buffer
during the call: the two reads of `nSyncSerial_S` agree at once. -/
def SCXLNXCommReadTimeout (pComm : SCXLNX_COMM) : Nat :=
  pComm.pBuffer.sTimeout_S (pComm.pBuffer.nSyncSerial_S &&& 1)

/-! ## The send engine -/

/-- What the collaborators do during one pass of `SCXLNXCommSendMessage`:
`rpc` is `SCXLNXCommExecuteRPCCommand` (new state, and whether it returned
`RPC_NON_YIELD`), `sigkill` and `sigkillWait` the values of
`sigkill_pending()` at lines 1154 and 1201, `sTime64` the clock read by
`SCXLNXCommTestSTimeout`, `yield` is `SCXLNXCommYield` (new state and return
value), `sleep` what happens to the state during
`schedule_timeout(nRelativeTimeoutJiffies)`. -/
structure PassEnv where
  rpc : World → World × Bool
  sigkill : Bool
  sTime64 : Nat
  sigkillWait : Bool
  yield : World → World × Int
  sleep : Int → World → World

/-- How one pass from the label `copy_answers` ends: with a return, or with
a jump back to `copy_answers` after a yield or after a sleep. -/
inductive PassResult where
  | ret (nError : Int) (w : World) (bMessageCopied : Bool)
  | yielded (w : World) (bMessageCopied : Bool)
  | slept (nRelativeTimeoutJiffies : Int) (w : World) (bMessageCopied : Bool)

/-- The label `schedule_secure_world` (lines 1192-1198). -/
def scheduleSecureWorld (env : PassEnv) (w : World) (bMessageCopied : Bool) : PassResult :=
  let r := env.yield w
  if r.2 ≠ 0 then .ret r.2 r.1 bMessageCopied else .yielded r.1 bMessageCopied

/-- Lines 1169-1185: `some j` when the secure world is not schedulable, `j`
being the relative timeout to sleep for; `none` when the engine must yield. -/
def notSchedulable (cfg : Config) (env : PassEnv) (pComm : SCXLNX_COMM) : Option Int :=
  if pComm.SCXLNX_COMM_FLAG_L1_SHARED_ALLOCATED then
    if pComm.pBuffer.nFirstFreeCommand = pComm.pBuffer.nFirstCommand then
      let r := SCXLNXCommTestSTimeout cfg (SCXLNXCommReadTimeout pComm) env.sTime64
      if r.1 = 0 then some r.2 else none
    else none
  else none

/-- Lines 1094-1223: everything after the enqueue step of one pass. -/
def afterEnqueue (cfg : Config) (env : PassEnv) (w : World)
    (pMessage : Option SCX_COMMAND_MESSAGE) (bKillable bMessageCopied : Bool) :
    PassResult :=
  let r := env.rpc w
  let w := r.1
  if r.2 then scheduleSecureWorld env w bMessageCopied
  else if cfg.CONFIG_TF_MSHIELD && pMessage.isNone
      && w.comm.SCXLNX_COMM_FLAG_L1_SHARED_ALLOCATED then
    .ret 0 w bMessageCopied
  else if (match pMessage with
      | some m => (w.mem.records m.nOperationID).bAnswerCopied
      | none => false) then
    .ret 0 w bMessageCopied
  else if bKillable && env.sigkill then .ret (-EINTR) w bMessageCopied
  else
    match notSchedulable cfg env w.comm with
    | none => scheduleSecureWorld env w bMessageCopied
    | some nRelativeTimeoutJiffies =>
      if bKillable && env.sigkillWait then .ret (-EINTR) w bMessageCopied
      else .slept nRelativeTimeoutJiffies
        (env.sleep nRelativeTimeoutJiffies w) bMessageCopied

/-- One pass of `SCXLNXCommSendMessage` from the label `copy_answers`;
`none` when the drain loop does not finish within `fuel` turns or reads an
answer longer than the answer union, or when the copy loop of the enqueue
step leaves the message union. -/
def sendPass (cfg : Config) (fuel : Nat) (env : PassEnv) (w : World)
    (pMessage : Option SCX_COMMAND_MESSAGE) (bKillable bMessageCopied : Bool) :
    Option PassResult :=
  match drainAnswers cfg fuel w with
  | none => none
  | some w1 =>
    match enqueueCommand cfg w1.comm pMessage bMessageCopied with
    | none => none
    | some e =>
      some (afterEnqueue cfg env { w1 with comm := e.1 } pMessage bKillable e.2)

/-- Embedding of `SCXLNXCommSendMessage`: passes are run, one element of
`envs` each, until one returns; `none` when the list is used up first or a
pass does not reach its end (see `sendPass`).  The result is the returned int
and the final state. -/
def sendLoop (cfg : Config) (fuel : Nat) (pMessage : Option SCX_COMMAND_MESSAGE)
    (bKillable : Bool) : List PassEnv → World → Bool → Option (Int × World)
  | [], _, _ => none
  | env :: envs, w, bMessageCopied =>
    match sendPass cfg fuel env w pMessage bKillable bMessageCopied with
    | none => none
    | some (.ret nError w1 _) => some (nError, w1)
    | some (.yielded w1 c) => sendLoop cfg fuel pMessage bKillable envs w1 c
    | some (.slept _ w1 c) => sendLoop cfg fuel pMessage bKillable envs w1 c

/-- Embedding of `SCXLNXCommSendMessage` as called: `bMessageCopied` starts
false. -/
def SCXLNXCommSendMessage (cfg : Config) (fuel : Nat) (envs : List PassEnv)
    (w : World) (pMessage : Option SCX_COMMAND_MESSAGE) (bKillable : Bool) :
    Option (Int × World) :=
  sendLoop cfg fuel pMessage bKillable envs w false

/-! ## Send and receive -/

/-- The error number ENOTTY of the kernel. -/
def ENOTTY : Int := 25

/-- A connection as `SCXLNXCommSendReceive` sees it: the two fields it reads
or writes. -/
structure SCXLNX_CONNECTION where
  nState : Nat
  hDeviceContext : Nat
deriving DecidableEq, Repr

/-- What `SCXLNXCommSendReceive` takes from its surroundings.
`pAnswerStructure` and `pAnswerStructDestroyDeviceContext` are the addresses
of its two local records; `SCXLNXConnCheckMessageValidity` is the answer of
that function for `pConn` and `pMessage`; `sigkill` is `sigkill_pending()` at
line 1310; `storeOperationID` gives the words of a message after
`sHeader.nOperationID` has been stored; `isCreateDeviceContext`,
`createSucceeded` and `answerDeviceContext` read the message type, and the
error code and device context of the answer at `pAnswer`;
`destroyDeviceContextSize` and `destroyDeviceContextWords` are the size field
and the words of the message after the four stores of lines 1294-1302 (or
1320-1331), for an operation identifier and a device context; `send` and
`sendDestroy` are the collaborators of the passes of the two calls of
`SCXLNXCommSendMessage`. -/
structure SendReceiveEnv where
  pAnswerStructure : Nat
  pAnswerStructDestroyDeviceContext : Nat
  SCXLNXConnCheckMessageValidity : Bool
  sigkill : Bool
  storeOperationID : (Nat → Nat) → Nat → Nat → Nat
  isCreateDeviceContext : SCX_COMMAND_MESSAGE → Bool
  createSucceeded : World → Nat → Bool
  answerDeviceContext : World → Nat → Nat
  destroyDeviceContextSize : Nat
  destroyDeviceContextWords : Nat → Nat → Nat → Nat
  SCXLNX_CONN_STATE_NO_DEVICE_CONTEXT : Nat
  send : List PassEnv
  sendDestroy : List PassEnv

/-- How a call of `SCXLNXCommSendReceive` ends: it returns (with the state,
the message and the connection it leaves), `BUG_ON` fires, a NULL pointer is
dereferenced, or a call of `SCXLNXCommSendMessage` does not return within the
passes provided. -/
inductive SendReceiveOutcome where
  | returned (nError : Int) (w : World) (pMessage : Option SCX_COMMAND_MESSAGE)
      (pConn : Option SCXLNX_CONNECTION)
  | bug (nError : Int) (w : World)
  | fault
  | noReturn

/-- The value of `nError` with which `BUG_ON(nError != 0)` fired, if it did. -/
def SendReceiveOutcome.bugCode : SendReceiveOutcome → Option Int
  | .bug nError _ => some nError
  | _ => none

/-- The label `destroy_context` of `SCXLNXCommSendReceive` (lines 1337-1353):
the message is sent with `pConn = NULL` and `bKillable = false`. -/
def destroy_context (cfg : Config) (fuel : Nat) (env : SendReceiveEnv) (w : World)
    (pMessage : SCX_COMMAND_MESSAGE) (pConn : Option SCXLNX_CONNECTION) :
    SendReceiveOutcome :=
  match SCXLNXCommSendMessage cfg fuel env.sendDestroy w (some pMessage) false with
  | none => .noReturn
  | some (nError, w1) =>
    if nError ≠ 0 then .bug nError w1
    else
      match pConn with
      | none => .fault
      | some c =>
        .returned nError w1 (some pMessage)
          (some { c with nState := env.SCXLNX_CONN_STATE_NO_DEVICE_CONTEXT })

/-- The message after the stores of lines 1294-1302 or 1320-1331. -/
def destroyDeviceContextMessage (env : SendReceiveEnv) (nOperationID hDeviceContext : Nat) :
    SCX_COMMAND_MESSAGE :=
  { nMessageSize := env.destroyDeviceContextSize,
    nOperationID := nOperationID,
    words := env.destroyDeviceContextWords nOperationID hDeviceContext }

/-- The store of a fresh answer record `{ pAnswer, bAnswerCopied = false }`
at address `a` (lines 1249-1250, 1291-1292 and 1317-1318). -/
def initAnswerStructure (w : World) (a pAnswer : Nat) : World :=
  { w with
    mem :=
      { w.mem with
        records := Function.update w.mem.records a
          { pAnswer := pAnswer, bAnswerCopied := false } } }

/-- Embedding of `SCXLNXCommSendReceive`. -/
def SCXLNXCommSendReceive (cfg : Config) (fuel : Nat) (env : SendReceiveEnv) (w : World)
    (pMessage : Option SCX_COMMAND_MESSAGE) (pAnswer : Nat)
    (pConn : Option SCXLNX_CONNECTION) (bKillable : Bool) : SendReceiveOutcome :=
  let w0 := initAnswerStructure w env.pAnswerStructure pAnswer
  let pMessage := pMessage.map fun m =>
    { m with
      nOperationID := env.pAnswerStructure,
      words := env.storeOperationID m.words env.pAnswerStructure }
  if cfg.CONFIG_TF_MSHIELD && !w0.comm.SCXLNX_COMM_FLAG_PA_AVAILABLE then
    .returned (-EFAULT) w0 pMessage pConn
  else if w0.comm.SCXLNX_COMM_FLAG_TERMINATING then .returned 0 w0 pMessage pConn
  else if pConn.isSome && !env.SCXLNXConnCheckMessageValidity then
    .returned (-ENOTTY) w0 pMessage pConn
  else
    match SCXLNXCommSendMessage cfg fuel env.send w0 pMessage bKillable with
    | none => .noReturn
    | some (nError, w1) =>
      if nError = -EINTR then
        match pMessage, pConn with
        | some _, some c =>
          destroy_context cfg fuel env
            (initAnswerStructure w1 env.pAnswerStructDestroyDeviceContext pAnswer)
            (destroyDeviceContextMessage env env.pAnswerStructDestroyDeviceContext
              c.hDeviceContext)
            pConn
        | _, _ => .fault
      else if !bKillable && env.sigkill then
        match pMessage with
        | none => .fault
        | some m =>
          if env.isCreateDeviceContext m && env.createSucceeded w1 pAnswer then
            destroy_context cfg fuel env
              (initAnswerStructure w1 env.pAnswerStructure pAnswer)
              (destroyDeviceContextMessage env env.pAnswerStructure
                (env.answerDeviceContext w1 pAnswer))
              pConn
          else .returned nError w1 pMessage pConn
      else .returned nError w1 pMessage pConn

/-! ## Clock publication and power management -/

/-- Constants of the protocol header that scxlnx_comm.c uses and that are not
part of the embedded file. -/
structure Protocol where
  SCX_SYNC_SERIAL_TIMESLOT_N : Nat
  SCX_STATUS_POWER_STATE_MASK : Nat
  SCX_STATUS_POWER_STATE_SHIFT : Nat
  SCX_POWER_MODE_ACTIVE : Nat

/-- Embedding of `SCXLNXCommSetCurrentTime`; `tv_sec` and `tv_usec` are the
fields of the `struct timeval` that `do_gettimeofday` fills. -/
def SCXLNXCommSetCurrentTime (pr : Protocol) (pComm : SCXLNX_COMM) (tv_sec tv_usec : Nat) :
    SCXLNX_COMM :=
  let nNewSyncSerial := add32 pComm.pBuffer.nSyncSerial_N 1
  let sTime64 := timeOfDay64 tv_sec tv_usec
  { pComm with
    pBuffer :=
      { pComm.pBuffer with
        sTime_N := Function.update pComm.pBuffer.sTime_N
          (nNewSyncSerial &&& pr.SCX_SYNC_SERIAL_TIMESLOT_N) sTime64,
        nSyncSerial_N := nNewSyncSerial } }

/-- The values of `enum SCXLNX_POWER_OPERATION` that
`SCXLNXCommPowerManagement` distinguishes. -/
inductive SCXLNX_POWER_OPERATION where
  | SCXLNX_POWER_OPERATION_HIBERNATE
  | SCXLNX_POWER_OPERATION_SHUTDOWN
  | SCXLNX_POWER_OPERATION_RESUME
deriving DecidableEq, Repr

/-- The collaborators `SCXLNXCommPowerManagement` may call. -/
inductive PowerCall where
  | SCXLNXCommHibernate
  | SCXLNXCommResume
deriving DecidableEq, Repr

/-- What `SCXLNXCommHibernate` and `SCXLNXCommResume` do: the state they
leave and the int they return. -/
structure PowerEnv where
  SCXLNXCommHibernate : SCXLNX_COMM → SCXLNX_COMM × Int
  SCXLNXCommResume : SCXLNX_COMM → SCXLNX_COMM × Int

/-- What a call of `SCXLNXCommPowerManagement` leaves: the returned int, the
channel, and the collaborators called, in order. -/
structure PowerResult where
  nError : Int
  pComm : SCXLNX_COMM
  calls : List PowerCall

/-- The local `nStatus` of `SCXLNXCommPowerManagement` (lines 1428-1430). -/
def powerState (pr : Protocol) (pComm : SCXLNX_COMM) : Nat :=
  (pComm.pBuffer.nStatus_S &&& pr.SCX_STATUS_POWER_STATE_MASK) >>>
    pr.SCX_STATUS_POWER_STATE_SHIFT

/-- Embedding of `SCXLNXCommPowerManagement`. -/
def SCXLNXCommPowerManagement (cfg : Config) (pr : Protocol) (env : PowerEnv)
    (pComm : SCXLNX_COMM) (nOperation : SCXLNX_POWER_OPERATION) : PowerResult :=
  if cfg.CONFIG_TF_MSHIELD && !pComm.SCXLNX_COMM_FLAG_PA_AVAILABLE then
    { nError := 0, pComm := pComm, calls := [] }
  else
    let nStatus := powerState pr pComm
    match nOperation with
    | .SCXLNX_POWER_OPERATION_SHUTDOWN =>
      if nStatus = pr.SCX_POWER_MODE_ACTIVE then
        -- the call of SCXLNXCommShutdown is compiled out; nError = 0
        { nError := 0, pComm := pComm, calls := [] }
      else { nError := -ENOTTY, pComm := pComm, calls := [] }
    | .SCXLNX_POWER_OPERATION_HIBERNATE =>
      if nStatus = pr.SCX_POWER_MODE_ACTIVE then
        let r := env.SCXLNXCommHibernate pComm
        if r.2 ≠ 0 then { nError := r.2, pComm := r.1, calls := [.SCXLNXCommHibernate] }
        else { nError := 0, pComm := r.1, calls := [.SCXLNXCommHibernate] }
      else { nError := -ENOTTY, pComm := pComm, calls := [] }
    | .SCXLNX_POWER_OPERATION_RESUME =>
      let r := env.SCXLNXCommResume pComm
      if r.2 ≠ 0 then { nError := r.2, pComm := r.1, calls := [.SCXLNXCommResume] }
      else { nError := 0, pComm := r.1, calls := [.SCXLNXCommResume] }

/-! ## Runs of the command ring -/

/-- The command ring together with the word lengths of the commands written
and not yet read, oldest first. -/
structure RingState where
  b : L1_SHARED_BUFFER
  pending : List Nat

/-- What happens to the command ring: this side enqueues a message, the
secure world (outside this file) reads the oldest unread command and
advances `nFirstCommand` by its word length. -/
inductive RingOp where
  | enqueue (m : SCX_COMMAND_MESSAGE)
  | read

/-- One operation on the command ring, for an enqueue whose copy loop
reaches its end. -/
def ringStep (cfg : Config) (s : RingState) : RingOp → RingState
  | .enqueue m =>
    let r := writeMessage cfg s.b m
    { b := r.1, pending := if r.2 then s.pending ++ [commandSize cfg m] else s.pending }
  | .read =>
    match s.pending with
    | [] => s
    | n :: rest =>
      { b := { s.b with nFirstCommand := add32 s.b.nFirstCommand n }, pending := rest }

/-- A sequence of operations on the command ring. -/
def runRing (cfg : Config) (s : RingState) (ops : List RingOp) : RingState :=
  ops.foldl (ringStep cfg) s

/-- Every enqueued message of the sequence has a total word length that
fits the message union and leaves the 32-bit room test of line 1070 free of
wraparound. -/
def BoundedMessages (cfg : Config) : List RingOp → Prop
  | [] => True
  | .enqueue m :: ops =>
    (cfg.commandHeaderWords + m.nMessageSize ≤ cfg.commandMessageWords ∧
      cfg.commandHeaderWords + m.nMessageSize + cfg.SCX_N_MESSAGE_QUEUE_CAPACITY ≤ 2 ^ 32) ∧
      BoundedMessages cfg ops
  | .read :: ops => BoundedMessages cfg ops

/-- What runs of the command ring keep true when no room test wraps: both
cursors are 32-bit values, the first-free cursor is the first cursor plus the
total length of the unread commands, and that total is below the capacity. -/
def RingInv (cfg : Config) (s : RingState) : Prop :=
  s.b.nFirstCommand < 2 ^ 32 ∧
  s.b.nFirstFreeCommand = (s.b.nFirstCommand + s.pending.sum) % 2 ^ 32 ∧
  s.pending.sum < cfg.SCX_N_MESSAGE_QUEUE_CAPACITY

/-! ## Answers held by the answer queue -/

/-- The words `a` form one answer stored in the queue at cursor `c`: its
length is the header length plus the payload length declared in its header,
it fits a `union SCX_ANSWER_MESSAGE`, its byte count fits the 32-bit
`size_t`, and the queue holds its words at the slots following `c`. -/
def AnswerStoredAt (cfg : Config) (q : Nat → Nat) (c : Nat) (a : List Nat) : Prop :=
  a.length = cfg.answerHeaderWords + cfg.answerMessageSize (a.take cfg.answerHeaderWords) ∧
  a.length ≤ cfg.answerMessageWords ∧
  a.length * 4 < 2 ^ 32 ∧
  ∀ i, i < a.length → q (slot cfg.SCX_S_ANSWER_QUEUE_CAPACITY c i) = a.getD i 0

/-- The answers `as` are stored one after the other from cursor `c` on. -/
def AnswersStoredFrom (cfg : Config) (q : Nat → Nat) : Nat → List (List Nat) → Prop
  | _, [] => True
  | c, a :: rest =>
    AnswerStoredAt cfg q c a ∧ AnswersStoredFrom cfg q (add32 c a.length) rest

/-- The answer queue of `b` holds exactly the answers `as` between
`nFirstAnswer` and `nFirstFreeAnswer`. -/
def QueueHolds (cfg : Config) (b : L1_SHARED_BUFFER) (as : List (List Nat)) : Prop :=
  b.nFirstAnswer < 2 ^ 32 ∧ b.nFirstFreeAnswer < 2 ^ 32 ∧
  AnswersStoredFrom cfg b.sAnswerQueue b.nFirstAnswer as ∧
  (as.map List.length).sum = sub32 b.nFirstFreeAnswer b.nFirstAnswer

/-- DrainAnswers as the specification words it, for one answer: the pending
answer record is looked up by the token of the header, the full answer is
copied to its buffer and its delivered flag is set. -/
def deliverSpec (cfg : Config) (mem : AnswerMemory) (a : List Nat) : AnswerMemory :=
  let token := cfg.answerOperationID a
  let dest := (mem.records token).pAnswer
  { records := Function.update mem.records token { pAnswer := dest, bAnswerCopied := true },
    buffers := Function.update mem.buffers dest
      (fun i => if i < a.length then a.getD i 0 else mem.buffers dest i) }

/-- DrainAnswers as the specification words it, for the answers `as` in ring
order: each is delivered and the read cursor advances by its word length. -/
def drainSpec (cfg : Config) (w : World) (as : List (List Nat)) : World :=
  { comm :=
      { w.comm with
        pBuffer :=
          { w.comm.pBuffer with
            nFirstAnswer :=
              add32 w.comm.pBuffer.nFirstAnswer (as.map List.length).sum } },
    mem := as.foldl (deliverSpec cfg) w.mem }

/-- The allocator after a first acquire whose page record arrived with a
count field reading `0xFFFFFFFF` and a second acquire: page 0 is tracked with
count 1, its tables 0 and 3 are handed out (table 3 through the `list_del` of
line 177), its tables 2 and 1 are on the free list. -/
def poolTwoInUse : SCXLNX_COARSE_PAGE_TABLE_ALLOCATION_CONTEXT :=
  { sCoarsePageTableArrays := [⟨0, SCXLNX_PAGE_DESCRIPTOR_TYPE_NORMAL, 1, some 0⟩],
    sFreeCoarsePageTables := [⟨0, 2⟩, ⟨0, 1⟩],
    nextId := 1, allocated := [0], freed := [], unlinked := [⟨0, 3⟩] }

/-- An instance of `MapConfig`: no alignment restriction, identity-like
address translations, and page tables in which user pages are shared device
memory (TEX=000, C=0, B=1) and kernel pages are normal cacheable memory. -/
def mapConfig0 : MapConfig :=
  { SCX_MAX_COARSE_PAGES := 128,
    SCXLNX_SHMEM_TYPE_REGISTERED_SHMEM := 1,
    SCXLNX_SHMEM_TYPE_PM_HIBERNATE := 2,
    SCX_SHMEM_TYPE_WRITE := 2,
    info := 0,
    page_to_phys := fun p => p * 4096,
    page_address := fun p => 0xC0000000 + p * 4096,
    pte_page := fun a => a / 4096,
    PageReserved := fun _ => false,
    virt_to_phys := fun a => a - 0xC0000000,
    vmalloc_to_page := fun a => a / 4096,
    tableAddress := fun t => 0xC8000000 + t.pParent * 4096 + t.index * 1024,
    userWalk := fun a => .pmd 0 (a ||| 0x4) (a ||| 0x4) true,
    kernelWalk := fun a => .pmd 0 (a ||| 0xC) (a ||| 0x4C) true }

/-- An environment in which every allocation succeeds (records arrive with
a zero reference count field) and `get_user_pages` pins every page asked
for, the page at address `a` being page number `a / 4096`. -/
def mapEnv0 : MapEnv :=
  { kmalloc := fun _ => some 0,
    getPage := fun _ => true,
    get_user_pages := fun start n _ =>
      ((n : Int), (List.range n).map (fun i => start / 4096 + i)) }

/-- The environment `mapEnv0` with a slab allocator that hands out page
records whose count field reads `0xFFFFFFFF`. -/
def mapEnvGarbage : MapEnv :=
  { mapEnv0 with kmalloc := fun _ => some 0xFFFFFFFF }

/-- A kernel state with an empty allocator and no page referenced. -/
def mapState0 : MapState :=
  { ctx := SCXLNXInitializeCoarsePageTableAllocator,
    descriptors := fun _ _ => 0,
    pageRefs := fun _ => 0,
    pageDirty := fun _ => false }

/-- A fresh registered shared memory descriptor. -/
def shmemDesc0 : SCXLNX_SHMEM_DESC :=
  { nType := 1, pCoarsePageTable := fun _ => ⟨0, 0⟩, nNumberOfCoarsePageTables := 0 }

/-- The map of a kernel-space buffer of 257 pages at `0xD0000000` for a
fresh registered descriptor, on the empty allocator, when the page record
obtained arrives with a count field reading `0xFFFFFFFF`. -/
def mappingGarbage : FillResult :=
  SCXLNXCommFillDescriptorTable mapConfig0 mapEnvGarbage mapState0 shmemDesc0
    0xD0000000 (fun _ => 0) 0x101000 false 2

/-- The configuration `mapConfig0` with kernel pages that are shared device
memory (TEX=000, C=0, B=1) in the page tables of `init_mm`. -/
def mapConfigKernelDevice : MapConfig :=
  { mapConfig0 with kernelWalk := fun a => .pmd 0 (a ||| 0x4) (a ||| 0x4) true }

/-- The configuration `mapConfig0` on a CPU to which the 16k alignment
restriction applies (bits 24 and 23 of the cache type register set). -/
def mapConfigAligned : MapConfig :=
  { mapConfig0 with info := 0x1800000 }

/-- An instance of `Config`: queues of 128 words, message unions of 256
words, two-word headers whose first word is the payload length and whose
second word is the operation identifier, and the kernel's timeout constants
for a 32-bit `long` and a 100 Hz tick. -/
def config0 : Config :=
  { SCX_N_MESSAGE_QUEUE_CAPACITY := 128,
    SCX_S_ANSWER_QUEUE_CAPACITY := 128,
    commandHeaderWords := 2,
    answerHeaderWords := 2,
    commandMessageWords := 256,
    answerMessageWords := 256,
    answerMessageSize := fun h => h.getD 0 0,
    answerOperationID := fun a => a.getD 1 0,
    CONFIG_TF_MSHIELD := false,
    MAX_SCHEDULE_TIMEOUT := 2 ^ 31 - 1,
    MAX_JIFFY_OFFSET := 2 ^ 30 - 2,
    msecs_to_jiffies := fun m => if m < 2 ^ 31 then ((m + 9) / 10 : Nat) else 2 ^ 30 - 2 }

/-- A shared buffer with empty queues and every word zero. -/
def buffer0 : L1_SHARED_BUFFER :=
  { nSyncSerial_N := 0, nSyncSerial_S := 0, sTime_N := fun _ => 0,
    sTimeout_S := fun _ => 0, nStatus_S := 0,
    nFirstCommand := 0, nFirstFreeCommand := 0, nFirstAnswer := 0,
    nFirstFreeAnswer := 0, sCommandQueue := fun _ => 0, sAnswerQueue := fun _ => 0 }

/-- An initialised channel over `buffer0`. -/
def comm0 : SCXLNX_COMM :=
  { SCXLNX_COMM_FLAG_L1_SHARED_ALLOCATED := true,
    SCXLNX_COMM_FLAG_PA_AVAILABLE := true,
    SCXLNX_COMM_FLAG_TERMINATING := false,
    pBuffer := buffer0 }

/-- Answer memory in which the record at address `t` points to the buffer at
address `t` and nothing has been delivered. -/
def mem0 : AnswerMemory :=
  { records := fun t => { pAnswer := t, bAnswerCopied := false },
    buffers := fun _ _ => 0 }

/-- A command of `size` payload words whose word `i` is `base + i`. -/
def message0 (size token base : Nat) : SCX_COMMAND_MESSAGE :=
  { nMessageSize := size, nOperationID := token, words := fun i => base + i }

/-- A world whose answer queue holds the single answer `[1, 5, 77]` (one
payload word, operation identifier 5) between cursors 0 and 3. -/
def worldOneAnswer : World :=
  { comm :=
      { comm0 with
        pBuffer :=
          { buffer0 with
            nFirstFreeAnswer := 3,
            sAnswerQueue := fun i => [1, 5, 77].getD i 0 } },
    mem := mem0 }

/-- Collaborators that do nothing: no RPC, no signal, a yield that returns
zero, and a sleep that leaves the state alone. -/
def passEnv0 : PassEnv :=
  { rpc := fun w => (w, false), sigkill := false, sTime64 := 0, sigkillWait := false,
    yield := fun w => (w, 0), sleep := fun _ w => w }

/-- An instance of `Protocol`: time slot bit 1, power state in bits 4 to 7 of
the status word, the active state numbered 1. -/
def protocol0 : Protocol :=
  { SCX_SYNC_SERIAL_TIMESLOT_N := 1,
    SCX_STATUS_POWER_STATE_MASK := 0xF0,
    SCX_STATUS_POWER_STATE_SHIFT := 4,
    SCX_POWER_MODE_ACTIVE := 1 }

/-- Power collaborators that set the status word to 0x20 (hibernate) or to
0x10 (resume) and return zero. -/
def powerEnv0 : PowerEnv :=
  { SCXLNXCommHibernate := fun c => ({ c with pBuffer := { c.pBuffer with nStatus_S := 0x20 } }, 0),
    SCXLNXCommResume := fun c => ({ c with pBuffer := { c.pBuffer with nStatus_S := 0x10 } }, 0) }

/-- The channel `comm0` with the given status word. -/
def commStatus (nStatus_S : Nat) : SCXLNX_COMM :=
  { comm0 with pBuffer := { buffer0 with nStatus_S := nStatus_S } }

/-- The channel `comm0` with an empty command queue and an infinite secure
world timeout in both timeout slots. -/
def commInfiniteTimeout : SCXLNX_COMM :=
  { comm0 with pBuffer := { buffer0 with sTimeout_S := fun _ => TIME_INFINITE } }

/-- The channel `comm0` with the terminating flag set. -/
def commTerminating : SCXLNX_COMM :=
  { comm0 with SCXLNX_COMM_FLAG_TERMINATING := true }

/-- Surroundings of `SCXLNXCommSendReceive`: local records at addresses 5 and
6, a message accepted by the validity check, a first send during which
SIGKILL is pending, and a destroy-context send whose yield fails with -5. -/
def sendReceiveEnv0 : SendReceiveEnv :=
  { pAnswerStructure := 5,
    pAnswerStructDestroyDeviceContext := 6,
    SCXLNXConnCheckMessageValidity := true,
    sigkill := false,
    storeOperationID := fun words id => Function.update words 1 id,
    isCreateDeviceContext := fun _ => false,
    createSucceeded := fun _ _ => false,
    answerDeviceContext := fun _ _ => 0,
    destroyDeviceContextSize := 1,
    destroyDeviceContextWords := fun id h i => [1, id, h].getD i 0,
    SCXLNX_CONN_STATE_NO_DEVICE_CONTEXT := 0,
    send := [{ passEnv0 with sigkill := true }],
    sendDestroy := [{ passEnv0 with yield := fun w => (w, -5) }] }

/-! ## Coarse page table allocator: pages are released exactly once -/

theorem findArray_some {id : Nat} {l : List SCXLNX_COARSE_PAGE_TABLE_ARRAY}
    {a : SCXLNX_COARSE_PAGE_TABLE_ARRAY} (h : findArray id l = some a) :
    a ∈ l ∧ a.id = id := by
  induction l with
  | nil => simp [findArray] at h
  | cons b rest ih =>
    unfold findArray at h
    by_cases hb : b.id = id
    · rw [if_pos hb] at h
      cases h
      exact ⟨List.mem_cons_self _ _, hb⟩
    · rw [if_neg hb] at h
      exact ⟨List.mem_cons_of_mem _ (ih h).1, (ih h).2⟩

theorem map_id_setReferenceCount (id rc : Nat) (l : List SCXLNX_COARSE_PAGE_TABLE_ARRAY) :
    (setReferenceCount id rc l).map (fun a => a.id) = l.map (fun a => a.id) := by
  induction l with
  | nil => rfl
  | cons b rest ih =>
    unfold setReferenceCount
    by_cases hb : b.id = id
    · rw [if_pos hb]; rfl
    · rw [if_neg hb]; simp [ih]

theorem mem_setReferenceCount {id rc : Nat} {l : List SCXLNX_COARSE_PAGE_TABLE_ARRAY}
    {a : SCXLNX_COARSE_PAGE_TABLE_ARRAY} (h : a ∈ setReferenceCount id rc l) :
    ∃ b ∈ l, a.id = b.id ∧ a.nType = b.nType ∧ a.pDescriptors0 = b.pDescriptors0 ∧
      (a = b ∨ (b.id = id ∧ a.nReferenceCount = rc)) := by
  induction l with
  | nil => simp [setReferenceCount] at h
  | cons b rest ih =>
    unfold setReferenceCount at h
    by_cases hb : b.id = id
    · rw [if_pos hb] at h
      rcases List.mem_cons.1 h with h | h
      · subst h
        exact ⟨b, List.mem_cons_self _ _, rfl, rfl, rfl, Or.inr ⟨hb, rfl⟩⟩
      · exact ⟨a, List.mem_cons_of_mem _ h, rfl, rfl, rfl, Or.inl rfl⟩
    · rw [if_neg hb] at h
      rcases List.mem_cons.1 h with h | h
      · subst h
        exact ⟨a, List.mem_cons_self _ _, rfl, rfl, rfl, Or.inl rfl⟩
      · obtain ⟨c, hc, hrest⟩ := ih h
        exact ⟨c, List.mem_cons_of_mem _ hc, hrest⟩

theorem mem_delArray {id : Nat} {l : List SCXLNX_COARSE_PAGE_TABLE_ARRAY}
    {a : SCXLNX_COARSE_PAGE_TABLE_ARRAY} (h : a ∈ delArray id l) : a ∈ l := by
  induction l with
  | nil => simp [delArray] at h
  | cons b rest ih =>
    unfold delArray at h
    by_cases hb : b.id = id
    · rw [if_pos hb] at h
      exact List.mem_cons_of_mem _ h
    · rw [if_neg hb] at h
      rcases List.mem_cons.1 h with h | h
      · subst h; exact List.mem_cons_self _ _
      · exact List.mem_cons_of_mem _ (ih h)

theorem count_id_delArray {id : Nat} {l : List SCXLNX_COARSE_PAGE_TABLE_ARRAY}
    {a : SCXLNX_COARSE_PAGE_TABLE_ARRAY} (h : findArray id l = some a) (p : Nat) :
    ((delArray id l).map (fun a => a.id)).count p + (if p = id then 1 else 0) =
      (l.map (fun a => a.id)).count p := by
  induction l with
  | nil => simp [findArray] at h
  | cons b rest ih =>
    unfold findArray at h
    unfold delArray
    by_cases hb : b.id = id
    · rw [if_pos hb]
      simp only [List.map_cons, List.count_cons, hb]
      by_cases hp : p = id
      · simp [hp]
      · have : ¬ id = p := fun h => hp h.symm
        simp [hp, this]
    · rw [if_neg hb] at h
      rw [if_neg hb]
      have := ih h
      simp only [List.map_cons, List.count_cons]
      omega

theorem pagesAccounted_init : PagesAccounted SCXLNXInitializeCoarsePageTableAllocator := by
  refine ⟨fun p => by simp [SCXLNXInitializeCoarsePageTableAllocator], ?_, ?_, ?_⟩ <;>
    simp [SCXLNXInitializeCoarsePageTableAllocator]

theorem pagesAccounted_allocate {s : SCXLNX_COARSE_PAGE_TABLE_ALLOCATION_CONTEXT}
    (h : PagesAccounted s) (nType : Nat) (kmalloc : Option Nat) (getPage : Bool) :
    PagesAccounted (SCXLNXAllocateCoarsePageTable s nType kmalloc getPage).2 := by
  obtain ⟨hc, hp, hn, hlt⟩ := h
  unfold SCXLNXAllocateCoarsePageTable
  cases hfree : s.sFreeCoarsePageTables with
  | cons t rest =>
    simp only
    cases hfind : findArray t.pParent s.sCoarsePageTableArrays with
    | none => exact ⟨hc, hp, hn, hlt⟩
    | some a =>
      refine ⟨fun p => ?_, fun b hb => ?_, hn, hlt⟩
      · simp only [map_id_setReferenceCount]; exact hc p
      · obtain ⟨c, hc1, hid, _, hd, _⟩ := mem_setReferenceCount hb
        rw [hd, hid]; exact hp c hc1
  | nil =>
    simp only
    cases kmalloc with
    | none => exact ⟨hc, hp, hn, hlt⟩
    | some r =>
      by_cases hg : getPage = true
      · simp only [hg, if_true]
        refine ⟨fun p => ?_, fun b hb => ?_, ?_, fun p hp1 => ?_⟩
        · have := hc p
          simp only [List.map_cons, List.count_cons]
          omega
        · rcases List.mem_cons.1 hb with hb | hb
          · subst hb; rfl
          · exact hp b hb
        · exact List.nodup_cons.2 ⟨fun hm => Nat.lt_irrefl _ (hlt _ hm), hn⟩
        · rcases List.mem_cons.1 hp1 with h1 | h1
          · subst h1; exact Nat.lt_succ_self _
          · exact Nat.lt_succ_of_lt (hlt p h1)
      · simp only [hg]
        exact ⟨hc, hp, hn, hlt⟩

theorem pagesAccounted_free {s : SCXLNX_COARSE_PAGE_TABLE_ALLOCATION_CONTEXT}
    (h : PagesAccounted s) (t : SCXLNX_COARSE_PAGE_TABLE) (nForce : Nat) :
    PagesAccounted (SCXLNXFreeCoarsePageTable s t nForce) := by
  obtain ⟨hc, hp, hn, hlt⟩ := h
  have hset : ∀ id rc, PagesAccounted
      { s with sCoarsePageTableArrays := setReferenceCount id rc s.sCoarsePageTableArrays,
               sFreeCoarsePageTables := t :: s.sFreeCoarsePageTables } := by
    intro id rc
    refine ⟨fun p => ?_, fun b hb => ?_, hn, hlt⟩
    · simp only [map_id_setReferenceCount]; exact hc p
    · obtain ⟨c, hc1, hid, _, hd, _⟩ := mem_setReferenceCount hb
      rw [hd, hid]; exact hp c hc1
  unfold SCXLNXFreeCoarsePageTable
  cases hfind : findArray t.pParent s.sCoarsePageTableArrays with
  | none => exact ⟨hc, hp, hn, hlt⟩
  | some a =>
    simp only
    have ha := findArray_some hfind
    by_cases hz : dec32 a.nReferenceCount = 0
    · rw [if_pos hz]
      by_cases hpre : a.nType = SCXLNX_PAGE_DESCRIPTOR_TYPE_PREALLOCATED ∧ nForce = 0
      · rw [if_pos hpre]; exact hset _ _
      · rw [if_neg hpre]
        by_cases hps : poisonedSibling s t = true
        · rw [if_pos hps]
          refine ⟨fun p => ?_, fun b hb => ?_, hn, hlt⟩
          · simp only [map_id_setReferenceCount]; exact hc p
          · obtain ⟨c, hc1, hid, _, hd, _⟩ := mem_setReferenceCount hb
            rw [hd, hid]; exact hp c hc1
        rw [if_neg hps]
        obtain ⟨hmem, hid⟩ := ha
        have h3 : a.pDescriptors0 = some a.id := hp a hmem
        rw [h3, hid]
        refine ⟨fun p => ?_, fun b hb => hp b (mem_delArray hb), hn, hlt⟩
        have h1 := count_id_delArray hfind p
        have h2 := hc p
        simp only [List.count_cons]
        by_cases hpid : p = t.pParent
        · subst hpid
          simp only [if_true] at h1
          simp only [beq_self_eq_true, if_true]
          omega
        · simp only [if_neg hpid] at h1
          have hne : (t.pParent == p) = false := by
            simp only [beq_eq_false_iff_ne]; exact fun h => hpid h.symm
          simp only [hne]
          simp only [Bool.false_eq_true, if_false]
          omega
    · rw [if_neg hz]; exact hset _ _

theorem pagesAccounted_run (ops : List PoolOp) :
    ∀ {s s1 : SCXLNX_COARSE_PAGE_TABLE_ALLOCATION_CONTEXT}, PagesAccounted s →
      runPool s ops = some s1 → PagesAccounted s1 := by
  induction ops with
  | nil => intro s s1 h hr; simp [runPool] at hr; subst hr; exact h
  | cons op ops ih =>
    intro s s1 h hr
    cases op with
    | acquire nType kmalloc getPage =>
      rw [runPool] at hr
      split at hr
      · cases hr
      · exact ih (pagesAccounted_allocate h nType kmalloc getPage) hr
    | release t nForce =>
      rw [runPool] at hr
      by_cases hu : inUse s t
      · rw [if_pos hu] at hr
        split at hr
        · cases hr
        · exact ih (pagesAccounted_free h t nForce) hr
      · rw [if_neg hu] at hr; cases hr

theorem count_releaseArrays (l : List SCXLNX_COARSE_PAGE_TABLE_ARRAY)
    (hl : ∀ a ∈ l, a.pDescriptors0 = some a.id) (freed : List Nat) (p : Nat) :
    (releaseArrays l freed).count p = (l.map (fun a => a.id)).count p + freed.count p := by
  induction l generalizing freed with
  | nil => simp [releaseArrays]
  | cons a rest ih =>
    unfold releaseArrays
    rw [hl a (List.mem_cons_self _ _)]
    simp only
    rw [ih (fun b hb => hl b (List.mem_cons_of_mem _ hb))]
    simp only [List.map_cons, List.count_cons]
    omega

/-- In every sequence of acquire and release calls on an initially empty
allocator that runs to its end (each release naming a coarse page table in
use, no call faulting), followed by
`SCXLNXReleaseCoarsePageTableAllocator`, every page obtained from
`internal_get_zeroed_page` has been passed to `internal_free_page` exactly
once, and nothing else has been passed to it. -/
theorem pages_released_once_without_fault (ops : List PoolOp)
    (s : SCXLNX_COARSE_PAGE_TABLE_ALLOCATION_CONTEXT)
    (h : runPool SCXLNXInitializeCoarsePageTableAllocator ops = some s) :
    s.allocated.Nodup ∧
    (SCXLNXReleaseCoarsePageTableAllocator s).sCoarsePageTableArrays = [] ∧
    ∀ p, (SCXLNXReleaseCoarsePageTableAllocator s).freed.count p =
      if p ∈ s.allocated then 1 else 0 := by
  obtain ⟨hc, hp, hn, _⟩ := pagesAccounted_run ops pagesAccounted_init h
  refine ⟨hn, rfl, fun p => ?_⟩
  show (releaseArrays s.sCoarsePageTableArrays s.freed).count p = _
  rw [count_releaseArrays _ hp, hc p]
  by_cases hm : p ∈ s.allocated
  · rw [if_pos hm]; exact List.count_eq_one_of_mem hn hm
  · rw [if_neg hm]; exact List.count_eq_zero_of_not_mem hm

/-- Two pages are obtained with zeroed records, one is handed back by a
release and the other by the final teardown, each once. -/
theorem pages_released_once_without_fault_example :
    runPool SCXLNXInitializeCoarsePageTableAllocator
      [.acquire 0 (some 0) true, .release ⟨0, 0⟩ 0, .acquire 0 (some 0) true,
       .acquire 0 none false]
      = some
        { sCoarsePageTableArrays := [⟨1, 0, 2, some 1⟩],
          sFreeCoarsePageTables := [⟨1, 2⟩, ⟨1, 1⟩],
          nextId := 2, allocated := [1, 0], freed := [0], unlinked := [⟨1, 3⟩] } ∧
    (SCXLNXReleaseCoarsePageTableAllocator
        { sCoarsePageTableArrays := [⟨1, 0, 2, some 1⟩],
          sFreeCoarsePageTables := [⟨1, 2⟩, ⟨1, 1⟩],
          nextId := 2, allocated := [1, 0], freed := [0],
          unlinked := [⟨1, 3⟩] }).freed = [1, 0] ∧
    ∀ p, (SCXLNXReleaseCoarsePageTableAllocator
        { sCoarsePageTableArrays := [⟨1, 0, 2, some 1⟩],
          sFreeCoarsePageTables := [⟨1, 2⟩, ⟨1, 1⟩],
          nextId := 2, allocated := [1, 0], freed := [0],
          unlinked := [⟨1, 3⟩] }).freed.count p =
      if p ∈ [1, 0] then 1 else 0 :=
  ⟨by decide, by decide,
    (pages_released_once_without_fault
      [.acquire 0 (some 0) true, .release ⟨0, 0⟩ 0, .acquire 0 (some 0) true,
       .acquire 0 none false] _ (by decide)).2.2⟩

/-- C2 fails on the code when a page record arrives with a count field that
does not read zero (the field is never initialised, see C1).  On the empty
allocator a first acquire obtains page 0 with a record whose count field
reads `0xFFFFFFFF`: the increment wraps to 0 and table 0 is handed out.  A
second acquire takes table 3 off the free list (`list_del`, line 177) and the
count becomes 1.  Both tables are in use.  The release of table 0 brings the
count to 0 and, the page being of the normal kind, enters the whole-page
branch, whose `list_del` on table 3 meets the poisoned pointers: the call
faults before `internal_free_page`, and page 0, once obtained, is never
released. -/
theorem page_never_released_after_garbage_count :
    runPool SCXLNXInitializeCoarsePageTableAllocator
        [.acquire SCXLNX_PAGE_DESCRIPTOR_TYPE_NORMAL (some 0xFFFFFFFF) true,
         .acquire SCXLNX_PAGE_DESCRIPTOR_TYPE_NORMAL none false] = some poolTwoInUse ∧
    poolTwoInUse.allocated = [0] ∧
    inUse poolTwoInUse ⟨0, 0⟩ ∧ inUse poolTwoInUse ⟨0, 3⟩ ∧
    findArray 0 poolTwoInUse.sCoarsePageTableArrays =
      some ⟨0, SCXLNX_PAGE_DESCRIPTOR_TYPE_NORMAL, 1, some 0⟩ ∧
    dec32 1 = 0 ∧
    (⟨0, 3⟩ : SCXLNX_COARSE_PAGE_TABLE) ∈ poolTwoInUse.unlinked ∧
    poisonedSibling poolTwoInUse ⟨0, 0⟩ = true ∧
    (SCXLNXFreeCoarsePageTable poolTwoInUse ⟨0, 0⟩ 0).fault = true ∧
    (SCXLNXFreeCoarsePageTable poolTwoInUse ⟨0, 0⟩ 0).freed = [] ∧
    runPool SCXLNXInitializeCoarsePageTableAllocator
        [.acquire SCXLNX_PAGE_DESCRIPTOR_TYPE_NORMAL (some 0xFFFFFFFF) true,
         .acquire SCXLNX_PAGE_DESCRIPTOR_TYPE_NORMAL none false,
         .release ⟨0, 0⟩ 0] = none := by
  refine ⟨by decide, rfl, by decide, by decide, by decide, by decide, by decide, by decide,
    by decide, by decide, by decide⟩

/-! ## Coarse page table allocator: reference counts -/

theorem findArray_isSome_iff (id : Nat) (l : List SCXLNX_COARSE_PAGE_TABLE_ARRAY) :
    (findArray id l).isSome = true ↔ id ∈ l.map (fun a => a.id) := by
  induction l with
  | nil => simp [findArray]
  | cons b rest ih =>
    unfold findArray
    by_cases hb : b.id = id
    · rw [if_pos hb]; simp [hb]
    · rw [if_neg hb, ih]
      simp only [List.map_cons, List.mem_cons]
      constructor
      · exact Or.inr
      · rintro (h | h)
        · exact absurd h.symm hb
        · exact h

theorem mem_setReferenceCount_nodup {id rc : Nat} {l : List SCXLNX_COARSE_PAGE_TABLE_ARRAY}
    (hn : (l.map (fun a => a.id)).Nodup) {b : SCXLNX_COARSE_PAGE_TABLE_ARRAY}
    (hb : b ∈ setReferenceCount id rc l) :
    (b.id = id → b.nReferenceCount = rc) ∧ (b.id ≠ id → b ∈ l) := by
  induction l with
  | nil => simp [setReferenceCount] at hb
  | cons c rest ih =>
    rw [List.map_cons, List.nodup_cons] at hn
    unfold setReferenceCount at hb
    by_cases hc : c.id = id
    · rw [if_pos hc] at hb
      rcases List.mem_cons.1 hb with h | h
      · subst h
        exact ⟨fun _ => rfl, fun hne => absurd hc hne⟩
      · refine ⟨fun hid => ?_, fun _ => List.mem_cons_of_mem _ h⟩
        exact absurd (List.mem_map.2 ⟨b, h, hid.trans hc.symm⟩) hn.1
    · rw [if_neg hc] at hb
      rcases List.mem_cons.1 hb with h | h
      · subst h
        exact ⟨fun hid => absurd hid hc, fun _ => List.mem_cons_self _ _⟩
      · exact ⟨(ih hn.2 h).1, fun hne => List.mem_cons_of_mem _ ((ih hn.2 h).2 hne)⟩

theorem nodup_ids_delArray {id : Nat} {l : List SCXLNX_COARSE_PAGE_TABLE_ARRAY}
    {a : SCXLNX_COARSE_PAGE_TABLE_ARRAY} (h : findArray id l = some a)
    (hn : (l.map (fun a => a.id)).Nodup) :
    ((delArray id l).map (fun a => a.id)).Nodup ∧
      id ∉ (delArray id l).map (fun a => a.id) := by
  rw [List.nodup_iff_count_le_one] at hn
  constructor
  · rw [List.nodup_iff_count_le_one]
    intro p
    have h1 := count_id_delArray h p
    have h2 := hn p
    omega
  · intro hm
    have h1 := count_id_delArray h id
    have h2 := hn id
    have h3 := List.count_pos_iff.2 hm
    simp only [if_true] at h1
    omega

theorem mem_ids_delArray {id : Nat} {l : List SCXLNX_COARSE_PAGE_TABLE_ARRAY}
    {a : SCXLNX_COARSE_PAGE_TABLE_ARRAY} (h : findArray id l = some a) {p : Nat}
    (hp : p ≠ id) :
    p ∈ (delArray id l).map (fun a => a.id) ↔ p ∈ l.map (fun a => a.id) := by
  have h1 := count_id_delArray h p
  rw [if_neg hp] at h1
  rw [← List.count_pos_iff, ← List.count_pos_iff]
  omega

theorem countP_flip {l : List Nat} (hn : l.Nodup) {j : Nat} (hj : j ∈ l)
    {p q : Nat → Bool} (hpq : ∀ i ∈ l, i ≠ j → p i = q i)
    (hp : p j = true) (hq : q j = false) : l.countP p = l.countP q + 1 := by
  induction l with
  | nil => simp at hj
  | cons c rest ih =>
    rw [List.nodup_cons] at hn
    rw [List.countP_cons, List.countP_cons]
    rcases List.mem_cons.1 hj with h | h
    · subst h
      have hrest : rest.countP p = rest.countP q := by
        apply List.countP_congr
        intro i hi
        have hne : i ≠ j := fun h => hn.1 (h ▸ hi)
        rw [hpq i (List.mem_cons_of_mem _ hi) hne]
      simp [hp, hq, hrest]
    · have hne : c ≠ j := fun hc => hn.1 (hc ▸ h)
      have := ih hn.2 h (fun i hi => hpq i (List.mem_cons_of_mem _ hi))
      rw [this, hpq c (List.mem_cons_self _ _) hne]
      omega

theorem inUseCount_eq (s : SCXLNX_COARSE_PAGE_TABLE_ALLOCATION_CONTEXT) (id : Nat) :
    inUseCount s id = inUseCountOf s.sFreeCoarsePageTables id := rfl

theorem inUseCountOf_le (free : List SCXLNX_COARSE_PAGE_TABLE) (id : Nat) :
    inUseCountOf free id ≤ 4 := by
  unfold inUseCountOf
  exact (List.countP_le_length _).trans (by simp)

theorem inUseCountOf_congr {f1 f2 : List SCXLNX_COARSE_PAGE_TABLE} {id : Nat}
    (h : ∀ i, i < 4 → ((⟨id, i⟩ : SCXLNX_COARSE_PAGE_TABLE) ∈ f1 ↔ ⟨id, i⟩ ∈ f2)) :
    inUseCountOf f1 id = inUseCountOf f2 id := by
  unfold inUseCountOf
  apply List.countP_congr
  intro i hi
  have := h i (List.mem_range.1 hi)
  simp [this]

theorem inUseCountOf_cons_of_ne {t : SCXLNX_COARSE_PAGE_TABLE}
    (free : List SCXLNX_COARSE_PAGE_TABLE) {id : Nat} (h : t.pParent ≠ id) :
    inUseCountOf (t :: free) id = inUseCountOf free id := by
  apply inUseCountOf_congr
  intro i _
  rw [List.mem_cons]
  constructor
  · rintro (h1 | h1)
    · exact absurd (by rw [← h1]) h
    · exact h1
  · exact Or.inr

theorem inUseCountOf_cons_self {t : SCXLNX_COARSE_PAGE_TABLE}
    {free : List SCXLNX_COARSE_PAGE_TABLE} (hi : t.index < 4) (ht : t ∉ free) :
    inUseCountOf free t.pParent = inUseCountOf (t :: free) t.pParent + 1 := by
  unfold inUseCountOf
  apply countP_flip (List.nodup_range 4) (List.mem_range.2 hi)
  · intro i _ hne
    have : (⟨t.pParent, i⟩ : SCXLNX_COARSE_PAGE_TABLE) ≠ t := by
      intro h; apply hne; rw [← h]
    simp [List.mem_cons, this]
  · simpa using ht
  · simp

theorem poolInv_init : PoolInv SCXLNXInitializeCoarsePageTableAllocator := by
  refine ⟨?_, ?_, ?_, ?_, ?_⟩ <;>
    simp [SCXLNXInitializeCoarsePageTableAllocator, RefCountsExact]

theorem poolInv_push {s : SCXLNX_COARSE_PAGE_TABLE_ALLOCATION_CONTEXT}
    (h : PoolInv s) {t : SCXLNX_COARSE_PAGE_TABLE} (hu : inUse s t)
    {a : SCXLNX_COARSE_PAGE_TABLE_ARRAY}
    (hfind : findArray t.pParent s.sCoarsePageTableArrays = some a) :
    1 ≤ a.nReferenceCount ∧ a.nReferenceCount ≤ 4 ∧
    PoolInv
      { s with
        sCoarsePageTableArrays :=
          setReferenceCount a.id (dec32 a.nReferenceCount) s.sCoarsePageTableArrays,
        sFreeCoarsePageTables := t :: s.sFreeCoarsePageTables } := by
  obtain ⟨hn, hf, hfm, hrc, hlt⟩ := h
  obtain ⟨hi, _, hnot⟩ := hu
  obtain ⟨hmem, hid⟩ := findArray_some hfind
  have hstep := inUseCountOf_cons_self hi hnot
  have hrca : a.nReferenceCount = inUseCountOf s.sFreeCoarsePageTables t.pParent := by
    rw [hrc a hmem, inUseCount_eq, hid]
  have hle := inUseCountOf_le s.sFreeCoarsePageTables t.pParent
  have hdec : dec32 a.nReferenceCount =
      inUseCountOf (t :: s.sFreeCoarsePageTables) t.pParent := by
    unfold dec32; omega
  refine ⟨by omega, by omega, ?_, List.nodup_cons.2 ⟨hnot, hf⟩, ?_, ?_, ?_⟩
  · show ((setReferenceCount _ _ _).map _).Nodup
    rw [map_id_setReferenceCount]; exact hn
  · intro t1 ht1
    show _ ∧ _ ∈ (setReferenceCount _ _ _).map _
    rw [map_id_setReferenceCount]
    rcases List.mem_cons.1 ht1 with h1 | h1
    · subst h1
      exact ⟨hi, by rw [← hid]; exact List.mem_map.2 ⟨a, hmem, rfl⟩⟩
    · exact hfm t1 h1
  · intro b hb
    have hb1 := mem_setReferenceCount_nodup hn hb
    show b.nReferenceCount = inUseCountOf (t :: s.sFreeCoarsePageTables) b.id
    by_cases hbid : b.id = a.id
    · rw [hb1.1 hbid, hdec, hbid, hid]
    · have hb2 := hb1.2 hbid
      rw [inUseCountOf_cons_of_ne _ (by rw [← hid]; exact fun h => hbid h.symm)]
      exact hrc b hb2
  · intro b hb
    obtain ⟨c, hc, hcid, _⟩ := mem_setReferenceCount hb
    show b.id < s.nextId
    rw [hcid]; exact hlt c hc

theorem delSiblings_spec (t : SCXLNX_COARSE_PAGE_TABLE) (is : List Nat) :
    ∀ (free : List SCXLNX_COARSE_PAGE_TABLE), free.Nodup →
      (delSiblings t is free).Nodup ∧
      ∀ x, x ∈ delSiblings t is free ↔
        x ∈ free ∧ ¬ (x.pParent = t.pParent ∧ x.index ∈ is ∧ x ≠ t) := by
  induction is with
  | nil =>
    intro free hf
    exact ⟨hf, fun x => by simp [delSiblings]⟩
  | cons i is ih =>
    intro free hf
    unfold delSiblings
    by_cases hy : (⟨t.pParent, i⟩ : SCXLNX_COARSE_PAGE_TABLE) ≠ t
    · rw [if_pos hy]
      obtain ⟨h1, h2⟩ := ih (free.erase ⟨t.pParent, i⟩) (hf.erase _)
      refine ⟨h1, fun x => ?_⟩
      rw [h2 x, hf.mem_erase_iff]
      constructor
      · rintro ⟨⟨hne, hm⟩, hrest⟩
        refine ⟨hm, ?_⟩
        rintro ⟨hp, hi, hxt⟩
        rcases List.mem_cons.1 hi with hi | hi
        · apply hne
          cases x
          simp only [SCXLNX_COARSE_PAGE_TABLE.mk.injEq]
          exact ⟨hp, hi⟩
        · exact hrest ⟨hp, hi, hxt⟩
      · rintro ⟨hm, hrest⟩
        refine ⟨⟨?_, hm⟩, ?_⟩
        · intro hx
          apply hrest
          subst hx
          exact ⟨rfl, List.mem_cons_self _ _, hy⟩
        · rintro ⟨hp, hi, hxt⟩
          exact hrest ⟨hp, List.mem_cons_of_mem _ hi, hxt⟩
    · rw [if_neg hy]
      obtain ⟨h1, h2⟩ := ih free hf
      refine ⟨h1, fun x => ?_⟩
      rw [h2 x]
      have hyt : (⟨t.pParent, i⟩ : SCXLNX_COARSE_PAGE_TABLE) = t := not_not.1 hy
      constructor
      · rintro ⟨hm, hrest⟩
        refine ⟨hm, ?_⟩
        rintro ⟨hp, hi, hxt⟩
        rcases List.mem_cons.1 hi with hi | hi
        · apply hxt
          rw [← hyt]
          cases x
          simp only [SCXLNX_COARSE_PAGE_TABLE.mk.injEq]
          exact ⟨hp, hi⟩
        · exact hrest ⟨hp, hi, hxt⟩
      · rintro ⟨hm, hrest⟩
        refine ⟨hm, ?_⟩
        rintro ⟨hp, hi, hxt⟩
        exact hrest ⟨hp, List.mem_cons_of_mem _ hi, hxt⟩

theorem others_on_free_list {free : List SCXLNX_COARSE_PAGE_TABLE} {id j : Nat}
    (hone : inUseCountOf free id = 1) (hj : j < 4)
    (hnot : (⟨id, j⟩ : SCXLNX_COARSE_PAGE_TABLE) ∉ free) :
    ∀ i, i < 4 → i ≠ j → (⟨id, i⟩ : SCXLNX_COARSE_PAGE_TABLE) ∈ free := by
  intro i hi hij
  by_contra hmem
  have h1 := inUseCountOf_cons_self (t := ⟨id, j⟩) hj hnot
  simp only at h1
  rw [hone] at h1
  have h0 : inUseCountOf (⟨id, j⟩ :: free) id = 0 := by omega
  unfold inUseCountOf at h0
  rw [List.countP_eq_zero] at h0
  have := h0 i (List.mem_range.2 hi)
  apply this
  simp only [List.mem_cons, decide_eq_true_eq, not_or]
  refine ⟨fun h => hij ?_, hmem⟩
  exact (SCXLNX_COARSE_PAGE_TABLE.mk.injEq _ _ _ _ ▸ h).2

theorem poisonedSibling_eq_false {ctx : SCXLNX_COARSE_PAGE_TABLE_ALLOCATION_CONTEXT}
    {t : SCXLNX_COARSE_PAGE_TABLE}
    (h : ∀ i, i < 4 → i ≠ t.index →
      (⟨t.pParent, i⟩ : SCXLNX_COARSE_PAGE_TABLE) ∈ ctx.sFreeCoarsePageTables) :
    poisonedSibling ctx t = false := by
  unfold poisonedSibling
  rw [List.any_eq_false]
  intro i hi
  simp only [decide_eq_true_eq, not_and]
  intro hne hnot
  exfalso
  apply hnot
  apply h i
  · simp only [List.mem_cons, List.mem_singleton, List.not_mem_nil, or_false] at hi
    omega
  · intro hit
    apply hne
    rw [hit]

/-- In a state satisfying the reference-count invariant, a release that
brings the count of a page to zero finds every sibling of the released table
on the free list: no `list_del` of the whole-page branch meets poisoned
pointers. -/
theorem poisonedSibling_of_inv {s : SCXLNX_COARSE_PAGE_TABLE_ALLOCATION_CONTEXT}
    (h : PoolInv s) {t : SCXLNX_COARSE_PAGE_TABLE} (hu : inUse s t)
    {a : SCXLNX_COARSE_PAGE_TABLE_ARRAY}
    (hfind : findArray t.pParent s.sCoarsePageTableArrays = some a)
    (hz : dec32 a.nReferenceCount = 0) : poisonedSibling s t = false := by
  obtain ⟨h1, h4, _⟩ := poolInv_push h hu hfind
  obtain ⟨hmem, hid⟩ := findArray_some hfind
  have hrc : a.nReferenceCount = 1 := by
    unfold dec32 at hz
    omega
  have hone : inUseCountOf s.sFreeCoarsePageTables t.pParent = 1 := by
    rw [← hrc, h.2.2.2.1 a hmem, inUseCount_eq, hid]
  exact poisonedSibling_eq_false (others_on_free_list hone hu.1 hu.2.2)

theorem poolInv_free {s : SCXLNX_COARSE_PAGE_TABLE_ALLOCATION_CONTEXT}
    (h : PoolInv s) {t : SCXLNX_COARSE_PAGE_TABLE} (hu : inUse s t) (nForce : Nat) :
    PoolInv (SCXLNXFreeCoarsePageTable s t nForce) := by
  unfold SCXLNXFreeCoarsePageTable
  cases hfind : findArray t.pParent s.sCoarsePageTableArrays with
  | none => exact h
  | some a =>
    simp only
    have hpush := (poolInv_push h hu hfind).2.2
    obtain ⟨hmem, hid⟩ := findArray_some hfind
    by_cases hz : dec32 a.nReferenceCount = 0
    · rw [if_pos hz]
      by_cases hpre : a.nType = SCXLNX_PAGE_DESCRIPTOR_TYPE_PREALLOCATED ∧ nForce = 0
      · rw [if_pos hpre]; exact hpush
      · rw [if_neg hpre, poisonedSibling_of_inv h hu hfind hz]
        simp only [Bool.false_eq_true, if_false]
        obtain ⟨hn, hf, hfm, hrc, hlt⟩ := h
        obtain ⟨hi, _, hnot⟩ := hu
        obtain ⟨hd1, hd2⟩ := delSiblings_spec t [0, 1, 2, 3] _ hf
        have hfind2 : findArray a.id s.sCoarsePageTableArrays = some a := by
          rw [hid]; exact hfind
        have hmemfree : ∀ x, x ∈ delSiblings t [0, 1, 2, 3] s.sFreeCoarsePageTables ↔
            x ∈ s.sFreeCoarsePageTables ∧ x.pParent ≠ a.id := by
          intro x
          rw [hd2 x, hid]
          constructor
          · rintro ⟨hm, hrest⟩
            refine ⟨hm, fun hp => hrest ⟨hp, ?_, fun hx => hnot (hx ▸ hm)⟩⟩
            have := (hfm x hm).1
            simp only [List.mem_cons, List.mem_singleton]
            omega
          · rintro ⟨hm, hp⟩
            exact ⟨hm, fun hh => hp hh.1⟩
        obtain ⟨hdn, hdnot⟩ := nodup_ids_delArray hfind2 hn
        refine ⟨hdn, hd1, ?_, ?_, fun b hb => hlt b (mem_delArray hb)⟩
        · intro x hx
          have hx1 := (hmemfree x).1 hx
          exact ⟨(hfm x hx1.1).1, (mem_ids_delArray hfind2 hx1.2).2 (hfm x hx1.1).2⟩
        · intro b hb
          have hbne : b.id ≠ a.id := fun hh =>
            hdnot (List.mem_map.2 ⟨b, hb, hh⟩)
          show b.nReferenceCount = inUseCountOf _ b.id
          rw [hrc b (mem_delArray hb), inUseCount_eq]
          apply inUseCountOf_congr
          intro i _
          rw [hmemfree]
          exact ⟨fun hm => ⟨hm, hbne⟩, fun hm => hm.1⟩
    · rw [if_neg hz]; exact hpush

theorem poolInv_allocate {s : SCXLNX_COARSE_PAGE_TABLE_ALLOCATION_CONTEXT}
    (h : PoolInv s) (nType : Nat) (kmalloc : Option Nat) (getPage : Bool)
    (hk : kmalloc = none ∨ kmalloc = some 0) :
    PoolInv (SCXLNXAllocateCoarsePageTable s nType kmalloc getPage).2 := by
  obtain ⟨hn, hf, hfm, hrc, hlt⟩ := h
  unfold SCXLNXAllocateCoarsePageTable
  cases hfree : s.sFreeCoarsePageTables with
  | cons t rest =>
    simp only
    rw [hfree] at hf hfm
    have ht := hfm t (List.mem_cons_self _ _)
    rw [List.nodup_cons] at hf
    cases hfind : findArray t.pParent s.sCoarsePageTableArrays with
    | none =>
      have := (findArray_isSome_iff t.pParent _).2 ht.2
      rw [hfind] at this
      cases this
    | some a =>
      obtain ⟨hmem, hid⟩ := findArray_some hfind
      have hstep := inUseCountOf_cons_self ht.1 hf.1
      have hrca : a.nReferenceCount = inUseCountOf (t :: rest) t.pParent := by
        rw [hrc a hmem, inUseCount_eq, hid, hfree]
      have hle := inUseCountOf_le rest t.pParent
      have hinc : inc32 a.nReferenceCount = inUseCountOf rest t.pParent := by
        unfold inc32; omega
      refine ⟨?_, hf.2, ?_, ?_, ?_⟩
      · show ((setReferenceCount _ _ _).map _).Nodup
        rw [map_id_setReferenceCount]; exact hn
      · intro t1 ht1
        show _ ∧ _ ∈ (setReferenceCount _ _ _).map _
        rw [map_id_setReferenceCount]
        exact hfm t1 (List.mem_cons_of_mem _ ht1)
      · intro b hb
        have hb1 := mem_setReferenceCount_nodup hn hb
        show b.nReferenceCount = inUseCountOf rest b.id
        by_cases hbid : b.id = t.pParent
        · rw [hb1.1 hbid, hinc, hbid]
        · have hb2 := hrc b (hb1.2 hbid)
          rw [inUseCount_eq, hfree,
            inUseCountOf_cons_of_ne _ (fun hh => hbid hh.symm)] at hb2
          exact hb2
      · intro b hb
        obtain ⟨c, hc, hcid, _⟩ := mem_setReferenceCount hb
        show b.id < s.nextId
        rw [hcid]; exact hlt c hc
  | nil =>
    simp only
    have hold : PoolInv s := ⟨hn, hf, hfm, hrc, hlt⟩
    rcases hk with hk | hk
    · subst hk; exact hold
    · subst hk
      by_cases hg : getPage = true
      · simp only [hg, if_true]
        have hfresh : s.nextId ∉ s.sCoarsePageTableArrays.map (fun a => a.id) := by
          intro hm
          obtain ⟨b, hb, hbid⟩ := List.mem_map.1 hm
          have := hlt b hb
          omega
        refine ⟨List.nodup_cons.2 ⟨hfresh, hn⟩, ?_, ?_, ?_, ?_⟩
        · show ([⟨s.nextId, 3⟩, ⟨s.nextId, 2⟩, ⟨s.nextId, 1⟩] :
              List SCXLNX_COARSE_PAGE_TABLE).Nodup
          simp
        · intro x hx
          have hx1 : x ∈ ([⟨s.nextId, 3⟩, ⟨s.nextId, 2⟩, ⟨s.nextId, 1⟩] :
              List SCXLNX_COARSE_PAGE_TABLE) := hx
          simp only [List.mem_cons, List.mem_singleton, List.not_mem_nil, or_false] at hx1
          show x.index < 4 ∧ x.pParent ∈ List.map (fun a => a.id) (_ :: s.sCoarsePageTableArrays)
          rcases hx1 with hx1 | hx1 | hx1 <;> subst hx1 <;> simp
        · intro b hb
          rcases List.mem_cons.1 hb with hb | hb
          · subst hb
            show inc32 0 = inUseCountOf [⟨s.nextId, 3⟩, ⟨s.nextId, 2⟩, ⟨s.nextId, 1⟩] s.nextId
            unfold inUseCountOf inc32
            simp [List.range_succ]
          · have hne : b.id ≠ s.nextId := by have := hlt b hb; omega
            show b.nReferenceCount =
              inUseCountOf [⟨s.nextId, 3⟩, ⟨s.nextId, 2⟩, ⟨s.nextId, 1⟩] b.id
            rw [hrc b hb, inUseCount_eq, hfree]
            apply inUseCountOf_congr
            intro i _
            simp [hne]
        · intro b hb
          rcases List.mem_cons.1 hb with hb | hb
          · subst hb; exact Nat.lt_succ_self _
          · exact Nat.lt_succ_of_lt (hlt b hb)
      · simp only [hg]
        exact hold

theorem poolInv_run (ops : List PoolOp) :
    ∀ {s s1 : SCXLNX_COARSE_PAGE_TABLE_ALLOCATION_CONTEXT}, PoolInv s →
      ZeroedRecords ops → runPool s ops = some s1 → PoolInv s1 := by
  induction ops with
  | nil => intro s s1 h _ hr; simp [runPool] at hr; subst hr; exact h
  | cons op ops ih =>
    intro s s1 h hz hr
    cases op with
    | acquire nType kmalloc getPage =>
      rw [runPool] at hr
      split at hr
      · cases hr
      · exact ih (poolInv_allocate h nType kmalloc getPage hz.1) hz.2 hr
    | release t nForce =>
      rw [runPool] at hr
      by_cases hu : inUse s t
      · rw [if_pos hu] at hr
        split at hr
        · cases hr
        · exact ih (poolInv_free h hu nForce) hz hr
      · rw [if_neg hu] at hr; cases hr

/-- In a state satisfying the reference-count invariant an acquire does not
fault: the table at the head of the free list belongs to a tracked record. -/
theorem allocate_no_fault {s : SCXLNX_COARSE_PAGE_TABLE_ALLOCATION_CONTEXT}
    (h : PoolInv s) (hf : s.fault = false) (nType : Nat) (kmalloc : Option Nat)
    (getPage : Bool) :
    (SCXLNXAllocateCoarsePageTable s nType kmalloc getPage).2.fault = false := by
  unfold SCXLNXAllocateCoarsePageTable
  cases hfree : s.sFreeCoarsePageTables with
  | cons t rest =>
    simp only
    have ht := h.2.2.1 t (by rw [hfree]; exact List.mem_cons_self _ _)
    have hsome := (findArray_isSome_iff t.pParent _).2 ht.2
    cases hfind : findArray t.pParent s.sCoarsePageTableArrays with
    | none => rw [hfind] at hsome; cases hsome
    | some a => simp [hf]
  | nil =>
    simp only
    cases kmalloc with
    | none => exact hf
    | some r =>
      by_cases hg : getPage = true
      · simp only [hg, if_true]; exact hf
      · simp only [hg]; exact hf

/-- In a state satisfying the reference-count invariant the release of a
table in use does not fault. -/
theorem free_no_fault {s : SCXLNX_COARSE_PAGE_TABLE_ALLOCATION_CONTEXT}
    (h : PoolInv s) (hf : s.fault = false) {t : SCXLNX_COARSE_PAGE_TABLE}
    (hu : inUse s t) (nForce : Nat) :
    (SCXLNXFreeCoarsePageTable s t nForce).fault = false := by
  unfold SCXLNXFreeCoarsePageTable
  cases hfind : findArray t.pParent s.sCoarsePageTableArrays with
  | none =>
    have := hu.2.1
    rw [hfind] at this
    cases this
  | some a =>
    simp only
    by_cases hz : dec32 a.nReferenceCount = 0
    · rw [if_pos hz]
      by_cases hpre : a.nType = SCXLNX_PAGE_DESCRIPTOR_TYPE_PREALLOCATED ∧ nForce = 0
      · rw [if_pos hpre]; exact hf
      · rw [if_neg hpre, poisonedSibling_of_inv h hu hfind hz]
        exact hf
    · rw [if_neg hz]; exact hf

/-- When every page record arrives with a zero count field, a sequence of
calls on a state satisfying the reference-count invariant stops before its
end only at a release that names a table not in use: no call faults. -/
theorem run_of_zeroed_records_stops_only_at_release (ops : List PoolOp) :
    ∀ {s : SCXLNX_COARSE_PAGE_TABLE_ALLOCATION_CONTEXT}, PoolInv s → s.fault = false →
      ZeroedRecords ops → runPool s ops = none →
      ∃ pre t nForce rest s1, ops = pre ++ PoolOp.release t nForce :: rest ∧
        runPool s pre = some s1 ∧ ¬ inUse s1 t := by
  induction ops with
  | nil => intro s _ _ _ hr; simp [runPool] at hr
  | cons op ops ih =>
    intro s h hf hz hr
    cases op with
    | acquire nType kmalloc getPage =>
      have hnf := allocate_no_fault h hf nType kmalloc getPage
      rw [runPool, hnf] at hr
      simp only [Bool.false_eq_true, if_false] at hr
      obtain ⟨pre, t, nForce, rest, s1, h1, h2, h3⟩ :=
        ih (poolInv_allocate h nType kmalloc getPage hz.1) hnf hz.2 hr
      refine ⟨PoolOp.acquire nType kmalloc getPage :: pre, t, nForce, rest, s1, ?_, ?_, h3⟩
      · rw [h1]; rfl
      · rw [runPool, hnf]
        simp only [Bool.false_eq_true, if_false]
        exact h2
    | release t nForce =>
      by_cases hu : inUse s t
      · have hnf := free_no_fault h hf hu nForce
        rw [runPool, if_pos hu, hnf] at hr
        simp only [Bool.false_eq_true, if_false] at hr
        obtain ⟨pre, t1, nForce1, rest, s1, h1, h2, h3⟩ :=
          ih (poolInv_free h hu nForce) hnf hz hr
        refine ⟨PoolOp.release t nForce :: pre, t1, nForce1, rest, s1, ?_, ?_, h3⟩
        · rw [h1]; rfl
        · rw [runPool, if_pos hu, hnf]
          simp only [Bool.false_eq_true, if_false]
          exact h2
      · exact ⟨[], t, nForce, ops, s, rfl, rfl, hu⟩

theorem totalInUse_le (s : SCXLNX_COARSE_PAGE_TABLE_ALLOCATION_CONTEXT) :
    totalInUse s ≤ 4 * s.sCoarsePageTableArrays.length := by
  unfold totalInUse
  generalize s.sCoarsePageTableArrays = l
  induction l with
  | nil => simp
  | cons a rest ih =>
    simp only [List.map_cons, List.sum_cons, List.length_cons]
    have := inUseCountOf_le s.sFreeCoarsePageTables a.id
    rw [← inUseCount_eq] at this
    omega

/-- When every page record arrives from the slab allocator with a zero
reference count field, any sequence of acquire and release calls on an
initially empty allocator (each release naming a coarse page table in use)
leaves every reference count equal to the number of tables of the record in
use, and at most four tables in use per tracked record. -/
theorem refcounts_exact_of_zeroed_records (ops : List PoolOp) (hz : ZeroedRecords ops)
    (s : SCXLNX_COARSE_PAGE_TABLE_ALLOCATION_CONTEXT)
    (h : runPool SCXLNXInitializeCoarsePageTableAllocator ops = some s) :
    RefCountsExact s ∧ totalInUse s ≤ 4 * s.sCoarsePageTableArrays.length :=
  ⟨(poolInv_run ops poolInv_init hz h).2.2.2.1, totalInUse_le s⟩

/-- C1, evaluated on the code: a single acquire on the empty allocator, the
slab allocator returning a record whose reference count field reads 1,
leaves one tracked record with reference count 2 although exactly one of its
four tables is in use. -/
theorem refcount_not_initialised :
    runPool SCXLNXInitializeCoarsePageTableAllocator
        [.acquire SCXLNX_PAGE_DESCRIPTOR_TYPE_NORMAL (some 1) true] =
      some
        { sCoarsePageTableArrays := [⟨0, 0, 2, some 0⟩],
          sFreeCoarsePageTables := [⟨0, 3⟩, ⟨0, 2⟩, ⟨0, 1⟩],
          nextId := 1, allocated := [0], freed := [] } ∧
    inUseCount
        { sCoarsePageTableArrays := [⟨0, 0, 2, some 0⟩],
          sFreeCoarsePageTables := [⟨0, 3⟩, ⟨0, 2⟩, ⟨0, 1⟩],
          nextId := 1, allocated := [0], freed := [] } 0 = 1 ∧
    ¬ RefCountsExact
        { sCoarsePageTableArrays := [⟨0, 0, 2, some 0⟩],
          sFreeCoarsePageTables := [⟨0, 3⟩, ⟨0, 2⟩, ⟨0, 1⟩],
          nextId := 1, allocated := [0], freed := [] } := by
  refine ⟨by decide, by decide, ?_⟩
  intro h
  have := h ⟨0, 0, 2, some 0⟩ (List.mem_cons_self _ _)
  revert this
  decide

/-! ## Coarse page table allocator: single calls -/

theorem findArray_setReferenceCount_same {id rc : Nat}
    {l : List SCXLNX_COARSE_PAGE_TABLE_ARRAY} {a : SCXLNX_COARSE_PAGE_TABLE_ARRAY}
    (h : findArray id l = some a) :
    findArray id (setReferenceCount id rc l) = some { a with nReferenceCount := rc } := by
  induction l with
  | nil => simp [findArray] at h
  | cons b rest ih =>
    unfold findArray at h
    unfold setReferenceCount
    by_cases hb : b.id = id
    · rw [if_pos hb] at h
      cases h
      rw [if_pos hb]
      unfold findArray
      rw [if_pos hb]
    · rw [if_neg hb] at h
      rw [if_neg hb]
      unfold findArray
      rw [if_neg hb]
      exact ih h

theorem findArray_setReferenceCount_ne {id id1 rc : Nat} (hne : id1 ≠ id)
    (l : List SCXLNX_COARSE_PAGE_TABLE_ARRAY) :
    findArray id1 (setReferenceCount id rc l) = findArray id1 l := by
  induction l with
  | nil => rfl
  | cons b rest ih =>
    unfold setReferenceCount
    by_cases hb : b.id = id
    · rw [if_pos hb]
      have h1 : ¬ b.id = id1 := fun h => hne (h.symm.trans hb)
      simp [findArray, h1]
    · rw [if_neg hb]
      unfold findArray
      by_cases h1 : b.id = id1
      · rw [if_pos h1, if_pos h1]
      · rw [if_neg h1, if_neg h1]
        exact ih

theorem allocate_shape_pop {ctx : SCXLNX_COARSE_PAGE_TABLE_ALLOCATION_CONTEXT}
    {t : SCXLNX_COARSE_PAGE_TABLE} {rest : List SCXLNX_COARSE_PAGE_TABLE}
    {a : SCXLNX_COARSE_PAGE_TABLE_ARRAY}
    (hfree : ctx.sFreeCoarsePageTables = t :: rest)
    (hfind : findArray t.pParent ctx.sCoarsePageTableArrays = some a)
    (nType : Nat) (kmalloc : Option Nat) (getPage : Bool) :
    SCXLNXAllocateCoarsePageTable ctx nType kmalloc getPage =
      (some t, { ctx with
        sFreeCoarsePageTables := rest,
        sCoarsePageTableArrays :=
          setReferenceCount t.pParent (inc32 a.nReferenceCount)
            ctx.sCoarsePageTableArrays,
        unlinked := t :: ctx.unlinked }) := by
  unfold SCXLNXAllocateCoarsePageTable
  rw [hfree]
  simp only [hfind, Option.isNone_some, Bool.or_false]

theorem allocate_shape_fail {ctx : SCXLNX_COARSE_PAGE_TABLE_ALLOCATION_CONTEXT}
    (hfree : ctx.sFreeCoarsePageTables = [])
    {kmalloc : Option Nat} {getPage : Bool}
    (hfail : kmalloc = none ∨ getPage = false) (nType : Nat) :
    SCXLNXAllocateCoarsePageTable ctx nType kmalloc getPage = (none, ctx) := by
  unfold SCXLNXAllocateCoarsePageTable
  rw [hfree]
  cases kmalloc with
  | none => rfl
  | some r =>
    rcases hfail with h | h
    · cases h
    · subst h
      rfl

theorem allocate_shape_new {ctx : SCXLNX_COARSE_PAGE_TABLE_ALLOCATION_CONTEXT}
    (hfree : ctx.sFreeCoarsePageTables = []) (nType r : Nat) :
    SCXLNXAllocateCoarsePageTable ctx nType (some r) true =
      (some ⟨ctx.nextId, 0⟩,
        { ctx with
          sFreeCoarsePageTables := [⟨ctx.nextId, 3⟩, ⟨ctx.nextId, 2⟩, ⟨ctx.nextId, 1⟩],
          sCoarsePageTableArrays :=
            ⟨ctx.nextId, nType, inc32 r, some ctx.nextId⟩ :: ctx.sCoarsePageTableArrays,
          nextId := ctx.nextId + 1,
          allocated := ctx.nextId :: ctx.allocated }) := by
  unfold SCXLNXAllocateCoarsePageTable
  rw [hfree]
  rfl

/-- With a page record that arrives zeroed, an acquire on an empty free list
adds one tracked record of the requested type with reference count 1,
returns its table 0 and leaves exactly its tables 3, 2, 1 on the free list;
the records tracked before stay as they were, behind the new one. -/
theorem allocate_new_page_of_zeroed (ctx : SCXLNX_COARSE_PAGE_TABLE_ALLOCATION_CONTEXT)
    (nType : Nat) (hfree : ctx.sFreeCoarsePageTables = []) :
    SCXLNXAllocateCoarsePageTable ctx nType (some 0) true =
      (some ⟨ctx.nextId, 0⟩,
        { ctx with
          sFreeCoarsePageTables := [⟨ctx.nextId, 3⟩, ⟨ctx.nextId, 2⟩, ⟨ctx.nextId, 1⟩],
          sCoarsePageTableArrays :=
            ⟨ctx.nextId, nType, 1, some ctx.nextId⟩ :: ctx.sCoarsePageTableArrays,
          nextId := ctx.nextId + 1,
          allocated := ctx.nextId :: ctx.allocated }) := by
  unfold SCXLNXAllocateCoarsePageTable
  rw [hfree]
  rfl

/-- C15, evaluated on the code: an acquire of a preallocated page on the
empty allocator, both allocations succeeding and the slab allocator returning
a record whose reference count field reads 7, tracks the new page, returns
its table 0 and puts its tables 3, 2, 1 on the free list, but leaves the new
page with reference count 8, not 1. -/
theorem allocate_new_page_refcount_garbage :
    SCXLNXInitializeCoarsePageTableAllocator.sFreeCoarsePageTables = [] ∧
    SCXLNXAllocateCoarsePageTable SCXLNXInitializeCoarsePageTableAllocator
        SCXLNX_PAGE_DESCRIPTOR_TYPE_PREALLOCATED (some 7) true =
      (some ⟨0, 0⟩,
        { sCoarsePageTableArrays := [⟨0, SCXLNX_PAGE_DESCRIPTOR_TYPE_PREALLOCATED, 8, some 0⟩],
          sFreeCoarsePageTables := [⟨0, 3⟩, ⟨0, 2⟩, ⟨0, 1⟩],
          nextId := 1, allocated := [0], freed := [] }) ∧
    (8 : Nat) ≠ 1 := by
  refine ⟨rfl, by decide, by decide⟩

/-- C16: when the free list is not empty, `SCXLNXAllocateCoarsePageTable`
returns the table at its head and removes exactly that table from it; the
record owning the table has its reference count incremented (by exactly 1
unless the 32-bit counter is at its maximum), every other record is found
unchanged, the tracked records keep their identities and order, no page is
obtained or freed, and the requested type and the allocators play no part. -/
theorem allocate_pops_free_list (ctx : SCXLNX_COARSE_PAGE_TABLE_ALLOCATION_CONTEXT)
    (nType : Nat) (kmalloc : Option Nat) (getPage : Bool)
    (t : SCXLNX_COARSE_PAGE_TABLE) (rest : List SCXLNX_COARSE_PAGE_TABLE)
    (a : SCXLNX_COARSE_PAGE_TABLE_ARRAY)
    (hfree : ctx.sFreeCoarsePageTables = t :: rest)
    (hfind : findArray t.pParent ctx.sCoarsePageTableArrays = some a) :
    (SCXLNXAllocateCoarsePageTable ctx nType kmalloc getPage).1 = some t ∧
    (SCXLNXAllocateCoarsePageTable ctx nType kmalloc getPage).2.sFreeCoarsePageTables
      = rest ∧
    findArray t.pParent
        (SCXLNXAllocateCoarsePageTable ctx nType kmalloc getPage).2.sCoarsePageTableArrays
      = some { a with nReferenceCount := inc32 a.nReferenceCount } ∧
    (a.nReferenceCount + 1 < 2 ^ 32 → inc32 a.nReferenceCount = a.nReferenceCount + 1) ∧
    (∀ id, id ≠ t.pParent →
      findArray id
          (SCXLNXAllocateCoarsePageTable ctx nType kmalloc getPage).2.sCoarsePageTableArrays
        = findArray id ctx.sCoarsePageTableArrays) ∧
    (SCXLNXAllocateCoarsePageTable ctx nType kmalloc getPage).2.sCoarsePageTableArrays.map
        (fun b => b.id) = ctx.sCoarsePageTableArrays.map (fun b => b.id) ∧
    (SCXLNXAllocateCoarsePageTable ctx nType kmalloc getPage).2.allocated = ctx.allocated ∧
    (SCXLNXAllocateCoarsePageTable ctx nType kmalloc getPage).2.freed = ctx.freed ∧
    (SCXLNXAllocateCoarsePageTable ctx nType kmalloc getPage).2.nextId = ctx.nextId ∧
    (∀ nType1 kmalloc1 getPage1,
      SCXLNXAllocateCoarsePageTable ctx nType1 kmalloc1 getPage1 =
        SCXLNXAllocateCoarsePageTable ctx nType kmalloc getPage) := by
  have hall := allocate_shape_pop hfree hfind
  rw [hall nType kmalloc getPage]
  refine ⟨rfl, rfl, findArray_setReferenceCount_same hfind, ?_, ?_,
    map_id_setReferenceCount _ _ _, rfl, rfl, rfl, fun n1 k1 g1 => hall n1 k1 g1⟩
  · intro h
    unfold inc32
    exact Nat.mod_eq_of_lt h
  · intro id hid
    exact findArray_setReferenceCount_ne hid _

/-- C16, evaluated: after one page has been set up, a second acquire returns
the head `⟨0, 3⟩` of the free list and the page's count goes from 1 to 2. -/
theorem allocate_pops_free_list_witness :
    (SCXLNXAllocateCoarsePageTable
      { sCoarsePageTableArrays := [⟨0, 0, 1, some 0⟩],
        sFreeCoarsePageTables := [⟨0, 3⟩, ⟨0, 2⟩, ⟨0, 1⟩],
        nextId := 1, allocated := [0], freed := [] } 1 none false).1 = some ⟨0, 3⟩ ∧
    findArray 0
      (SCXLNXAllocateCoarsePageTable
        { sCoarsePageTableArrays := [⟨0, 0, 1, some 0⟩],
          sFreeCoarsePageTables := [⟨0, 3⟩, ⟨0, 2⟩, ⟨0, 1⟩],
          nextId := 1, allocated := [0], freed := [] } 1 none false).2.sCoarsePageTableArrays
      = some ⟨0, 0, 2, some 0⟩ :=
  have h := allocate_pops_free_list
    { sCoarsePageTableArrays := [⟨0, 0, 1, some 0⟩],
      sFreeCoarsePageTables := [⟨0, 3⟩, ⟨0, 2⟩, ⟨0, 1⟩],
      nextId := 1, allocated := [0], freed := [] } 1 none false ⟨0, 3⟩ [⟨0, 2⟩, ⟨0, 1⟩]
    ⟨0, 0, 1, some 0⟩ rfl (by decide)
  ⟨h.1, h.2.2.1⟩

/-- C17: with an empty free list, when the allocation of the page record or
the allocation of the page fails, `SCXLNXAllocateCoarsePageTable` returns no
table and the whole allocation context (tracked records, free list and page
log) is exactly as before the call. -/
theorem allocate_failure_atomic (ctx : SCXLNX_COARSE_PAGE_TABLE_ALLOCATION_CONTEXT)
    (nType : Nat) (kmalloc : Option Nat) (getPage : Bool)
    (hfree : ctx.sFreeCoarsePageTables = [])
    (hfail : kmalloc = none ∨ getPage = false) :
    SCXLNXAllocateCoarsePageTable ctx nType kmalloc getPage = (none, ctx) :=
  allocate_shape_fail hfree hfail nType

/-- C17, evaluated: on the empty allocator a failing page allocation (the
record having been obtained) returns no table and changes nothing. -/
theorem allocate_failure_atomic_witness :
    SCXLNXInitializeCoarsePageTableAllocator.sFreeCoarsePageTables = [] ∧
    SCXLNXAllocateCoarsePageTable SCXLNXInitializeCoarsePageTableAllocator 0 (some 5) false
      = (none, SCXLNXInitializeCoarsePageTableAllocator) :=
  ⟨rfl, allocate_failure_atomic SCXLNXInitializeCoarsePageTableAllocator 0 (some 5) false
    rfl (Or.inr rfl)⟩

theorem free_shape_push {ctx : SCXLNX_COARSE_PAGE_TABLE_ALLOCATION_CONTEXT}
    {t : SCXLNX_COARSE_PAGE_TABLE} {nForce : Nat} {a : SCXLNX_COARSE_PAGE_TABLE_ARRAY}
    (hfind : findArray t.pParent ctx.sCoarsePageTableArrays = some a)
    (h : dec32 a.nReferenceCount ≠ 0 ∨
      (a.nType = SCXLNX_PAGE_DESCRIPTOR_TYPE_PREALLOCATED ∧ nForce = 0)) :
    SCXLNXFreeCoarsePageTable ctx t nForce =
      { ctx with
        sCoarsePageTableArrays :=
          setReferenceCount a.id (dec32 a.nReferenceCount) ctx.sCoarsePageTableArrays,
        sFreeCoarsePageTables := t :: ctx.sFreeCoarsePageTables,
        unlinked := ctx.unlinked.filter fun x => decide (x ≠ t) } := by
  unfold SCXLNXFreeCoarsePageTable
  rw [hfind]
  simp only
  by_cases hz : dec32 a.nReferenceCount = 0
  · rw [if_pos hz]
    rcases h with h | h
    · exact absurd hz h
    · rw [if_pos h]
  · rw [if_neg hz]

theorem free_shape_page {ctx : SCXLNX_COARSE_PAGE_TABLE_ALLOCATION_CONTEXT}
    {t : SCXLNX_COARSE_PAGE_TABLE} {nForce : Nat} {a : SCXLNX_COARSE_PAGE_TABLE_ARRAY}
    (hfind : findArray t.pParent ctx.sCoarsePageTableArrays = some a)
    (hz : dec32 a.nReferenceCount = 0)
    (h : ¬ (a.nType = SCXLNX_PAGE_DESCRIPTOR_TYPE_PREALLOCATED ∧ nForce = 0))
    (hps : poisonedSibling ctx t = false) :
    SCXLNXFreeCoarsePageTable ctx t nForce =
      { ctx with
        sFreeCoarsePageTables :=
          delSiblings t [0, 1, 2, 3] ctx.sFreeCoarsePageTables,
        sCoarsePageTableArrays := delArray a.id ctx.sCoarsePageTableArrays,
        freed :=
          match a.pDescriptors0 with
          | some p => p :: ctx.freed
          | none => ctx.freed,
        unlinked := ctx.unlinked.filter fun x => decide (x.pParent ≠ t.pParent) } := by
  unfold SCXLNXFreeCoarsePageTable
  rw [hfind]
  simp only
  rw [if_pos hz, if_neg h, hps]
  simp only [Bool.false_eq_true, if_false]

theorem mem_delArray_iff {id : Nat} {l : List SCXLNX_COARSE_PAGE_TABLE_ARRAY}
    {a : SCXLNX_COARSE_PAGE_TABLE_ARRAY} (h : findArray id l = some a)
    (hn : (l.map (fun a => a.id)).Nodup) (b : SCXLNX_COARSE_PAGE_TABLE_ARRAY) :
    b ∈ delArray id l ↔ b ∈ l ∧ b.id ≠ id := by
  induction l with
  | nil => simp [findArray] at h
  | cons c rest ih =>
    rw [List.map_cons, List.nodup_cons] at hn
    unfold findArray at h
    unfold delArray
    by_cases hc : c.id = id
    · rw [if_pos hc]
      constructor
      · intro hb
        refine ⟨List.mem_cons_of_mem _ hb, fun hid => hn.1 ?_⟩
        exact List.mem_map.2 ⟨b, hb, hid.trans hc.symm⟩
      · rintro ⟨hb, hid⟩
        rcases List.mem_cons.1 hb with hb | hb
        · subst hb; exact absurd hc hid
        · exact hb
    · rw [if_neg hc] at h
      rw [if_neg hc, List.mem_cons, List.mem_cons, ih h hn.2]
      constructor
      · rintro (hb | ⟨hb, hid⟩)
        · subst hb; exact ⟨Or.inl rfl, hc⟩
        · exact ⟨Or.inr hb, hid⟩
      · rintro ⟨hb | hb, hid⟩
        · exact Or.inl hb
        · exact Or.inr ⟨hb, hid⟩

/-- C18: in an allocator state satisfying the reference-count invariant,
releasing without force the only table in use of a page tagged preallocated
keeps the page record tracked with reference count 0, hands no page to
`internal_free_page`, pushes the released table on the free list, and leaves
all four tables of the page on the free list. -/
theorem free_last_of_preallocated (ctx : SCXLNX_COARSE_PAGE_TABLE_ALLOCATION_CONTEXT)
    (t : SCXLNX_COARSE_PAGE_TABLE) (a : SCXLNX_COARSE_PAGE_TABLE_ARRAY)
    (hinv : PoolInv ctx) (hu : inUse ctx t)
    (hfind : findArray t.pParent ctx.sCoarsePageTableArrays = some a)
    (hpre : a.nType = SCXLNX_PAGE_DESCRIPTOR_TYPE_PREALLOCATED)
    (hone : inUseCount ctx t.pParent = 1) :
    a.nReferenceCount = 1 ∧
    findArray t.pParent (SCXLNXFreeCoarsePageTable ctx t 0).sCoarsePageTableArrays =
      some { a with nReferenceCount := 0 } ∧
    (SCXLNXFreeCoarsePageTable ctx t 0).sCoarsePageTableArrays.map (fun b => b.id) =
      ctx.sCoarsePageTableArrays.map (fun b => b.id) ∧
    (SCXLNXFreeCoarsePageTable ctx t 0).freed = ctx.freed ∧
    (SCXLNXFreeCoarsePageTable ctx t 0).sFreeCoarsePageTables =
      t :: ctx.sFreeCoarsePageTables ∧
    (∀ i, i < 4 → (⟨t.pParent, i⟩ : SCXLNX_COARSE_PAGE_TABLE) ∈
      (SCXLNXFreeCoarsePageTable ctx t 0).sFreeCoarsePageTables) ∧
    inUseCount (SCXLNXFreeCoarsePageTable ctx t 0) t.pParent = 0 := by
  obtain ⟨hmem, hid⟩ := findArray_some hfind
  have hrc : a.nReferenceCount = 1 := by
    rw [hinv.2.2.2.1 a hmem, hid]; exact hone
  have hdec : dec32 a.nReferenceCount = 0 := by rw [hrc]; decide
  have hshape : SCXLNXFreeCoarsePageTable ctx t 0 =
      { ctx with
        sCoarsePageTableArrays := setReferenceCount t.pParent 0 ctx.sCoarsePageTableArrays,
        sFreeCoarsePageTables := t :: ctx.sFreeCoarsePageTables,
        unlinked := ctx.unlinked.filter fun x => decide (x ≠ t) } := by
    rw [free_shape_push hfind (Or.inr ⟨hpre, rfl⟩), hdec, hid]
  rw [hshape]
  have hall : ∀ i, i < 4 → (⟨t.pParent, i⟩ : SCXLNX_COARSE_PAGE_TABLE) ∈
      t :: ctx.sFreeCoarsePageTables := by
    intro i hi
    by_cases hij : i = t.index
    · subst hij; exact List.mem_cons_self _ _
    · exact List.mem_cons_of_mem _ (others_on_free_list hone hu.1 hu.2.2 i hi hij)
  refine ⟨hrc, findArray_setReferenceCount_same hfind, map_id_setReferenceCount _ _ _,
    rfl, rfl, hall, ?_⟩
  show inUseCountOf (t :: ctx.sFreeCoarsePageTables) t.pParent = 0
  unfold inUseCountOf
  rw [List.countP_eq_zero]
  intro i hi
  simp only [decide_eq_true_eq, not_not]
  exact hall i (List.mem_range.1 hi)

/-- C18, evaluated: a preallocated page with only its table 0 in use; after
the release without force the page is still tracked with count 0 and its
four tables are on the free list. -/
theorem free_last_of_preallocated_witness :
    inUse (SCXLNXAllocateCoarsePageTable SCXLNXInitializeCoarsePageTableAllocator
      SCXLNX_PAGE_DESCRIPTOR_TYPE_PREALLOCATED (some 0) true).2 ⟨0, 0⟩ ∧
    (SCXLNXFreeCoarsePageTable
      (SCXLNXAllocateCoarsePageTable SCXLNXInitializeCoarsePageTableAllocator
        SCXLNX_PAGE_DESCRIPTOR_TYPE_PREALLOCATED (some 0) true).2 ⟨0, 0⟩ 0)
      = { sCoarsePageTableArrays := [⟨0, 1, 0, some 0⟩],
          sFreeCoarsePageTables := [⟨0, 0⟩, ⟨0, 3⟩, ⟨0, 2⟩, ⟨0, 1⟩],
          nextId := 1, allocated := [0], freed := [] } ∧
    findArray 0 (SCXLNXFreeCoarsePageTable
      (SCXLNXAllocateCoarsePageTable SCXLNXInitializeCoarsePageTableAllocator
        SCXLNX_PAGE_DESCRIPTOR_TYPE_PREALLOCATED (some 0) true).2 ⟨0, 0⟩
        0).sCoarsePageTableArrays = some ⟨0, 1, 0, some 0⟩ :=
  ⟨by decide, by decide,
    (free_last_of_preallocated
      (SCXLNXAllocateCoarsePageTable SCXLNXInitializeCoarsePageTableAllocator
        SCXLNX_PAGE_DESCRIPTOR_TYPE_PREALLOCATED (some 0) true).2 ⟨0, 0⟩ ⟨0, 1, 1, some 0⟩
      (poolInv_allocate poolInv_init _ _ _ (Or.inr rfl)) (by decide) (by decide) rfl
      (by decide)).2.1⟩

theorem delSiblings_mem_of_inv {free : List SCXLNX_COARSE_PAGE_TABLE}
    {t : SCXLNX_COARSE_PAGE_TABLE} (hf : free.Nodup)
    (hidx : ∀ x ∈ free, x.index < 4) (hnot : t ∉ free) (x : SCXLNX_COARSE_PAGE_TABLE) :
    x ∈ delSiblings t [0, 1, 2, 3] free ↔ x ∈ free ∧ x.pParent ≠ t.pParent := by
  rw [(delSiblings_spec t [0, 1, 2, 3] free hf).2 x]
  constructor
  · rintro ⟨hm, hrest⟩
    refine ⟨hm, fun hp => hrest ⟨hp, ?_, fun hx => hnot (hx ▸ hm)⟩⟩
    have := hidx x hm
    simp only [List.mem_cons, List.mem_singleton]
    omega
  · rintro ⟨hm, hp⟩
    exact ⟨hm, fun hh => hp hh.1⟩

/-- C19: in an allocator state satisfying the reference-count invariant,
`SCXLNXFreeCoarsePageTable` on a table in use behaves as follows.  When the
table is the only one of its page in use and the page is not preallocated or
the release is forced, the page is handed to `internal_free_page`, its record
leaves the tracked list (the other records stay), none of its tables is on
the free list afterwards, and the free-list entries of other pages are the
same as before.  When other tables of the page are in use, the released
table is pushed on the free list, the page's count drops by one, and every
other record, the tracked identities and the page log are unchanged. -/
theorem free_last_of_dynamic_or_forced
    (ctx : SCXLNX_COARSE_PAGE_TABLE_ALLOCATION_CONTEXT)
    (t : SCXLNX_COARSE_PAGE_TABLE) (a : SCXLNX_COARSE_PAGE_TABLE_ARRAY) (nForce : Nat)
    (hinv : PoolInv ctx) (hacc : PagesAccounted ctx) (hu : inUse ctx t)
    (hfind : findArray t.pParent ctx.sCoarsePageTableArrays = some a) :
    (inUseCount ctx t.pParent = 1 →
      ¬ (a.nType = SCXLNX_PAGE_DESCRIPTOR_TYPE_PREALLOCATED ∧ nForce = 0) →
      (SCXLNXFreeCoarsePageTable ctx t nForce).freed = t.pParent :: ctx.freed ∧
      findArray t.pParent (SCXLNXFreeCoarsePageTable ctx t nForce).sCoarsePageTableArrays
        = none ∧
      (∀ b, b ∈ (SCXLNXFreeCoarsePageTable ctx t nForce).sCoarsePageTableArrays ↔
        b ∈ ctx.sCoarsePageTableArrays ∧ b.id ≠ t.pParent) ∧
      (∀ i, (⟨t.pParent, i⟩ : SCXLNX_COARSE_PAGE_TABLE) ∉
        (SCXLNXFreeCoarsePageTable ctx t nForce).sFreeCoarsePageTables) ∧
      (∀ x : SCXLNX_COARSE_PAGE_TABLE, x.pParent ≠ t.pParent →
        (x ∈ (SCXLNXFreeCoarsePageTable ctx t nForce).sFreeCoarsePageTables ↔
          x ∈ ctx.sFreeCoarsePageTables)) ∧
      (SCXLNXFreeCoarsePageTable ctx t nForce).sFreeCoarsePageTables.Sublist
        ctx.sFreeCoarsePageTables) ∧
    (1 < inUseCount ctx t.pParent →
      (SCXLNXFreeCoarsePageTable ctx t nForce).sFreeCoarsePageTables =
        t :: ctx.sFreeCoarsePageTables ∧
      findArray t.pParent (SCXLNXFreeCoarsePageTable ctx t nForce).sCoarsePageTableArrays
        = some { a with nReferenceCount := a.nReferenceCount - 1 } ∧
      (∀ id, id ≠ t.pParent →
        findArray id (SCXLNXFreeCoarsePageTable ctx t nForce).sCoarsePageTableArrays
          = findArray id ctx.sCoarsePageTableArrays) ∧
      (SCXLNXFreeCoarsePageTable ctx t nForce).sCoarsePageTableArrays.map (fun b => b.id)
        = ctx.sCoarsePageTableArrays.map (fun b => b.id) ∧
      (SCXLNXFreeCoarsePageTable ctx t nForce).freed = ctx.freed ∧
      (SCXLNXFreeCoarsePageTable ctx t nForce).allocated = ctx.allocated ∧
      (SCXLNXFreeCoarsePageTable ctx t nForce).nextId = ctx.nextId) := by
  obtain ⟨hmem, hid⟩ := findArray_some hfind
  have hps := poisonedSibling_of_inv hinv hu hfind
  obtain ⟨hn, hf, hfm, hrc, _⟩ := hinv
  have hrca : a.nReferenceCount = inUseCount ctx t.pParent := by
    rw [hrc a hmem, hid]
  have hle : inUseCount ctx t.pParent ≤ 4 := inUseCountOf_le _ _
  constructor
  · intro hone hnot
    have hdec : dec32 a.nReferenceCount = 0 := by rw [hrca, hone]; decide
    have hpd : a.pDescriptors0 = some t.pParent := by
      rw [hacc.2.1 a hmem, hid]
    have hshape : SCXLNXFreeCoarsePageTable ctx t nForce =
        { ctx with
          sFreeCoarsePageTables := delSiblings t [0, 1, 2, 3] ctx.sFreeCoarsePageTables,
          sCoarsePageTableArrays := delArray t.pParent ctx.sCoarsePageTableArrays,
          freed := t.pParent :: ctx.freed,
          unlinked := ctx.unlinked.filter fun x => decide (x.pParent ≠ t.pParent) } := by
      rw [free_shape_page hfind hdec hnot (hps hdec), hpd, hid]
    rw [hshape]
    have hmf := delSiblings_mem_of_inv hf (fun x hx => (hfm x hx).1) hu.2.2
    obtain ⟨_, hdnot⟩ := nodup_ids_delArray hfind hn
    refine ⟨rfl, ?_, fun b => mem_delArray_iff hfind hn b, fun i hi => ?_,
      fun x hx => ?_, ?_⟩
    · cases hfa : findArray t.pParent (delArray t.pParent ctx.sCoarsePageTableArrays) with
      | none => rfl
      | some c =>
        exfalso
        apply hdnot
        rw [← findArray_isSome_iff, hfa]
        rfl
    · exact ((hmf _).1 hi).2 rfl
    · exact ⟨fun h => ((hmf x).1 h).1, fun h => (hmf x).2 ⟨h, hx⟩⟩
    · show (delSiblings t [0, 1, 2, 3] ctx.sFreeCoarsePageTables).Sublist _
      unfold delSiblings delSiblings delSiblings delSiblings delSiblings
      repeat' split
      all_goals
        first
        | exact List.Sublist.refl _
        | exact List.erase_sublist _ _
        | exact (List.erase_sublist _ _).trans (List.erase_sublist _ _)
        | exact ((List.erase_sublist _ _).trans (List.erase_sublist _ _)).trans
            (List.erase_sublist _ _)
        | exact (((List.erase_sublist _ _).trans (List.erase_sublist _ _)).trans
            (List.erase_sublist _ _)).trans (List.erase_sublist _ _)
  · intro hmany
    have hdec : dec32 a.nReferenceCount = a.nReferenceCount - 1 := by
      unfold dec32; omega
    have hne : dec32 a.nReferenceCount ≠ 0 := by rw [hdec]; omega
    have hshape : SCXLNXFreeCoarsePageTable ctx t nForce =
        { ctx with
          sCoarsePageTableArrays :=
            setReferenceCount t.pParent (a.nReferenceCount - 1) ctx.sCoarsePageTableArrays,
          sFreeCoarsePageTables := t :: ctx.sFreeCoarsePageTables,
          unlinked := ctx.unlinked.filter fun x => decide (x ≠ t) } := by
      rw [free_shape_push hfind (Or.inl hne), hdec, hid]
    rw [hshape]
    exact ⟨rfl, findArray_setReferenceCount_same hfind,
      fun id hne1 => findArray_setReferenceCount_ne hne1 _,
      map_id_setReferenceCount _ _ _, rfl, rfl, rfl⟩

/-- C19, evaluated: a dynamic page with only its table 0 in use is released
and freed; the tracked list and the free list are empty afterwards. -/
theorem free_last_of_dynamic_or_forced_witness :
    inUse (SCXLNXAllocateCoarsePageTable SCXLNXInitializeCoarsePageTableAllocator
      SCXLNX_PAGE_DESCRIPTOR_TYPE_NORMAL (some 0) true).2 ⟨0, 0⟩ ∧
    (SCXLNXFreeCoarsePageTable
      (SCXLNXAllocateCoarsePageTable SCXLNXInitializeCoarsePageTableAllocator
        SCXLNX_PAGE_DESCRIPTOR_TYPE_NORMAL (some 0) true).2 ⟨0, 0⟩ 0)
      = { sCoarsePageTableArrays := [], sFreeCoarsePageTables := [],
          nextId := 1, allocated := [0], freed := [0] } ∧
    (SCXLNXFreeCoarsePageTable
      (SCXLNXAllocateCoarsePageTable SCXLNXInitializeCoarsePageTableAllocator
        SCXLNX_PAGE_DESCRIPTOR_TYPE_NORMAL (some 0) true).2 ⟨0, 0⟩ 0).freed
      = (⟨0, 0⟩ : SCXLNX_COARSE_PAGE_TABLE).pParent ::
        (SCXLNXAllocateCoarsePageTable SCXLNXInitializeCoarsePageTableAllocator
          SCXLNX_PAGE_DESCRIPTOR_TYPE_NORMAL (some 0) true).2.freed :=
  ⟨by decide, by decide,
    ((free_last_of_dynamic_or_forced
      (SCXLNXAllocateCoarsePageTable SCXLNXInitializeCoarsePageTableAllocator
        SCXLNX_PAGE_DESCRIPTOR_TYPE_NORMAL (some 0) true).2 ⟨0, 0⟩ ⟨0, 0, 1, some 0⟩ 0
      (poolInv_allocate poolInv_init _ _ _ (Or.inr rfl))
      (pagesAccounted_allocate pagesAccounted_init _ _ _) (by decide) (by decide)).1
        (by decide) (by decide)).1⟩

/-! ## Coarse page table allocator: ownership of the tables -/

theorem ownershipInv_init :
    OwnershipInv ⟨SCXLNXInitializeCoarsePageTableAllocator, []⟩ := by
  refine ⟨?_, ?_, ?_, ?_, ?_, ?_⟩ <;> simp [SCXLNXInitializeCoarsePageTableAllocator]

theorem ownershipInv_acquire {s : OwnedPool} (h : OwnershipInv s)
    (nType : Nat) (kmalloc : Option Nat) (getPage : Bool) :
    OwnershipInv
      { ctx := (SCXLNXAllocateCoarsePageTable s.ctx nType kmalloc getPage).2,
        owned :=
          match (SCXLNXAllocateCoarsePageTable s.ctx nType kmalloc getPage).1 with
          | some t => t :: s.owned
          | none => s.owned } := by
  obtain ⟨hn, hf, hfm, hlt, hon, hom⟩ := h
  cases hfree : s.ctx.sFreeCoarsePageTables with
  | cons t rest =>
    rw [hfree] at hf hfm hom
    have ht := hfm t (List.mem_cons_self _ _)
    rw [List.nodup_cons] at hf
    obtain ⟨a, hfind⟩ := Option.isSome_iff_exists.1
      ((findArray_isSome_iff t.pParent _).2 ht.2)
    rw [allocate_shape_pop hfree hfind]
    have h6 := map_id_setReferenceCount t.pParent (inc32 a.nReferenceCount)
      s.ctx.sCoarsePageTableArrays
    refine ⟨?_, hf.2, ?_, ?_, ?_, ?_⟩
    · show (List.map _ (setReferenceCount _ _ _)).Nodup
      rw [h6]; exact hn
    · intro x hx
      show _ ∧ _ ∈ List.map _ (setReferenceCount _ _ _)
      rw [h6]
      exact hfm x (List.mem_cons_of_mem _ hx)
    · intro b hb
      obtain ⟨c, hc, hcid, _⟩ := mem_setReferenceCount hb
      show b.id < s.ctx.nextId
      rw [hcid]
      exact hlt c hc
    · show (t :: s.owned).Nodup
      exact List.nodup_cons.2 ⟨fun hm => (hom t hm).1 (List.mem_cons_self _ _), hon⟩
    · intro x hx
      have hx1 : x ∈ t :: s.owned := hx
      show x ∉ rest ∧ x.pParent < s.ctx.nextId ∧ _
      rcases List.mem_cons.1 hx1 with hx2 | hx2
      · subst hx2
        obtain ⟨c, hc, hcid⟩ := List.mem_map.1 ht.2
        exact ⟨hf.1, by rw [← hcid]; exact hlt c hc, ht.1⟩
      · have := hom x hx2
        exact ⟨fun hm => this.1 (List.mem_cons_of_mem _ hm), this.2⟩
  | nil =>
    by_cases hok : kmalloc = none ∨ getPage = false
    · rw [allocate_shape_fail hfree hok]
      exact ⟨hn, hf, hfm, hlt, hon, hom⟩
    · obtain ⟨r, hr⟩ : ∃ r, kmalloc = some r := by
        cases kmalloc with
        | none => exact absurd (Or.inl rfl) hok
        | some r => exact ⟨r, rfl⟩
      have hg : getPage = true := by
        cases getPage with
        | false => exact absurd (Or.inr rfl) hok
        | true => rfl
      subst hr hg
      rw [allocate_shape_new hfree]
      have hfresh : s.ctx.nextId ∉ s.ctx.sCoarsePageTableArrays.map (fun a => a.id) := by
        intro hm
        obtain ⟨b, hb, hbid⟩ := List.mem_map.1 hm
        have := hlt b hb
        omega
      refine ⟨List.nodup_cons.2 ⟨hfresh, hn⟩, ?_, ?_, ?_, ?_, ?_⟩
      · show ([⟨s.ctx.nextId, 3⟩, ⟨s.ctx.nextId, 2⟩, ⟨s.ctx.nextId, 1⟩] :
            List SCXLNX_COARSE_PAGE_TABLE).Nodup
        simp
      · intro x hx
        have hx1 : x ∈ ([⟨s.ctx.nextId, 3⟩, ⟨s.ctx.nextId, 2⟩, ⟨s.ctx.nextId, 1⟩] :
            List SCXLNX_COARSE_PAGE_TABLE) := hx
        simp only [List.mem_cons, List.mem_singleton, List.not_mem_nil, or_false] at hx1
        show x.index < 4 ∧ x.pParent ∈ List.map (fun a => a.id)
          (_ :: s.ctx.sCoarsePageTableArrays)
        rcases hx1 with hx1 | hx1 | hx1 <;> subst hx1 <;> simp
      · intro b hb
        rcases List.mem_cons.1 hb with hb | hb
        · subst hb; exact Nat.lt_succ_self _
        · exact Nat.lt_succ_of_lt (hlt b hb)
      · show (⟨s.ctx.nextId, 0⟩ :: s.owned).Nodup
        refine List.nodup_cons.2 ⟨fun hm => ?_, hon⟩
        have := (hom _ hm).2.1
        simp at this
      · intro x hx
        have hx1 : x ∈ (⟨s.ctx.nextId, 0⟩ : SCXLNX_COARSE_PAGE_TABLE) :: s.owned := hx
        show x ∉ ([⟨s.ctx.nextId, 3⟩, ⟨s.ctx.nextId, 2⟩, ⟨s.ctx.nextId, 1⟩] :
            List SCXLNX_COARSE_PAGE_TABLE) ∧ x.pParent < s.ctx.nextId + 1 ∧ x.index < 4
        rcases List.mem_cons.1 hx1 with hx2 | hx2
        · subst hx2; simp
        · have := hom x hx2
          refine ⟨?_, by omega, this.2.2⟩
          simp only [List.mem_cons, List.mem_singleton, List.not_mem_nil, or_false]
          rintro (h1 | h1 | h1) <;> subst h1 <;> simp at this

/-- C3, evaluated on the code: a fresh registered mapping (no coarse page
table yet), an empty allocator, and a one-page user buffer whose page is
pinned and then found to be shared device memory.  The call returns
`-EFAULT`; the allocator then has one coarse page table in use where it had
none, and the page pinned by the call still carries its reference. -/
theorem fill_error_keeps_table_and_pin :
    shmemDesc0.nNumberOfCoarsePageTables = 0 ∧
    (SCXLNXCommFillDescriptorTable mapConfig0 mapEnv0 mapState0 shmemDesc0
      0x10000 (fun _ => 0) 4096 true 0).nError = -EFAULT ∧
    IS_STRONGLY_ORDERED_OR_DEVICE_MEM
      ((SCXLNXCommFillDescriptorTable mapConfig0 mapEnv0 mapState0 shmemDesc0
        0x10000 (fun _ => 0) 4096 true 0).st.descriptors ⟨0, 0⟩ 0) = true ∧
    (SCXLNXCommFillDescriptorTable mapConfig0 mapEnv0 mapState0 shmemDesc0
        0x10000 (fun _ => 0) 4096 true 0).st.descriptors ⟨0, 0⟩ 0 &&& L2_TEX_C_B_MASK
      = L2_TEX_C_B_SHARED_DEVICE ∧
    totalInUse mapState0.ctx = 0 ∧
    totalInUse (SCXLNXCommFillDescriptorTable mapConfig0 mapEnv0 mapState0 shmemDesc0
      0x10000 (fun _ => 0) 4096 true 0).st.ctx = 1 ∧
    mapState0.pageRefs 16 = 0 ∧
    (SCXLNXCommFillDescriptorTable mapConfig0 mapEnv0 mapState0 shmemDesc0
      0x10000 (fun _ => 0) 4096 true 0).st.pageRefs 16 = 1 := by
  refine ⟨rfl, by decide, by decide, by decide, by decide, by decide, rfl, by decide⟩

/-! ## Release of a mapping: what it leaves alone -/

theorem releasePages_frame (mc : MapConfig) (table : Nat → Nat) :
    ∀ (n i : Nat) (f : Bool) (st : MapState),
      (releasePages mc table n i f st).ctx = st.ctx ∧
      (releasePages mc table n i f st).descriptors = st.descriptors ∧
      ∀ p, (releasePages mc table n i f st).pageRefs p ≤ st.pageRefs p := by
  intro n
  induction n with
  | zero => intro i f st; exact ⟨rfl, rfl, fun _ => le_refl _⟩
  | succ n ih =>
    intro i f st
    unfold releasePages
    simp only
    by_cases hd : table i ≠ L2_DESCRIPTOR_FAULT
    · rw [if_pos hd]
      obtain ⟨h1, h2, h3⟩ := ih (i + 1) true
        { st with
          pageDirty :=
            if mc.PageReserved (SCXLNXCommL2PageDescriptorToPage mc (table i)) then
              st.pageDirty
            else Function.update st.pageDirty
              (SCXLNXCommL2PageDescriptorToPage mc (table i)) true,
          pageRefs := Function.update st.pageRefs
            (SCXLNXCommL2PageDescriptorToPage mc (table i))
            (st.pageRefs (SCXLNXCommL2PageDescriptorToPage mc (table i)) - 1) }
      refine ⟨h1, h2, fun p => (h3 p).trans ?_⟩
      show Function.update st.pageRefs _ _ p ≤ st.pageRefs p
      by_cases hp : p = SCXLNXCommL2PageDescriptorToPage mc (table i)
      · subst hp; rw [Function.update_same]; omega
      · rw [Function.update_noteq hp]
    · rw [if_neg hd]
      by_cases hf : f = true
      · rw [if_pos hf]; exact ⟨rfl, rfl, fun _ => le_refl _⟩
      · rw [if_neg hf]; exact ih (i + 1) f st

theorem free_keeps_log (ctx : SCXLNX_COARSE_PAGE_TABLE_ALLOCATION_CONTEXT)
    (t : SCXLNX_COARSE_PAGE_TABLE) (nForce : Nat) :
    (SCXLNXFreeCoarsePageTable ctx t nForce).allocated = ctx.allocated ∧
    (SCXLNXFreeCoarsePageTable ctx t nForce).nextId = ctx.nextId := by
  unfold SCXLNXFreeCoarsePageTable
  cases findArray t.pParent ctx.sCoarsePageTableArrays with
  | none => exact ⟨rfl, rfl⟩
  | some a =>
    simp only
    split
    · split
      · exact ⟨rfl, rfl⟩
      · split <;> exact ⟨rfl, rfl⟩
    · exact ⟨rfl, rfl⟩

/-- The calls of `SCXLNXFreeCoarsePageTable` made by a release that gives the
tables of indices `i, .., i + n - 1` back. -/
theorem releaseCoarsePages_frame (mc : MapConfig) (pShmemDesc : SCXLNX_SHMEM_DESC)
    (nFullCleanup : Nat) :
    ∀ (n i : Nat) (st : MapState),
      (releaseCoarsePages mc pShmemDesc nFullCleanup n i st).descriptors = st.descriptors ∧
      (∀ p, (releaseCoarsePages mc pShmemDesc nFullCleanup n i st).pageRefs p
        ≤ st.pageRefs p) ∧
      (releaseCoarsePages mc pShmemDesc nFullCleanup n i st).ctx.allocated
        = st.ctx.allocated ∧
      (releaseCoarsePages mc pShmemDesc nFullCleanup n i st).ctx.nextId = st.ctx.nextId ∧
      ((pShmemDesc.nType = mc.SCXLNX_SHMEM_TYPE_REGISTERED_SHMEM ∨ nFullCleanup ≠ 0) →
        (releaseCoarsePages mc pShmemDesc nFullCleanup n i st).ctx =
          (List.range' i n).foldl
            (fun c k => SCXLNXFreeCoarsePageTable c (pShmemDesc.pCoarsePageTable k) 0)
            st.ctx) ∧
      (¬ (pShmemDesc.nType = mc.SCXLNX_SHMEM_TYPE_REGISTERED_SHMEM ∨ nFullCleanup ≠ 0) →
        (releaseCoarsePages mc pShmemDesc nFullCleanup n i st).ctx = st.ctx) := by
  intro n
  induction n with
  | zero =>
    intro i st
    exact ⟨rfl, fun _ => le_refl _, rfl, rfl, fun _ => rfl, fun _ => rfl⟩
  | succ n ih =>
    intro i st
    unfold releaseCoarsePages
    simp only
    obtain ⟨p1, p2, p3⟩ := releasePages_frame mc
      (st.descriptors (pShmemDesc.pCoarsePageTable i)) SCX_DESCRIPTOR_TABLE_CAPACITY 0
      false st
    by_cases hc : pShmemDesc.nType = mc.SCXLNX_SHMEM_TYPE_REGISTERED_SHMEM ∨
        nFullCleanup ≠ 0
    · rw [if_pos hc]
      obtain ⟨h1, h2, h3, h4, h5, _⟩ := ih (i + 1)
        { releasePages mc (st.descriptors (pShmemDesc.pCoarsePageTable i))
            SCX_DESCRIPTOR_TABLE_CAPACITY 0 false st with
          ctx := SCXLNXFreeCoarsePageTable
            (releasePages mc (st.descriptors (pShmemDesc.pCoarsePageTable i))
              SCX_DESCRIPTOR_TABLE_CAPACITY 0 false st).ctx
            (pShmemDesc.pCoarsePageTable i) 0 }
      have hk := free_keeps_log
        (releasePages mc (st.descriptors (pShmemDesc.pCoarsePageTable i))
          SCX_DESCRIPTOR_TABLE_CAPACITY 0 false st).ctx (pShmemDesc.pCoarsePageTable i) 0
      refine ⟨h1.trans p2, fun p => (h2 p).trans (p3 p), ?_, ?_,
        fun _ => ?_, fun hn => absurd hc hn⟩
      · rw [h3]; show (SCXLNXFreeCoarsePageTable _ _ 0).allocated = _
        rw [hk.1, p1]
      · rw [h4]; show (SCXLNXFreeCoarsePageTable _ _ 0).nextId = _
        rw [hk.2, p1]
      · rw [h5 hc, List.range'_succ, List.foldl_cons]
        show List.foldl _ (SCXLNXFreeCoarsePageTable _ _ 0) _ = _
        rw [p1]
    · rw [if_neg hc]
      obtain ⟨h1, h2, h3, h4, _, h6⟩ := ih (i + 1)
        (releasePages mc (st.descriptors (pShmemDesc.pCoarsePageTable i))
          SCX_DESCRIPTOR_TABLE_CAPACITY 0 false st)
      refine ⟨h1.trans p2, fun p => (h2 p).trans (p3 p), ?_, ?_,
        fun hn => absurd hn hc, fun _ => ?_⟩
      · rw [h3, p1]
      · rw [h4, p1]
      · rw [h6 hc, p1]

/-- C11 fails for kernel-space buffers.  With `bInUserSpace = false` and a
one-page buffer whose page is shared device memory (TEX=000, C=0, B=1) in
`init_mm`, `SCXLNXCommFillDescriptorTable` returns 0, reports one descriptor
and leaves in entry 0 of the coarse page table a descriptor for which
`IS_STRONGLY_ORDERED_OR_DEVICE_MEM` holds; the same page reached through
`current->mm` with `bInUserSpace = true` is rejected with `-EFAULT`. -/
theorem kernel_device_memory_accepted :
    (SCXLNXCommFillDescriptorTable mapConfigKernelDevice mapEnv0 mapState0 shmemDesc0
      0xD0000000 (fun _ => 0) 4096 false 2).nError = 0 ∧
    (SCXLNXCommFillDescriptorTable mapConfigKernelDevice mapEnv0 mapState0 shmemDesc0
      0xD0000000 (fun _ => 0) 4096 false 2).pnDescriptorCount = some 1 ∧
    (SCXLNXCommFillDescriptorTable mapConfigKernelDevice mapEnv0 mapState0 shmemDesc0
      0xD0000000 (fun _ => 0) 4096 false 2).st.descriptors ⟨0, 0⟩ 0 = 0xD0000037 ∧
    SCXLNXCommGetL2DescriptorCommon
      (mapConfigKernelDevice.kernelWalk
        (mapConfigKernelDevice.page_address (mapConfigKernelDevice.vmalloc_to_page 0xD0000000)))
      &&& L2_TEX_C_B_MASK = L2_TEX_C_B_SHARED_DEVICE ∧
    IS_STRONGLY_ORDERED_OR_DEVICE_MEM
      ((SCXLNXCommFillDescriptorTable mapConfigKernelDevice mapEnv0 mapState0 shmemDesc0
        0xD0000000 (fun _ => 0) 4096 false 2).st.descriptors ⟨0, 0⟩ 0) = true ∧
    (SCXLNXCommFillDescriptorTable mapConfig0 mapEnv0 mapState0 shmemDesc0
      0xD0000000 (fun _ => 0) 4096 true 2).nError = -EFAULT := by
  refine ⟨by decide, by decide, by decide, by decide, by decide, by decide⟩

/-- C12: when the page count of the buffer, alignment shift included, exceeds
`SCX_DESCRIPTOR_TABLE_CAPACITY * SCX_MAX_COARSE_PAGES`,
`SCXLNXCommFillDescriptorTable` returns `-ENOMEM`; the output array and the
two output words are not written; no page is handed out or created by the
allocator (its log of pages obtained and its page counter are unchanged, and
the allocator state is that of `SCXLNXCommReleaseSharedMemory` on the tables
the descriptor already had); no page reference is taken; the environment that
answers allocations and `get_user_pages` is not consulted; and for a
descriptor without tables the kernel state is unchanged. -/
theorem too_large_rejected (mc : MapConfig) (env : MapEnv) (st : MapState)
    (pShmemDesc : SCXLNX_SHMEM_DESC) (nBufferVAddr : Nat) (pDescriptors : Nat → Nat)
    (nBufferSize : Nat) (bInUserSpace : Bool) (nFlags : Nat)
    (hbig : add32 (pageCount nBufferVAddr nBufferSize)
        (if alignmentRestricted mc.info then DESCRIPTOR_V13_12_GET nBufferVAddr else 0)
      > SCX_DESCRIPTOR_TABLE_CAPACITY * mc.SCX_MAX_COARSE_PAGES) :
    (SCXLNXCommFillDescriptorTable mc env st pShmemDesc nBufferVAddr pDescriptors
      nBufferSize bInUserSpace nFlags).nError = -ENOMEM ∧
    (SCXLNXCommFillDescriptorTable mc env st pShmemDesc nBufferVAddr pDescriptors
      nBufferSize bInUserSpace nFlags).pDescriptors = pDescriptors ∧
    (SCXLNXCommFillDescriptorTable mc env st pShmemDesc nBufferVAddr pDescriptors
      nBufferSize bInUserSpace nFlags).pnDescriptorCount = none ∧
    (SCXLNXCommFillDescriptorTable mc env st pShmemDesc nBufferVAddr pDescriptors
      nBufferSize bInUserSpace nFlags).pBufferStartOffset = none ∧
    (SCXLNXCommFillDescriptorTable mc env st pShmemDesc nBufferVAddr pDescriptors
      nBufferSize bInUserSpace nFlags).st
      = (SCXLNXCommReleaseSharedMemory mc st pShmemDesc 0).1 ∧
    (SCXLNXCommFillDescriptorTable mc env st pShmemDesc nBufferVAddr pDescriptors
      nBufferSize bInUserSpace nFlags).st.ctx.allocated = st.ctx.allocated ∧
    (SCXLNXCommFillDescriptorTable mc env st pShmemDesc nBufferVAddr pDescriptors
      nBufferSize bInUserSpace nFlags).st.ctx.nextId = st.ctx.nextId ∧
    (SCXLNXCommFillDescriptorTable mc env st pShmemDesc nBufferVAddr pDescriptors
      nBufferSize bInUserSpace nFlags).st.descriptors = st.descriptors ∧
    (∀ p, (SCXLNXCommFillDescriptorTable mc env st pShmemDesc nBufferVAddr pDescriptors
      nBufferSize bInUserSpace nFlags).st.pageRefs p ≤ st.pageRefs p) ∧
    (∀ env1 : MapEnv,
      SCXLNXCommFillDescriptorTable mc env1 st pShmemDesc nBufferVAddr pDescriptors
        nBufferSize bInUserSpace nFlags =
      SCXLNXCommFillDescriptorTable mc env st pShmemDesc nBufferVAddr pDescriptors
        nBufferSize bInUserSpace nFlags) ∧
    (pShmemDesc.nNumberOfCoarsePageTables = 0 →
      (SCXLNXCommFillDescriptorTable mc env st pShmemDesc nBufferVAddr pDescriptors
        nBufferSize bInUserSpace nFlags).st = st) := by
  have hshape : ∀ env1 : MapEnv,
      SCXLNXCommFillDescriptorTable mc env1 st pShmemDesc nBufferVAddr pDescriptors
        nBufferSize bInUserSpace nFlags =
      { nError := -ENOMEM, st := (SCXLNXCommReleaseSharedMemory mc st pShmemDesc 0).1,
        pShmemDesc := (SCXLNXCommReleaseSharedMemory mc st pShmemDesc 0).2,
        pDescriptors := pDescriptors,
        pBufferStartOffset := none, pnDescriptorCount := none } := by
    intro env1
    unfold SCXLNXCommFillDescriptorTable
    simp only
    rw [if_pos hbig]
  obtain ⟨h1, h2, h3, h4, _, _⟩ := releaseCoarsePages_frame mc pShmemDesc 0
    pShmemDesc.nNumberOfCoarsePageTables 0 st
  rw [hshape env]
  refine ⟨rfl, rfl, rfl, rfl, rfl, h3, h4, h1, h2, fun env1 => hshape env1, fun h0 => ?_⟩
  show releaseCoarsePages mc pShmemDesc 0 pShmemDesc.nNumberOfCoarsePageTables 0 st = st
  rw [h0]
  rfl

/-- C12 at a concrete input: a buffer of `0x8001000` bytes (32769 pages) with
a pool of 128 coarse pages of 256 entries. -/
theorem too_large_rejected_witness :
    add32 (pageCount 0xD0000000 0x8001000)
        (if alignmentRestricted mapConfig0.info then DESCRIPTOR_V13_12_GET 0xD0000000 else 0)
      > SCX_DESCRIPTOR_TABLE_CAPACITY * mapConfig0.SCX_MAX_COARSE_PAGES ∧
    (SCXLNXCommFillDescriptorTable mapConfig0 mapEnv0 mapState0 shmemDesc0 0xD0000000
      (fun _ => 0) 0x8001000 true 2).nError = -ENOMEM ∧
    (SCXLNXCommFillDescriptorTable mapConfig0 mapEnv0 mapState0 shmemDesc0 0xD0000000
      (fun _ => 0) 0x8001000 true 2).st = mapState0 :=
  have h := too_large_rejected mapConfig0 mapEnv0 mapState0 shmemDesc0 0xD0000000
    (fun _ => 0) 0x8001000 true 2 (by decide)
  ⟨by decide, h.1, h.2.2.2.2.2.2.2.2.2.2 rfl⟩

/-! ## Map, then release -/

theorem mask_testBit_low (i : Nat) (h : i < 12) : L2_DESCRIPTOR_ADDR_MASK.testBit i = false := by
  interval_cases i <;> decide

theorem ite_lt_pow (c : Prop) [Decidable c] (v : Nat) (hv : v < 2 ^ 12) :
    (if c then v else 0) < 2 ^ 12 := by
  by_cases h : c
  · rw [if_pos h]; exact hv
  · rw [if_neg h]; decide

theorem common_lt (w : PageWalk) : SCXLNXCommGetL2DescriptorCommon w < 2 ^ 12 := by
  have hshift : ∀ x : Nat, ((x &&& 7) <<< 6) < 2 ^ 12 := by
    intro x
    have h7 : x &&& 7 ≤ 7 := Nat.and_le_right
    rw [Nat.shiftLeft_eq]
    omega
  cases w with
  | missing => decide
  | pmd pmd pte hwpte present =>
    show (if PMD_TYPE_SECT &&& pmd ≠ 0 then _ else _) < 2 ^ 12
    by_cases h1 : PMD_TYPE_SECT &&& pmd ≠ 0
    · rw [if_pos h1]
      exact Nat.or_lt_two_pow (Nat.or_lt_two_pow (Nat.or_lt_two_pow
        (ite_lt_pow _ _ (by decide)) (ite_lt_pow _ _ (by decide)))
        (ite_lt_pow _ _ (by decide))) (hshift _)
    · rw [if_neg h1]
      by_cases h2 : present = true
      · rw [if_pos h2]
        by_cases h3 : hwpte &&& L2_DESCRIPTOR_ADDR_MASK ≠ pte &&& L2_DESCRIPTOR_ADDR_MASK
        · rw [if_pos h3]; decide
        · rw [if_neg h3]
          exact Nat.or_lt_two_pow (Nat.or_lt_two_pow (Nat.or_lt_two_pow
            (ite_lt_pow _ _ (by decide)) (ite_lt_pow _ _ (by decide)))
            (ite_lt_pow _ _ (by decide))) (hshift _)
      · rw [if_neg h2]; decide

theorem descriptor_names_page (mc : MapConfig) (walk : Nat → PageWalk) (nFlags p : Nat)
    (hp : p ≠ 0) :
    SCXLNXCommGetL2PageDescriptor mc walk nFlags p ≠ L2_DESCRIPTOR_FAULT ∧
    SCXLNXCommGetL2PageDescriptor mc walk nFlags p &&& L2_DESCRIPTOR_ADDR_MASK =
      mc.page_to_phys p &&& L2_DESCRIPTOR_ADDR_MASK := by
  have hd : SCXLNXCommGetL2PageDescriptor mc walk nFlags p =
      L2_PAGE_DESCRIPTOR_BASE |||
        (mc.page_to_phys p &&& L2_DESCRIPTOR_ADDR_MASK) |||
        (if nFlags &&& mc.SCX_SHMEM_TYPE_WRITE = 0 then L2_PAGE_DESCRIPTOR_AP_APX_READ
         else L2_PAGE_DESCRIPTOR_AP_APX_READ_WRITE) |||
        SCXLNXCommGetL2DescriptorCommon (walk (mc.page_address p)) := by
    unfold SCXLNXCommGetL2PageDescriptor
    rw [if_neg (by simpa [L2_DESCRIPTOR_FAULT] using hp)]
  have hap : (if nFlags &&& mc.SCX_SHMEM_TYPE_WRITE = 0 then L2_PAGE_DESCRIPTOR_AP_APX_READ
         else L2_PAGE_DESCRIPTOR_AP_APX_READ_WRITE) < 2 ^ 12 := by
    exact (by by_cases h : nFlags &&& mc.SCX_SHMEM_TYPE_WRITE = 0
              · rw [if_pos h]; decide
              · rw [if_neg h]; decide)
  have hcm := common_lt (walk (mc.page_address p))
  rw [hd]
  constructor
  · intro h0
    have h1 := congrArg (fun x => Nat.testBit x 0) h0
    simp [Nat.testBit_or, L2_PAGE_DESCRIPTOR_BASE, L2_DESCRIPTOR_FAULT] at h1
  · apply Nat.eq_of_testBit_eq
    intro i
    simp only [Nat.testBit_and, Nat.testBit_or]
    by_cases hi : i < 12
    · rw [mask_testBit_low i hi]
      simp
    · have hpow : (2 : Nat) ^ 12 ≤ 2 ^ i := Nat.pow_le_pow_right (by decide) (by omega)
      have h3 : L2_PAGE_DESCRIPTOR_BASE.testBit i = false :=
        Nat.testBit_lt_two_pow (lt_of_lt_of_le (by decide) hpow)
      rw [h3, Nat.testBit_lt_two_pow (lt_of_lt_of_le hap hpow),
        Nat.testBit_lt_two_pow (lt_of_lt_of_le hcm hpow)]
      simp

theorem pagesReleased_refl (mc : MapConfig) (st : MapState) : PagesReleased mc [] st st := by
  refine ⟨rfl, fun p => by simp, fun p => by simp⟩

theorem pagesReleased_append {mc : MapConfig} {P Q : List Nat} {st st1 st2 : MapState}
    (h1 : PagesReleased mc P st st1) (h2 : PagesReleased mc Q st1 st2) :
    PagesReleased mc (P ++ Q) st st2 := by
  obtain ⟨a1, b1, c1⟩ := h1
  obtain ⟨a2, b2, c2⟩ := h2
  refine ⟨a2.trans a1, fun p => ?_, fun p => ?_⟩
  · rw [b2, b1, List.count_append]
    push_cast
    ring
  · rw [c2, c1]
    by_cases hP : p ∈ P <;> by_cases hQ : p ∈ Q <;>
      cases mc.PageReserved p <;> cases st.pageDirty p <;> simp [hP, hQ]

theorem pagesReleased_one (mc : MapConfig) (st : MapState) (page : Nat) :
    PagesReleased mc [page] st
      { st with
        pageDirty :=
          if mc.PageReserved page then st.pageDirty
          else Function.update st.pageDirty page true,
        pageRefs := Function.update st.pageRefs page (st.pageRefs page - 1) } := by
  refine ⟨rfl, fun p => ?_, fun p => ?_⟩
  · show Function.update st.pageRefs page (st.pageRefs page - 1) p = _
    by_cases hp : p = page
    · subst hp
      rw [Function.update_same]
      simp
    · rw [Function.update_noteq hp]
      have : List.count p [page] = 0 := by
        rw [List.count_eq_zero]
        simpa using hp
      rw [this]
      simp
  · show (if mc.PageReserved page then st.pageDirty
        else Function.update st.pageDirty page true) p = _
    by_cases hp : p = page
    · subst hp
      cases hr : mc.PageReserved p <;> simp
    · cases hr : mc.PageReserved page <;> simp [hp, Function.update_noteq hp]

theorem pagesReleased_ctx {mc : MapConfig} {P : List Nat} {st st1 : MapState}
    (h : PagesReleased mc P st st1) (c : SCXLNX_COARSE_PAGE_TABLE_ALLOCATION_CONTEXT) :
    PagesReleased mc P st { st1 with ctx := c } := h

/-- The scan of a table stops without releasing anything when only fault
descriptors are left. -/
theorem releasePages_fault (mc : MapConfig) (table : Nat → Nat) :
    ∀ (n i : Nat) (f : Bool) (st : MapState),
      (∀ j, i ≤ j → table j = L2_DESCRIPTOR_FAULT) →
      releasePages mc table n i f st = st := by
  intro n
  induction n with
  | zero => intro i f st _; rfl
  | succ n ih =>
    intro i f st h
    unfold releasePages
    simp only
    rw [if_neg (by simpa using h i (le_refl _))]
    by_cases hf : f = true
    · rw [if_pos hf]
    · rw [if_neg hf]
      exact ih (i + 1) f st (fun j hj => h j (by omega))

/-- The scan of a table skips the fault descriptors that come before the
first real entry. -/
theorem releasePages_skip (mc : MapConfig) (table : Nat → Nat) (n : Nat) :
    ∀ (m i : Nat) (st : MapState),
      (∀ k, k < m → table (i + k) = L2_DESCRIPTOR_FAULT) →
      releasePages mc table (m + n) i false st = releasePages mc table n (i + m) false st := by
  intro m
  induction m with
  | zero => intro i st _; simp
  | succ m ih =>
    intro i st h
    have h0 : table i = L2_DESCRIPTOR_FAULT := by simpa using h 0 (by omega)
    have hn : m + 1 + n = (m + n) + 1 := by omega
    have hstep : releasePages mc table (m + n + 1) i false st =
        releasePages mc table (m + n) (i + 1) false st := by
      rw [releasePages]
      simp only
      rw [if_neg (by simpa using h0), if_neg (by simp)]
    rw [hn, hstep]
    rw [ih (i + 1) st (fun k hk => by
      have := h (k + 1) (by omega)
      rwa [show i + (k + 1) = i + 1 + k by omega] at this)]
    rw [show i + 1 + m = i + (m + 1) by omega]

/-- The scan of a table releases the pages of a run of real entries and
stops at the fault descriptor that follows it. -/
theorem releasePages_run (mc : MapConfig) (table : Nat → Nat) :
    ∀ (P : List Nat) (n i : Nat) (f : Bool) (st : MapState),
      P.length ≤ n →
      (∀ k (hk : k < P.length),
        table (i + k) ≠ L2_DESCRIPTOR_FAULT ∧
        SCXLNXCommL2PageDescriptorToPage mc (table (i + k)) = P.get ⟨k, hk⟩) →
      (∀ j, i + P.length ≤ j → table j = L2_DESCRIPTOR_FAULT) →
      PagesReleased mc P st (releasePages mc table n i f st) := by
  intro P
  induction P with
  | nil =>
    intro n i f st _ _ hz
    rw [releasePages_fault mc table n i f st (fun j hj => hz j (by simpa using hj))]
    exact pagesReleased_refl mc st
  | cons p P ih =>
    intro n i f st hlen hrun hz
    cases n with
    | zero => simp at hlen
    | succ n =>
      obtain ⟨h0, hp0⟩ := hrun 0 (by simp)
      simp only [Nat.add_zero] at h0 hp0
      unfold releasePages
      simp only
      rw [if_pos h0]
      have hp0 : SCXLNXCommL2PageDescriptorToPage mc (table i) = p := by simpa using hp0
      rw [hp0]
      have hrest := ih n (i + 1) true
        { st with
          pageDirty :=
            if mc.PageReserved p then st.pageDirty
            else Function.update st.pageDirty p true,
          pageRefs := Function.update st.pageRefs p (st.pageRefs p - 1) }
        (by simpa using hlen)
        (fun k hk => by
          have := hrun (k + 1) (by simpa using hk)
          rw [show i + (k + 1) = i + 1 + k by omega] at this
          simpa using this)
        (fun j hj => hz j (by simp only [List.length_cons]; omega))
      exact pagesReleased_append (pagesReleased_one mc st p) hrest

/-- The scan of a table that holds a packed run releases exactly the pages
of the run. -/
theorem releasePages_packed {mc : MapConfig} {table : Nat → Nat} {lo : Nat} {P : List Nat}
    (h : Packed mc table lo P) (st : MapState) :
    PagesReleased mc P st
      (releasePages mc table SCX_DESCRIPTOR_TABLE_CAPACITY 0 false st) := by
  obtain ⟨hfit, hlow, hrun, hz⟩ := h
  have hsplit : SCX_DESCRIPTOR_TABLE_CAPACITY = lo + (SCX_DESCRIPTOR_TABLE_CAPACITY - lo) := by
    omega
  rw [hsplit, releasePages_skip mc table _ lo 0 st (fun k hk => by simpa using hlow k hk)]
  exact releasePages_run mc table P _ (0 + lo) false st (by omega)
    (fun k hk => by simpa using hrun k hk) (fun j hj => hz j (by omega))

theorem pagesPinned_refl (st : MapState) : PagesPinned [] st st :=
  ⟨rfl, fun p => by simp⟩

theorem pagesPinned_append {P Q : List Nat} {st st1 st2 : MapState}
    (h1 : PagesPinned P st st1) (h2 : PagesPinned Q st1 st2) :
    PagesPinned (P ++ Q) st st2 := by
  refine ⟨h2.1.trans h1.1, fun p => ?_⟩
  rw [h2.2, h1.2, List.count_append]
  push_cast
  ring

theorem count_singleton_update (f : Nat → Int) (page p : Nat) :
    Function.update f page (f page + 1) p = f p + (([page] : List Nat).count p : Int) := by
  by_cases hp : p = page
  · subst hp
    rw [Function.update_same]
    simp
  · rw [Function.update_noteq hp]
    have : List.count p [page] = 0 := by
      rw [List.count_eq_zero]
      simpa using hp
    rw [this]
    simp

theorem pagesPinned_cons {p : Nat} {P : List Nat} {st st2 : MapState}
    (d : SCXLNX_COARSE_PAGE_TABLE → Nat → Nat)
    (h2 : PagesPinned P
      { st with descriptors := d,
                pageRefs := Function.update st.pageRefs p (st.pageRefs p + 1) } st2) :
    PagesPinned (p :: P) st st2 :=
  @pagesPinned_append [p] P st
    { st with descriptors := d,
              pageRefs := Function.update st.pageRefs p (st.pageRefs p + 1) } st2
    ⟨rfl, fun q => count_singleton_update st.pageRefs p q⟩ h2

/-- What `storePinned` leaves: the pages at the entries from `nIndex` on, one
reference more on each, everything else as it was. -/
theorem storePinned_spec (t : SCXLNX_COARSE_PAGE_TABLE) :
    ∀ (ps : List Nat) (i : Nat) (st : MapState),
      (storePinned t ps i st).ctx = st.ctx ∧
      PagesPinned ps st (storePinned t ps i st) ∧
      (∀ t1, t1 ≠ t → (storePinned t ps i st).descriptors t1 = st.descriptors t1) ∧
      (∀ j, (storePinned t ps i st).descriptors t j =
        if i ≤ j ∧ j < i + ps.length then ps.getD (j - i) 0 else st.descriptors t j) := by
  intro ps
  induction ps with
  | nil =>
    intro i st
    refine ⟨rfl, pagesPinned_refl st, fun _ _ => rfl, fun j => ?_⟩
    rw [if_neg (by simp)]
    rfl
  | cons p ps ih =>
    intro i st
    obtain ⟨h1, h2, h3, h4⟩ := ih (i + 1)
      { st with
        descriptors :=
          Function.update st.descriptors t (Function.update (st.descriptors t) i p),
        pageRefs := Function.update st.pageRefs p (st.pageRefs p + 1) }
    have hone : PagesPinned [p] st
        { st with
          descriptors :=
            Function.update st.descriptors t (Function.update (st.descriptors t) i p),
          pageRefs := Function.update st.pageRefs p (st.pageRefs p + 1) } :=
      ⟨rfl, fun q => count_singleton_update st.pageRefs p q⟩
    refine ⟨h1, pagesPinned_append hone h2, fun t1 ht1 => ?_, fun j => ?_⟩
    · show (storePinned t ps (i + 1) _).descriptors t1 = _
      rw [h3 t1 ht1]
      show Function.update st.descriptors t _ t1 = _
      rw [Function.update_noteq ht1]
    · show (storePinned t ps (i + 1) _).descriptors t j = _
      rw [h4 j]
      show (if _ then _ else Function.update st.descriptors t _ t j) = _
      rw [Function.update_same]
      by_cases hj : j = i
      · subst hj
        rw [if_neg (by omega), Function.update_same, if_pos (by simp)]
        simp
      · rw [Function.update_noteq hj]
        by_cases hr : i + 1 ≤ j ∧ j < i + 1 + ps.length
        · rw [if_pos hr, if_pos (by simp only [List.length_cons]; omega)]
          obtain ⟨d, hd⟩ : ∃ d, j - i = d + 1 := ⟨j - i - 1, by omega⟩
          rw [hd, List.getD_cons_succ, show j - (i + 1) = d by omega]
        · rw [if_neg hr, if_neg (by simp only [List.length_cons]; omega)]

/-- What the loop over the pinned pages leaves when it rejects none: each
entry of the run is the L2 descriptor of the page it held, and none is
strongly-ordered or device memory. -/
theorem describeUserPages_spec (mc : MapConfig) (nFlags : Nat) (t : SCXLNX_COARSE_PAGE_TABLE) :
    ∀ (n i : Nat) (st : MapState),
      (describeUserPages mc nFlags t n i st).1 = false →
      (describeUserPages mc nFlags t n i st).2.ctx = st.ctx ∧
      (describeUserPages mc nFlags t n i st).2.pageRefs = st.pageRefs ∧
      (describeUserPages mc nFlags t n i st).2.pageDirty = st.pageDirty ∧
      (∀ t1, t1 ≠ t →
        (describeUserPages mc nFlags t n i st).2.descriptors t1 = st.descriptors t1) ∧
      (∀ j, (describeUserPages mc nFlags t n i st).2.descriptors t j =
        if i ≤ j ∧ j < i + n then
          SCXLNXCommGetL2PageDescriptor mc mc.userWalk nFlags (st.descriptors t j)
        else st.descriptors t j) ∧
      (∀ j, i ≤ j → j < i + n →
        IS_STRONGLY_ORDERED_OR_DEVICE_MEM
          (SCXLNXCommGetL2PageDescriptor mc mc.userWalk nFlags (st.descriptors t j))
          = false) := by
  intro n
  induction n with
  | zero =>
    intro i st _
    refine ⟨rfl, rfl, rfl, fun _ _ => rfl, fun j => ?_, fun j h1 h2 => by omega⟩
    rw [if_neg (by omega)]
    rfl
  | succ n ih =>
    intro i st hok
    rw [describeUserPages] at hok ⊢
    by_cases hdev : IS_STRONGLY_ORDERED_OR_DEVICE_MEM
        (SCXLNXCommGetL2PageDescriptor mc mc.userWalk nFlags (st.descriptors t i)) = true
    · rw [if_pos hdev] at hok
      cases hok
    · rw [if_neg hdev] at hok ⊢
      obtain ⟨h1, h2, h3, h4, h5, h6⟩ := ih (i + 1) _ hok
      have hsame : ∀ j, j ≠ i →
          Function.update (st.descriptors t) i
            (SCXLNXCommGetL2PageDescriptor mc mc.userWalk nFlags (st.descriptors t i)) j
            = st.descriptors t j := fun j hj => Function.update_noteq hj _ _
      refine ⟨h1, h2, h3, fun t1 ht1 => ?_, fun j => ?_, fun j hj1 hj2 => ?_⟩
      · rw [h4 t1 ht1]
        show Function.update st.descriptors t _ t1 = _
        rw [Function.update_noteq ht1]
      · rw [h5 j]
        show (if _ then SCXLNXCommGetL2PageDescriptor mc mc.userWalk nFlags
            (Function.update st.descriptors t _ t j)
          else Function.update st.descriptors t _ t j) = _
        rw [Function.update_same]
        by_cases hj : j = i
        · subst hj
          rw [if_neg (by omega), Function.update_same, if_pos (by omega)]
        · rw [hsame j hj]
          by_cases hr : i + 1 ≤ j ∧ j < i + 1 + n
          · rw [if_pos hr, if_pos (by omega)]
          · rw [if_neg hr, if_neg (by omega)]
      · by_cases hj : j = i
        · subst hj
          simpa using hdev
        · have := h6 j (by omega) (by omega)
          have hd : ({ st with
              descriptors := Function.update st.descriptors t
                (Function.update (st.descriptors t) i
                  (SCXLNXCommGetL2PageDescriptor mc mc.userWalk nFlags
                    (st.descriptors t i))) } : MapState).descriptors t j
              = st.descriptors t j := by
            show Function.update st.descriptors t _ t j = _
            rw [Function.update_same, hsame j hj]
          rw [hd] at this
          exact this

/-- What the loop over a kernel-space run leaves: each entry of the run is
the L2 descriptor of the page `vmalloc_to_page` finds, with one reference
more on that page. -/
theorem describeKernelPages_spec (mc : MapConfig) (nFlags nBufferOffsetVAddr nPageShift : Nat)
    (t : SCXLNX_COARSE_PAGE_TABLE) :
    ∀ (n i : Nat) (st : MapState),
      (describeKernelPages mc nFlags nBufferOffsetVAddr nPageShift t n i st).ctx = st.ctx ∧
      PagesPinned
        ((List.range' i n).map fun nIndex =>
          mc.vmalloc_to_page
            (add32 nBufferOffsetVAddr (sub32 nIndex nPageShift * PAGE_SIZE % 2 ^ 32)))
        st (describeKernelPages mc nFlags nBufferOffsetVAddr nPageShift t n i st) ∧
      (∀ t1, t1 ≠ t →
        (describeKernelPages mc nFlags nBufferOffsetVAddr nPageShift t n i st).descriptors t1
          = st.descriptors t1) ∧
      (∀ j, (describeKernelPages mc nFlags nBufferOffsetVAddr nPageShift t n i st).descriptors
          t j =
        if i ≤ j ∧ j < i + n then
          SCXLNXCommGetL2PageDescriptor mc mc.kernelWalk nFlags
            (mc.vmalloc_to_page
              (add32 nBufferOffsetVAddr (sub32 j nPageShift * PAGE_SIZE % 2 ^ 32)))
        else st.descriptors t j) := by
  intro n
  induction n with
  | zero =>
    intro i st
    refine ⟨rfl, pagesPinned_refl st, fun _ _ => rfl, fun j => ?_⟩
    rw [if_neg (by omega)]
    rfl
  | succ n ih =>
    intro i st
    rw [describeKernelPages]
    obtain ⟨h1, h2, h3, h4⟩ := ih (i + 1)
      { st with
        descriptors := Function.update st.descriptors t
          (Function.update (st.descriptors t) i
            (SCXLNXCommGetL2PageDescriptor mc mc.kernelWalk nFlags
              (mc.vmalloc_to_page
                (add32 nBufferOffsetVAddr (sub32 i nPageShift * PAGE_SIZE % 2 ^ 32))))),
        pageRefs := Function.update st.pageRefs
          (mc.vmalloc_to_page
            (add32 nBufferOffsetVAddr (sub32 i nPageShift * PAGE_SIZE % 2 ^ 32)))
          (st.pageRefs (mc.vmalloc_to_page
            (add32 nBufferOffsetVAddr (sub32 i nPageShift * PAGE_SIZE % 2 ^ 32))) + 1) }
    refine ⟨h1, ?_, fun t1 ht1 => ?_, fun j => ?_⟩
    · rw [List.range'_succ, List.map_cons]
      exact pagesPinned_cons _ h2
    · show (describeKernelPages mc nFlags nBufferOffsetVAddr nPageShift t n (i + 1) _).descriptors
        t1 = _
      rw [h3 t1 ht1]
      show Function.update st.descriptors t _ t1 = _
      rw [Function.update_noteq ht1]
    · show (describeKernelPages mc nFlags nBufferOffsetVAddr nPageShift t n (i + 1) _).descriptors
        t j = _
      rw [h4 j]
      show (if _ then _ else Function.update st.descriptors t _ t j) = _
      rw [Function.update_same]
      by_cases hj : j = i
      · subst hj
        rw [if_neg (by omega), Function.update_same, if_pos (by omega)]
      · rw [Function.update_noteq hj]
        by_cases hr : i + 1 ≤ j ∧ j < i + 1 + n
        · rw [if_pos hr, if_pos (by omega)]
        · rw [if_neg hr, if_neg (by omega)]

theorem getL2PageDescriptor_fault (mc : MapConfig) (walk : Nat → PageWalk) (nFlags : Nat) :
    SCXLNXCommGetL2PageDescriptor mc walk nFlags 0 = L2_DESCRIPTOR_FAULT := by
  unfold SCXLNXCommGetL2PageDescriptor
  rw [if_pos (by rfl)]
  rfl

theorem fault_is_strongly_ordered :
    IS_STRONGLY_ORDERED_OR_DEVICE_MEM L2_DESCRIPTOR_FAULT = true := by decide

/-- The descriptor written for a page that is not NULL is not the fault
descriptor and leads back to the page. -/
theorem descriptor_to_page (mc : MapConfig) (walk : Nat → PageWalk) (nFlags p : Nat)
    (hp : p ≠ 0)
    (hphys : mc.pte_page (mc.page_to_phys p &&& L2_DESCRIPTOR_ADDR_MASK) = p) :
    SCXLNXCommGetL2PageDescriptor mc walk nFlags p ≠ L2_DESCRIPTOR_FAULT ∧
    SCXLNXCommL2PageDescriptorToPage mc (SCXLNXCommGetL2PageDescriptor mc walk nFlags p) = p := by
  obtain ⟨h1, h2⟩ := descriptor_names_page mc walk nFlags p hp
  refine ⟨h1, ?_⟩
  unfold SCXLNXCommL2PageDescriptorToPage
  rw [h2, hphys]

theorem sub32_of_le {a b : Nat} (hb : b ≤ a) (ha : a < 2 ^ 32) : sub32 a b = a - b := by
  unfold sub32
  have h1 : a % 2 ^ 32 = a := Nat.mod_eq_of_lt ha
  have h2 : b % 2 ^ 32 = b := Nat.mod_eq_of_lt (lt_of_le_of_lt hb ha)
  rw [h1, h2]
  have : a + (2 ^ 32 - b) = (a - b) + 2 ^ 32 := by omega
  rw [this, Nat.add_mod_right]
  exact Nat.mod_eq_of_lt (by omega)

/-- The part of the loop body that follows the choice of the coarse page
table `t`, when it does not jump to the label `error`: the table holds a
packed run naming the pages `P` resolved for it, each pinned once. -/
theorem fillCoarsePage_tail (mc : MapConfig) (addr nFlags nPagesToGet : Nat)
    (bInUserSpace : Bool) (k d1 : Nat) (t : SCXLNX_COARSE_PAGE_TABLE) (l0 l1 : FillLocals)
    (g : Int × List Nat) (st0 : MapState)
    (hst0 : st0 =
      { l0.st with descriptors := Function.update l0.st.descriptors t (fun _ => 0) })
    (hstep :
      (if bInUserSpace = true then
        if g.1 ≤ 0 ∨ g.1 ≠ ((sub32 nPagesToGet l0.nPageShift : Nat) : Int) then
          ((some (-EFAULT),
            { l0 with st := storePinned t (g.2.take g.1.toNat) l0.nPageShift st0 }) :
            Option Int × FillLocals)
        else
          if (describeUserPages mc nFlags t g.1.toNat l0.nPageShift
              (storePinned t (g.2.take g.1.toNat) l0.nPageShift st0)).1 = true then
            (some (-EFAULT),
              { l0 with
                st := (describeUserPages mc nFlags t g.1.toNat l0.nPageShift
                  (storePinned t (g.2.take g.1.toNat) l0.nPageShift st0)).2 })
          else
            (none,
              { l0 with
                st := (describeUserPages mc nFlags t g.1.toNat l0.nPageShift
                  (storePinned t (g.2.take g.1.toNat) l0.nPageShift st0)).2,
                pDescriptors := Function.update l0.pDescriptors k d1,
                nPageShift := 0 })
      else
        (none,
          { l0 with
            st := describeKernelPages mc nFlags addr l0.nPageShift t
              (nPagesToGet - l0.nPageShift) l0.nPageShift st0,
            pDescriptors := Function.update l0.pDescriptors k d1,
            nPageShift := 0 })) = (none, l1))
    (P : List Nat)
    (hP : P =
      if bInUserSpace then g.2.take (sub32 nPagesToGet l0.nPageShift)
      else (List.range' l0.nPageShift (nPagesToGet - l0.nPageShift)).map fun nIndex =>
        mc.vmalloc_to_page (add32 addr (sub32 nIndex l0.nPageShift * PAGE_SIZE % 2 ^ 32)))
    (hphys : ∀ p ∈ P, mc.pte_page (mc.page_to_phys p &&& L2_DESCRIPTOR_ADDR_MASK) = p)
    (hnull : bInUserSpace = false → ∀ p ∈ P, p ≠ 0)
    (hshift : l0.nPageShift ≤ nPagesToGet)
    (hcap : nPagesToGet ≤ SCX_DESCRIPTOR_TABLE_CAPACITY) :
    l1.nPageShift = 0 ∧ l1.nPageCount = l0.nPageCount ∧ l1.pShmemDesc = l0.pShmemDesc ∧
    l1.st.ctx = l0.st.ctx ∧
    (∀ t1, t1 ≠ t → l1.st.descriptors t1 = l0.st.descriptors t1) ∧
    Packed mc (l1.st.descriptors t) l0.nPageShift P ∧
    PagesPinned P l0.st l1.st := by
  have hcap256 : nPagesToGet ≤ 256 := hcap
  have h0desc : ∀ j, st0.descriptors t j = 0 := by
    intro j
    rw [hst0]
    show Function.update l0.st.descriptors t (fun _ => 0) t j = 0
    rw [Function.update_same]
  have h0other : ∀ t1, t1 ≠ t → st0.descriptors t1 = l0.st.descriptors t1 := by
    intro t1 ht1
    rw [hst0]
    show Function.update l0.st.descriptors t (fun _ => 0) t1 = _
    rw [Function.update_noteq ht1]
  have h0pin : ∀ {Q : List Nat} {s : MapState}, PagesPinned Q st0 s → PagesPinned Q l0.st s := by
    intro Q s h
    rw [hst0] at h
    exact h
  have h0ctx : st0.ctx = l0.st.ctx := by rw [hst0]
  cases bInUserSpace with
  | false =>
    rw [if_neg (by simp)] at hstep
    have hl1 := (Prod.mk.inj hstep).2
    subst hl1
    simp only [Bool.false_eq_true, if_false] at hP
    obtain ⟨k1, k2, k3, k4⟩ := describeKernelPages_spec mc nFlags addr l0.nPageShift t
      (nPagesToGet - l0.nPageShift) l0.nPageShift st0
    rw [← hP] at k2
    have hlen : P.length = nPagesToGet - l0.nPageShift := by rw [hP]; simp
    refine ⟨rfl, rfl, rfl, k1.trans h0ctx, fun t1 ht1 => (k3 t1 ht1).trans (h0other t1 ht1),
      ⟨?_, ?_, ?_, ?_⟩, h0pin k2⟩
    · rw [hlen]
      show l0.nPageShift + (nPagesToGet - l0.nPageShift) ≤ 256
      omega
    · intro j hj
      show (describeKernelPages mc nFlags addr l0.nPageShift t
        (nPagesToGet - l0.nPageShift) l0.nPageShift st0).descriptors t j = _
      rw [k4 j, if_neg (by omega), h0desc j]
      rfl
    · intro i hi
      show (describeKernelPages mc nFlags addr l0.nPageShift t
        (nPagesToGet - l0.nPageShift) l0.nPageShift st0).descriptors t (l0.nPageShift + i) ≠ _
        ∧ SCXLNXCommL2PageDescriptorToPage mc
          ((describeKernelPages mc nFlags addr l0.nPageShift t
            (nPagesToGet - l0.nPageShift) l0.nPageShift st0).descriptors t
            (l0.nPageShift + i)) = _
      rw [k4 (l0.nPageShift + i), if_pos (by omega)]
      have hget : P.get ⟨i, hi⟩ = mc.vmalloc_to_page
          (add32 addr (sub32 (l0.nPageShift + i) l0.nPageShift * PAGE_SIZE % 2 ^ 32)) := by
        subst hP
        simp [List.getElem_range']
      have hmem : P.get ⟨i, hi⟩ ∈ P := List.get_mem P i hi
      rw [hget] at hmem ⊢
      exact descriptor_to_page mc mc.kernelWalk nFlags _ (hnull rfl _ hmem) (hphys _ hmem)
    · intro j hj
      show (describeKernelPages mc nFlags addr l0.nPageShift t
        (nPagesToGet - l0.nPageShift) l0.nPageShift st0).descriptors t j = _
      rw [k4 j, if_neg (by omega), h0desc j]
      rfl
  | true =>
    rw [if_pos rfl] at hstep
    simp only [if_true] at hP
    have hw : sub32 nPagesToGet l0.nPageShift = nPagesToGet - l0.nPageShift :=
      sub32_of_le hshift (by omega)
    by_cases herr : g.1 ≤ 0 ∨ g.1 ≠ ((sub32 nPagesToGet l0.nPageShift : Nat) : Int)
    · rw [if_pos herr] at hstep
      cases (Prod.mk.inj hstep).1
    · rw [if_neg herr] at hstep
      have hg1 : g.1 = ((sub32 nPagesToGet l0.nPageShift : Nat) : Int) := by
        by_contra hne
        exact herr (Or.inr hne)
      have htoNat : g.1.toNat = sub32 nPagesToGet l0.nPageShift := by
        rw [hg1]
        exact Int.toNat_ofNat _
      rw [htoNat] at hstep
      rw [← hP] at hstep
      by_cases hrej : (describeUserPages mc nFlags t (sub32 nPagesToGet l0.nPageShift)
          l0.nPageShift (storePinned t P l0.nPageShift st0)).1 = true
      · rw [if_pos hrej] at hstep
        cases (Prod.mk.inj hstep).1
      · rw [if_neg hrej] at hstep
        have hl1 := (Prod.mk.inj hstep).2
        subst hl1
        obtain ⟨s1, s2, s3, s4⟩ := storePinned_spec t P l0.nPageShift st0
        obtain ⟨u1, u2, u3, u4, u5, u6⟩ := describeUserPages_spec mc nFlags t
          (sub32 nPagesToGet l0.nPageShift) l0.nPageShift (storePinned t P l0.nPageShift st0)
          (by simpa using hrej)
        have hle : P.length ≤ sub32 nPagesToGet l0.nPageShift := by
          rw [hP, List.length_take]
          exact Nat.min_le_left _ _
        have hlen : P.length = sub32 nPagesToGet l0.nPageShift := by
          by_contra hne
          have hlt : P.length < sub32 nPagesToGet l0.nPageShift := by omega
          have h6 := u6 (l0.nPageShift + P.length) (by omega) (by omega)
          rw [s4, if_neg (by omega), h0desc, getL2PageDescriptor_fault,
            fault_is_strongly_ordered] at h6
          cases h6
        have hentry : ∀ i (hi : i < P.length),
            (storePinned t P l0.nPageShift st0).descriptors t (l0.nPageShift + i)
              = P.get ⟨i, hi⟩ := by
          intro i hi
          rw [s4, if_pos (by omega), show l0.nPageShift + i - l0.nPageShift = i by omega,
            List.getD_eq_getElem _ _ hi]
          rfl
        refine ⟨rfl, rfl, rfl, (u1.trans s1).trans h0ctx,
          fun t1 ht1 => ((u4 t1 ht1).trans (s3 t1 ht1)).trans (h0other t1 ht1),
          ⟨?_, ?_, ?_, ?_⟩, ?_⟩
        · rw [hlen, hw]
          show l0.nPageShift + (nPagesToGet - l0.nPageShift) ≤ 256
          omega
        · intro j hj
          show (describeUserPages mc nFlags t (sub32 nPagesToGet l0.nPageShift)
            l0.nPageShift (storePinned t P l0.nPageShift st0)).2.descriptors t j = _
          rw [u5 j, if_neg (by omega), s4, if_neg (by omega), h0desc j]
          rfl
        · intro i hi
          show (describeUserPages mc nFlags t (sub32 nPagesToGet l0.nPageShift)
            l0.nPageShift (storePinned t P l0.nPageShift st0)).2.descriptors t
              (l0.nPageShift + i) ≠ _ ∧
            SCXLNXCommL2PageDescriptorToPage mc
              ((describeUserPages mc nFlags t (sub32 nPagesToGet l0.nPageShift)
                l0.nPageShift (storePinned t P l0.nPageShift st0)).2.descriptors t
                (l0.nPageShift + i)) = _
          rw [u5 (l0.nPageShift + i), if_pos (by omega), hentry i hi]
          have hmem : P.get ⟨i, hi⟩ ∈ P := List.get_mem P i hi
          have hnz : P.get ⟨i, hi⟩ ≠ 0 := by
            intro hz
            have h6 := u6 (l0.nPageShift + i) (by omega) (by omega)
            rw [hentry i hi, hz, getL2PageDescriptor_fault, fault_is_strongly_ordered] at h6
            cases h6
          exact descriptor_to_page mc mc.userWalk nFlags _ hnz (hphys _ hmem)
        · intro j hj
          show (describeUserPages mc nFlags t (sub32 nPagesToGet l0.nPageShift)
            l0.nPageShift (storePinned t P l0.nPageShift st0)).2.descriptors t j = _
          rw [u5 j, if_neg (by omega), s4, if_neg (by omega), h0desc j]
          rfl
        · refine ⟨?_, fun p => ?_⟩
          · show (describeUserPages mc nFlags t (sub32 nPagesToGet l0.nPageShift)
              l0.nPageShift (storePinned t P l0.nPageShift st0)).2.pageDirty = _
            rw [u3]
            exact (h0pin s2).1
          · show (describeUserPages mc nFlags t (sub32 nPagesToGet l0.nPageShift)
              l0.nPageShift (storePinned t P l0.nPageShift st0)).2.pageRefs p = _
            rw [u2]
            exact (h0pin s2).2 p

/-- What one round of the loop "map each coarse page" leaves when it does not
jump to the label `error`. -/
theorem fillCoarsePage_spec (mc : MapConfig) (env : MapEnv) (nBufferVAddr nFlags : Nat)
    (bInUserSpace : Bool) (k : Nat) (l l1 : FillLocals)
    (hstep : fillCoarsePage mc env nBufferVAddr nFlags bInUserSpace k l = (none, l1))
    (hphys : ∀ p ∈ fragmentPages mc env nBufferVAddr nFlags bInUserSpace k l.nPageCount
        l.nPageShift,
      mc.pte_page (mc.page_to_phys p &&& L2_DESCRIPTOR_ADDR_MASK) = p)
    (hnull : bInUserSpace = false →
      ∀ p ∈ fragmentPages mc env nBufferVAddr nFlags bInUserSpace k l.nPageCount
        l.nPageShift, p ≠ 0)
    (hshift : l.nPageShift ≤
      (if l.nPageCount >>> SCX_DESCRIPTOR_TABLE_CAPACITY_BIT_SHIFT ≠ 0
       then SCX_DESCRIPTOR_TABLE_CAPACITY else l.nPageCount)) :
    l1.nPageShift = 0 ∧
    l1.nPageCount = sub32 l.nPageCount
      (if l.nPageCount >>> SCX_DESCRIPTOR_TABLE_CAPACITY_BIT_SHIFT ≠ 0
       then SCX_DESCRIPTOR_TABLE_CAPACITY else l.nPageCount) ∧
    l1.pShmemDesc.nType = l.pShmemDesc.nType ∧
    (∀ j, j ≠ k → l1.pShmemDesc.pCoarsePageTable j = l.pShmemDesc.pCoarsePageTable j) ∧
    ((l.pShmemDesc.nType = mc.SCXLNX_SHMEM_TYPE_REGISTERED_SHMEM ∨
        l.pShmemDesc.nType = mc.SCXLNX_SHMEM_TYPE_PM_HIBERNATE) →
      SCXLNXAllocateCoarsePageTable l.st.ctx SCXLNX_PAGE_DESCRIPTOR_TYPE_NORMAL
        (env.kmalloc k) (env.getPage k) = (some (l1.pShmemDesc.pCoarsePageTable k), l1.st.ctx)) ∧
    (¬ (l.pShmemDesc.nType = mc.SCXLNX_SHMEM_TYPE_REGISTERED_SHMEM ∨
        l.pShmemDesc.nType = mc.SCXLNX_SHMEM_TYPE_PM_HIBERNATE) →
      l1.pShmemDesc.pCoarsePageTable k = l.pShmemDesc.pCoarsePageTable k ∧
      l1.st.ctx = l.st.ctx) ∧
    (∀ t1, t1 ≠ l1.pShmemDesc.pCoarsePageTable k →
      l1.st.descriptors t1 = l.st.descriptors t1) ∧
    Packed mc (l1.st.descriptors (l1.pShmemDesc.pCoarsePageTable k)) l.nPageShift
      (fragmentPages mc env nBufferVAddr nFlags bInUserSpace k l.nPageCount l.nPageShift) ∧
    PagesPinned
      (fragmentPages mc env nBufferVAddr nFlags bInUserSpace k l.nPageCount l.nPageShift)
      l.st l1.st := by
  have hcap : (if l.nPageCount >>> SCX_DESCRIPTOR_TABLE_CAPACITY_BIT_SHIFT ≠ 0
       then SCX_DESCRIPTOR_TABLE_CAPACITY else l.nPageCount) ≤ SCX_DESCRIPTOR_TABLE_CAPACITY := by
    by_cases h : l.nPageCount >>> SCX_DESCRIPTOR_TABLE_CAPACITY_BIT_SHIFT ≠ 0
    · rw [if_pos h]
    · rw [if_neg h]
      have h0 : l.nPageCount >>> SCX_DESCRIPTOR_TABLE_CAPACITY_BIT_SHIFT = 0 := by
        simpa using h
      rw [Nat.shiftRight_eq_div_pow] at h0
      have : l.nPageCount < 2 ^ SCX_DESCRIPTOR_TABLE_CAPACITY_BIT_SHIFT := by
        by_contra hge
        have := Nat.div_pos (Nat.le_of_not_lt hge) (by decide)
        omega
      exact Nat.le_of_lt this
  unfold fillCoarsePage at hstep
  simp only at hstep
  split at hstep
  · cases (Prod.mk.inj hstep).1
  · rename_i t l0 hsel
    by_cases hkind : l.pShmemDesc.nType = mc.SCXLNX_SHMEM_TYPE_REGISTERED_SHMEM ∨
        l.pShmemDesc.nType = mc.SCXLNX_SHMEM_TYPE_PM_HIBERNATE
    · rw [if_pos hkind] at hsel
      split at hsel
      · cases (Prod.mk.inj hsel).1
      · rename_i t2 halloc
        have ht := Option.some.inj (Prod.mk.inj hsel).1
        have hl0 := (Prod.mk.inj hsel).2
        subst ht
        subst hl0
        obtain ⟨a1, a2, a3, a4, a5, a6, a7⟩ := fillCoarsePage_tail mc _ nFlags _
          bInUserSpace k _ t2 _ l1 _ _ rfl hstep _ rfl hphys hnull hshift hcap
        have htab : l1.pShmemDesc.pCoarsePageTable k = t2 := by
          rw [a3]
          show Function.update l.pShmemDesc.pCoarsePageTable k t2 k = t2
          rw [Function.update_same]
        refine ⟨a1, a2, ?_, fun j hj => ?_, fun _ => ?_, fun hn => absurd hkind hn,
          fun t1 ht1 => ?_, ?_, a7⟩
        · rw [a3]
        · rw [a3]
          show Function.update l.pShmemDesc.pCoarsePageTable k t2 j = _
          rw [Function.update_noteq hj]
        · rw [htab, a4]
          exact Prod.ext halloc rfl
        · exact a5 t1 (by rwa [htab] at ht1)
        · rw [htab]
          exact a6
    · rw [if_neg hkind] at hsel
      have ht := Option.some.inj (Prod.mk.inj hsel).1
      have hl0 := (Prod.mk.inj hsel).2
      subst ht
      subst hl0
      obtain ⟨a1, a2, a3, a4, a5, a6, a7⟩ := fillCoarsePage_tail mc _ nFlags _
        bInUserSpace k _ (l.pShmemDesc.pCoarsePageTable k) _ l1 _ _ rfl hstep _ rfl hphys
        hnull hshift hcap
      have htab : l1.pShmemDesc.pCoarsePageTable k = l.pShmemDesc.pCoarsePageTable k := by
        rw [a3]
      refine ⟨a1, a2, ?_, fun j hj => ?_, fun hk => absurd hk hkind, fun _ => ⟨htab, a4⟩,
        fun t1 ht1 => ?_, ?_, a7⟩
      · rw [a3]
      · rw [a3]
      · exact a5 t1 (by rwa [htab] at ht1)
      · rw [htab]
        exact a6

/-- The loop "map each coarse page", when it does not jump to the label
`error`, pins exactly the pages it resolves, and a release of the coarse
pages it filled drops exactly those pages; the coarse page tables of the
rounds are assumed pairwise distinct. -/
theorem fillCoarsePages_release (mc : MapConfig) (env : MapEnv) (nBufferVAddr nFlags : Nat)
    (bInUserSpace : Bool) (nFullCleanup : Nat) :
    ∀ (n k : Nat) (l lf : FillLocals),
      fillCoarsePages mc env nBufferVAddr nFlags bInUserSpace n k l = (none, lf) →
      (∀ p ∈ resolvedPages mc env nBufferVAddr nFlags bInUserSpace n k l.nPageCount
          l.nPageShift,
        mc.pte_page (mc.page_to_phys p &&& L2_DESCRIPTOR_ADDR_MASK) = p) →
      (bInUserSpace = false →
        ∀ p ∈ resolvedPages mc env nBufferVAddr nFlags bInUserSpace n k l.nPageCount
          l.nPageShift, p ≠ 0) →
      l.nPageShift ≤
        (if l.nPageCount >>> SCX_DESCRIPTOR_TABLE_CAPACITY_BIT_SHIFT ≠ 0
         then SCX_DESCRIPTOR_TABLE_CAPACITY else l.nPageCount) →
      (∀ i j, k ≤ i → i < j → j < k + n →
        lf.pShmemDesc.pCoarsePageTable i ≠ lf.pShmemDesc.pCoarsePageTable j) →
      PagesPinned
        (resolvedPages mc env nBufferVAddr nFlags bInUserSpace n k l.nPageCount l.nPageShift)
        l.st lf.st ∧
      lf.pShmemDesc.nType = l.pShmemDesc.nType ∧
      (∀ j, j < k → lf.pShmemDesc.pCoarsePageTable j = l.pShmemDesc.pCoarsePageTable j) ∧
      (∀ t1, (∀ j, k ≤ j → j < k + n → t1 ≠ lf.pShmemDesc.pCoarsePageTable j) →
        lf.st.descriptors t1 = l.st.descriptors t1) ∧
      (∀ j, k ≤ j → j < k + n →
        ∃ lo P, Packed mc (lf.st.descriptors (lf.pShmemDesc.pCoarsePageTable j)) lo P) ∧
      (∀ (desc : SCXLNX_SHMEM_DESC) (st : MapState),
        desc.pCoarsePageTable = lf.pShmemDesc.pCoarsePageTable →
        st.descriptors = lf.st.descriptors →
        PagesReleased mc
          (resolvedPages mc env nBufferVAddr nFlags bInUserSpace n k l.nPageCount
            l.nPageShift)
          st (releaseCoarsePages mc desc nFullCleanup n k st)) := by
  intro n
  induction n with
  | zero =>
    intro k l lf hfill _ _ _ _
    have hl := (Prod.mk.inj hfill).2
    subst hl
    exact ⟨pagesPinned_refl _, rfl, fun _ _ => rfl, fun _ _ => rfl,
      fun j h1 h2 => by omega, fun desc st _ _ => pagesReleased_refl mc st⟩
  | succ n ih =>
    intro k l lf hfill hphys hnull hshift hdist
    rw [fillCoarsePages] at hfill
    split at hfill
    · cases (Prod.mk.inj hfill).1
    · rename_i l1 hfrag
      have hphys1 := fun p hp => hphys p (List.mem_append_left _ hp)
      have hnull1 := fun hu p hp => hnull hu p (List.mem_append_left _ hp)
      obtain ⟨f1, f2, f3, f4, _, _, f7, f8, f9⟩ :=
        fillCoarsePage_spec mc env nBufferVAddr nFlags bInUserSpace k l l1 hfrag
          hphys1 hnull1 hshift
      have hres : resolvedPages mc env nBufferVAddr nFlags bInUserSpace (n + 1) k
          l.nPageCount l.nPageShift =
          fragmentPages mc env nBufferVAddr nFlags bInUserSpace k l.nPageCount l.nPageShift ++
          resolvedPages mc env nBufferVAddr nFlags bInUserSpace n (k + 1)
            l1.nPageCount l1.nPageShift := by
        rw [f1, f2]
        rfl
      rw [hres] at hphys hnull ⊢
      obtain ⟨g1, g2, g3, g4, g6, g5⟩ := ih (k + 1) l1 lf hfill
        (fun p hp => hphys p (List.mem_append_right _ hp))
        (fun hu p hp => hnull hu p (List.mem_append_right _ hp))
        (by rw [f1]; exact Nat.zero_le _)
        (fun i j hi hij hj => hdist i j (by omega) hij (by omega))
      have htk : lf.pShmemDesc.pCoarsePageTable k = l1.pShmemDesc.pCoarsePageTable k :=
        g3 k (by omega)
      have hkeep : lf.st.descriptors (lf.pShmemDesc.pCoarsePageTable k) =
          l1.st.descriptors (l1.pShmemDesc.pCoarsePageTable k) := by
        rw [g4 (lf.pShmemDesc.pCoarsePageTable k)
          (fun j hj1 hj2 => hdist k j (le_refl _) (by omega) (by omega)), htk]
      refine ⟨pagesPinned_append f9 g1, g2.trans f3, fun j hj => ?_, fun t1 ht1 => ?_,
        fun j hj1 hj2 => ?_, fun desc st hdesc hst => ?_⟩
      · rw [g3 j (by omega), f4 j (by omega)]
      · rw [g4 t1 (fun j hj1 hj2 => ht1 j (by omega) (by omega))]
        exact f7 t1 (by rw [← htk]; exact ht1 k (le_refl _) (by omega))
      · by_cases hj : j = k
        · rw [hj, hkeep]
          exact ⟨_, _, f8⟩
        · exact g6 j (by omega) (by omega)
      · rw [releaseCoarsePages]
        have hpk : Packed mc (st.descriptors (desc.pCoarsePageTable k)) l.nPageShift
            (fragmentPages mc env nBufferVAddr nFlags bInUserSpace k l.nPageCount
              l.nPageShift) := by
          rw [hdesc, hst, hkeep]
          exact f8
        have hrel := releasePages_packed hpk st
        by_cases hc : desc.nType = mc.SCXLNX_SHMEM_TYPE_REGISTERED_SHMEM ∨ nFullCleanup ≠ 0
        · rw [if_pos hc]
          exact pagesReleased_append
            (pagesReleased_ctx hrel _)
            (g5 desc _ hdesc (hrel.1.trans hst))
        · rw [if_neg hc]
          exact pagesReleased_append hrel (g5 desc _ hdesc (hrel.1.trans hst))

/-- A round of the loop that jumps to the label `error` carries a non-zero
error code. -/
theorem fillCoarsePage_error (mc : MapConfig) (env : MapEnv) (nBufferVAddr nFlags : Nat)
    (bInUserSpace : Bool) (k : Nat) (l l1 : FillLocals) (e : Int)
    (h : fillCoarsePage mc env nBufferVAddr nFlags bInUserSpace k l = (some e, l1)) :
    e ≠ 0 := by
  unfold fillCoarsePage at h
  simp only at h
  split at h
  · have := Option.some.inj (Prod.mk.inj h).1
    rw [← this]
    decide
  · split_ifs at h <;>
      first
      | (have h1 := Option.some.inj (Prod.mk.inj h).1
         rw [← h1]
         decide)
      | (cases (Prod.mk.inj h).1)

theorem fillCoarsePages_error (mc : MapConfig) (env : MapEnv) (nBufferVAddr nFlags : Nat)
    (bInUserSpace : Bool) :
    ∀ (n k : Nat) (l l1 : FillLocals) (e : Int),
      fillCoarsePages mc env nBufferVAddr nFlags bInUserSpace n k l = (some e, l1) →
      e ≠ 0 := by
  intro n
  induction n with
  | zero =>
    intro k l l1 e h
    cases (Prod.mk.inj h).1
  | succ n ih =>
    intro k l l1 e h
    rw [fillCoarsePages] at h
    split at h
    · rename_i e1 l2 hfrag
      have := Option.some.inj (Prod.mk.inj h).1
      rw [← this]
      exact fillCoarsePage_error mc env nBufferVAddr nFlags bInUserSpace k l l2 e1 hfrag
    · exact ih _ _ _ _ h

/-- The coarse page tables of the rounds of the loop "map each coarse page":
for a registered or hibernate descriptor they are handed out by the
allocator, so that they are pairwise distinct and distinct from the tables
handed out before; for another descriptor they are the tables the
descriptor had. -/
theorem fillCoarsePages_tables (mc : MapConfig) (env : MapEnv) (nBufferVAddr nFlags : Nat)
    (bInUserSpace : Bool) :
    ∀ (n k : Nat) (l lf : FillLocals),
      fillCoarsePages mc env nBufferVAddr nFlags bInUserSpace n k l = (none, lf) →
      (∀ p ∈ resolvedPages mc env nBufferVAddr nFlags bInUserSpace n k l.nPageCount
          l.nPageShift,
        mc.pte_page (mc.page_to_phys p &&& L2_DESCRIPTOR_ADDR_MASK) = p) →
      (bInUserSpace = false →
        ∀ p ∈ resolvedPages mc env nBufferVAddr nFlags bInUserSpace n k l.nPageCount
          l.nPageShift, p ≠ 0) →
      l.nPageShift ≤
        (if l.nPageCount >>> SCX_DESCRIPTOR_TABLE_CAPACITY_BIT_SHIFT ≠ 0
         then SCX_DESCRIPTOR_TABLE_CAPACITY else l.nPageCount) →
      (∀ j, j < k → lf.pShmemDesc.pCoarsePageTable j = l.pShmemDesc.pCoarsePageTable j) ∧
      lf.pShmemDesc.nType = l.pShmemDesc.nType ∧
      (¬ (l.pShmemDesc.nType = mc.SCXLNX_SHMEM_TYPE_REGISTERED_SHMEM ∨
          l.pShmemDesc.nType = mc.SCXLNX_SHMEM_TYPE_PM_HIBERNATE) →
        ∀ j, lf.pShmemDesc.pCoarsePageTable j = l.pShmemDesc.pCoarsePageTable j) ∧
      ((l.pShmemDesc.nType = mc.SCXLNX_SHMEM_TYPE_REGISTERED_SHMEM ∨
          l.pShmemDesc.nType = mc.SCXLNX_SHMEM_TYPE_PM_HIBERNATE) →
        ∀ owned, OwnershipInv ⟨l.st.ctx, owned⟩ →
          (∀ j, k ≤ j → j < k + n → lf.pShmemDesc.pCoarsePageTable j ∉ owned) ∧
          (∀ i j, k ≤ i → i < j → j < k + n →
            lf.pShmemDesc.pCoarsePageTable i ≠ lf.pShmemDesc.pCoarsePageTable j)) := by
  intro n
  induction n with
  | zero =>
    intro k l lf hfill _ _ _
    have hl := (Prod.mk.inj hfill).2
    subst hl
    exact ⟨fun _ _ => rfl, rfl, fun _ _ => rfl,
      fun _ _ _ => ⟨fun j h1 h2 => by omega, fun i j h1 h2 h3 => by omega⟩⟩
  | succ n ih =>
    intro k l lf hfill hphys hnull hshift
    rw [fillCoarsePages] at hfill
    split at hfill
    · cases (Prod.mk.inj hfill).1
    · rename_i l1 hfrag
      obtain ⟨f1, f2, f3, f4, f5, f6, _, _, _⟩ :=
        fillCoarsePage_spec mc env nBufferVAddr nFlags bInUserSpace k l l1 hfrag
          (fun p hp => hphys p (List.mem_append_left _ hp))
          (fun hu p hp => hnull hu p (List.mem_append_left _ hp)) hshift
      have hres : resolvedPages mc env nBufferVAddr nFlags bInUserSpace (n + 1) k
          l.nPageCount l.nPageShift =
          fragmentPages mc env nBufferVAddr nFlags bInUserSpace k l.nPageCount l.nPageShift ++
          resolvedPages mc env nBufferVAddr nFlags bInUserSpace n (k + 1)
            l1.nPageCount l1.nPageShift := by
        rw [f1, f2]
        rfl
      rw [hres] at hphys hnull
      obtain ⟨g1, g2, g3, g4⟩ := ih (k + 1) l1 lf hfill
        (fun p hp => hphys p (List.mem_append_right _ hp))
        (fun hu p hp => hnull hu p (List.mem_append_right _ hp))
        (by rw [f1]; exact Nat.zero_le _)
      rw [f3] at g3 g4
      refine ⟨fun j hj => ?_, g2.trans f3, fun hk j => ?_, fun hk owned hinv => ?_⟩
      · rw [g1 j (by omega), f4 j (by omega)]
      · rw [g3 hk j]
        by_cases hj : j = k
        · rw [hj]; exact (f6 hk).1
        · exact f4 j hj
      · have hacq := ownershipInv_acquire hinv SCXLNX_PAGE_DESCRIPTOR_TYPE_NORMAL
          (env.kmalloc k) (env.getPage k)
        have halloc := f5 hk
        have hacq1 : OwnershipInv
            ⟨l1.st.ctx, l1.pShmemDesc.pCoarsePageTable k :: owned⟩ := by
          have h1 : (SCXLNXAllocateCoarsePageTable l.st.ctx SCXLNX_PAGE_DESCRIPTOR_TYPE_NORMAL
              (env.kmalloc k) (env.getPage k)).1 = some (l1.pShmemDesc.pCoarsePageTable k) := by
            rw [halloc]
          have h2 : (SCXLNXAllocateCoarsePageTable l.st.ctx SCXLNX_PAGE_DESCRIPTOR_TYPE_NORMAL
              (env.kmalloc k) (env.getPage k)).2 = l1.st.ctx := by
            rw [halloc]
          simp only [h1, h2] at hacq
          exact hacq
        obtain ⟨d1, d2⟩ := g4 hk _ hacq1
        have hnd : (l1.pShmemDesc.pCoarsePageTable k :: owned).Nodup := hacq1.2.2.2.2.1
        have htk : lf.pShmemDesc.pCoarsePageTable k = l1.pShmemDesc.pCoarsePageTable k :=
          g1 k (by omega)
        refine ⟨fun j hj1 hj2 => ?_, fun i j hi hij hj => ?_⟩
        · by_cases hj : j = k
          · rw [hj, htk]
            exact (List.nodup_cons.1 hnd).1
          · exact fun hmem => d1 j (by omega) (by omega) (List.mem_cons_of_mem _ hmem)
        · by_cases hik : i = k
          · rw [hik, htk]
            intro heq
            exact d1 j (by omega) (by omega) (by rw [← heq]; exact List.mem_cons_self _ _)
          · exact d2 i j (by omega) hij (by omega)

/-- The page shift is at most the number of entries of the first coarse
page: the page count includes it and does not wrap. -/
theorem pageShift_le (info nBufferVAddr nBufferSize : Nat) :
    (if alignmentRestricted info then DESCRIPTOR_V13_12_GET nBufferVAddr else 0) ≤
      (if add32 (pageCount nBufferVAddr nBufferSize)
            (if alignmentRestricted info then DESCRIPTOR_V13_12_GET nBufferVAddr else 0)
          >>> SCX_DESCRIPTOR_TABLE_CAPACITY_BIT_SHIFT ≠ 0
       then SCX_DESCRIPTOR_TABLE_CAPACITY
       else add32 (pageCount nBufferVAddr nBufferSize)
            (if alignmentRestricted info then DESCRIPTOR_V13_12_GET nBufferVAddr else 0)) := by
  have hs : (if alignmentRestricted info then DESCRIPTOR_V13_12_GET nBufferVAddr else 0) ≤ 3 := by
    by_cases h : alignmentRestricted info = true
    · rw [if_pos h]
      unfold DESCRIPTOR_V13_12_GET
      have h1 : nBufferVAddr &&& 0x3000 ≤ 0x3000 := Nat.and_le_right
      rw [Nat.shiftRight_eq_div_pow]
      have : (nBufferVAddr &&& 0x3000) / 2 ^ PAGE_SHIFT ≤ 0x3000 / 2 ^ PAGE_SHIFT :=
        Nat.div_le_div_right h1
      exact this.trans (by decide)
    · rw [if_neg h]
      exact Nat.zero_le _
  have hpc : pageCount nBufferVAddr nBufferSize < 2 ^ 20 := by
    unfold pageCount
    rw [Nat.shiftRight_eq_div_pow]
    have h1 : add32 (add32 (nBufferVAddr &&& 0xFFF) nBufferSize) 0xFFF < 2 ^ 32 :=
      Nat.mod_lt _ (by decide)
    have h2 : (2 : Nat) ^ 32 = 2 ^ 20 * 2 ^ PAGE_SHIFT := by decide
    rw [h2] at h1
    exact Nat.div_lt_of_lt_mul (by rw [Nat.mul_comm]; exact h1)
  generalize (if alignmentRestricted info then DESCRIPTOR_V13_12_GET nBufferVAddr else 0) = s
    at hs ⊢
  have hadd : add32 (pageCount nBufferVAddr nBufferSize) s
      = pageCount nBufferVAddr nBufferSize + s := by
    unfold add32
    exact Nat.mod_eq_of_lt (by omega)
  rw [hadd]
  by_cases h : (pageCount nBufferVAddr nBufferSize + s)
      >>> SCX_DESCRIPTOR_TABLE_CAPACITY_BIT_SHIFT ≠ 0
  · rw [if_pos h]
    exact hs.trans (by decide)
  · rw [if_neg h]
    exact Nat.le_add_left _ _

/-- A call of `SCXLNXCommFillDescriptorTable` that returns 0 has gone through
the whole loop "map each coarse page". -/
theorem fill_success_shape (mc : MapConfig) (env : MapEnv) (st : MapState)
    (pShmemDesc : SCXLNX_SHMEM_DESC) (nBufferVAddr : Nat) (pDescriptors : Nat → Nat)
    (nBufferSize : Nat) (bInUserSpace : Bool) (nFlags : Nat)
    (hok : (SCXLNXCommFillDescriptorTable mc env st pShmemDesc nBufferVAddr pDescriptors
      nBufferSize bInUserSpace nFlags).nError = 0) :
    ∃ lf : FillLocals,
      fillCoarsePages mc env nBufferVAddr nFlags bInUserSpace
        (add32
            (add32 (pageCount nBufferVAddr nBufferSize)
              (if alignmentRestricted mc.info then DESCRIPTOR_V13_12_GET nBufferVAddr else 0))
            SCX_DESCRIPTOR_TABLE_CAPACITY_MASK >>> SCX_DESCRIPTOR_TABLE_CAPACITY_BIT_SHIFT)
        0
        { st := st, pShmemDesc := pShmemDesc, pDescriptors := pDescriptors,
          nPageCount := add32 (pageCount nBufferVAddr nBufferSize)
            (if alignmentRestricted mc.info then DESCRIPTOR_V13_12_GET nBufferVAddr else 0),
          nPageShift :=
            if alignmentRestricted mc.info then DESCRIPTOR_V13_12_GET nBufferVAddr else 0 }
        = (none, lf) ∧
      (SCXLNXCommFillDescriptorTable mc env st pShmemDesc nBufferVAddr pDescriptors
        nBufferSize bInUserSpace nFlags).st = lf.st ∧
      (SCXLNXCommFillDescriptorTable mc env st pShmemDesc nBufferVAddr pDescriptors
        nBufferSize bInUserSpace nFlags).pShmemDesc =
        { lf.pShmemDesc with
          nNumberOfCoarsePageTables :=
            add32
              (add32 (pageCount nBufferVAddr nBufferSize)
                (if alignmentRestricted mc.info then DESCRIPTOR_V13_12_GET nBufferVAddr
                 else 0))
              SCX_DESCRIPTOR_TABLE_CAPACITY_MASK >>> SCX_DESCRIPTOR_TABLE_CAPACITY_BIT_SHIFT } := by
  unfold SCXLNXCommFillDescriptorTable at hok ⊢
  simp only at hok ⊢
  by_cases hbig : add32 (pageCount nBufferVAddr nBufferSize)
        (if alignmentRestricted mc.info then DESCRIPTOR_V13_12_GET nBufferVAddr else 0)
      > SCX_DESCRIPTOR_TABLE_CAPACITY * mc.SCX_MAX_COARSE_PAGES
  · rw [if_pos hbig] at hok
    have hne : (-ENOMEM : Int) ≠ 0 := by decide
    exact absurd hok hne
  · rw [if_neg hbig] at hok ⊢
    split at hok
    · rename_i e lf hres
      exact absurd hok (fillCoarsePages_error mc env nBufferVAddr nFlags bInUserSpace _ _ _ _ _
        hres)
    · rename_i lf hres
      refine ⟨lf, hres, ?_, ?_⟩
      · simp only [hres]
      · simp only [hres]

/-- After a call of `SCXLNXCommFillDescriptorTable` that returns 0, the pages
it resolved (`mappedPages`, one entry per descriptor written) have one
reference more each and no dirty flag changed, and every coarse page table
of the mapping holds a packed run (fault descriptors, then real entries, then
fault descriptors).  The environment is assumed to translate a page to its
physical address and back, to find a page for every kernel address of the
buffer, and to hand out coarse page tables from an allocator that satisfies
its ownership invariant (for a descriptor that brings its own tables, these
are pairwise distinct). -/
theorem map_pins_mapped_pages (mc : MapConfig) (env : MapEnv) (st : MapState)
    (pShmemDesc : SCXLNX_SHMEM_DESC) (nBufferVAddr : Nat) (pDescriptors : Nat → Nat)
    (nBufferSize : Nat) (bInUserSpace : Bool) (nFlags: Nat)
    (owned : List SCXLNX_COARSE_PAGE_TABLE)
    (hok : (SCXLNXCommFillDescriptorTable mc env st pShmemDesc nBufferVAddr pDescriptors
      nBufferSize bInUserSpace nFlags).nError = 0)
    (hphys : ∀ p ∈ mappedPages mc env nBufferVAddr nBufferSize bInUserSpace nFlags,
      mc.pte_page (mc.page_to_phys p &&& L2_DESCRIPTOR_ADDR_MASK) = p)
    (hnull : bInUserSpace = false →
      ∀ p ∈ mappedPages mc env nBufferVAddr nBufferSize bInUserSpace nFlags, p ≠ 0)
    (hpool : (pShmemDesc.nType = mc.SCXLNX_SHMEM_TYPE_REGISTERED_SHMEM ∨
        pShmemDesc.nType = mc.SCXLNX_SHMEM_TYPE_PM_HIBERNATE) →
      OwnershipInv ⟨st.ctx, owned⟩)
    (hinj : ¬ (pShmemDesc.nType = mc.SCXLNX_SHMEM_TYPE_REGISTERED_SHMEM ∨
        pShmemDesc.nType = mc.SCXLNX_SHMEM_TYPE_PM_HIBERNATE) →
      ∀ i j, i < j →
        j < (SCXLNXCommFillDescriptorTable mc env st pShmemDesc nBufferVAddr pDescriptors
          nBufferSize bInUserSpace nFlags).pShmemDesc.nNumberOfCoarsePageTables →
        pShmemDesc.pCoarsePageTable i ≠ pShmemDesc.pCoarsePageTable j) :
    (∀ p, (SCXLNXCommFillDescriptorTable mc env st pShmemDesc nBufferVAddr pDescriptors
        nBufferSize bInUserSpace nFlags).st.pageRefs p =
      st.pageRefs p +
        ((mappedPages mc env nBufferVAddr nBufferSize bInUserSpace nFlags).count p : Int)) ∧
    (SCXLNXCommFillDescriptorTable mc env st pShmemDesc nBufferVAddr pDescriptors
      nBufferSize bInUserSpace nFlags).st.pageDirty = st.pageDirty ∧
    (∀ k, k < (SCXLNXCommFillDescriptorTable mc env st pShmemDesc nBufferVAddr pDescriptors
        nBufferSize bInUserSpace nFlags).pShmemDesc.nNumberOfCoarsePageTables →
      ∃ lo P, Packed mc
        ((SCXLNXCommFillDescriptorTable mc env st pShmemDesc nBufferVAddr pDescriptors
          nBufferSize bInUserSpace nFlags).st.descriptors
          ((SCXLNXCommFillDescriptorTable mc env st pShmemDesc nBufferVAddr pDescriptors
            nBufferSize bInUserSpace nFlags).pShmemDesc.pCoarsePageTable k)) lo P) := by
  obtain ⟨lf, hres, hst, hdesc⟩ := fill_success_shape mc env st pShmemDesc nBufferVAddr
    pDescriptors nBufferSize bInUserSpace nFlags hok
  have hshift0 := pageShift_le mc.info nBufferVAddr nBufferSize
  obtain ⟨_, _, t3, t4⟩ := fillCoarsePages_tables mc env nBufferVAddr nFlags bInUserSpace
    _ 0 _ lf hres hphys hnull hshift0
  rw [hdesc] at hinj
  have hdist : ∀ i j, 0 ≤ i → i < j →
      j < 0 + (add32
        (add32 (pageCount nBufferVAddr nBufferSize)
          (if alignmentRestricted mc.info then DESCRIPTOR_V13_12_GET nBufferVAddr else 0))
        SCX_DESCRIPTOR_TABLE_CAPACITY_MASK >>> SCX_DESCRIPTOR_TABLE_CAPACITY_BIT_SHIFT) →
      lf.pShmemDesc.pCoarsePageTable i ≠ lf.pShmemDesc.pCoarsePageTable j := by
    intro i j hi hij hj
    by_cases hkind : pShmemDesc.nType = mc.SCXLNX_SHMEM_TYPE_REGISTERED_SHMEM ∨
        pShmemDesc.nType = mc.SCXLNX_SHMEM_TYPE_PM_HIBERNATE
    · exact (t4 hkind owned (hpool hkind)).2 i j hi hij hj
    · rw [t3 hkind i, t3 hkind j]
      exact hinj hkind i j hij (by simpa using hj)
  obtain ⟨r1, _, _, _, r5, _⟩ := fillCoarsePages_release mc env nBufferVAddr nFlags
    bInUserSpace 0 _ 0 _ lf hres hphys hnull hshift0 hdist
  rw [hst, hdesc]
  exact ⟨r1.2, r1.1, fun k hk => r5 k (Nat.zero_le _) (by simpa using hk)⟩

theorem free_fault_mono (ctx : SCXLNX_COARSE_PAGE_TABLE_ALLOCATION_CONTEXT)
    (t : SCXLNX_COARSE_PAGE_TABLE) (nForce : Nat)
    (h : (SCXLNXFreeCoarsePageTable ctx t nForce).fault = false) : ctx.fault = false := by
  unfold SCXLNXFreeCoarsePageTable at h
  cases hfind : findArray t.pParent ctx.sCoarsePageTableArrays with
  | none => rw [hfind] at h; cases h
  | some a =>
    rw [hfind] at h
    simp only at h
    split at h
    · split at h
      · exact h
      · split at h
        · cases h
        · exact h
    · exact h

/-- The release loop never clears the fault mark: when it ends with the mark
unset, the state it started from and the state after each of its turns had
the mark unset, that is, no call of `SCXLNXFreeCoarsePageTable` made by the
loop faulted. -/
theorem releaseCoarsePages_fault_mono (mc : MapConfig) (pShmemDesc : SCXLNX_SHMEM_DESC)
    (nFullCleanup : Nat) :
    ∀ (n i : Nat) (st : MapState),
      (releaseCoarsePages mc pShmemDesc nFullCleanup n i st).ctx.fault = false →
      ∀ m, m ≤ n →
        (releaseCoarsePages mc pShmemDesc nFullCleanup m i st).ctx.fault = false := by
  intro n
  induction n with
  | zero =>
    intro i st h m hm
    have hm0 : m = 0 := by omega
    rw [hm0]; exact h
  | succ n ih =>
    intro i st h m hm
    rw [releaseCoarsePages] at h
    have hrest := ih (i + 1) _ h
    have h0 := hrest 0 (Nat.zero_le _)
    have hstart : st.ctx.fault = false := by
      have hfr := (releasePages_frame mc (st.descriptors (pShmemDesc.pCoarsePageTable i))
        SCX_DESCRIPTOR_TABLE_CAPACITY 0 false st).1
      simp only [releaseCoarsePages] at h0
      split at h0
      · rw [← hfr]
        exact free_fault_mono _ _ _ h0
      · rw [← hfr]
        exact h0
    cases m with
    | zero => exact hstart
    | succ m =>
      rw [releaseCoarsePages]
      exact hrest m (by omega)

/-- When `SCXLNXCommReleaseSharedMemory`, called on a mapping that
`SCXLNXCommFillDescriptorTable` has just set up with return value 0, runs to
its end without a fault in `SCXLNXFreeCoarsePageTable`, then, for any
`nFullCleanup`, it drops one reference for each entry of `mappedPages` and
for nothing else, marks exactly those pages dirty that are not reserved, and
so leaves every reference count as it was before the map.  The assumptions
on the environment are those of `map_pins_mapped_pages`. -/
theorem map_then_release_without_fault (mc : MapConfig) (env : MapEnv) (st : MapState)
    (pShmemDesc : SCXLNX_SHMEM_DESC) (nBufferVAddr : Nat) (pDescriptors : Nat → Nat)
    (nBufferSize : Nat) (bInUserSpace : Bool) (nFlags nFullCleanup: Nat)
    (owned : List SCXLNX_COARSE_PAGE_TABLE)
    (hok : (SCXLNXCommFillDescriptorTable mc env st pShmemDesc nBufferVAddr pDescriptors
      nBufferSize bInUserSpace nFlags).nError = 0)
    (hphys : ∀ p ∈ mappedPages mc env nBufferVAddr nBufferSize bInUserSpace nFlags,
      mc.pte_page (mc.page_to_phys p &&& L2_DESCRIPTOR_ADDR_MASK) = p)
    (hnull : bInUserSpace = false →
      ∀ p ∈ mappedPages mc env nBufferVAddr nBufferSize bInUserSpace nFlags, p ≠ 0)
    (hpool : (pShmemDesc.nType = mc.SCXLNX_SHMEM_TYPE_REGISTERED_SHMEM ∨
        pShmemDesc.nType = mc.SCXLNX_SHMEM_TYPE_PM_HIBERNATE) →
      OwnershipInv ⟨st.ctx, owned⟩)
    (hinj : ¬ (pShmemDesc.nType = mc.SCXLNX_SHMEM_TYPE_REGISTERED_SHMEM ∨
        pShmemDesc.nType = mc.SCXLNX_SHMEM_TYPE_PM_HIBERNATE) →
      ∀ i j, i < j →
        j < (SCXLNXCommFillDescriptorTable mc env st pShmemDesc nBufferVAddr pDescriptors
          nBufferSize bInUserSpace nFlags).pShmemDesc.nNumberOfCoarsePageTables →
        pShmemDesc.pCoarsePageTable i ≠ pShmemDesc.pCoarsePageTable j)
    (hnf : (SCXLNXCommReleaseSharedMemory mc
        (SCXLNXCommFillDescriptorTable mc env st pShmemDesc nBufferVAddr pDescriptors
          nBufferSize bInUserSpace nFlags).st
        (SCXLNXCommFillDescriptorTable mc env st pShmemDesc nBufferVAddr pDescriptors
          nBufferSize bInUserSpace nFlags).pShmemDesc nFullCleanup).1.ctx.fault = false) :
    (SCXLNXCommFillDescriptorTable mc env st pShmemDesc nBufferVAddr pDescriptors
      nBufferSize bInUserSpace nFlags).st.ctx.fault = false ∧
    (∀ p, (SCXLNXCommReleaseSharedMemory mc
        (SCXLNXCommFillDescriptorTable mc env st pShmemDesc nBufferVAddr pDescriptors
          nBufferSize bInUserSpace nFlags).st
        (SCXLNXCommFillDescriptorTable mc env st pShmemDesc nBufferVAddr pDescriptors
          nBufferSize bInUserSpace nFlags).pShmemDesc nFullCleanup).1.pageRefs p =
      (SCXLNXCommFillDescriptorTable mc env st pShmemDesc nBufferVAddr pDescriptors
        nBufferSize bInUserSpace nFlags).st.pageRefs p -
        ((mappedPages mc env nBufferVAddr nBufferSize bInUserSpace nFlags).count p : Int)) ∧
    (∀ p, (SCXLNXCommReleaseSharedMemory mc
        (SCXLNXCommFillDescriptorTable mc env st pShmemDesc nBufferVAddr pDescriptors
          nBufferSize bInUserSpace nFlags).st
        (SCXLNXCommFillDescriptorTable mc env st pShmemDesc nBufferVAddr pDescriptors
          nBufferSize bInUserSpace nFlags).pShmemDesc nFullCleanup).1.pageDirty p =
      ((SCXLNXCommFillDescriptorTable mc env st pShmemDesc nBufferVAddr pDescriptors
        nBufferSize bInUserSpace nFlags).st.pageDirty p ||
        (decide (p ∈ mappedPages mc env nBufferVAddr nBufferSize bInUserSpace nFlags) &&
          !mc.PageReserved p))) ∧
    (∀ p, (SCXLNXCommReleaseSharedMemory mc
        (SCXLNXCommFillDescriptorTable mc env st pShmemDesc nBufferVAddr pDescriptors
          nBufferSize bInUserSpace nFlags).st
        (SCXLNXCommFillDescriptorTable mc env st pShmemDesc nBufferVAddr pDescriptors
          nBufferSize bInUserSpace nFlags).pShmemDesc nFullCleanup).1.pageRefs p =
      st.pageRefs p) := by
  have hstart := releaseCoarsePages_fault_mono mc _ nFullCleanup _ 0 _ hnf 0 (Nat.zero_le _)
  obtain ⟨lf, hres, hst, hdesc⟩ := fill_success_shape mc env st pShmemDesc nBufferVAddr
    pDescriptors nBufferSize bInUserSpace nFlags hok
  have hshift0 := pageShift_le mc.info nBufferVAddr nBufferSize
  obtain ⟨_, _, t3, t4⟩ := fillCoarsePages_tables mc env nBufferVAddr nFlags bInUserSpace
    _ 0 _ lf hres hphys hnull hshift0
  rw [hdesc] at hinj
  have hdist : ∀ i j, 0 ≤ i → i < j →
      j < 0 + (add32
        (add32 (pageCount nBufferVAddr nBufferSize)
          (if alignmentRestricted mc.info then DESCRIPTOR_V13_12_GET nBufferVAddr else 0))
        SCX_DESCRIPTOR_TABLE_CAPACITY_MASK >>> SCX_DESCRIPTOR_TABLE_CAPACITY_BIT_SHIFT) →
      lf.pShmemDesc.pCoarsePageTable i ≠ lf.pShmemDesc.pCoarsePageTable j := by
    intro i j hi hij hj
    by_cases hkind : pShmemDesc.nType = mc.SCXLNX_SHMEM_TYPE_REGISTERED_SHMEM ∨
        pShmemDesc.nType = mc.SCXLNX_SHMEM_TYPE_PM_HIBERNATE
    · exact (t4 hkind owned (hpool hkind)).2 i j hi hij hj
    · rw [t3 hkind i, t3 hkind j]
      exact hinj hkind i j hij (by simpa using hj)
  obtain ⟨r1, _, _, _, _, r6⟩ := fillCoarsePages_release mc env nBufferVAddr nFlags
    bInUserSpace nFullCleanup _ 0 _ lf hres hphys hnull hshift0 hdist
  have hrel := r6
    { lf.pShmemDesc with
      nNumberOfCoarsePageTables :=
        add32
          (add32 (pageCount nBufferVAddr nBufferSize)
            (if alignmentRestricted mc.info then DESCRIPTOR_V13_12_GET nBufferVAddr else 0))
          SCX_DESCRIPTOR_TABLE_CAPACITY_MASK >>> SCX_DESCRIPTOR_TABLE_CAPACITY_BIT_SHIFT }
    lf.st rfl rfl
  rw [hst, hdesc] at hstart ⊢
  obtain ⟨_, q2, q3⟩ := hrel
  refine ⟨hstart, q2, q3, fun p => ?_⟩
  have h1 := q2 p
  have h2 := r1.2 p
  show (releaseCoarsePages mc _ nFullCleanup _ 0 lf.st).pageRefs p = st.pageRefs p
  rw [h1, h2]
  show st.pageRefs p + _ - _ = st.pageRefs p
  omega

/-- A two-page kernel-space buffer mapped for a registered descriptor on the
empty allocator, the page record arriving zeroed, resolves the pages
`0xD0000` and `0xD0001`; the release that follows does not fault and leaves
no page referenced. -/
theorem map_then_release_without_fault_example :
    (SCXLNXCommFillDescriptorTable mapConfig0 mapEnv0 mapState0 shmemDesc0
      0xD0000000 (fun _ => 0) 8192 false 2).nError = 0 ∧
    mappedPages mapConfig0 mapEnv0 0xD0000000 8192 false 2 = [0xD0000, 0xD0001] ∧
    (SCXLNXCommReleaseSharedMemory mapConfig0
        (SCXLNXCommFillDescriptorTable mapConfig0 mapEnv0 mapState0 shmemDesc0
          0xD0000000 (fun _ => 0) 8192 false 2).st
        (SCXLNXCommFillDescriptorTable mapConfig0 mapEnv0 mapState0 shmemDesc0
          0xD0000000 (fun _ => 0) 8192 false 2).pShmemDesc 0).1.ctx.fault = false ∧
    ∀ p, (SCXLNXCommReleaseSharedMemory mapConfig0
        (SCXLNXCommFillDescriptorTable mapConfig0 mapEnv0 mapState0 shmemDesc0
          0xD0000000 (fun _ => 0) 8192 false 2).st
        (SCXLNXCommFillDescriptorTable mapConfig0 mapEnv0 mapState0 shmemDesc0
          0xD0000000 (fun _ => 0) 8192 false 2).pShmemDesc 0).1.pageRefs p =
      mapState0.pageRefs p :=
  ⟨by decide, by decide, by decide,
    (map_then_release_without_fault mapConfig0 mapEnv0 mapState0 shmemDesc0 0xD0000000
      (fun _ => 0) 8192 false 2 0 [] (by decide) (by decide) (fun _ => by decide)
      (fun _ => ownershipInv_init)
      (fun h => absurd (Or.inl rfl) h) (by decide)).2.2.2⟩

set_option maxRecDepth 100000 in
set_option maxHeartbeats 4000000 in
/-- C13 fails on the code when a page record arrives with a count field that
does not read zero (the field is never initialised, see C1).  A kernel-space
buffer of 257 pages is mapped for a fresh registered descriptor on the empty
allocator, the page record arriving with a count field that reads
`0xFFFFFFFF`: the call returns 0 with the two coarse page tables 0 and 3 of
page record 0, whose count is then 1, and 257 pages pinned, the last one,
`0xD0100`, through the second table.  The release that follows drops the
references taken through the first table and calls
`SCXLNXFreeCoarsePageTable` on it: the count drops to 0 and the whole-page
branch runs `list_del` on table 3, which is in use and holds poisoned
pointers.  The call faults there: the second table is never scanned and page
`0xD0100` keeps the reference that the map took. -/
theorem release_faults_before_second_table :
    shmemDesc0.nType = mapConfig0.SCXLNX_SHMEM_TYPE_REGISTERED_SHMEM ∧
    pageCount 0xD0000000 0x101000 = 257 ∧
    mappingGarbage.nError = 0 ∧
    mappingGarbage.pShmemDesc.nNumberOfCoarsePageTables = 2 ∧
    mappingGarbage.pShmemDesc.pCoarsePageTable 0 = ⟨0, 0⟩ ∧
    mappingGarbage.pShmemDesc.pCoarsePageTable 1 = ⟨0, 3⟩ ∧
    mappingGarbage.st.ctx = poolTwoInUse ∧
    (mappedPages mapConfig0 mapEnvGarbage 0xD0000000 0x101000 false 2).length = 257 ∧
    (mappedPages mapConfig0 mapEnvGarbage 0xD0000000 0x101000 false 2).getD 256 0 = 0xD0100 ∧
    mapState0.pageRefs 0xD0100 = 0 ∧
    mappingGarbage.st.pageRefs 0xD0100 = 1 ∧
    (releaseCoarsePages mapConfig0 mappingGarbage.pShmemDesc 0 1 0 mappingGarbage.st).pageRefs
      0xD0000 = 0 ∧
    (releaseCoarsePages mapConfig0 mappingGarbage.pShmemDesc 0 1 0 mappingGarbage.st).pageRefs
      0xD0100 = 1 ∧
    (releaseCoarsePages mapConfig0 mappingGarbage.pShmemDesc 0 1 0 mappingGarbage.st).ctx =
      SCXLNXFreeCoarsePageTable poolTwoInUse ⟨0, 0⟩ 0 ∧
    (SCXLNXFreeCoarsePageTable poolTwoInUse ⟨0, 0⟩ 0).fault = true ∧
    (SCXLNXCommReleaseSharedMemory mapConfig0 mappingGarbage.st mappingGarbage.pShmemDesc
      0).1.ctx.fault = true := by
  have hok : mappingGarbage.nError = 0 := by decide
  have hn : mappingGarbage.pShmemDesc.nNumberOfCoarsePageTables = 2 := by decide
  have ht0 : mappingGarbage.pShmemDesc.pCoarsePageTable 0 = ⟨0, 0⟩ := by decide
  have ht1 : mappingGarbage.pShmemDesc.pCoarsePageTable 1 = ⟨0, 3⟩ := by decide
  have hctx : mappingGarbage.st.ctx = poolTwoInUse := by decide
  have hkind : shmemDesc0.nType = mapConfig0.SCXLNX_SHMEM_TYPE_REGISTERED_SHMEM := by decide
  -- the pages pinned by the map
  have hmap := map_pins_mapped_pages mapConfig0 mapEnvGarbage mapState0 shmemDesc0 0xD0000000
    (fun _ => 0) 0x101000 false 2 [] hok (by decide) (fun _ => by decide)
    (fun _ => ownershipInv_init) (fun h => absurd (Or.inl hkind) h)
  have hpin : ∀ p, mappingGarbage.st.pageRefs p =
      mapState0.pageRefs p +
        ((mappedPages mapConfig0 mapEnvGarbage 0xD0000000 0x101000 false 2).count p : Int) :=
    hmap.1
  -- the first table holds the pages of the first fragment
  obtain ⟨lf, hres, hst, hdesc⟩ := fill_success_shape mapConfig0 mapEnvGarbage mapState0
    shmemDesc0 0xD0000000 (fun _ => 0) 0x101000 false 2 hok
  have hcount : (add32 (add32 (pageCount 0xD0000000 0x101000)
        (if alignmentRestricted mapConfig0.info then DESCRIPTOR_V13_12_GET 0xD0000000 else 0))
      SCX_DESCRIPTOR_TABLE_CAPACITY_MASK >>> SCX_DESCRIPTOR_TABLE_CAPACITY_BIT_SHIFT) = 1 + 1 := by
    decide
  rw [hcount, fillCoarsePages] at hres
  split at hres
  · cases (Prod.mk.inj hres).1
  rename_i l1 hfrag
  have hP0 : fragmentPages mapConfig0 mapEnvGarbage 0xD0000000 2 false 0
      (add32 (pageCount 0xD0000000 0x101000)
        (if alignmentRestricted mapConfig0.info then DESCRIPTOR_V13_12_GET 0xD0000000 else 0))
      (if alignmentRestricted mapConfig0.info then DESCRIPTOR_V13_12_GET 0xD0000000 else 0) =
      (List.range 256).map (fun i => 0xD0000 + i) := by decide
  obtain ⟨f1, f2, _, _, _, _, _, f8, _⟩ :=
    fillCoarsePage_spec mapConfig0 mapEnvGarbage 0xD0000000 2 false 0 _ l1 hfrag
      (by rw [hP0]; decide) (fun _ => by rw [hP0]; decide) (by decide)
  rw [hP0] at f8
  have hres1 : resolvedPages mapConfig0 mapEnvGarbage 0xD0000000 2 false 1 (0 + 1)
      l1.nPageCount l1.nPageShift = [0xD0100] := by
    rw [f1, f2]; decide
  obtain ⟨_, _, g3, g4, _, _⟩ := fillCoarsePages_release mapConfig0 mapEnvGarbage 0xD0000000 2
    false 0 1 (0 + 1) l1 lf hres (by rw [hres1]; decide) (fun _ => by rw [hres1]; decide)
    (by rw [f1]; exact Nat.zero_le _) (fun i j h1 h2 h3 => by omega)
  have htab : mappingGarbage.pShmemDesc.pCoarsePageTable = lf.pShmemDesc.pCoarsePageTable := by
    have := congrArg SCXLNX_SHMEM_DESC.pCoarsePageTable hdesc
    exact this
  have hstG : mappingGarbage.st = lf.st := hst
  have hpacked : Packed mapConfig0
      (mappingGarbage.st.descriptors (mappingGarbage.pShmemDesc.pCoarsePageTable 0)) 0
      ((List.range 256).map (fun i => 0xD0000 + i)) := by
    rw [hstG, htab, g4 _ (fun j h1 h2 => ?_), g3 0 (by omega)]
    · exact f8
    · have hj : j = 1 := by omega
      rw [hj, ← htab, ht0, ht1]
      decide
  have hfirst := releasePages_packed hpacked mappingGarbage.st
  have hkindG : mappingGarbage.pShmemDesc.nType = mapConfig0.SCXLNX_SHMEM_TYPE_REGISTERED_SHMEM :=
    by decide
  have hturn : releaseCoarsePages mapConfig0 mappingGarbage.pShmemDesc 0 1 0 mappingGarbage.st =
      { releasePages mapConfig0
          (mappingGarbage.st.descriptors (mappingGarbage.pShmemDesc.pCoarsePageTable 0))
          SCX_DESCRIPTOR_TABLE_CAPACITY 0 false mappingGarbage.st with
        ctx := SCXLNXFreeCoarsePageTable
          (releasePages mapConfig0
            (mappingGarbage.st.descriptors (mappingGarbage.pShmemDesc.pCoarsePageTable 0))
            SCX_DESCRIPTOR_TABLE_CAPACITY 0 false mappingGarbage.st).ctx
          (mappingGarbage.pShmemDesc.pCoarsePageTable 0) 0 } := by
    rw [releaseCoarsePages]
    simp only [hkindG, true_or, if_true]
    rfl
  have hfr := (releasePages_frame mapConfig0
    (mappingGarbage.st.descriptors (mappingGarbage.pShmemDesc.pCoarsePageTable 0))
    SCX_DESCRIPTOR_TABLE_CAPACITY 0 false mappingGarbage.st).1
  obtain ⟨_, _, _, _, hfold, _⟩ := releaseCoarsePages_frame mapConfig0 mappingGarbage.pShmemDesc
    0 2 0 mappingGarbage.st
  refine ⟨hkind, by decide, hok, hn, ht0, ht1, hctx, by decide, by decide, rfl, ?_, ?_, ?_, ?_,
    by decide, ?_⟩
  · rw [hpin]; decide
  · rw [hturn]
    dsimp only
    rw [hfirst.2.1, hpin]
    decide
  · rw [hturn]
    dsimp only
    rw [hfirst.2.1, hpin]
    decide
  · rw [hturn]
    dsimp only
    rw [hfr, hctx, ht0]
  · show (releaseCoarsePages _ _ _ mappingGarbage.pShmemDesc.nNumberOfCoarsePageTables _ _).ctx.fault
      = true
    rw [hn, hfold (Or.inl hkindG), show List.range' 0 2 = [0, 1] from rfl]
    simp only [List.foldl]
    rw [hctx, ht0, ht1]
    decide

/-! ## The command ring -/

theorem copyToQueue_untouched (capacity ff : Nat) (msg : Nat → Nat) (q : Nat → Nat)
    (k : Nat) : ∀ n, (∀ i, i < n → slot capacity ff i ≠ k) →
      copyToQueue capacity ff msg n q k = q k := by
  intro n
  induction n with
  | zero => intro _; rfl
  | succ n ih =>
    intro h
    unfold copyToQueue
    rw [Function.update_noteq (fun hk => h n (Nat.lt_succ_self n) hk.symm)]
    exact ih (fun i hi => h i (Nat.lt_succ_of_lt hi))

theorem copyToQueue_written (capacity ff : Nat) (msg : Nat → Nat) (q : Nat → Nat)
    (i : Nat) : ∀ n, i < n →
      (∀ j, i < j → j < n → slot capacity ff j ≠ slot capacity ff i) →
      copyToQueue capacity ff msg n q (slot capacity ff i) = msg i := by
  intro n
  induction n with
  | zero => intro h; omega
  | succ n ih =>
    intro hi h
    unfold copyToQueue
    by_cases hin : i = n
    · subst hin; rw [Function.update_same]
    · have hlt : i < n := by omega
      rw [Function.update_noteq (fun hk => h n hlt (Nat.lt_succ_self n) hk.symm)]
      exact ih hlt (fun j h1 h2 => h j h1 (Nat.lt_succ_of_lt h2))

/-- Where the first part of the claim C4 holds.  On an initialised channel,
for a message whose total word length `n` fits the message union, with
`(first-free - first) + n` below `2^32`, the enqueue step of
`SCXLNXCommSendMessage` is all or nothing: when
`(first-free - first) + n < capacity`, the message is marked copied, the
first-free cursor advances by `n`, the first cursor stays, every word of the
message is stored at its slot (and is what the slot holds unless a later word
of the same message went to the same slot), and every other slot keeps its
content; otherwise the channel is unchanged and the message stays marked as
not copied.  On a channel that is not initialised the step does nothing. -/
theorem enqueue_all_or_nothing_within_bounds (cfg : Config) (pComm : SCXLNX_COMM)
    (m : SCX_COMMAND_MESSAGE)
    (hlen : m.nMessageSize + cfg.commandHeaderWords ≤ cfg.commandMessageWords)
    (hsum : sub32 pComm.pBuffer.nFirstFreeCommand pComm.pBuffer.nFirstCommand +
      (m.nMessageSize + cfg.commandHeaderWords) < 2 ^ 32) :
    (pComm.SCXLNX_COMM_FLAG_L1_SHARED_ALLOCATED = true →
      sub32 pComm.pBuffer.nFirstFreeCommand pComm.pBuffer.nFirstCommand +
        (m.nMessageSize + cfg.commandHeaderWords) < cfg.SCX_N_MESSAGE_QUEUE_CAPACITY →
      ∃ e, enqueueCommand cfg pComm (some m) false = some e ∧
        e.2 = true ∧
        e.1.pBuffer.nFirstFreeCommand =
          add32 pComm.pBuffer.nFirstFreeCommand (m.nMessageSize + cfg.commandHeaderWords) ∧
        e.1.pBuffer.nFirstCommand = pComm.pBuffer.nFirstCommand ∧
        (∀ i, i < m.nMessageSize + cfg.commandHeaderWords →
          (∀ j, i < j → j < m.nMessageSize + cfg.commandHeaderWords →
            slot cfg.SCX_N_MESSAGE_QUEUE_CAPACITY pComm.pBuffer.nFirstFreeCommand j ≠
              slot cfg.SCX_N_MESSAGE_QUEUE_CAPACITY pComm.pBuffer.nFirstFreeCommand i) →
          e.1.pBuffer.sCommandQueue
              (slot cfg.SCX_N_MESSAGE_QUEUE_CAPACITY pComm.pBuffer.nFirstFreeCommand i) =
            m.words i) ∧
        (∀ k, (∀ i, i < m.nMessageSize + cfg.commandHeaderWords →
            slot cfg.SCX_N_MESSAGE_QUEUE_CAPACITY pComm.pBuffer.nFirstFreeCommand i ≠ k) →
          e.1.pBuffer.sCommandQueue k = pComm.pBuffer.sCommandQueue k)) ∧
    (pComm.SCXLNX_COMM_FLAG_L1_SHARED_ALLOCATED = true →
      ¬ sub32 pComm.pBuffer.nFirstFreeCommand pComm.pBuffer.nFirstCommand +
        (m.nMessageSize + cfg.commandHeaderWords) < cfg.SCX_N_MESSAGE_QUEUE_CAPACITY →
      enqueueCommand cfg pComm (some m) false = some (pComm, false)) ∧
    (pComm.SCXLNX_COMM_FLAG_L1_SHARED_ALLOCATED = false →
      enqueueCommand cfg pComm (some m) false = some (pComm, false)) := by
  have hsize : commandSize cfg m = m.nMessageSize + cfg.commandHeaderWords := by
    unfold commandSize add32
    exact Nat.mod_eq_of_lt (by omega)
  have hfits : commandFits cfg pComm.pBuffer m = true ↔
      sub32 pComm.pBuffer.nFirstFreeCommand pComm.pBuffer.nFirstCommand +
        (m.nMessageSize + cfg.commandHeaderWords) < cfg.SCX_N_MESSAGE_QUEUE_CAPACITY := by
    unfold commandFits queueWordsCount
    rw [hsize, decide_eq_true_iff]
    unfold add32
    rw [Nat.mod_eq_of_lt hsum]
  have hin : decide (cfg.commandMessageWords < commandSize cfg m) = false := by
    rw [hsize, decide_eq_false_iff_not]
    omega
  refine ⟨fun hinit hroom => ?_, fun hinit hroom => ?_, fun hinit => ?_⟩
  · have hf := hfits.2 hroom
    refine ⟨({ pComm with pBuffer := (writeMessage cfg pComm.pBuffer m).1 },
      (writeMessage cfg pComm.pBuffer m).2), ?_, ?_⟩
    · simp only [enqueueCommand, hinit, hin, Bool.not_false, Bool.and_true, Bool.and_false,
        if_true, Bool.false_eq_true, if_false]
    · simp only [writeMessage, hf, if_true, hsize]
      exact ⟨trivial, trivial, trivial,
        fun i hi hlast => copyToQueue_written _ _ _ _ i _ hi hlast,
        fun k hk => copyToQueue_untouched _ _ _ _ k _ hk⟩
  · have hf : commandFits cfg pComm.pBuffer m = false := by
      cases hc : commandFits cfg pComm.pBuffer m with
      | false => rfl
      | true => exact absurd (hfits.1 hc) hroom
    simp only [enqueueCommand, hinit, hin, Bool.not_false, Bool.and_true, Bool.and_false,
      if_true, Bool.false_eq_true, if_false, writeMessage, hf]
    obtain ⟨a, b, c, d⟩ := pComm
    simp only at hinit
    subst hinit
    rfl
  · simp only [enqueueCommand, hinit, Bool.false_and, Bool.false_eq_true, if_false]

/-- A four-word message enqueued at cursor 126 of the empty 128-word ring is
marked copied and the cursor moves to 130. -/
theorem enqueue_all_or_nothing_within_bounds_example :
    (enqueueCommand config0
        { comm0 with pBuffer := { buffer0 with nFirstCommand := 126, nFirstFreeCommand := 126 } }
        (some (message0 2 7 1000)) false).map
      (fun e => (e.2, e.1.pBuffer.nFirstCommand, e.1.pBuffer.nFirstFreeCommand,
        (List.range 4).map fun i => e.1.pBuffer.sCommandQueue ((126 + i) % 128)))
      = some (true, 126, 130, [1000, 1001, 1002, 1003]) := by
  decide

/-- C4 fails on the code for a declared length that makes the 32-bit sum of
the room test wrap.  The 128-word ring holds one unread command of 10 words
(first cursor 0, first-free cursor 10) and the message declares `2^32 - 7`
payload words, `2^32 - 5` words in all.  The sum `10 + (2^32 - 5)` is not
below the capacity, so that the claim has the ring, the cursors and the
copied mark unchanged; the code computes the sum in 32 bits, finds 5, and
enters the copy loop.  The loop stores the 256 words of the message union
(slot 10 first holds word 0 of the message, then word 128) and goes on
reading past the union: a proper prefix of the message has been written, and
the first-free cursor, stored only after the loop, has not moved. -/
theorem enqueue_writes_prefix_on_wrapped_length :
    (runRing config0 ⟨buffer0, []⟩ [.enqueue (message0 8 1 1000)]).b.nFirstCommand = 0 ∧
    (runRing config0 ⟨buffer0, []⟩ [.enqueue (message0 8 1 1000)]).b.nFirstFreeCommand = 10 ∧
    commandSize config0 (message0 (2 ^ 32 - 7) 2 5000) = 2 ^ 32 - 5 ∧
    ¬ ((10 - 0) + (2 ^ 32 - 5) < config0.SCX_N_MESSAGE_QUEUE_CAPACITY) ∧
    add32 (10 - 0) (2 ^ 32 - 5) = 5 ∧
    commandFits config0 (runRing config0 ⟨buffer0, []⟩ [.enqueue (message0 8 1 1000)]).b
      (message0 (2 ^ 32 - 7) 2 5000) = true ∧
    config0.commandMessageWords < commandSize config0 (message0 (2 ^ 32 - 7) 2 5000) ∧
    (enqueueCommand config0
      { comm0 with
        pBuffer := (runRing config0 ⟨buffer0, []⟩ [.enqueue (message0 8 1 1000)]).b }
      (some (message0 (2 ^ 32 - 7) 2 5000)) false).isNone = true ∧
    (runRing config0 ⟨buffer0, []⟩ [.enqueue (message0 8 1 1000)]).b.sCommandQueue 10 = 0 ∧
    copyToQueue config0.SCX_N_MESSAGE_QUEUE_CAPACITY 10 (message0 (2 ^ 32 - 7) 2 5000).words 1
      (runRing config0 ⟨buffer0, []⟩ [.enqueue (message0 8 1 1000)]).b.sCommandQueue 10
      = 5000 ∧
    copyToQueue config0.SCX_N_MESSAGE_QUEUE_CAPACITY 10 (message0 (2 ^ 32 - 7) 2 5000).words
      config0.commandMessageWords
      (runRing config0 ⟨buffer0, []⟩ [.enqueue (message0 8 1 1000)]).b.sCommandQueue 10
      = 5128 := by
  refine ⟨by decide, by decide, by decide, by decide, by decide, by decide, by decide,
    by decide, by decide, by decide, by decide⟩

theorem slot_eq_of_dvd {capacity : Nat} (hdvd : capacity ∣ 2 ^ 32) (c i : Nat) :
    slot capacity c i = (c + i) % capacity := by
  unfold slot add32
  exact Nat.mod_mod_of_dvd _ hdvd

theorem mod_add_ne_of_lt {capacity a x y : Nat} (hx : x < capacity) (hy : y < capacity)
    (hxy : x ≠ y) : (a + x) % capacity ≠ (a + y) % capacity := by
  intro h
  have h1 : x ≡ y [MOD capacity] := Nat.ModEq.add_left_cancel' a h
  exact hxy (Nat.ModEq.eq_of_lt_of_lt h1 hx hy)

theorem ringInv_count {cfg : Config} {s : RingState}
    (hdvd : cfg.SCX_N_MESSAGE_QUEUE_CAPACITY ∣ 2 ^ 32) (h : RingInv cfg s) :
    queueWordsCount s.b = s.pending.sum := by
  obtain ⟨h1, h2, h3⟩ := h
  have hle : cfg.SCX_N_MESSAGE_QUEUE_CAPACITY ≤ 2 ^ 32 :=
    Nat.le_of_dvd (by norm_num) hdvd
  unfold queueWordsCount sub32
  rw [h2]
  omega

theorem ringInv_fits {cfg : Config} {s : RingState}
    (hdvd : cfg.SCX_N_MESSAGE_QUEUE_CAPACITY ∣ 2 ^ 32) (h : RingInv cfg s)
    (m : SCX_COMMAND_MESSAGE)
    (hm : cfg.commandHeaderWords + m.nMessageSize + cfg.SCX_N_MESSAGE_QUEUE_CAPACITY
      ≤ 2 ^ 32) :
    commandSize cfg m = m.nMessageSize + cfg.commandHeaderWords ∧
    (commandFits cfg s.b m = true ↔
      s.pending.sum + (m.nMessageSize + cfg.commandHeaderWords)
        < cfg.SCX_N_MESSAGE_QUEUE_CAPACITY) := by
  have hc := ringInv_count hdvd h
  obtain ⟨h1, h2, h3⟩ := h
  have hsize : commandSize cfg m = m.nMessageSize + cfg.commandHeaderWords := by
    unfold commandSize add32
    apply Nat.mod_eq_of_lt
    have : 0 < cfg.SCX_N_MESSAGE_QUEUE_CAPACITY := by omega
    omega
  refine ⟨hsize, ?_⟩
  unfold commandFits
  rw [hc, hsize, decide_eq_true_iff]
  unfold add32
  rw [Nat.mod_eq_of_lt (by omega)]

theorem ringInv_step {cfg : Config} {s : RingState}
    (hdvd : cfg.SCX_N_MESSAGE_QUEUE_CAPACITY ∣ 2 ^ 32) (h : RingInv cfg s)
    (op : RingOp) (hop : BoundedMessages cfg [op]) : RingInv cfg (ringStep cfg s op) := by
  cases op with
  | enqueue m =>
    obtain ⟨hsize, hfit⟩ := ringInv_fits hdvd h m hop.1.2
    obtain ⟨h1, h2, h3⟩ := h
    unfold ringStep
    by_cases hf : commandFits cfg s.b m = true
    · have hlt := hfit.1 hf
      have hw : writeMessage cfg s.b m =
          ({ s.b with
              sCommandQueue :=
                copyToQueue cfg.SCX_N_MESSAGE_QUEUE_CAPACITY s.b.nFirstFreeCommand
                  m.words (commandSize cfg m) s.b.sCommandQueue,
              nFirstFreeCommand := add32 s.b.nFirstFreeCommand (commandSize cfg m) },
            true) := by
        simp [writeMessage, hf]
      simp only [hw, if_true]
      refine ⟨h1, ?_, ?_⟩
      · show add32 s.b.nFirstFreeCommand (commandSize cfg m) =
          (s.b.nFirstCommand + (s.pending ++ [commandSize cfg m]).sum) % 2 ^ 32
        rw [List.sum_append, List.sum_singleton, h2, hsize]
        unfold add32
        omega
      · show (s.pending ++ [commandSize cfg m]).sum < _
        rw [List.sum_append, List.sum_singleton, hsize]
        exact hlt
    · have hw : writeMessage cfg s.b m = (s.b, false) := by
        simp [writeMessage, hf]
      simp only [hw]
      exact ⟨h1, h2, h3⟩
  | read =>
    obtain ⟨h1, h2, h3⟩ := h
    unfold ringStep
    cases hp : s.pending with
    | nil => simp only; exact ⟨h1, by rw [h2], h3⟩
    | cons n rest =>
      simp only
      rw [hp, List.sum_cons] at h2 h3
      refine ⟨?_, ?_, (by omega : rest.sum < cfg.SCX_N_MESSAGE_QUEUE_CAPACITY)⟩
      · show add32 s.b.nFirstCommand n < 2 ^ 32
        unfold add32
        exact Nat.mod_lt _ (by norm_num)
      · show s.b.nFirstFreeCommand = (add32 s.b.nFirstCommand n + rest.sum) % 2 ^ 32
        rw [h2]
        unfold add32
        omega

theorem ringInv_run {cfg : Config} (hdvd : cfg.SCX_N_MESSAGE_QUEUE_CAPACITY ∣ 2 ^ 32)
    (ops : List RingOp) : ∀ {s : RingState}, RingInv cfg s → BoundedMessages cfg ops →
      RingInv cfg (runRing cfg s ops) := by
  induction ops with
  | nil => intro s h _; exact h
  | cons op ops ih =>
    intro s h hb
    unfold runRing
    rw [List.foldl_cons]
    have hop : BoundedMessages cfg [op] ∧ BoundedMessages cfg ops := by
      cases op with
      | enqueue m => exact ⟨⟨hb.1, trivial⟩, hb.2⟩
      | read => exact ⟨trivial, hb⟩
    exact ih (ringInv_step hdvd h op hop.1) hop.2

/-- C5 fails on the code for a declared length that makes the 32-bit sum of
the room test wrap (nothing bounds the declared length before the test, the
defect met in C4).  The 128-word ring holds one
unread command of 127 words: first cursor 0, first-free cursor 127, occupied
count 127 below the capacity, slot 0 holding its first word 1000.  A message
declaring `2^32 - 129` payload words, `2^32 - 127` words in all, passes the
room test, the 32-bit sum `127 + (2^32 - 127)` being 0.  The copy loop stores
word 0 of the message at slot 127 and word 1, the second word of its header,
at slot `(127 + 1) mod 128 = (first + 0) mod 128`: the first word of the
unread command is overwritten by 5001. -/
theorem unread_slot_overwritten_on_wrapped_length :
    (runRing config0 ⟨buffer0, []⟩ [.enqueue (message0 125 1 1000)]).b.nFirstCommand = 0 ∧
    (runRing config0 ⟨buffer0, []⟩ [.enqueue (message0 125 1 1000)]).b.nFirstFreeCommand
      = 127 ∧
    queueWordsCount (runRing config0 ⟨buffer0, []⟩ [.enqueue (message0 125 1 1000)]).b
      = 127 ∧
    queueWordsCount (runRing config0 ⟨buffer0, []⟩ [.enqueue (message0 125 1 1000)]).b
      < config0.SCX_N_MESSAGE_QUEUE_CAPACITY ∧
    0 < queueWordsCount (runRing config0 ⟨buffer0, []⟩ [.enqueue (message0 125 1 1000)]).b ∧
    (runRing config0 ⟨buffer0, []⟩ [.enqueue (message0 125 1 1000)]).b.sCommandQueue
      (((runRing config0 ⟨buffer0, []⟩ [.enqueue (message0 125 1 1000)]).b.nFirstCommand + 0)
        % 128) = 1000 ∧
    commandSize config0 (message0 (2 ^ 32 - 129) 2 5000) = 2 ^ 32 - 127 ∧
    add32 127 (2 ^ 32 - 127) = 0 ∧
    commandFits config0
      (runRing config0 ⟨buffer0, []⟩ [.enqueue (message0 125 1 1000)]).b
      (message0 (2 ^ 32 - 129) 2 5000) = true ∧
    1 < config0.commandHeaderWords ∧
    (message0 (2 ^ 32 - 129) 2 5000).words 1 = 5001 ∧
    slot 128 (runRing config0 ⟨buffer0, []⟩
        [.enqueue (message0 125 1 1000)]).b.nFirstFreeCommand 1 =
      ((runRing config0 ⟨buffer0, []⟩
        [.enqueue (message0 125 1 1000)]).b.nFirstCommand + 0) % 128 ∧
    copyToQueue config0.SCX_N_MESSAGE_QUEUE_CAPACITY
      (runRing config0 ⟨buffer0, []⟩ [.enqueue (message0 125 1 1000)]).b.nFirstFreeCommand
      (message0 (2 ^ 32 - 129) 2 5000).words 2
      (runRing config0 ⟨buffer0, []⟩ [.enqueue (message0 125 1 1000)]).b.sCommandQueue
      (((runRing config0 ⟨buffer0, []⟩ [.enqueue (message0 125 1 1000)]).b.nFirstCommand + 0)
        % 128) = 5001 := by
  refine ⟨by decide, by decide, by decide, by decide, by decide, by decide, by decide,
    by decide, by decide, by decide, by decide, by decide, by decide⟩

/-- Where the claim C5 holds.  Start from an empty command ring and run any
sequence of enqueues and of reads that advance the first cursor by whole
commands, every enqueued message having a total word length `n` that fits the
message union, with `n + capacity ≤ 2^32` (the capacity dividing `2^32`).
Then the occupied word count `first-free - first` (modulo `2^32`) stays
strictly below the capacity, and a further enqueue of such a message writes
no slot `(first + j) mod capacity`, `j < occupied`, of an unread command:
those slots keep their content. -/
theorem ring_invariant (cfg : Config)
    (hdvd : cfg.SCX_N_MESSAGE_QUEUE_CAPACITY ∣ 2 ^ 32)
    (hcap : 0 < cfg.SCX_N_MESSAGE_QUEUE_CAPACITY)
    (b0 : L1_SHARED_BUFFER) (hlt : b0.nFirstCommand < 2 ^ 32)
    (hempty : b0.nFirstFreeCommand = b0.nFirstCommand)
    (ops : List RingOp) (hb : BoundedMessages cfg ops) :
    queueWordsCount (runRing cfg ⟨b0, []⟩ ops).b < cfg.SCX_N_MESSAGE_QUEUE_CAPACITY ∧
    ∀ m : SCX_COMMAND_MESSAGE,
      cfg.commandHeaderWords + m.nMessageSize ≤ cfg.commandMessageWords →
      cfg.commandHeaderWords + m.nMessageSize + cfg.SCX_N_MESSAGE_QUEUE_CAPACITY ≤ 2 ^ 32 →
      commandFits cfg (runRing cfg ⟨b0, []⟩ ops).b m = true →
      ∀ j, j < queueWordsCount (runRing cfg ⟨b0, []⟩ ops).b →
        (∀ i, i < commandSize cfg m →
          slot cfg.SCX_N_MESSAGE_QUEUE_CAPACITY
              (runRing cfg ⟨b0, []⟩ ops).b.nFirstFreeCommand i ≠
            ((runRing cfg ⟨b0, []⟩ ops).b.nFirstCommand + j)
              % cfg.SCX_N_MESSAGE_QUEUE_CAPACITY) ∧
        (writeMessage cfg (runRing cfg ⟨b0, []⟩ ops).b m).1.sCommandQueue
            (((runRing cfg ⟨b0, []⟩ ops).b.nFirstCommand + j)
              % cfg.SCX_N_MESSAGE_QUEUE_CAPACITY) =
          (runRing cfg ⟨b0, []⟩ ops).b.sCommandQueue
            (((runRing cfg ⟨b0, []⟩ ops).b.nFirstCommand + j)
              % cfg.SCX_N_MESSAGE_QUEUE_CAPACITY) := by
  have h0 : RingInv cfg ⟨b0, []⟩ := by
    refine ⟨hlt, ?_, by simpa using hcap⟩
    show b0.nFirstFreeCommand = (b0.nFirstCommand + 0) % 2 ^ 32
    rw [hempty, Nat.add_zero, Nat.mod_eq_of_lt hlt]
  have hinv := ringInv_run hdvd ops h0 hb
  generalize runRing cfg ⟨b0, []⟩ ops = s at hinv ⊢
  have hcount := ringInv_count hdvd hinv
  refine ⟨by rw [hcount]; exact hinv.2.2, fun m _ hm hfit j hj => ?_⟩
  obtain ⟨hsize, hfit1⟩ := ringInv_fits hdvd hinv m hm
  have hroom := hfit1.1 hfit
  have hdisj : ∀ i, i < commandSize cfg m →
      slot cfg.SCX_N_MESSAGE_QUEUE_CAPACITY s.b.nFirstFreeCommand i ≠
        (s.b.nFirstCommand + j) % cfg.SCX_N_MESSAGE_QUEUE_CAPACITY := by
    intro i hi
    rw [slot_eq_of_dvd hdvd, hinv.2.1, Nat.add_mod, Nat.mod_mod_of_dvd _ hdvd,
      ← Nat.add_mod, Nat.add_assoc]
    rw [hcount] at hj
    rw [hsize] at hi
    exact mod_add_ne_of_lt (by omega) (by omega) (by omega)
  refine ⟨hdisj, ?_⟩
  have hw : writeMessage cfg s.b m =
      ({ s.b with
          sCommandQueue :=
            copyToQueue cfg.SCX_N_MESSAGE_QUEUE_CAPACITY s.b.nFirstFreeCommand
              m.words (commandSize cfg m) s.b.sCommandQueue,
          nFirstFreeCommand := add32 s.b.nFirstFreeCommand (commandSize cfg m) },
        true) := by
    simp [writeMessage, hfit]
  rw [hw]
  exact copyToQueue_untouched _ _ _ _ _ _ hdisj

/-- After two commands of 10 and 4 words and one read on the 128-word ring,
4 words are occupied. -/
theorem ring_invariant_example :
    (config0.SCX_N_MESSAGE_QUEUE_CAPACITY ∣ 2 ^ 32) ∧
    0 < config0.SCX_N_MESSAGE_QUEUE_CAPACITY ∧
    BoundedMessages config0
      [.enqueue (message0 8 1 0), .enqueue (message0 2 2 0), .read] ∧
    queueWordsCount (runRing config0 ⟨buffer0, []⟩
      [.enqueue (message0 8 1 0), .enqueue (message0 2 2 0), .read]).b = 4 ∧
    queueWordsCount (runRing config0 ⟨buffer0, []⟩
      [.enqueue (message0 8 1 0), .enqueue (message0 2 2 0), .read]).b
      < config0.SCX_N_MESSAGE_QUEUE_CAPACITY :=
  ⟨by norm_num [config0], by decide, by simp [BoundedMessages, config0, message0],
    by decide,
    (ring_invariant config0 (by norm_num [config0]) (by decide) buffer0 (by decide) rfl
      [.enqueue (message0 8 1 0), .enqueue (message0 2 2 0), .read]
      (by simp [BoundedMessages, config0, message0])).1⟩

/-! ## Draining the answer queue -/

theorem map_getD_range (a : List Nat) (n : Nat) (hn : n ≤ a.length) :
    (List.range n).map (fun i => a.getD i 0) = a.take n := by
  apply List.ext_getElem
  · simp [hn]
  · intro i h1 h2
    simp only [List.length_map, List.length_range] at h1
    have hi : i < a.length := by omega
    simp [List.getElem?_eq_getElem hi]

theorem readFromQueue_stored {cfg : Config} {q : Nat → Nat} {c : Nat} {a : List Nat}
    (h : AnswerStoredAt cfg q c a) (n : Nat) (hn : n ≤ a.length) :
    readFromQueue cfg.SCX_S_ANSWER_QUEUE_CAPACITY c q n = a.take n := by
  rw [← map_getD_range a n hn]
  unfold readFromQueue
  apply List.map_congr_left
  intro i hi
  exact h.2.2.2 i (by have := List.mem_range.1 hi; omega)

theorem answerAt_stored {cfg : Config} {q : Nat → Nat} {c : Nat} {a : List Nat}
    (h : AnswerStoredAt cfg q c a) : answerAt cfg q c = a := by
  unfold answerAt
  simp only
  rw [readFromQueue_stored h cfg.answerHeaderWords (by have := h.1; omega)]
  have hsize : add32 (cfg.answerMessageSize (a.take cfg.answerHeaderWords))
      cfg.answerHeaderWords = a.length := by
    unfold add32
    have h1 := h.1
    have h2 := h.2.2.1
    rw [Nat.mod_eq_of_lt (by omega)]
    omega
  rw [hsize, readFromQueue_stored h a.length (Nat.le_refl _), List.take_length]

theorem memcpyWords_eq {n : Nat} (h : n * 4 < 2 ^ 32) : memcpyWords n = n := by
  unfold memcpyWords
  rw [Nat.mod_eq_of_lt h]
  omega

theorem deliverAnswer_eq_spec (cfg : Config) (mem : AnswerMemory) {a : List Nat}
    (h : a.length * 4 < 2 ^ 32) : deliverAnswer cfg mem a = deliverSpec cfg mem a := by
  unfold deliverAnswer deliverSpec
  rw [memcpyWords_eq h]

theorem drainLoop_spec (cfg : Config) (hh : 0 < cfg.answerHeaderWords) (ff : Nat)
    (hff : ff < 2 ^ 32) (as : List (List Nat)) :
    ∀ (fuel : Nat) (w : World), w.comm.pBuffer.nFirstAnswer < 2 ^ 32 →
      AnswersStoredFrom cfg w.comm.pBuffer.sAnswerQueue w.comm.pBuffer.nFirstAnswer as →
      (as.map List.length).sum = sub32 ff w.comm.pBuffer.nFirstAnswer →
      as.length ≤ fuel →
      drainLoop cfg ff fuel w w.comm.pBuffer.nFirstAnswer = some (drainSpec cfg w as) ∧
      (drainSpec cfg w as).comm.pBuffer.nFirstAnswer = ff := by
  induction as with
  | nil =>
    intro fuel w hc _ hsum _
    have hceq : w.comm.pBuffer.nFirstAnswer = ff := by
      simp only [List.map_nil, List.sum_nil] at hsum
      unfold sub32 at hsum
      omega
    have hspec : drainSpec cfg w [] = w := by
      unfold drainSpec
      simp only [List.map_nil, List.sum_nil, List.foldl_nil]
      have : add32 w.comm.pBuffer.nFirstAnswer 0 = w.comm.pBuffer.nFirstAnswer := by
        unfold add32; omega
      rw [this]
    rw [hspec]
    refine ⟨?_, hceq⟩
    unfold drainLoop
    rw [if_pos hceq]
  | cons a rest ih =>
    intro fuel w hc hstored hsum hfuel
    obtain ⟨ha, hrest⟩ := hstored
    have hlen : 1 ≤ a.length := by have := ha.1; omega
    simp only [List.map_cons, List.sum_cons] at hsum
    have hne : w.comm.pBuffer.nFirstAnswer ≠ ff := by
      intro h
      rw [h] at hsum
      unfold sub32 at hsum
      omega
    obtain ⟨fuel1, rfl⟩ : ∃ f, fuel = f + 1 :=
      ⟨fuel - 1, by simp only [List.length_cons] at hfuel; omega⟩
    have hone : drainOne cfg w w.comm.pBuffer.nFirstAnswer =
        ({ comm := { w.comm with pBuffer :=
              { w.comm.pBuffer with
                nFirstAnswer := add32 w.comm.pBuffer.nFirstAnswer a.length } },
           mem := deliverSpec cfg w.mem a },
          add32 w.comm.pBuffer.nFirstAnswer a.length) := by
      unfold drainOne
      simp only [answerAt_stored ha, deliverAnswer_eq_spec cfg w.mem ha.2.2.1]
    have hnext : add32 w.comm.pBuffer.nFirstAnswer a.length < 2 ^ 32 := by
      unfold add32; exact Nat.mod_lt _ (by norm_num)
    have hsum1 : (rest.map List.length).sum =
        sub32 ff (add32 w.comm.pBuffer.nFirstAnswer a.length) := by
      unfold sub32 add32 at *
      omega
    have hih := ih fuel1
      { comm := { w.comm with pBuffer :=
          { w.comm.pBuffer with
            nFirstAnswer := add32 w.comm.pBuffer.nFirstAnswer a.length } },
        mem := deliverSpec cfg w.mem a }
      hnext hrest hsum1 (by simp only [List.length_cons] at hfuel; omega)
    have hspec : drainSpec cfg
        { comm := { w.comm with pBuffer :=
            { w.comm.pBuffer with
              nFirstAnswer := add32 w.comm.pBuffer.nFirstAnswer a.length } },
          mem := deliverSpec cfg w.mem a } rest = drainSpec cfg w (a :: rest) := by
      unfold drainSpec
      have hadd : add32 (add32 w.comm.pBuffer.nFirstAnswer a.length)
          (rest.map List.length).sum =
          add32 w.comm.pBuffer.nFirstAnswer (a.length + (rest.map List.length).sum) := by
        unfold add32; omega
      simp only [List.map_cons, List.sum_cons, List.foldl_cons, hadd]
    rw [hspec] at hih
    refine ⟨?_, hih.2⟩
    rw [drainLoop, if_neg hne]
    simp only
    rw [answerAt_stored ha, if_neg (Nat.not_lt.2 ha.2.1)]
    simp only [hone]
    exact hih.1

/-- C7: on an initialised channel whose answer queue holds the well-formed
answers `as` between the first and the first-free cursor (`QueueHolds`: each
answer as long as its header declares and no longer than a
`union SCX_ANSWER_MESSAGE`), the drain loop of `SCXLNXCommSendMessage` (given
at least one turn of fuel per answer) ends and does what the specification's
DrainAnswers says: in ring order, each
answer of `h` header words and declared payload length `m` has its `h + m`
ring words copied to the buffer of the record named by the token of its
header, that record's delivered flag is set, and the first cursor advances by
`h + m`; at the end the first cursor equals the first-free cursor. -/
theorem drainAnswers_delivers (cfg : Config) (w : World) (as : List (List Nat))
    (fuel : Nat) (hh : 0 < cfg.answerHeaderWords)
    (hinit : w.comm.SCXLNX_COMM_FLAG_L1_SHARED_ALLOCATED = true)
    (hq : QueueHolds cfg w.comm.pBuffer as) (hfuel : as.length ≤ fuel) :
    drainAnswers cfg fuel w = some (drainSpec cfg w as) ∧
    (drainSpec cfg w as).comm.pBuffer.nFirstAnswer = w.comm.pBuffer.nFirstFreeAnswer ∧
    (drainSpec cfg w as).mem = as.foldl (deliverSpec cfg) w.mem := by
  obtain ⟨h1, h2, h3, h4⟩ := hq
  have := drainLoop_spec cfg hh _ h2 as fuel w h1 h3 h4 hfuel
  refine ⟨?_, this.2, rfl⟩
  unfold drainAnswers
  rw [if_pos hinit]
  exact this.1

theorem queueHolds_worldOneAnswer :
    QueueHolds config0 worldOneAnswer.comm.pBuffer [[1, 5, 77]] := by
  refine ⟨by decide, by decide, ⟨⟨by decide, by decide, by decide, ?_⟩, trivial⟩, by decide⟩
  intro i hi
  have : i = 0 ∨ i = 1 ∨ i = 2 := by
    simp only [List.length_cons, List.length_nil] at hi; omega
  rcases this with h | h | h <;> subst h <;> decide

/-- C7, evaluated: the queue holding the one answer `[1, 5, 77]` is drained
in one turn; the record at address 5 is flagged, its buffer holds the three
words, and the first cursor has reached the first-free cursor 3. -/
theorem drainAnswers_delivers_witness :
    0 < config0.answerHeaderWords ∧
    worldOneAnswer.comm.SCXLNX_COMM_FLAG_L1_SHARED_ALLOCATED = true ∧
    QueueHolds config0 worldOneAnswer.comm.pBuffer [[1, 5, 77]] ∧
    drainAnswers config0 1 worldOneAnswer =
      some (drainSpec config0 worldOneAnswer [[1, 5, 77]]) ∧
    ((drainSpec config0 worldOneAnswer [[1, 5, 77]]).mem.records 5).bAnswerCopied = true ∧
    (List.range 4).map ((drainSpec config0 worldOneAnswer [[1, 5, 77]]).mem.buffers 5)
      = [1, 5, 77, 0] ∧
    (drainSpec config0 worldOneAnswer [[1, 5, 77]]).comm.pBuffer.nFirstAnswer = 3 :=
  ⟨by decide, rfl, queueHolds_worldOneAnswer,
    (drainAnswers_delivers config0 worldOneAnswer [[1, 5, 77]] 1 (by decide) rfl
      queueHolds_worldOneAnswer (by decide)).1,
    by decide, by decide, by decide⟩

/-- The drain loop writes neither the command cursors nor the command ring,
and leaves the flags of the channel alone. -/
theorem drainLoop_keeps_command_ring (cfg : Config) (ff : Nat) :
    ∀ (fuel : Nat) (w : World) (c : Nat) (w1 : World),
      drainLoop cfg ff fuel w c = some w1 →
      w1.comm.pBuffer.nFirstCommand = w.comm.pBuffer.nFirstCommand ∧
      w1.comm.pBuffer.nFirstFreeCommand = w.comm.pBuffer.nFirstFreeCommand ∧
      w1.comm.pBuffer.sCommandQueue = w.comm.pBuffer.sCommandQueue ∧
      w1.comm.SCXLNX_COMM_FLAG_L1_SHARED_ALLOCATED =
        w.comm.SCXLNX_COMM_FLAG_L1_SHARED_ALLOCATED := by
  intro fuel
  induction fuel with
  | zero =>
    intro w c w1 h
    unfold drainLoop at h
    by_cases hc : c = ff
    · rw [if_pos hc] at h
      cases h
      exact ⟨rfl, rfl, rfl, rfl⟩
    · rw [if_neg hc] at h
      cases h
  | succ fuel ih =>
    intro w c w1 h
    rw [drainLoop] at h
    by_cases hc : c = ff
    · rw [if_pos hc] at h
      cases h
      exact ⟨rfl, rfl, rfl, rfl⟩
    · rw [if_neg hc] at h
      simp only at h
      by_cases hg : cfg.answerMessageWords <
          (answerAt cfg w.comm.pBuffer.sAnswerQueue c).length
      · rw [if_pos hg] at h
        cases h
      · rw [if_neg hg] at h
        exact ih (drainOne cfg w c).1 _ _ h

/-- The drain step writes neither the command cursors nor the command ring,
and leaves the flags of the channel alone. -/
theorem drainAnswers_keeps_command_ring (cfg : Config) (fuel : Nat) (w w1 : World)
    (h : drainAnswers cfg fuel w = some w1) :
    w1.comm.pBuffer.nFirstCommand = w.comm.pBuffer.nFirstCommand ∧
    w1.comm.pBuffer.nFirstFreeCommand = w.comm.pBuffer.nFirstFreeCommand ∧
    w1.comm.pBuffer.sCommandQueue = w.comm.pBuffer.sCommandQueue ∧
    w1.comm.SCXLNX_COMM_FLAG_L1_SHARED_ALLOCATED =
      w.comm.SCXLNX_COMM_FLAG_L1_SHARED_ALLOCATED := by
  unfold drainAnswers at h
  by_cases hinit : w.comm.SCXLNX_COMM_FLAG_L1_SHARED_ALLOCATED = true
  · rw [if_pos hinit] at h
    exact drainLoop_keeps_command_ring cfg _ fuel w _ w1 h
  · rw [if_neg hinit] at h
    cases h
    exact ⟨rfl, rfl, rfl, rfl⟩

/-- C10 as stated fails: a killable send of a two-word command on the empty,
initialised channel, with SIGKILL pending, returns `-EINTR` on its first pass
after the enqueue step has run: the first-free cursor has moved from 0 to 2
and slot 0 holds the first word of the command. -/
theorem interrupted_send_has_enqueued :
    buffer0.nFirstFreeCommand = 0 ∧ buffer0.sCommandQueue 0 = 0 ∧
    (SCXLNXCommSendMessage config0 0 [{ passEnv0 with sigkill := true }]
        ⟨comm0, mem0⟩ (some (message0 0 7 1000)) true).map
      (fun r => (r.1, r.2.comm.pBuffer.nFirstCommand, r.2.comm.pBuffer.nFirstFreeCommand,
        r.2.comm.pBuffer.sCommandQueue 0))
      = some (-EINTR, 0, 2, 1000) := by
  refine ⟨rfl, rfl, by decide⟩

/-- C10, amended: when a pass of a killable send returns `-EINTR` at one of
the two signal checks, the RPC handler of that pass leaving the command ring
alone, the command cursors and the command ring storage of the returned state
are those left by the enqueue step of that pass.  The first cursor is as at
the entry of the pass.  If the message was not yet copied and the channel is
initialised, then, when the 32-bit room test passes, the command has been
enqueued (it is marked copied, the first-free cursor is the one at entry
advanced by the length of the command, and the ring is the one at entry with
the words of the command stored); when the room test fails, and also when
the message was copied by an earlier pass, first-free cursor and ring storage
are as at the entry of the pass. -/
theorem interrupted_pass_state (cfg : Config) (fuel : Nat) (env : PassEnv)
    (envs : List PassEnv) (w w1 : World) (m : SCX_COMMAND_MESSAGE) (copied : Bool)
    (e : SCXLNX_COMM × Bool)
    (hdrain : drainAnswers cfg fuel w = some w1)
    (henq : enqueueCommand cfg w1.comm (some m) copied = some e)
    (hring :
      (env.rpc { w1 with comm := e.1 }).1.comm.pBuffer.nFirstCommand =
        e.1.pBuffer.nFirstCommand ∧
      (env.rpc { w1 with comm := e.1 }).1.comm.pBuffer.nFirstFreeCommand =
        e.1.pBuffer.nFirstFreeCommand ∧
      (env.rpc { w1 with comm := e.1 }).1.comm.pBuffer.sCommandQueue =
        e.1.pBuffer.sCommandQueue)
    (hrpc : (env.rpc { w1 with comm := e.1 }).2 = false)
    (hnot : ((env.rpc { w1 with comm := e.1 }).1.mem.records m.nOperationID).bAnswerCopied
      = false)
    (hsig : env.sigkill = true ∨
      ((notSchedulable cfg env (env.rpc { w1 with comm := e.1 }).1.comm).isSome = true ∧
        env.sigkillWait = true)) :
    ∃ w2, sendLoop cfg fuel (some m) true (env :: envs) w copied = some (-EINTR, w2) ∧
      w2.comm.pBuffer.nFirstCommand = w.comm.pBuffer.nFirstCommand ∧
      (copied = false → w.comm.SCXLNX_COMM_FLAG_L1_SHARED_ALLOCATED = true →
        commandFits cfg w1.comm.pBuffer m = true →
        e.2 = true ∧
        w2.comm.pBuffer.nFirstFreeCommand =
          add32 w.comm.pBuffer.nFirstFreeCommand (commandSize cfg m) ∧
        w2.comm.pBuffer.sCommandQueue =
          copyToQueue cfg.SCX_N_MESSAGE_QUEUE_CAPACITY w.comm.pBuffer.nFirstFreeCommand
            m.words (commandSize cfg m) w.comm.pBuffer.sCommandQueue) ∧
      (copied = true ∨ w.comm.SCXLNX_COMM_FLAG_L1_SHARED_ALLOCATED = false ∨
          commandFits cfg w1.comm.pBuffer m = false →
        e.2 = copied ∧
        w2.comm.pBuffer.nFirstFreeCommand = w.comm.pBuffer.nFirstFreeCommand ∧
        w2.comm.pBuffer.sCommandQueue = w.comm.pBuffer.sCommandQueue) := by
  obtain ⟨k1, k2, k3, k4⟩ := drainAnswers_keeps_command_ring cfg fuel w w1 hdrain
  obtain ⟨r1, r2, r3⟩ := hring
  have hpass : sendPass cfg fuel env w (some m) true copied =
      some (.ret (-EINTR) (env.rpc { w1 with comm := e.1 }).1 e.2) := by
    unfold sendPass
    rw [hdrain]
    simp only
    rw [henq]
    simp only
    unfold afterEnqueue
    simp only [hrpc, hnot, Option.isNone_some, Bool.and_false, Bool.false_and,
      Bool.false_eq_true, if_false, Bool.true_and]
    rcases hsig with hs | ⟨hs1, hs2⟩
    · rw [if_pos hs]
    · by_cases hs : env.sigkill = true
      · rw [if_pos hs]
      · rw [if_neg hs]
        obtain ⟨j, hj⟩ := Option.isSome_iff_exists.1 hs1
        rw [hj]
        simp only
        rw [if_pos hs2]
  have hfirst : e.1.pBuffer.nFirstCommand = w1.comm.pBuffer.nFirstCommand := by
    unfold enqueueCommand at henq
    simp only at henq
    split at henq
    · split at henq
      · cases henq
      · cases henq
        unfold writeMessage
        split <;> rfl
    · cases henq
      rfl
  refine ⟨(env.rpc { w1 with comm := e.1 }).1, ?_, ?_, ?_, ?_⟩
  · unfold sendLoop
    rw [hpass]
  · rw [r1, hfirst, k1]
  · intro hc hinit hf
    subst hc
    rw [← k4] at hinit
    unfold enqueueCommand at henq
    simp only [hinit, hf, Bool.not_false, Bool.and_self, Bool.true_and, if_true] at henq
    split at henq
    · cases henq
    · cases henq
      rw [r2, r3]
      refine ⟨by simp only [writeMessage, hf, if_true], ?_, ?_⟩
      · simp only [writeMessage, hf, if_true]
        rw [k2]
      · simp only [writeMessage, hf, if_true]
        rw [k2, k3]
  · intro hor
    have he : e = (w1.comm, copied) := by
      unfold enqueueCommand at henq
      simp only at henq
      rcases hor with hc | hi | hf
      · subst hc
        simp only [Bool.not_true, Bool.and_false, Bool.false_eq_true, if_false] at henq
        cases henq
        rfl
      · rw [← k4] at hi
        simp only [hi, Bool.false_and, Bool.false_eq_true, if_false] at henq
        cases henq
        rfl
      · by_cases hg : (w1.comm.SCXLNX_COMM_FLAG_L1_SHARED_ALLOCATED && !copied) = true
        · rw [if_pos hg] at henq
          simp only [hf, Bool.false_and, Bool.false_eq_true, if_false, writeMessage] at henq
          cases henq
          have hcop : copied = false := by
            cases copied
            · rfl
            · simp at hg
          rw [hcop]
        · rw [if_neg hg] at henq
          cases henq
          rfl
    subst he
    exact ⟨rfl, by rw [r2, k2], by rw [r3, k3]⟩

/-- C10 amended, evaluated: the interrupted first pass on the empty channel
returns `-EINTR`, the RPC handler leaving the state alone; the first cursor
is still 0, the first-free cursor has moved from 0 to 2 and slot 0 holds the
first word of the command. -/
theorem interrupted_pass_state_witness :
    drainAnswers config0 0 ⟨comm0, mem0⟩ = some ⟨comm0, mem0⟩ ∧
    commandFits config0 comm0.pBuffer (message0 0 7 1000) = true ∧
    commandSize config0 (message0 0 7 1000) = 2 ∧
    ∃ w2, sendLoop config0 0 (some (message0 0 7 1000)) true
        [{ passEnv0 with sigkill := true }] ⟨comm0, mem0⟩ false = some (-EINTR, w2) ∧
      w2.comm.pBuffer.nFirstCommand = 0 ∧
      w2.comm.pBuffer.nFirstFreeCommand = 2 ∧
      w2.comm.pBuffer.sCommandQueue 0 = 1000 :=
  have h := interrupted_pass_state config0 0 { passEnv0 with sigkill := true } []
    ⟨comm0, mem0⟩ ⟨comm0, mem0⟩ (message0 0 7 1000) false
    ({ comm0 with pBuffer := (writeMessage config0 comm0.pBuffer (message0 0 7 1000)).1 },
      (writeMessage config0 comm0.pBuffer (message0 0 7 1000)).2)
    rfl rfl ⟨rfl, rfl, rfl⟩ rfl rfl (Or.inl rfl)
  ⟨rfl, by decide, by decide,
    h.elim fun w2 hw => ⟨w2, hw.1, hw.2.1,
      (hw.2.2.1 rfl rfl (by decide)).2.1,
      by rw [(hw.2.2.1 rfl rfl (by decide)).2.2]; decide⟩⟩

/-! ## Timeout decoding -/

theorem shiftRight32_ne_zero_iff (d : Nat) : d >>> 32 ≠ 0 ↔ 2 ^ 32 ≤ d := by
  rw [Nat.shiftRight_eq_div_pow]
  constructor
  · intro h
    by_contra hlt
    exact h (Nat.div_eq_of_lt (by omega))
  · intro h hz
    have := Nat.div_pos h (by norm_num : 0 < 2 ^ 32)
    omega

/-- C9: `SCXLNXCommTestSTimeout` on a 64-bit timeout `t` at clock `now`
returns non-zero exactly when `t = 0` or `t` is a finite deadline already
reached, and then leaves a relative wait of 0; for the all-ones timeout it
returns 0 with `MAX_SCHEDULE_TIMEOUT`; for a finite deadline in the future it
returns 0 with `msecs_to_jiffies (t - now)` when the difference is below
`2^32` and with `MAX_JIFFY_OFFSET` otherwise; the relative wait is never
negative when the three kernel values are not; `t = now + 5000` gives
`msecs_to_jiffies 5000`. -/
theorem testSTimeout_decoding (cfg : Config) (t now : Nat)
    (ht : t < 2 ^ 64) (hnow : now < 2 ^ 64) :
    ((SCXLNXCommTestSTimeout cfg t now).1 ≠ 0 ↔ (t = 0 ∨ (t ≠ 2 ^ 64 - 1 ∧ now ≥ t))) ∧
    ((SCXLNXCommTestSTimeout cfg t now).1 ≠ 0 → (SCXLNXCommTestSTimeout cfg t now).2 = 0) ∧
    (t = 2 ^ 64 - 1 → SCXLNXCommTestSTimeout cfg t now = (0, cfg.MAX_SCHEDULE_TIMEOUT)) ∧
    (t ≠ 2 ^ 64 - 1 → now < t → t - now < 2 ^ 32 →
      SCXLNXCommTestSTimeout cfg t now = (0, cfg.msecs_to_jiffies (t - now))) ∧
    (t ≠ 2 ^ 64 - 1 → now < t → 2 ^ 32 ≤ t - now →
      SCXLNXCommTestSTimeout cfg t now = (0, cfg.MAX_JIFFY_OFFSET)) ∧
    (0 ≤ cfg.MAX_SCHEDULE_TIMEOUT → 0 ≤ cfg.MAX_JIFFY_OFFSET →
      (∀ m, 0 ≤ cfg.msecs_to_jiffies m) → 0 ≤ (SCXLNXCommTestSTimeout cfg t now).2) ∧
    (t = now + 5000 → t ≠ 2 ^ 64 - 1 →
      SCXLNXCommTestSTimeout cfg t now = (0, cfg.msecs_to_jiffies 5000)) := by
  have hinf : TIME_INFINITE = 2 ^ 64 - 1 := by norm_num [TIME_INFINITE]
  have himm : TIME_IMMEDIATE = 0 := rfl
  have hfin : ∀ (_ : t ≠ 2 ^ 64 - 1) (_ : now < t),
      SCXLNXCommTestSTimeout cfg t now =
        if 2 ^ 32 ≤ t - now then (0, cfg.MAX_JIFFY_OFFSET)
        else (0, cfg.msecs_to_jiffies (t - now)) := by
    intro h1 h2
    have h0 : t ≠ 0 := by omega
    have hd : (t - now) % 2 ^ 64 = t - now := Nat.mod_eq_of_lt (by omega)
    unfold SCXLNXCommTestSTimeout
    rw [himm, hinf, if_neg h0, if_neg h1, if_neg (by omega : ¬ now ≥ t)]
    simp only [hd]
    by_cases hb : 2 ^ 32 ≤ t - now
    · rw [if_pos ((shiftRight32_ne_zero_iff _).2 hb), if_pos hb]
    · rw [if_neg (fun h => hb ((shiftRight32_ne_zero_iff _).1 h)), if_neg hb,
        Nat.mod_eq_of_lt (by omega)]
  have hzero : t = 0 → SCXLNXCommTestSTimeout cfg t now = (1, 0) := by
    intro h
    unfold SCXLNXCommTestSTimeout
    rw [himm, if_pos h]
  have hall : t = 2 ^ 64 - 1 →
      SCXLNXCommTestSTimeout cfg t now = (0, cfg.MAX_SCHEDULE_TIMEOUT) := by
    intro h
    unfold SCXLNXCommTestSTimeout
    rw [himm, hinf, if_neg (by omega), if_pos h]
  have hpast : t ≠ 0 → t ≠ 2 ^ 64 - 1 → now ≥ t →
      SCXLNXCommTestSTimeout cfg t now = (1, 0) := by
    intro h0 h1 h2
    unfold SCXLNXCommTestSTimeout
    rw [himm, hinf, if_neg h0, if_neg h1, if_pos h2]
  have hcases : SCXLNXCommTestSTimeout cfg t now = (1, 0) ∧ (t = 0 ∨ (t ≠ 2 ^ 64 - 1 ∧ now ≥ t))
      ∨ (SCXLNXCommTestSTimeout cfg t now).1 = 0 ∧ ¬ (t = 0 ∨ (t ≠ 2 ^ 64 - 1 ∧ now ≥ t)) ∧
        ((SCXLNXCommTestSTimeout cfg t now).2 = cfg.MAX_SCHEDULE_TIMEOUT ∨
         (SCXLNXCommTestSTimeout cfg t now).2 = cfg.MAX_JIFFY_OFFSET ∨
         ∃ m, (SCXLNXCommTestSTimeout cfg t now).2 = cfg.msecs_to_jiffies m) := by
    by_cases h0 : t = 0
    · exact Or.inl ⟨hzero h0, Or.inl h0⟩
    by_cases h1 : t = 2 ^ 64 - 1
    · right
      rw [hall h1]
      exact ⟨rfl, by omega, Or.inl rfl⟩
    by_cases h2 : now ≥ t
    · exact Or.inl ⟨hpast h0 h1 h2, Or.inr ⟨h1, h2⟩⟩
    · right
      rw [hfin h1 (by omega)]
      by_cases hb : 2 ^ 32 ≤ t - now
      · rw [if_pos hb]
        exact ⟨rfl, by omega, Or.inr (Or.inl rfl)⟩
      · rw [if_neg hb]
        exact ⟨rfl, by omega, Or.inr (Or.inr ⟨_, rfl⟩)⟩
  refine ⟨?_, ?_, hall, ?_, ?_, ?_, ?_⟩
  · rcases hcases with ⟨h, hc⟩ | ⟨h, hc, _⟩
    · rw [h]; exact ⟨fun _ => hc, fun _ => by decide⟩
    · rw [h]; exact ⟨fun hh => absurd rfl hh, fun hh => absurd hh hc⟩
  · rcases hcases with ⟨h, _⟩ | ⟨h, _, _⟩
    · rw [h]; intro _; rfl
    · intro hh; exact absurd h hh
  · intro h1 h2 h3
    rw [hfin h1 h2, if_neg (by omega)]
  · intro h1 h2 h3
    rw [hfin h1 h2, if_pos h3]
  · intro hs hj hm
    rcases hcases with ⟨h, _⟩ | ⟨_, _, h | h | ⟨m, h⟩⟩
    · rw [h]
    · rw [h]; exact hs
    · rw [h]; exact hj
    · rw [h]; exact hm m
  · intro h h1
    have : t - now = 5000 := by omega
    rw [hfin h1 (by omega), if_neg (by omega), this]

/-- C9, evaluated: with the deadline 5000 ms ahead of the clock 1000 the
function returns 0 and the relative wait of 5000 ms, which is 500 jiffies at
100 Hz. -/
theorem testSTimeout_decoding_witness :
    6000 < 2 ^ 64 ∧ 1000 < 2 ^ 64 ∧
    SCXLNXCommTestSTimeout config0 6000 1000 = (0, config0.msecs_to_jiffies 5000) ∧
    config0.msecs_to_jiffies 5000 = 500 :=
  ⟨by norm_num, by norm_num,
    (testSTimeout_decoding config0 6000 1000 (by norm_num) (by norm_num)).2.2.2.2.2.2
      (by norm_num) (by norm_num),
    by decide⟩

/-! ## The schedulability decision -/

/-- C21: in a pass of `SCXLNXCommSendMessage` that gets past the RPC handler,
the delivered checks and the signal check of line 1154, the engine calls
`SCXLNXCommYield` when the channel is not initialised, or the command queue
is not empty, or `SCXLNXCommTestSTimeout` returns non-zero for the timeout
read from the shared buffer; when the channel is initialised, the command
queue is empty and `SCXLNXCommTestSTimeout` returns 0, it goes to the label
`wait` and, unless the call is killable and SIGKILL is pending at the test of
line 1201 (it then returns `-EINTR`), sleeps for the relative timeout that
`SCXLNXCommTestSTimeout` produced. -/
theorem schedulability_decision (cfg : Config) (env : PassEnv) (w : World)
    (pMessage : Option SCX_COMMAND_MESSAGE) (bKillable bMessageCopied : Bool)
    (hrpc : (env.rpc w).2 = false)
    (hboot : (cfg.CONFIG_TF_MSHIELD && pMessage.isNone
      && (env.rpc w).1.comm.SCXLNX_COMM_FLAG_L1_SHARED_ALLOCATED) = false)
    (hnot : ∀ m, pMessage = some m →
      ((env.rpc w).1.mem.records m.nOperationID).bAnswerCopied = false)
    (hsig : (bKillable && env.sigkill) = false) :
    (((env.rpc w).1.comm.SCXLNX_COMM_FLAG_L1_SHARED_ALLOCATED = false ∨
        (env.rpc w).1.comm.pBuffer.nFirstFreeCommand ≠
          (env.rpc w).1.comm.pBuffer.nFirstCommand ∨
        (SCXLNXCommTestSTimeout cfg (SCXLNXCommReadTimeout (env.rpc w).1.comm)
          env.sTime64).1 ≠ 0) →
      afterEnqueue cfg env w pMessage bKillable bMessageCopied =
        if (env.yield (env.rpc w).1).2 ≠ 0 then
          .ret (env.yield (env.rpc w).1).2 (env.yield (env.rpc w).1).1 bMessageCopied
        else .yielded (env.yield (env.rpc w).1).1 bMessageCopied) ∧
    (((env.rpc w).1.comm.SCXLNX_COMM_FLAG_L1_SHARED_ALLOCATED = true ∧
        (env.rpc w).1.comm.pBuffer.nFirstFreeCommand =
          (env.rpc w).1.comm.pBuffer.nFirstCommand ∧
        (SCXLNXCommTestSTimeout cfg (SCXLNXCommReadTimeout (env.rpc w).1.comm)
          env.sTime64).1 = 0) →
      afterEnqueue cfg env w pMessage bKillable bMessageCopied =
        if (bKillable && env.sigkillWait) = true then
          .ret (-EINTR) (env.rpc w).1 bMessageCopied
        else
          .slept
            (SCXLNXCommTestSTimeout cfg (SCXLNXCommReadTimeout (env.rpc w).1.comm)
              env.sTime64).2
            (env.sleep
              (SCXLNXCommTestSTimeout cfg (SCXLNXCommReadTimeout (env.rpc w).1.comm)
                env.sTime64).2 (env.rpc w).1)
            bMessageCopied) := by
  have hshape : afterEnqueue cfg env w pMessage bKillable bMessageCopied =
      match notSchedulable cfg env (env.rpc w).1.comm with
      | none => scheduleSecureWorld env (env.rpc w).1 bMessageCopied
      | some nRelativeTimeoutJiffies =>
        if (bKillable && env.sigkillWait) = true then
          .ret (-EINTR) (env.rpc w).1 bMessageCopied
        else .slept nRelativeTimeoutJiffies
          (env.sleep nRelativeTimeoutJiffies (env.rpc w).1) bMessageCopied := by
    unfold afterEnqueue
    cases pMessage with
    | none => simp only [hrpc, hboot, hsig, Bool.false_eq_true, if_false]
    | some m =>
      simp only [hrpc, hboot, hnot m rfl, hsig, Bool.false_eq_true, if_false]
  rw [hshape]
  constructor
  · intro hyield
    have hn : notSchedulable cfg env (env.rpc w).1.comm = none := by
      unfold notSchedulable
      by_cases hf : (env.rpc w).1.comm.SCXLNX_COMM_FLAG_L1_SHARED_ALLOCATED = true
      · rw [if_pos hf]
        by_cases hq : (env.rpc w).1.comm.pBuffer.nFirstFreeCommand =
            (env.rpc w).1.comm.pBuffer.nFirstCommand
        · rw [if_pos hq]
          simp only
          rcases hyield with h | h | h
          · rw [hf] at h; cases h
          · exact absurd hq h
          · rw [if_neg h]
        · rw [if_neg hq]
      · rw [if_neg hf]
    rw [hn]
    rfl
  · rintro ⟨hf, hq, ht⟩
    have hn : notSchedulable cfg env (env.rpc w).1.comm =
        some (SCXLNXCommTestSTimeout cfg (SCXLNXCommReadTimeout (env.rpc w).1.comm)
          env.sTime64).2 := by
      unfold notSchedulable
      rw [if_pos hf, if_pos hq]
      simp only
      rw [if_pos ht]
    rw [hn]

/-- C21 at concrete inputs: on the initialised channel with an empty command
queue, a timeout of 0 makes the engine yield and an infinite timeout makes it
sleep for `MAX_SCHEDULE_TIMEOUT`. -/
theorem schedulability_decision_witness :
    (SCXLNXCommTestSTimeout config0 (SCXLNXCommReadTimeout comm0) passEnv0.sTime64).1 ≠ 0 ∧
    afterEnqueue config0 passEnv0 ⟨comm0, mem0⟩ (some (message0 0 7 1000)) false false =
      (if (passEnv0.yield (passEnv0.rpc ⟨comm0, mem0⟩).1).2 ≠ 0 then
        .ret (passEnv0.yield (passEnv0.rpc ⟨comm0, mem0⟩).1).2
          (passEnv0.yield (passEnv0.rpc ⟨comm0, mem0⟩).1).1 false
      else .yielded (passEnv0.yield (passEnv0.rpc ⟨comm0, mem0⟩).1).1 false) ∧
    (SCXLNXCommTestSTimeout config0 (SCXLNXCommReadTimeout commInfiniteTimeout)
      passEnv0.sTime64) = (0, config0.MAX_SCHEDULE_TIMEOUT) ∧
    afterEnqueue config0 passEnv0 ⟨commInfiniteTimeout, mem0⟩ (some (message0 0 7 1000)) false false =
      (if (false && passEnv0.sigkillWait) = true then
        .ret (-EINTR) (passEnv0.rpc ⟨commInfiniteTimeout, mem0⟩).1 false
      else
        .slept
          (SCXLNXCommTestSTimeout config0
            (SCXLNXCommReadTimeout (passEnv0.rpc ⟨commInfiniteTimeout, mem0⟩).1.comm)
            passEnv0.sTime64).2
          (passEnv0.sleep
            (SCXLNXCommTestSTimeout config0
              (SCXLNXCommReadTimeout (passEnv0.rpc ⟨commInfiniteTimeout, mem0⟩).1.comm)
              passEnv0.sTime64).2 (passEnv0.rpc ⟨commInfiniteTimeout, mem0⟩).1)
          false) :=
  ⟨by decide,
    (schedulability_decision config0 passEnv0 ⟨comm0, mem0⟩ (some (message0 0 7 1000))
      false false rfl rfl (fun m h => by cases h; rfl) rfl).1
      (Or.inr (Or.inr (by decide))),
    by decide,
    (schedulability_decision config0 passEnv0 ⟨commInfiniteTimeout, mem0⟩
      (some (message0 0 7 1000)) false false rfl rfl (fun m h => by cases h; rfl) rfl).2
      ⟨rfl, rfl, by decide⟩⟩

/-! ## A send on a terminating channel -/

/-- C22: when the terminating flag is set and the secure world is started
(the flag `SCXLNX_COMM_FLAG_PA_AVAILABLE` is set, or the build has no
`CONFIG_TF_MSHIELD`), `SCXLNXCommSendReceive` returns 0 having only
initialised its local answer record and stored its address in the message:
the channel (flags, cursors, queues, clock and timeout fields) is as before,
the answer buffers are as before, the connection is as before, and the result
is the same for every answer of the validity check, every behaviour of the
collaborators of `SCXLNXCommSendMessage` and every bound on the passes. -/
theorem terminating_send_is_noop (cfg : Config) (fuel : Nat) (env : SendReceiveEnv)
    (w : World) (pMessage : Option SCX_COMMAND_MESSAGE) (pAnswer : Nat)
    (pConn : Option SCXLNX_CONNECTION) (bKillable : Bool)
    (hterm : w.comm.SCXLNX_COMM_FLAG_TERMINATING = true)
    (hstarted : cfg.CONFIG_TF_MSHIELD = false ∨ w.comm.SCXLNX_COMM_FLAG_PA_AVAILABLE = true) :
    SCXLNXCommSendReceive cfg fuel env w pMessage pAnswer pConn bKillable =
      .returned 0 (initAnswerStructure w env.pAnswerStructure pAnswer)
        (pMessage.map fun m =>
          { m with
            nOperationID := env.pAnswerStructure,
            words := env.storeOperationID m.words env.pAnswerStructure })
        pConn ∧
    (initAnswerStructure w env.pAnswerStructure pAnswer).comm = w.comm ∧
    (initAnswerStructure w env.pAnswerStructure pAnswer).mem.buffers = w.mem.buffers ∧
    (∀ a, a ≠ env.pAnswerStructure →
      (initAnswerStructure w env.pAnswerStructure pAnswer).mem.records a = w.mem.records a) ∧
    (∀ (fuel1 : Nat) (env1 : SendReceiveEnv),
      env1.pAnswerStructure = env.pAnswerStructure →
      env1.storeOperationID = env.storeOperationID →
      SCXLNXCommSendReceive cfg fuel1 env1 w pMessage pAnswer pConn bKillable =
        SCXLNXCommSendReceive cfg fuel env w pMessage pAnswer pConn bKillable) := by
  have hs : ¬ (cfg.CONFIG_TF_MSHIELD &&
      !(initAnswerStructure w env.pAnswerStructure pAnswer).comm.SCXLNX_COMM_FLAG_PA_AVAILABLE)
      = true := by
    show ¬ (cfg.CONFIG_TF_MSHIELD && !w.comm.SCXLNX_COMM_FLAG_PA_AVAILABLE) = true
    rcases hstarted with h | h <;> simp [h]
  have hshape : ∀ (fuel1 : Nat) (env1 : SendReceiveEnv),
      env1.pAnswerStructure = env.pAnswerStructure →
      env1.storeOperationID = env.storeOperationID →
      SCXLNXCommSendReceive cfg fuel1 env1 w pMessage pAnswer pConn bKillable =
        .returned 0 (initAnswerStructure w env.pAnswerStructure pAnswer)
          (pMessage.map fun m =>
            { m with
              nOperationID := env.pAnswerStructure,
              words := env.storeOperationID m.words env.pAnswerStructure })
          pConn := by
    intro fuel1 env1 h1 h2
    unfold SCXLNXCommSendReceive
    simp only
    rw [h1, h2, if_neg hs, if_pos (show (initAnswerStructure w env.pAnswerStructure
      pAnswer).comm.SCXLNX_COMM_FLAG_TERMINATING = true from hterm)]
  refine ⟨hshape fuel env rfl rfl, rfl, rfl, fun a ha => ?_, fun fuel1 env1 h1 h2 => ?_⟩
  · show Function.update w.mem.records env.pAnswerStructure _ a = _
    rw [Function.update_noteq ha]
  · rw [hshape fuel1 env1 h1 h2, hshape fuel env rfl rfl]

/-- C22 at a concrete input: on the channel `commTerminating` a killable send
within a connection returns 0 at once. -/
theorem terminating_send_is_noop_witness :
    commTerminating.SCXLNX_COMM_FLAG_TERMINATING = true ∧
    SCXLNXCommSendReceive config0 0 sendReceiveEnv0 ⟨commTerminating, mem0⟩
        (some (message0 0 7 1000)) 100 (some ⟨1, 9⟩) true =
      .returned 0 (initAnswerStructure ⟨commTerminating, mem0⟩ 5 100)
        ((some (message0 0 7 1000)).map fun m =>
          { m with
            nOperationID := sendReceiveEnv0.pAnswerStructure,
            words := sendReceiveEnv0.storeOperationID m.words
              sendReceiveEnv0.pAnswerStructure })
        (some ⟨1, 9⟩) :=
  ⟨rfl,
    (terminating_send_is_noop config0 0 sendReceiveEnv0 ⟨commTerminating, mem0⟩
      (some (message0 0 7 1000)) 100 (some ⟨1, 9⟩) true rfl (Or.inl rfl)).1⟩

/-! ## A send that is not killable -/

/-- A pass of a send that is not killable returns 0 when it returns, as long
as `SCXLNXCommYield` returns 0. -/
theorem afterEnqueue_nonkillable (cfg : Config) (env : PassEnv) (w : World)
    (pMessage : Option SCX_COMMAND_MESSAGE) (c : Bool)
    (hy : ∀ w1, (env.yield w1).2 = 0) (e : Int) (w2 : World) (c2 : Bool)
    (h : afterEnqueue cfg env w pMessage false c = .ret e w2 c2) : e = 0 := by
  have hsched : ∀ w1, scheduleSecureWorld env w1 c = .yielded (env.yield w1).1 c := by
    intro w1
    unfold scheduleSecureWorld
    simp only
    rw [if_neg (by simp [hy w1])]
  unfold afterEnqueue at h
  simp only [hsched, Bool.false_and, Bool.false_eq_true, if_false] at h
  split_ifs at h
  · cases h; rfl
  · cases h; rfl
  · split at h
    · cases h
    · cases h

theorem sendLoop_nonkillable (cfg : Config) (fuel : Nat)
    (pMessage : Option SCX_COMMAND_MESSAGE) :
    ∀ (envs : List PassEnv) (w : World) (c : Bool) (e : Int) (w1 : World),
      (∀ env ∈ envs, ∀ w2, (env.yield w2).2 = 0) →
      sendLoop cfg fuel pMessage false envs w c = some (e, w1) → e = 0 := by
  intro envs
  induction envs with
  | nil =>
    intro w c e w1 _ h
    cases h
  | cons env envs ih =>
    intro w c e w1 hy h
    rw [sendLoop] at h
    cases hp : sendPass cfg fuel env w pMessage false c with
    | none => rw [hp] at h; cases h
    | some r =>
      rw [hp] at h
      unfold sendPass at hp
      cases hd : drainAnswers cfg fuel w with
      | none => rw [hd] at hp; cases hp
      | some wd =>
        rw [hd] at hp
        simp only at hp
        cases r with
        | ret e2 w2 c2 =>
          simp only [Option.some.injEq, Prod.mk.injEq] at h
          rw [← h.1]
          cases he : enqueueCommand cfg wd.comm pMessage c with
          | none => rw [he] at hp; cases hp
          | some en =>
            rw [he] at hp
            simp only [Option.some.injEq] at hp
            exact afterEnqueue_nonkillable cfg env _ pMessage _
              (hy env (List.mem_cons_self _ _)) e2 w2 c2 hp
        | yielded w2 c2 =>
          exact ih w2 c2 e w1 (fun env1 h1 => hy env1 (List.mem_cons_of_mem _ h1)) h
        | slept j w2 c2 =>
          exact ih w2 c2 e w1 (fun env1 h1 => hy env1 (List.mem_cons_of_mem _ h1)) h

/-- C27 fails when `SCXLNXCommYield` fails.  A send that is not killable and
has no connection, on the initialised empty channel, enqueues its command,
finds the secure world schedulable and yields; the yield returns -5 and
`SCXLNXCommSendMessage` returns -5.  In `SCXLNXCommSendReceive`, after a first
send interrupted by SIGKILL, the destroy-context exchange then ends in
`BUG_ON(nError != 0)` with `nError = -5`. -/
theorem nonkillable_send_returns_yield_error :
    (SCXLNXCommSendMessage config0 0 [{ passEnv0 with yield := fun w => (w, -5) }]
        ⟨comm0, mem0⟩ (some (message0 0 7 1000)) false).map (fun r => r.1) = some (-5) ∧
    (SCXLNXCommSendReceive config0 0 sendReceiveEnv0 ⟨comm0, mem0⟩
        (some (message0 0 7 1000)) 100 (some ⟨1, 9⟩) true).bugCode = some (-5) := by
  refine ⟨by decide, by decide⟩

/-! ## Power management -/

/-- C23: `SCXLNXCommPowerManagement` with the operation shutdown calls no
collaborator and leaves the channel, status word included, unchanged,
whatever the state.  Once the secure world is started (the flag
`SCXLNX_COMM_FLAG_PA_AVAILABLE` is set, or the build has no
`CONFIG_TF_MSHIELD`), it returns `-ENOTTY` when the power state field
`(nStatus_S & SCX_STATUS_POWER_STATE_MASK) >> SCX_STATUS_POWER_STATE_SHIFT`
is not `SCX_POWER_MODE_ACTIVE` and 0 when it is; before the secure world is
started it returns 0. -/
theorem shutdown_policy (cfg : Config) (pr : Protocol) (env : PowerEnv)
    (pComm : SCXLNX_COMM) :
    (SCXLNXCommPowerManagement cfg pr env pComm .SCXLNX_POWER_OPERATION_SHUTDOWN).pComm
      = pComm ∧
    (SCXLNXCommPowerManagement cfg pr env pComm .SCXLNX_POWER_OPERATION_SHUTDOWN).calls
      = [] ∧
    ((cfg.CONFIG_TF_MSHIELD = false ∨ pComm.SCXLNX_COMM_FLAG_PA_AVAILABLE = true) →
      (powerState pr pComm ≠ pr.SCX_POWER_MODE_ACTIVE →
        (SCXLNXCommPowerManagement cfg pr env pComm
          .SCXLNX_POWER_OPERATION_SHUTDOWN).nError = -ENOTTY) ∧
      (powerState pr pComm = pr.SCX_POWER_MODE_ACTIVE →
        (SCXLNXCommPowerManagement cfg pr env pComm
          .SCXLNX_POWER_OPERATION_SHUTDOWN).nError = 0)) ∧
    ((cfg.CONFIG_TF_MSHIELD = true ∧ pComm.SCXLNX_COMM_FLAG_PA_AVAILABLE = false) →
      (SCXLNXCommPowerManagement cfg pr env pComm
        .SCXLNX_POWER_OPERATION_SHUTDOWN).nError = 0) := by
  unfold SCXLNXCommPowerManagement
  by_cases hs : (cfg.CONFIG_TF_MSHIELD && !pComm.SCXLNX_COMM_FLAG_PA_AVAILABLE) = true
  · rw [if_pos hs]
    refine ⟨rfl, rfl, fun h => ?_, fun _ => rfl⟩
    rcases h with h | h <;> simp [h] at hs
  · rw [if_neg hs]
    simp only
    by_cases ha : powerState pr pComm = pr.SCX_POWER_MODE_ACTIVE
    · rw [if_pos ha]
      exact ⟨rfl, rfl, fun _ => ⟨fun hn => absurd ha hn, fun _ => rfl⟩, fun _ => rfl⟩
    · rw [if_neg ha]
      refine ⟨rfl, rfl, fun _ => ⟨fun _ => rfl, fun h => absurd h ha⟩, fun h => ?_⟩
      simp [h.1, h.2] at hs

/-- C23 at concrete inputs: with the power state field at 2 (status word
0x20) a shutdown returns `-ENOTTY`, with the field at 1 (status word 0x10) it
returns 0. -/
theorem shutdown_policy_witness :
    powerState protocol0 (commStatus 0x20) ≠ protocol0.SCX_POWER_MODE_ACTIVE ∧
    (SCXLNXCommPowerManagement config0 protocol0 powerEnv0 (commStatus 0x20)
      .SCXLNX_POWER_OPERATION_SHUTDOWN).nError = -ENOTTY ∧
    powerState protocol0 (commStatus 0x10) = protocol0.SCX_POWER_MODE_ACTIVE ∧
    (SCXLNXCommPowerManagement config0 protocol0 powerEnv0 (commStatus 0x10)
      .SCXLNX_POWER_OPERATION_SHUTDOWN).nError = 0 :=
  ⟨by decide,
    ((shutdown_policy config0 protocol0 powerEnv0 (commStatus 0x20)).2.2.1
      (Or.inl rfl)).1 (by decide),
    by decide,
    ((shutdown_policy config0 protocol0 powerEnv0 (commStatus 0x10)).2.2.1
      (Or.inl rfl)).2 (by decide)⟩

/-- C24: once the secure world is started, `SCXLNXCommPowerManagement` with
the operation hibernate calls `SCXLNXCommHibernate`, once and nothing else,
exactly when the power state field is `SCX_POWER_MODE_ACTIVE`; it then returns
what the collaborator returned (0 for 0, the error code otherwise) and leaves
the channel as the collaborator left it.  From any other power state it
returns `-ENOTTY`, calls nothing and leaves the channel unchanged.  Before
the secure world is started it returns 0, calls nothing and leaves the
channel unchanged. -/
theorem hibernate_policy (cfg : Config) (pr : Protocol) (env : PowerEnv)
    (pComm : SCXLNX_COMM) :
    ((cfg.CONFIG_TF_MSHIELD = false ∨ pComm.SCXLNX_COMM_FLAG_PA_AVAILABLE = true) →
      (powerState pr pComm = pr.SCX_POWER_MODE_ACTIVE →
        (SCXLNXCommPowerManagement cfg pr env pComm
          .SCXLNX_POWER_OPERATION_HIBERNATE).calls = [.SCXLNXCommHibernate] ∧
        (SCXLNXCommPowerManagement cfg pr env pComm
          .SCXLNX_POWER_OPERATION_HIBERNATE).nError = (env.SCXLNXCommHibernate pComm).2 ∧
        (SCXLNXCommPowerManagement cfg pr env pComm
          .SCXLNX_POWER_OPERATION_HIBERNATE).pComm = (env.SCXLNXCommHibernate pComm).1) ∧
      (powerState pr pComm ≠ pr.SCX_POWER_MODE_ACTIVE →
        (SCXLNXCommPowerManagement cfg pr env pComm
          .SCXLNX_POWER_OPERATION_HIBERNATE).calls = [] ∧
        (SCXLNXCommPowerManagement cfg pr env pComm
          .SCXLNX_POWER_OPERATION_HIBERNATE).nError = -ENOTTY ∧
        (SCXLNXCommPowerManagement cfg pr env pComm
          .SCXLNX_POWER_OPERATION_HIBERNATE).pComm = pComm)) ∧
    ((cfg.CONFIG_TF_MSHIELD = true ∧ pComm.SCXLNX_COMM_FLAG_PA_AVAILABLE = false) →
      (SCXLNXCommPowerManagement cfg pr env pComm
        .SCXLNX_POWER_OPERATION_HIBERNATE).calls = [] ∧
      (SCXLNXCommPowerManagement cfg pr env pComm
        .SCXLNX_POWER_OPERATION_HIBERNATE).nError = 0 ∧
      (SCXLNXCommPowerManagement cfg pr env pComm
        .SCXLNX_POWER_OPERATION_HIBERNATE).pComm = pComm) := by
  unfold SCXLNXCommPowerManagement
  by_cases hs : (cfg.CONFIG_TF_MSHIELD && !pComm.SCXLNX_COMM_FLAG_PA_AVAILABLE) = true
  · rw [if_pos hs]
    refine ⟨fun h => ?_, fun _ => ⟨rfl, rfl, rfl⟩⟩
    rcases h with h | h <;> simp [h] at hs
  · rw [if_neg hs]
    simp only
    refine ⟨fun _ => ⟨fun ha => ?_, fun ha => ?_⟩, fun h => ?_⟩
    · rw [if_pos ha]
      by_cases hr : (env.SCXLNXCommHibernate pComm).2 ≠ 0
      · rw [if_pos hr]
        exact ⟨rfl, rfl, rfl⟩
      · rw [if_neg hr]
        exact ⟨rfl, (not_not.1 hr).symm, rfl⟩
    · rw [if_neg ha]
      exact ⟨rfl, rfl, rfl⟩
    · simp [h.1, h.2] at hs

/-- C24 at concrete inputs: from the active state the hibernate collaborator
is called and its status word is the one left; from the state 2 nothing is
called and `-ENOTTY` is returned. -/
theorem hibernate_policy_witness :
    powerState protocol0 (commStatus 0x10) = protocol0.SCX_POWER_MODE_ACTIVE ∧
    (SCXLNXCommPowerManagement config0 protocol0 powerEnv0 (commStatus 0x10)
      .SCXLNX_POWER_OPERATION_HIBERNATE).calls = [.SCXLNXCommHibernate] ∧
    powerState protocol0 (commStatus 0x20) ≠ protocol0.SCX_POWER_MODE_ACTIVE ∧
    (SCXLNXCommPowerManagement config0 protocol0 powerEnv0 (commStatus 0x20)
      .SCXLNX_POWER_OPERATION_HIBERNATE).nError = -ENOTTY :=
  ⟨by decide,
    (((hibernate_policy config0 protocol0 powerEnv0 (commStatus 0x10)).1
      (Or.inl rfl)).1 (by decide)).1,
    by decide,
    (((hibernate_policy config0 protocol0 powerEnv0 (commStatus 0x20)).1
      (Or.inl rfl)).2 (by decide)).2.1⟩

/-- There is no state at all in which `SCXLNXCommPowerManagement` with the
operation resume returns `-ENOTTY` without having called `SCXLNXCommResume`:
the resume case has no test of the power state field; either the secure
world is not started and 0 is returned, or the collaborator is called. -/
theorem resume_never_refused (cfg : Config) (pr : Protocol) (env : PowerEnv) :
    ¬ ∃ pComm : SCXLNX_COMM,
      (SCXLNXCommPowerManagement cfg pr env pComm
        .SCXLNX_POWER_OPERATION_RESUME).nError = -ENOTTY ∧
      PowerCall.SCXLNXCommResume ∉
        (SCXLNXCommPowerManagement cfg pr env pComm .SCXLNX_POWER_OPERATION_RESUME).calls := by
  rintro ⟨pComm, h1, h2⟩
  unfold SCXLNXCommPowerManagement at h1 h2
  by_cases hs : (cfg.CONFIG_TF_MSHIELD && !pComm.SCXLNX_COMM_FLAG_PA_AVAILABLE) = true
  · rw [if_pos hs] at h1
    have hne : (0 : Int) ≠ -ENOTTY := by decide
    exact hne h1
  · rw [if_neg hs] at h2
    simp only at h2
    by_cases hr : (env.SCXLNXCommResume pComm).2 ≠ 0
    · rw [if_pos hr] at h2
      exact h2 (List.mem_singleton.2 rfl)
    · rw [if_neg hr] at h2
      exact h2 (List.mem_singleton.2 rfl)

/-- C25 as stated fails.  With the power state in bits 4 to 7 of the status
word, each of the 16 values of the power state field gives the same result
for a resume: `SCXLNXCommResume` is called and its 0 is returned; no value of
the field is refused, while the value 2 is refused for a shutdown and for a
hibernate. -/
theorem resume_is_not_gated :
    (List.range 16).all (fun f =>
      decide (powerState protocol0 (commStatus (f <<< 4)) = f) &&
      decide ((SCXLNXCommPowerManagement config0 protocol0 powerEnv0 (commStatus (f <<< 4))
        .SCXLNX_POWER_OPERATION_RESUME).calls = [.SCXLNXCommResume]) &&
      decide ((SCXLNXCommPowerManagement config0 protocol0 powerEnv0 (commStatus (f <<< 4))
        .SCXLNX_POWER_OPERATION_RESUME).nError = 0)) = true ∧
    (SCXLNXCommPowerManagement config0 protocol0 powerEnv0 (commStatus (2 <<< 4))
      .SCXLNX_POWER_OPERATION_SHUTDOWN).nError = -ENOTTY ∧
    (SCXLNXCommPowerManagement config0 protocol0 powerEnv0 (commStatus (2 <<< 4))
      .SCXLNX_POWER_OPERATION_HIBERNATE).nError = -ENOTTY := by
  refine ⟨by decide, by decide, by decide⟩

/-- C25, amended: once the secure world is started, `SCXLNXCommPowerManagement`
with the operation resume calls `SCXLNXCommResume`, once and nothing else,
for every status word; it returns what the collaborator returned and leaves
the channel as the collaborator left it.  The result does not depend on the
power state constants. -/
theorem resume_policy (cfg : Config) (pr : Protocol) (env : PowerEnv) (pComm : SCXLNX_COMM)
    (hstarted : cfg.CONFIG_TF_MSHIELD = false ∨ pComm.SCXLNX_COMM_FLAG_PA_AVAILABLE = true) :
    (SCXLNXCommPowerManagement cfg pr env pComm .SCXLNX_POWER_OPERATION_RESUME).calls
      = [.SCXLNXCommResume] ∧
    (SCXLNXCommPowerManagement cfg pr env pComm .SCXLNX_POWER_OPERATION_RESUME).nError
      = (env.SCXLNXCommResume pComm).2 ∧
    (SCXLNXCommPowerManagement cfg pr env pComm .SCXLNX_POWER_OPERATION_RESUME).pComm
      = (env.SCXLNXCommResume pComm).1 ∧
    (∀ pr1 : Protocol,
      (SCXLNXCommPowerManagement cfg pr1 env pComm .SCXLNX_POWER_OPERATION_RESUME).nError =
      (SCXLNXCommPowerManagement cfg pr env pComm .SCXLNX_POWER_OPERATION_RESUME).nError) := by
  have hs : ¬ (cfg.CONFIG_TF_MSHIELD && !pComm.SCXLNX_COMM_FLAG_PA_AVAILABLE) = true := by
    rcases hstarted with h | h <;> simp [h]
  have hshape : ∀ pr1 : Protocol,
      SCXLNXCommPowerManagement cfg pr1 env pComm .SCXLNX_POWER_OPERATION_RESUME =
        { nError := (env.SCXLNXCommResume pComm).2, pComm := (env.SCXLNXCommResume pComm).1,
          calls := [.SCXLNXCommResume] } := by
    intro pr1
    unfold SCXLNXCommPowerManagement
    rw [if_neg hs]
    simp only
    by_cases hr : (env.SCXLNXCommResume pComm).2 ≠ 0
    · rw [if_pos hr]
    · rw [if_neg hr, ← not_not.1 hr]
  rw [hshape pr]
  exact ⟨rfl, rfl, rfl, fun pr1 => by rw [hshape pr1]⟩

/-- C25 amended, at a concrete input: from the power state 2, which refuses
shutdown and hibernate, a resume calls the collaborator and returns 0. -/
theorem resume_policy_witness :
    powerState protocol0 (commStatus 0x20) ≠ protocol0.SCX_POWER_MODE_ACTIVE ∧
    (SCXLNXCommPowerManagement config0 protocol0 powerEnv0 (commStatus 0x20)
      .SCXLNX_POWER_OPERATION_RESUME).calls = [.SCXLNXCommResume] ∧
    (SCXLNXCommPowerManagement config0 protocol0 powerEnv0 (commStatus 0x20)
      .SCXLNX_POWER_OPERATION_RESUME).nError = 0 :=
  have h := resume_policy config0 protocol0 powerEnv0 (commStatus 0x20) (Or.inl rfl)
  ⟨by decide, h.1, h.2.1⟩

/-! ## Clock publication -/

/-- C26: with the time slot mask `SCX_SYNC_SERIAL_TIMESLOT_N` equal to 1 and
a timestamp that fits in 64 bits (as it does for every `struct timeval`),
one call of `SCXLNXCommSetCurrentTime` sets `nSyncSerial_N` to the old value
plus 1 modulo 2^32, stores `tv_sec * 1000 + tv_usec / 1000` in the slot of
`sTime_N` indexed by the new serial modulo 2, which is not the slot indexed
by the old serial; every other slot of `sTime_N`, the timeout serial and
slots, the status word, the four ring cursors, the two queues and the flags
are unchanged. -/
theorem setCurrentTime_publishes (pr : Protocol) (pComm : SCXLNX_COMM) (tv_sec tv_usec : Nat)
    (hmask : pr.SCX_SYNC_SERIAL_TIMESLOT_N = 1)
    (ht : tv_sec * 1000 + tv_usec / 1000 < 2 ^ 64) :
    (SCXLNXCommSetCurrentTime pr pComm tv_sec tv_usec).pBuffer.nSyncSerial_N =
      (pComm.pBuffer.nSyncSerial_N + 1) % 2 ^ 32 ∧
    (SCXLNXCommSetCurrentTime pr pComm tv_sec tv_usec).pBuffer.sTime_N
        ((SCXLNXCommSetCurrentTime pr pComm tv_sec tv_usec).pBuffer.nSyncSerial_N % 2) =
      tv_sec * 1000 + tv_usec / 1000 ∧
    pComm.pBuffer.nSyncSerial_N % 2 ≠
      (SCXLNXCommSetCurrentTime pr pComm tv_sec tv_usec).pBuffer.nSyncSerial_N % 2 ∧
    (∀ k, k ≠ (SCXLNXCommSetCurrentTime pr pComm tv_sec tv_usec).pBuffer.nSyncSerial_N % 2 →
      (SCXLNXCommSetCurrentTime pr pComm tv_sec tv_usec).pBuffer.sTime_N k =
        pComm.pBuffer.sTime_N k) ∧
    (SCXLNXCommSetCurrentTime pr pComm tv_sec tv_usec).pBuffer.sTime_N
        (pComm.pBuffer.nSyncSerial_N % 2) =
      pComm.pBuffer.sTime_N (pComm.pBuffer.nSyncSerial_N % 2) ∧
    (SCXLNXCommSetCurrentTime pr pComm tv_sec tv_usec).pBuffer.nSyncSerial_S =
      pComm.pBuffer.nSyncSerial_S ∧
    (SCXLNXCommSetCurrentTime pr pComm tv_sec tv_usec).pBuffer.sTimeout_S =
      pComm.pBuffer.sTimeout_S ∧
    (SCXLNXCommSetCurrentTime pr pComm tv_sec tv_usec).pBuffer.nStatus_S =
      pComm.pBuffer.nStatus_S ∧
    (SCXLNXCommSetCurrentTime pr pComm tv_sec tv_usec).pBuffer.nFirstCommand =
      pComm.pBuffer.nFirstCommand ∧
    (SCXLNXCommSetCurrentTime pr pComm tv_sec tv_usec).pBuffer.nFirstFreeCommand =
      pComm.pBuffer.nFirstFreeCommand ∧
    (SCXLNXCommSetCurrentTime pr pComm tv_sec tv_usec).pBuffer.nFirstAnswer =
      pComm.pBuffer.nFirstAnswer ∧
    (SCXLNXCommSetCurrentTime pr pComm tv_sec tv_usec).pBuffer.nFirstFreeAnswer =
      pComm.pBuffer.nFirstFreeAnswer ∧
    (SCXLNXCommSetCurrentTime pr pComm tv_sec tv_usec).pBuffer.sCommandQueue =
      pComm.pBuffer.sCommandQueue ∧
    (SCXLNXCommSetCurrentTime pr pComm tv_sec tv_usec).pBuffer.sAnswerQueue =
      pComm.pBuffer.sAnswerQueue ∧
    (SCXLNXCommSetCurrentTime pr pComm tv_sec tv_usec).SCXLNX_COMM_FLAG_L1_SHARED_ALLOCATED =
      pComm.SCXLNX_COMM_FLAG_L1_SHARED_ALLOCATED ∧
    (SCXLNXCommSetCurrentTime pr pComm tv_sec tv_usec).SCXLNX_COMM_FLAG_PA_AVAILABLE =
      pComm.SCXLNX_COMM_FLAG_PA_AVAILABLE ∧
    (SCXLNXCommSetCurrentTime pr pComm tv_sec tv_usec).SCXLNX_COMM_FLAG_TERMINATING =
      pComm.SCXLNX_COMM_FLAG_TERMINATING := by
  have hserial : (SCXLNXCommSetCurrentTime pr pComm tv_sec tv_usec).pBuffer.nSyncSerial_N =
      (pComm.pBuffer.nSyncSerial_N + 1) % 2 ^ 32 := rfl
  have htime : (SCXLNXCommSetCurrentTime pr pComm tv_sec tv_usec).pBuffer.sTime_N =
      Function.update pComm.pBuffer.sTime_N
        ((pComm.pBuffer.nSyncSerial_N + 1) % 2 ^ 32 % 2)
        (tv_sec * 1000 + tv_usec / 1000) := by
    show Function.update pComm.pBuffer.sTime_N
      (add32 pComm.pBuffer.nSyncSerial_N 1 &&& pr.SCX_SYNC_SERIAL_TIMESLOT_N)
      (timeOfDay64 tv_sec tv_usec) = _
    rw [hmask, Nat.and_one_is_mod]
    unfold timeOfDay64 add32
    rw [Nat.mod_eq_of_lt ht]
  have hparity : pComm.pBuffer.nSyncSerial_N % 2 ≠
      (pComm.pBuffer.nSyncSerial_N + 1) % 2 ^ 32 % 2 := by
    rw [Nat.mod_mod_of_dvd _ (by decide : 2 ∣ 2 ^ 32)]
    omega
  rw [hserial, htime]
  refine ⟨rfl, Function.update_same _ _ _, hparity,
    fun k hk => Function.update_noteq hk _ _, Function.update_noteq hparity _ _,
    rfl, rfl, rfl, rfl, rfl, rfl, rfl, rfl, rfl, rfl, rfl, rfl⟩

/-- C26 at a concrete input: from serial `0xFFFFFFFF` the serial wraps to 0
and the time 12 s 345678 us is stored as 12345 in slot 0, slot 1 being left
alone. -/
theorem setCurrentTime_publishes_witness :
    protocol0.SCX_SYNC_SERIAL_TIMESLOT_N = 1 ∧
    (SCXLNXCommSetCurrentTime protocol0
      { comm0 with pBuffer := { buffer0 with nSyncSerial_N := 0xFFFFFFFF } }
      12 345678).pBuffer.nSyncSerial_N = 0 ∧
    (SCXLNXCommSetCurrentTime protocol0
      { comm0 with pBuffer := { buffer0 with nSyncSerial_N := 0xFFFFFFFF } }
      12 345678).pBuffer.sTime_N 0 = 12345 :=
  have h := setCurrentTime_publishes protocol0
    { comm0 with pBuffer := { buffer0 with nSyncSerial_N := 0xFFFFFFFF } } 12 345678 rfl
    (by decide)
  ⟨rfl, h.1, h.2.1⟩

/-! ## Page count of a buffer -/

/-- When the 32-bit sum does not wrap, the page count of lines 632-633 is the
number of pages the buffer spans. -/
theorem pageCount_exact (nBufferVAddr nBufferSize : Nat)
    (h : nBufferVAddr % 4096 + nBufferSize + 4095 < 2 ^ 32) :
    pageCount nBufferVAddr nBufferSize =
      (nBufferVAddr % 4096 + nBufferSize + 4095) / 4096 := by
  have hand : nBufferVAddr &&& 0xFFF = nBufferVAddr % 4096 :=
    Nat.and_pow_two_sub_one_eq_mod nBufferVAddr 12
  unfold pageCount add32
  rw [hand, Nat.shiftRight_eq_div_pow]
  have h1 : (nBufferVAddr % 4096 + nBufferSize) % 2 ^ 32 = nBufferVAddr % 4096 + nBufferSize :=
    Nat.mod_eq_of_lt (by omega)
  rw [h1, Nat.mod_eq_of_lt h]
  rfl

/-- C28 fails when the 32-bit sum wraps.  For the buffer at address 0 of
size `0xFFFFF002` the code computes
`((0 & 0xFFF) + 0xFFFFF002 + 0xFFF) >> 12 = 0` pages, where the buffer spans
`0x100000` pages, more than the `256 * 128` entries of the coarse pages;
`SCXLNXCommFillDescriptorTable` does not reject the buffer: it returns 0 with
a descriptor count of 0. -/
theorem page_count_wraps :
    (0xFFFFF002 : Nat) < 2 ^ 32 ∧
    pageCount 0 0xFFFFF002 = 0 ∧
    (0 % 4096 + 0xFFFFF002 + 4095) / 4096 = 0x100000 ∧
    0x100000 > SCX_DESCRIPTOR_TABLE_CAPACITY * mapConfig0.SCX_MAX_COARSE_PAGES ∧
    (SCXLNXCommFillDescriptorTable mapConfig0 mapEnv0 mapState0 shmemDesc0 0 (fun _ => 0)
      0xFFFFF002 true 2).nError = 0 ∧
    (SCXLNXCommFillDescriptorTable mapConfig0 mapEnv0 mapState0 shmemDesc0 0 (fun _ => 0)
      0xFFFFF002 true 2).pnDescriptorCount = some 0 := by
  refine ⟨by decide, by decide, by decide, by decide, by decide, by decide⟩

/-! ## Cursors and slots -/

/-- The capacity has to divide 2^32: with a ring of 3 words the cursor
`0xFFFFFFFF` is at slot 0 and the next word, at cursor 0, is at slot 0 again. -/
theorem slot_needs_capacity_dividing :
    slot 3 0xFFFFFFFF 0 = 0 ∧ slot 3 0xFFFFFFFF 1 = 0 ∧ (0xFFFFFFFF % 3 + 1) % 3 = 1 := by
  decide

/-- C29: when the capacities of the two queues divide 2^32, the slot used for
word `i` after cursor `c`, `((c + i) mod 2^32) mod capacity`, is
`((c mod capacity) + i) mod capacity`, for both queues and whether or not
`c + i` overflows 32 bits; the slot at the cursor `c + 1` taken in 32 bits
follows the slot at `c`; and the read loop of the answer queue reads these
slots. -/
theorem cursor_slot_consistent (cfg : Config) (c i : Nat)
    (hN : cfg.SCX_N_MESSAGE_QUEUE_CAPACITY ∣ 2 ^ 32)
    (hS : cfg.SCX_S_ANSWER_QUEUE_CAPACITY ∣ 2 ^ 32) :
    slot cfg.SCX_N_MESSAGE_QUEUE_CAPACITY c i =
      (c % cfg.SCX_N_MESSAGE_QUEUE_CAPACITY + i) % cfg.SCX_N_MESSAGE_QUEUE_CAPACITY ∧
    slot cfg.SCX_S_ANSWER_QUEUE_CAPACITY c i =
      (c % cfg.SCX_S_ANSWER_QUEUE_CAPACITY + i) % cfg.SCX_S_ANSWER_QUEUE_CAPACITY ∧
    slot cfg.SCX_N_MESSAGE_QUEUE_CAPACITY (add32 c 1) 0 =
      (slot cfg.SCX_N_MESSAGE_QUEUE_CAPACITY c 0 + 1) % cfg.SCX_N_MESSAGE_QUEUE_CAPACITY ∧
    slot cfg.SCX_S_ANSWER_QUEUE_CAPACITY (add32 c 1) 0 =
      (slot cfg.SCX_S_ANSWER_QUEUE_CAPACITY c 0 + 1) % cfg.SCX_S_ANSWER_QUEUE_CAPACITY ∧
    (∀ (q : Nat → Nat) (n : Nat),
      readFromQueue cfg.SCX_S_ANSWER_QUEUE_CAPACITY c q n =
        (List.range n).map fun j =>
          q ((c % cfg.SCX_S_ANSWER_QUEUE_CAPACITY + j) % cfg.SCX_S_ANSWER_QUEUE_CAPACITY)) := by
  have key : ∀ {cap : Nat}, cap ∣ 2 ^ 32 → ∀ j, slot cap c j = (c % cap + j) % cap := by
    intro cap h j
    rw [slot_eq_of_dvd h, Nat.mod_add_mod]
  have next : ∀ {cap : Nat}, cap ∣ 2 ^ 32 →
      slot cap (add32 c 1) 0 = (slot cap c 0 + 1) % cap := by
    intro cap h
    rw [slot_eq_of_dvd h, slot_eq_of_dvd h]
    unfold add32
    rw [Nat.add_zero, Nat.add_zero, Nat.mod_mod_of_dvd _ h, Nat.mod_add_mod]
  refine ⟨key hN i, key hS i, next hN, next hS, fun q n => ?_⟩
  unfold readFromQueue
  apply List.map_congr_left
  intro j _
  rw [key hS j]

/-- C29 at a concrete input: on the 128-word queues the cursor `0xFFFFFFFF`
is at slot 127 and word 1 after it is at slot 0. -/
theorem cursor_slot_consistent_witness :
    config0.SCX_N_MESSAGE_QUEUE_CAPACITY ∣ 2 ^ 32 ∧
    slot config0.SCX_N_MESSAGE_QUEUE_CAPACITY 0xFFFFFFFF 1 = 0 ∧
    slot config0.SCX_N_MESSAGE_QUEUE_CAPACITY 0xFFFFFFFF 1 =
      (0xFFFFFFFF % config0.SCX_N_MESSAGE_QUEUE_CAPACITY + 1)
        % config0.SCX_N_MESSAGE_QUEUE_CAPACITY :=
  ⟨⟨2 ^ 25, by decide⟩, by decide,
    (cursor_slot_consistent config0 0xFFFFFFFF 1 ⟨2 ^ 25, by decide⟩ ⟨2 ^ 25, by decide⟩).1⟩

/-! ## Encoding of an L2 page descriptor -/

theorem aligned_and_mask (p : Nat) (halign : p % 4096 = 0) (h32 : p < 2 ^ 32) :
    p &&& L2_DESCRIPTOR_ADDR_MASK = p := by
  apply Nat.eq_of_testBit_eq
  intro i
  rw [Nat.testBit_and]
  by_cases h12 : i < 12
  · have hp : p = 2 ^ 12 * (p / 4096) := by omega
    have : p.testBit i = false := by
      rw [hp, Nat.testBit_mul_pow_two]
      simp [h12]
    rw [this]
    rfl
  · by_cases h32i : i < 32
    · have hm : L2_DESCRIPTOR_ADDR_MASK = (2 ^ 20 - 1) <<< 12 := by decide
      have : L2_DESCRIPTOR_ADDR_MASK.testBit i = true := by
        rw [hm, Nat.testBit_shiftLeft, Nat.testBit_two_pow_sub_one]
        simp
        omega
      rw [this]
      simp
    · have : p.testBit i = false :=
        Nat.testBit_lt_two_pow
          (lt_of_lt_of_le h32 (Nat.pow_le_pow_right (by decide) (by omega)))
      rw [this]
      rfl

/-- C30: for a page pointer that is not NULL, whose physical address `p` is
page aligned and fits in 32 bits, `SCXLNXCommGetL2PageDescriptor` writes
`0x3 | p | perm | attr`, where `perm` is 0x220 when the write flag is clear
and 0x30 when it is set and `attr` is what `SCXLNXCommGetL2DescriptorCommon`
returns for the page; the descriptor is not the fault descriptor; masking it
with `L2_DESCRIPTOR_ADDR_MASK` gives `p` back, which is what
`SCXLNXCommL2PageDescriptorToPage` hands to `pte_page`; and an entry equal to
the fault descriptor is left unchanged. -/
theorem l2_page_descriptor_encoding (mc : MapConfig) (walk : Nat → PageWalk)
    (nFlags page : Nat) (hpage : page ≠ 0)
    (halign : mc.page_to_phys page % 4096 = 0) (h32 : mc.page_to_phys page < 2 ^ 32) :
    SCXLNXCommGetL2PageDescriptor mc walk nFlags page =
      0x3 ||| mc.page_to_phys page |||
        (if nFlags &&& mc.SCX_SHMEM_TYPE_WRITE = 0 then 0x220 else 0x30) |||
        SCXLNXCommGetL2DescriptorCommon (walk (mc.page_address page)) ∧
    SCXLNXCommGetL2PageDescriptor mc walk nFlags page ≠ L2_DESCRIPTOR_FAULT ∧
    SCXLNXCommGetL2PageDescriptor mc walk nFlags page &&& L2_DESCRIPTOR_ADDR_MASK =
      mc.page_to_phys page ∧
    SCXLNXCommL2PageDescriptorToPage mc (SCXLNXCommGetL2PageDescriptor mc walk nFlags page) =
      mc.pte_page (mc.page_to_phys page) ∧
    SCXLNXCommGetL2PageDescriptor mc walk nFlags L2_DESCRIPTOR_FAULT = L2_DESCRIPTOR_FAULT := by
  obtain ⟨h1, h2⟩ := descriptor_names_page mc walk nFlags page hpage
  have hm := aligned_and_mask (mc.page_to_phys page) halign h32
  rw [hm] at h2
  refine ⟨?_, h1, h2, ?_, getL2PageDescriptor_fault mc walk nFlags⟩
  · unfold SCXLNXCommGetL2PageDescriptor
    rw [if_neg (by simpa [L2_DESCRIPTOR_FAULT] using hpage), hm]
    rfl
  · unfold SCXLNXCommL2PageDescriptorToPage
    rw [h2]

/-- C30 at a concrete input: page `0xD0000` of `mapConfig0`, read-write,
through the kernel page tables, gets the descriptor `0xD000007F`. -/
theorem l2_page_descriptor_encoding_witness :
    (0xD0000 : Nat) ≠ 0 ∧ mapConfig0.page_to_phys 0xD0000 = 0xD0000000 ∧
    SCXLNXCommGetL2PageDescriptor mapConfig0 mapConfig0.kernelWalk 2 0xD0000 = 0xD000007F ∧
    SCXLNXCommGetL2PageDescriptor mapConfig0 mapConfig0.kernelWalk 2 0xD0000
      &&& L2_DESCRIPTOR_ADDR_MASK = mapConfig0.page_to_phys 0xD0000 :=
  ⟨by decide, by decide, by decide,
    (l2_page_descriptor_encoding mapConfig0 mapConfig0.kernelWalk 2 0xD0000 (by decide)
      (by decide) (by decide)).2.2.1⟩

/-! ## Order of the pages of a mapping -/

/-- The filled entries of a table that holds a packed run name the pages of
the run, in order. -/
theorem packed_filled {mc : MapConfig} {table : Nat → Nat} {lo : Nat} {P : List Nat}
    (h : Packed mc table lo P) : filledEntriesOfTable mc table = P := by
  obtain ⟨hfit, hlow, hrun, hz⟩ := h
  have hfit256 : lo + P.length ≤ 256 := hfit
  have e1 : List.range' lo P.length ++ List.range' (lo + P.length) (256 - (lo + P.length)) =
      List.range' lo (256 - lo) := by
    have := List.range'_append lo P.length (256 - (lo + P.length)) 1
    rw [Nat.one_mul] at this
    rw [this]
    congr 1
    omega
  have e2 : List.range' 0 lo ++ List.range' lo (256 - lo) = List.range' 0 256 := by
    have := List.range'_append 0 lo (256 - lo) 1
    rw [Nat.one_mul, Nat.zero_add] at this
    rw [this]
    congr 1
    omega
  have hsplit : List.range SCX_DESCRIPTOR_TABLE_CAPACITY =
      List.range' 0 lo ++
        (List.range' lo P.length ++ List.range' (lo + P.length) (256 - (lo + P.length))) := by
    rw [e1, e2, List.range_eq_range']
    rfl
  have f1 : (List.range' 0 lo).filter (fun i => decide (table i ≠ L2_DESCRIPTOR_FAULT)) = [] := by
    rw [List.filter_eq_nil_iff]
    intro a ha
    rw [List.mem_range'_1] at ha
    simp [hlow a (by omega)]
  have f2 : (List.range' lo P.length).filter (fun i => decide (table i ≠ L2_DESCRIPTOR_FAULT))
      = List.range' lo P.length := by
    rw [List.filter_eq_self]
    intro a ha
    rw [List.mem_range'_1] at ha
    have := (hrun (a - lo) (by omega)).1
    rw [show lo + (a - lo) = a by omega] at this
    simpa using this
  have f3 : (List.range' (lo + P.length) (256 - (lo + P.length))).filter
      (fun i => decide (table i ≠ L2_DESCRIPTOR_FAULT)) = [] := by
    rw [List.filter_eq_nil_iff]
    intro a ha
    rw [List.mem_range'_1] at ha
    simp [hz a (by omega)]
  unfold filledEntriesOfTable
  rw [hsplit, List.filter_append, List.filter_append, f1, f2, f3, List.nil_append,
    List.append_nil]
  apply List.ext_getElem
  · simp
  · intro i h1 h2
    rw [List.getElem_map, List.getElem_range', Nat.one_mul]
    exact (hrun i h2).2

theorem pageCount_lt (nBufferVAddr nBufferSize : Nat) :
    pageCount nBufferVAddr nBufferSize < 2 ^ 20 := by
  unfold pageCount
  rw [Nat.shiftRight_eq_div_pow]
  have h1 : add32 (add32 (nBufferVAddr &&& 0xFFF) nBufferSize) 0xFFF < 2 ^ 32 :=
    Nat.mod_lt _ (by decide)
  have h2 : (2 : Nat) ^ 32 = 2 ^ 20 * 2 ^ PAGE_SHIFT := by decide
  rw [h2] at h1
  exact Nat.div_lt_of_lt_mul (by rw [Nat.mul_comm]; exact h1)

/-- The address of the page of index `i` of the fragment of index `k`, when
the fragment starts `s` entries into its table. -/
theorem fragment_address (nBufferVAddr k s i : Nat) (hi : s + i < 2 ^ 32) :
    add32 (add32 nBufferVAddr (k * SCX_MAX_COARSE_PAGE_MAPPED_SIZE % 2 ^ 32))
        (sub32 (s + i) s * PAGE_SIZE % 2 ^ 32) =
      (nBufferVAddr + (256 * k + i) * 4096) % 2 ^ 32 := by
  rw [sub32_of_le (Nat.le_add_right s i) hi, Nat.add_sub_cancel_left]
  have h1 : SCX_MAX_COARSE_PAGE_MAPPED_SIZE = 1048576 := rfl
  have h2 : PAGE_SIZE = 4096 := rfl
  unfold add32
  rw [h1, h2]
  omega

/-- The pages of one fragment are those of consecutive addresses, 4096 apart,
starting at the address of the buffer plus 1MB per fragment.  For user-space
memory this is what `internal_get_user_pages` is assumed to return. -/
theorem fragmentPages_eq (mc : MapConfig) (env : MapEnv) (nBufferVAddr nFlags : Nat)
    (bInUserSpace : Bool) (pageAt : Nat → Nat)
    (hk : bInUserSpace = false → pageAt = mc.vmalloc_to_page)
    (hu : bInUserSpace = true → ∀ start n wr,
      (env.get_user_pages start n wr).2 =
        (List.range n).map fun i => pageAt ((start + i * 4096) % 2 ^ 32))
    (k c s : Nat)
    (hs : s ≤ (if c >>> SCX_DESCRIPTOR_TABLE_CAPACITY_BIT_SHIFT ≠ 0
      then SCX_DESCRIPTOR_TABLE_CAPACITY else c))
    (hc : c < 2 ^ 32) :
    fragmentPages mc env nBufferVAddr nFlags bInUserSpace k c s =
      (List.range ((if c >>> SCX_DESCRIPTOR_TABLE_CAPACITY_BIT_SHIFT ≠ 0
          then SCX_DESCRIPTOR_TABLE_CAPACITY else c) - s)).map
        fun i => pageAt ((nBufferVAddr + (256 * k + i) * 4096) % 2 ^ 32) := by
  have hg : (if c >>> SCX_DESCRIPTOR_TABLE_CAPACITY_BIT_SHIFT ≠ 0
      then SCX_DESCRIPTOR_TABLE_CAPACITY else c) < 2 ^ 32 := by
    by_cases h : c >>> SCX_DESCRIPTOR_TABLE_CAPACITY_BIT_SHIFT ≠ 0
    · rw [if_pos h]; decide
    · rw [if_neg h]; exact hc
  unfold fragmentPages
  simp only
  generalize (if c >>> SCX_DESCRIPTOR_TABLE_CAPACITY_BIT_SHIFT ≠ 0
      then SCX_DESCRIPTOR_TABLE_CAPACITY else c) = g at hs hg ⊢
  cases bInUserSpace with
  | false =>
    rw [if_neg (by simp), hk rfl, List.range'_eq_map_range, List.map_map]
    apply List.map_congr_left
    intro i hi
    rw [List.mem_range] at hi
    simp only [Function.comp]
    rw [fragment_address nBufferVAddr k s i (by omega)]
  | true =>
    rw [if_pos rfl, sub32_of_le hs hg, hu rfl,
      List.take_of_length_le (by simp)]
    apply List.map_congr_left
    intro i hi
    rw [List.mem_range] at hi
    have h1 : SCX_MAX_COARSE_PAGE_MAPPED_SIZE = 1048576 := rfl
    unfold add32
    rw [h1]
    congr 1
    omega

/-- Without a page shift the pages resolved by the loop "map each coarse
page" are those of consecutive addresses: the fragment of index `k` starts
with the page of index `256 * k` of the buffer. -/
theorem resolvedPages_contiguous (mc : MapConfig) (env : MapEnv) (nBufferVAddr nFlags : Nat)
    (bInUserSpace : Bool) (pageAt : Nat → Nat)
    (hk : bInUserSpace = false → pageAt = mc.vmalloc_to_page)
    (hu : bInUserSpace = true → ∀ start n wr,
      (env.get_user_pages start n wr).2 =
        (List.range n).map fun i => pageAt ((start + i * 4096) % 2 ^ 32)) :
    ∀ (n k c : Nat), c < 2 ^ 32 →
      resolvedPages mc env nBufferVAddr nFlags bInUserSpace n k c 0 =
        (List.range' (256 * k) (min c (256 * n))).map
          fun j => pageAt ((nBufferVAddr + j * 4096) % 2 ^ 32) := by
  intro n
  induction n with
  | zero =>
    intro k c _
    simp [resolvedPages]
  | succ n ih =>
    intro k c hc
    have hget : (if c >>> SCX_DESCRIPTOR_TABLE_CAPACITY_BIT_SHIFT ≠ 0
        then SCX_DESCRIPTOR_TABLE_CAPACITY else c) = min c 256 := by
      have hsh : c >>> SCX_DESCRIPTOR_TABLE_CAPACITY_BIT_SHIFT = c / 256 :=
        Nat.shiftRight_eq_div_pow c 8
      rw [hsh]
      by_cases h : c / 256 ≠ 0
      · rw [if_pos h]
        show 256 = min c 256
        omega
      · rw [if_neg h]
        omega
    rw [resolvedPages, fragmentPages_eq mc env nBufferVAddr nFlags bInUserSpace pageAt hk hu
      k c 0 (Nat.zero_le _) hc, hget, sub32_of_le (Nat.min_le_left c 256) hc,
      ih (k + 1) (c - min c 256) (by omega), Nat.sub_zero]
    have hfirst : (List.range (min c 256)).map
          (fun i => pageAt ((nBufferVAddr + (256 * k + i) * 4096) % 2 ^ 32)) =
        (List.range' (256 * k) (min c 256)).map
          (fun j => pageAt ((nBufferVAddr + j * 4096) % 2 ^ 32)) := by
      rw [List.range'_eq_map_range, List.map_map]
      rfl
    rw [hfirst, ← List.map_append]
    congr 1
    by_cases hsmall : c < 256
    · have h1 : min c 256 = c := by omega
      have h2 : min (c - c) (256 * n) = 0 := by omega
      have h3 : min c (256 * (n + 1)) = c := by omega
      rw [h1, h2, h3]
      simp
    · have h1 : min c 256 = 256 := by omega
      have h3 : min c (256 * (n + 1)) = min (c - 256) (256 * n) + 256 := by omega
      rw [h1, h3]
      have := List.range'_append (256 * k) 256 (min (c - 256) (256 * n)) 1
      rw [Nat.one_mul] at this
      rw [← this]
      rfl

theorem ceil_pages (c : Nat) (hc : c < 2 ^ 20) :
    c ≤ 256 * (add32 c SCX_DESCRIPTOR_TABLE_CAPACITY_MASK >>>
      SCX_DESCRIPTOR_TABLE_CAPACITY_BIT_SHIFT) := by
  have h1 : add32 c SCX_DESCRIPTOR_TABLE_CAPACITY_MASK = c + 255 := by
    unfold add32
    exact Nat.mod_eq_of_lt (by
      show c + 255 < 2 ^ 32
      omega)
  rw [h1]
  have h2 : (c + 255) >>> SCX_DESCRIPTOR_TABLE_CAPACITY_BIT_SHIFT = (c + 255) / 256 :=
    Nat.shiftRight_eq_div_pow _ 8
  rw [h2]
  omega

/-- When there is no page shift, or when the pages and the shift fit in one
coarse page table, the pages resolved by a map are the pages of the buffer,
each once and in order: entry `j` is the page at address
`nBufferVAddr + j * 4096` (in 32 bits). -/
theorem mappedPages_contiguous (mc : MapConfig) (env : MapEnv)
    (nBufferVAddr nBufferSize : Nat) (bInUserSpace : Bool) (nFlags : Nat)
    (pageAt : Nat → Nat)
    (hk : bInUserSpace = false → pageAt = mc.vmalloc_to_page)
    (hu : bInUserSpace = true → ∀ start n wr,
      (env.get_user_pages start n wr).2 =
        (List.range n).map fun i => pageAt ((start + i * 4096) % 2 ^ 32))
    (hcond :
      (if alignmentRestricted mc.info then DESCRIPTOR_V13_12_GET nBufferVAddr else 0) = 0 ∨
      pageCount nBufferVAddr nBufferSize +
        (if alignmentRestricted mc.info then DESCRIPTOR_V13_12_GET nBufferVAddr else 0)
        ≤ SCX_DESCRIPTOR_TABLE_CAPACITY) :
    mappedPages mc env nBufferVAddr nBufferSize bInUserSpace nFlags =
      (List.range (pageCount nBufferVAddr nBufferSize)).map
        fun j => pageAt ((nBufferVAddr + j * 4096) % 2 ^ 32) := by
  have hpc := pageCount_lt nBufferVAddr nBufferSize
  unfold mappedPages
  simp only
  generalize hsdef :
    (if alignmentRestricted mc.info then DESCRIPTOR_V13_12_GET nBufferVAddr else 0) = s
    at hcond
  by_cases hs0 : s = 0
  · subst hs0
    have hadd : add32 (pageCount nBufferVAddr nBufferSize) 0 =
        pageCount nBufferVAddr nBufferSize := by
      unfold add32
      exact Nat.mod_eq_of_lt (by omega)
    rw [hadd, resolvedPages_contiguous mc env nBufferVAddr nFlags bInUserSpace pageAt hk hu
      _ 0 _ (by omega), Nat.min_eq_left (ceil_pages _ hpc), Nat.mul_zero,
      ← List.range_eq_range']
  · have hfit : pageCount nBufferVAddr nBufferSize + s ≤ 256 := by
      rcases hcond with h | h
      · exact absurd h hs0
      · exact h
    have hadd : add32 (pageCount nBufferVAddr nBufferSize) s =
        pageCount nBufferVAddr nBufferSize + s := by
      unfold add32
      exact Nat.mod_eq_of_lt (by omega)
    have hn : add32 (pageCount nBufferVAddr nBufferSize + s)
        SCX_DESCRIPTOR_TABLE_CAPACITY_MASK >>> SCX_DESCRIPTOR_TABLE_CAPACITY_BIT_SHIFT = 1 := by
      have h1 : add32 (pageCount nBufferVAddr nBufferSize + s)
          SCX_DESCRIPTOR_TABLE_CAPACITY_MASK = pageCount nBufferVAddr nBufferSize + s + 255 := by
        unfold add32
        exact Nat.mod_eq_of_lt (by
          show pageCount nBufferVAddr nBufferSize + s + 255 < 2 ^ 32
          omega)
      rw [h1]
      have h2 : (pageCount nBufferVAddr nBufferSize + s + 255)
          >>> SCX_DESCRIPTOR_TABLE_CAPACITY_BIT_SHIFT =
          (pageCount nBufferVAddr nBufferSize + s + 255) / 256 :=
        Nat.shiftRight_eq_div_pow _ 8
      rw [h2]
      omega
    have hget : (if (pageCount nBufferVAddr nBufferSize + s)
          >>> SCX_DESCRIPTOR_TABLE_CAPACITY_BIT_SHIFT ≠ 0
        then SCX_DESCRIPTOR_TABLE_CAPACITY else pageCount nBufferVAddr nBufferSize + s) =
        pageCount nBufferVAddr nBufferSize + s := by
      have hsh : (pageCount nBufferVAddr nBufferSize + s)
          >>> SCX_DESCRIPTOR_TABLE_CAPACITY_BIT_SHIFT =
          (pageCount nBufferVAddr nBufferSize + s) / 256 := Nat.shiftRight_eq_div_pow _ 8
      rw [hsh]
      by_cases h : (pageCount nBufferVAddr nBufferSize + s) / 256 ≠ 0
      · rw [if_pos h]
        show 256 = _
        omega
      · rw [if_neg h]
    rw [hadd, hn]
    show fragmentPages mc env nBufferVAddr nFlags bInUserSpace 0
        (pageCount nBufferVAddr nBufferSize + s) s ++ [] = _
    rw [List.append_nil, fragmentPages_eq mc env nBufferVAddr nFlags bInUserSpace pageAt hk hu
      0 _ s (by rw [hget]; omega) (by omega), hget, Nat.add_sub_cancel]
    apply List.map_congr_left
    intro i _
    rw [Nat.mul_zero, Nat.zero_add]

/-- The filled entries of the coarse page tables that the loop "map each
coarse page" went through name the pages it resolved, in the order in which
it resolved them; the coarse page tables are assumed pairwise distinct. -/
theorem fillCoarsePages_filled (mc : MapConfig) (env : MapEnv) (nBufferVAddr nFlags : Nat)
    (bInUserSpace : Bool) :
    ∀ (n k : Nat) (l lf : FillLocals),
      fillCoarsePages mc env nBufferVAddr nFlags bInUserSpace n k l = (none, lf) →
      (∀ p ∈ resolvedPages mc env nBufferVAddr nFlags bInUserSpace n k l.nPageCount
          l.nPageShift,
        mc.pte_page (mc.page_to_phys p &&& L2_DESCRIPTOR_ADDR_MASK) = p) →
      (bInUserSpace = false →
        ∀ p ∈ resolvedPages mc env nBufferVAddr nFlags bInUserSpace n k l.nPageCount
          l.nPageShift, p ≠ 0) →
      l.nPageShift ≤
        (if l.nPageCount >>> SCX_DESCRIPTOR_TABLE_CAPACITY_BIT_SHIFT ≠ 0
         then SCX_DESCRIPTOR_TABLE_CAPACITY else l.nPageCount) →
      (∀ i j, k ≤ i → i < j → j < k + n →
        lf.pShmemDesc.pCoarsePageTable i ≠ lf.pShmemDesc.pCoarsePageTable j) →
      ∀ (desc : SCXLNX_SHMEM_DESC) (st : MapState),
        desc.pCoarsePageTable = lf.pShmemDesc.pCoarsePageTable →
        st.descriptors = lf.st.descriptors →
        filledEntries mc st desc n k =
          resolvedPages mc env nBufferVAddr nFlags bInUserSpace n k l.nPageCount
            l.nPageShift := by
  intro n
  induction n with
  | zero =>
    intro k l lf _ _ _ _ _ desc st _ _
    rfl
  | succ n ih =>
    intro k l lf hfill hphys hnull hshift hdist desc st hdesc hst
    rw [fillCoarsePages] at hfill
    split at hfill
    · cases (Prod.mk.inj hfill).1
    · rename_i l1 hfrag
      obtain ⟨f1, f2, _, _, _, _, _, f8, _⟩ :=
        fillCoarsePage_spec mc env nBufferVAddr nFlags bInUserSpace k l l1 hfrag
          (fun p hp => hphys p (List.mem_append_left _ hp))
          (fun hu p hp => hnull hu p (List.mem_append_left _ hp)) hshift
      have hres : resolvedPages mc env nBufferVAddr nFlags bInUserSpace (n + 1) k
          l.nPageCount l.nPageShift =
          fragmentPages mc env nBufferVAddr nFlags bInUserSpace k l.nPageCount l.nPageShift ++
          resolvedPages mc env nBufferVAddr nFlags bInUserSpace n (k + 1)
            l1.nPageCount l1.nPageShift := by
        rw [f1, f2]
        rfl
      rw [hres] at hphys hnull ⊢
      have hphys1 := fun p hp => hphys p (List.mem_append_right _ hp)
      have hnull1 := fun hu p hp => hnull hu p (List.mem_append_right _ hp)
      have hshift1 : l1.nPageShift ≤
          (if l1.nPageCount >>> SCX_DESCRIPTOR_TABLE_CAPACITY_BIT_SHIFT ≠ 0
           then SCX_DESCRIPTOR_TABLE_CAPACITY else l1.nPageCount) := by
        rw [f1]; exact Nat.zero_le _
      have hdist1 : ∀ i j, k + 1 ≤ i → i < j → j < k + 1 + n →
          lf.pShmemDesc.pCoarsePageTable i ≠ lf.pShmemDesc.pCoarsePageTable j :=
        fun i j hi hij hj => hdist i j (by omega) hij (by omega)
      obtain ⟨_, _, g3, g4, _, _⟩ := fillCoarsePages_release mc env nBufferVAddr nFlags
        bInUserSpace 0 n (k + 1) l1 lf hfill hphys1 hnull1 hshift1 hdist1
      have htk : lf.pShmemDesc.pCoarsePageTable k = l1.pShmemDesc.pCoarsePageTable k :=
        g3 k (by omega)
      have hkeep : lf.st.descriptors (lf.pShmemDesc.pCoarsePageTable k) =
          l1.st.descriptors (l1.pShmemDesc.pCoarsePageTable k) := by
        rw [g4 (lf.pShmemDesc.pCoarsePageTable k)
          (fun j hj1 hj2 => hdist k j (le_refl _) (by omega) (by omega)), htk]
      rw [filledEntries, ih (k + 1) l1 lf hfill hphys1 hnull1 hshift1 hdist1 desc st hdesc hst]
      congr 1
      have hpk : Packed mc (st.descriptors (desc.pCoarsePageTable k)) l.nPageShift
          (fragmentPages mc env nBufferVAddr nFlags bInUserSpace k l.nPageCount
            l.nPageShift) := by
        rw [hdesc, hst, hkeep]
        exact f8
      exact packed_filled hpk

/-- After a call of `SCXLNXCommFillDescriptorTable` that returns 0, the
filled entries of the coarse page tables of the mapping, counted table by
table and from the low index to the high one, name the pages of
`mappedPages`, in order (under the assumptions of `map_pins_mapped_pages` on
the environment). -/
theorem filled_entries_are_mapped_pages (mc : MapConfig) (env : MapEnv) (st : MapState)
    (pShmemDesc : SCXLNX_SHMEM_DESC) (nBufferVAddr : Nat) (pDescriptors : Nat → Nat)
    (nBufferSize : Nat) (bInUserSpace : Bool) (nFlags : Nat)
    (owned : List SCXLNX_COARSE_PAGE_TABLE)
    (hok : (SCXLNXCommFillDescriptorTable mc env st pShmemDesc nBufferVAddr pDescriptors
      nBufferSize bInUserSpace nFlags).nError = 0)
    (hphys : ∀ p ∈ mappedPages mc env nBufferVAddr nBufferSize bInUserSpace nFlags,
      mc.pte_page (mc.page_to_phys p &&& L2_DESCRIPTOR_ADDR_MASK) = p)
    (hnull : bInUserSpace = false →
      ∀ p ∈ mappedPages mc env nBufferVAddr nBufferSize bInUserSpace nFlags, p ≠ 0)
    (hpool : (pShmemDesc.nType = mc.SCXLNX_SHMEM_TYPE_REGISTERED_SHMEM ∨
        pShmemDesc.nType = mc.SCXLNX_SHMEM_TYPE_PM_HIBERNATE) →
      OwnershipInv ⟨st.ctx, owned⟩)
    (hinj : ¬ (pShmemDesc.nType = mc.SCXLNX_SHMEM_TYPE_REGISTERED_SHMEM ∨
        pShmemDesc.nType = mc.SCXLNX_SHMEM_TYPE_PM_HIBERNATE) →
      ∀ i j, i < j →
        j < (SCXLNXCommFillDescriptorTable mc env st pShmemDesc nBufferVAddr pDescriptors
          nBufferSize bInUserSpace nFlags).pShmemDesc.nNumberOfCoarsePageTables →
        pShmemDesc.pCoarsePageTable i ≠ pShmemDesc.pCoarsePageTable j) :
    filledEntries mc
        (SCXLNXCommFillDescriptorTable mc env st pShmemDesc nBufferVAddr pDescriptors
          nBufferSize bInUserSpace nFlags).st
        (SCXLNXCommFillDescriptorTable mc env st pShmemDesc nBufferVAddr pDescriptors
          nBufferSize bInUserSpace nFlags).pShmemDesc
        (SCXLNXCommFillDescriptorTable mc env st pShmemDesc nBufferVAddr pDescriptors
          nBufferSize bInUserSpace nFlags).pShmemDesc.nNumberOfCoarsePageTables 0 =
      mappedPages mc env nBufferVAddr nBufferSize bInUserSpace nFlags := by
  obtain ⟨lf, hres, hst, hdesc⟩ := fill_success_shape mc env st pShmemDesc nBufferVAddr
    pDescriptors nBufferSize bInUserSpace nFlags hok
  have hshift0 := pageShift_le mc.info nBufferVAddr nBufferSize
  obtain ⟨_, _, t3, t4⟩ := fillCoarsePages_tables mc env nBufferVAddr nFlags bInUserSpace
    _ 0 _ lf hres hphys hnull hshift0
  rw [hdesc] at hinj
  have hdist : ∀ i j, 0 ≤ i → i < j →
      j < 0 + (add32
        (add32 (pageCount nBufferVAddr nBufferSize)
          (if alignmentRestricted mc.info then DESCRIPTOR_V13_12_GET nBufferVAddr else 0))
        SCX_DESCRIPTOR_TABLE_CAPACITY_MASK >>> SCX_DESCRIPTOR_TABLE_CAPACITY_BIT_SHIFT) →
      lf.pShmemDesc.pCoarsePageTable i ≠ lf.pShmemDesc.pCoarsePageTable j := by
    intro i j hi hij hj
    by_cases hkind : pShmemDesc.nType = mc.SCXLNX_SHMEM_TYPE_REGISTERED_SHMEM ∨
        pShmemDesc.nType = mc.SCXLNX_SHMEM_TYPE_PM_HIBERNATE
    · exact (t4 hkind owned (hpool hkind)).2 i j hi hij hj
    · rw [t3 hkind i, t3 hkind j]
      exact hinj hkind i j hij (by simpa using hj)
  have hfilled := fillCoarsePages_filled mc env nBufferVAddr nFlags bInUserSpace
    _ 0 _ lf hres hphys hnull hshift0 hdist
    { lf.pShmemDesc with
      nNumberOfCoarsePageTables :=
        add32
          (add32 (pageCount nBufferVAddr nBufferSize)
            (if alignmentRestricted mc.info then DESCRIPTOR_V13_12_GET nBufferVAddr else 0))
          SCX_DESCRIPTOR_TABLE_CAPACITY_MASK >>> SCX_DESCRIPTOR_TABLE_CAPACITY_BIT_SHIFT }
    lf.st rfl rfl
  rw [hst, hdesc]
  exact hfilled

/-- The claim C31 where it holds: after a call of
`SCXLNXCommFillDescriptorTable` that returns 0, when there is no page shift,
or when the pages and the shift fit in one coarse page table, filled entry
`j` names the page at address `nBufferVAddr + j * 4096` (in 32 bits), for
each `j` below the page count of the buffer, and there is no other filled
entry. -/
theorem filled_entries_contiguous (mc : MapConfig) (env : MapEnv) (st : MapState)
    (pShmemDesc : SCXLNX_SHMEM_DESC) (nBufferVAddr : Nat) (pDescriptors : Nat → Nat)
    (nBufferSize : Nat) (bInUserSpace : Bool) (nFlags : Nat)
    (owned : List SCXLNX_COARSE_PAGE_TABLE) (pageAt : Nat → Nat)
    (hok : (SCXLNXCommFillDescriptorTable mc env st pShmemDesc nBufferVAddr pDescriptors
      nBufferSize bInUserSpace nFlags).nError = 0)
    (hphys : ∀ p ∈ mappedPages mc env nBufferVAddr nBufferSize bInUserSpace nFlags,
      mc.pte_page (mc.page_to_phys p &&& L2_DESCRIPTOR_ADDR_MASK) = p)
    (hnull : bInUserSpace = false →
      ∀ p ∈ mappedPages mc env nBufferVAddr nBufferSize bInUserSpace nFlags, p ≠ 0)
    (hpool : (pShmemDesc.nType = mc.SCXLNX_SHMEM_TYPE_REGISTERED_SHMEM ∨
        pShmemDesc.nType = mc.SCXLNX_SHMEM_TYPE_PM_HIBERNATE) →
      OwnershipInv ⟨st.ctx, owned⟩)
    (hinj : ¬ (pShmemDesc.nType = mc.SCXLNX_SHMEM_TYPE_REGISTERED_SHMEM ∨
        pShmemDesc.nType = mc.SCXLNX_SHMEM_TYPE_PM_HIBERNATE) →
      ∀ i j, i < j →
        j < (SCXLNXCommFillDescriptorTable mc env st pShmemDesc nBufferVAddr pDescriptors
          nBufferSize bInUserSpace nFlags).pShmemDesc.nNumberOfCoarsePageTables →
        pShmemDesc.pCoarsePageTable i ≠ pShmemDesc.pCoarsePageTable j)
    (hk : bInUserSpace = false → pageAt = mc.vmalloc_to_page)
    (hu : bInUserSpace = true → ∀ start n wr,
      (env.get_user_pages start n wr).2 =
        (List.range n).map fun i => pageAt ((start + i * 4096) % 2 ^ 32))
    (hcond :
      (if alignmentRestricted mc.info then DESCRIPTOR_V13_12_GET nBufferVAddr else 0) = 0 ∨
      pageCount nBufferVAddr nBufferSize +
        (if alignmentRestricted mc.info then DESCRIPTOR_V13_12_GET nBufferVAddr else 0)
        ≤ SCX_DESCRIPTOR_TABLE_CAPACITY) :
    filledEntries mc
        (SCXLNXCommFillDescriptorTable mc env st pShmemDesc nBufferVAddr pDescriptors
          nBufferSize bInUserSpace nFlags).st
        (SCXLNXCommFillDescriptorTable mc env st pShmemDesc nBufferVAddr pDescriptors
          nBufferSize bInUserSpace nFlags).pShmemDesc
        (SCXLNXCommFillDescriptorTable mc env st pShmemDesc nBufferVAddr pDescriptors
          nBufferSize bInUserSpace nFlags).pShmemDesc.nNumberOfCoarsePageTables 0 =
      (List.range (pageCount nBufferVAddr nBufferSize)).map
        fun j => pageAt ((nBufferVAddr + j * 4096) % 2 ^ 32) := by
  rw [filled_entries_are_mapped_pages mc env st pShmemDesc nBufferVAddr pDescriptors
    nBufferSize bInUserSpace nFlags owned hok hphys hnull hpool hinj]
  exact mappedPages_contiguous mc env nBufferVAddr nBufferSize bInUserSpace nFlags pageAt
    hk hu hcond

set_option maxRecDepth 100000 in
set_option maxHeartbeats 4000000 in
/-- C31 fails with a page shift and more than one fragment.  On a CPU to
which the 16k alignment restriction applies, the kernel-space buffer of 256
pages at address `0xD0001000` (page shift 1) is mapped with two coarse page
tables and the call returns 0.  Table 0 has entry 0 unset and entries 1 to
255 naming the pages at `0xD0001000 + j * 4096` for `j` from 0 to 254; table
1 has the single entry 0.  That entry, the filled entry of rank 255, names
page `0xD0101`, the page at `0xD0001000 + 256 * 4096`, which lies after the
end of the buffer, and not page `0xD0100`, the page at
`0xD0001000 + 255 * 4096`, which is the last page of the buffer and is named
by no entry. -/
theorem fragments_skip_pages_under_shift :
    alignmentRestricted mapConfigAligned.info = true ∧
    DESCRIPTOR_V13_12_GET 0xD0001000 = 1 ∧
    pageCount 0xD0001000 0x100000 = 256 ∧
    (SCXLNXCommFillDescriptorTable mapConfigAligned mapEnv0 mapState0 shmemDesc0
      0xD0001000 (fun _ => 0) 0x100000 false 2).nError = 0 ∧
    (SCXLNXCommFillDescriptorTable mapConfigAligned mapEnv0 mapState0 shmemDesc0
      0xD0001000 (fun _ => 0) 0x100000 false 2).pShmemDesc.nNumberOfCoarsePageTables = 2 ∧
    (SCXLNXCommFillDescriptorTable mapConfigAligned mapEnv0 mapState0 shmemDesc0
      0xD0001000 (fun _ => 0) 0x100000 false 2).pShmemDesc.pCoarsePageTable 0 = ⟨0, 0⟩ ∧
    (SCXLNXCommFillDescriptorTable mapConfigAligned mapEnv0 mapState0 shmemDesc0
      0xD0001000 (fun _ => 0) 0x100000 false 2).pShmemDesc.pCoarsePageTable 1 = ⟨0, 3⟩ ∧
    (SCXLNXCommFillDescriptorTable mapConfigAligned mapEnv0 mapState0 shmemDesc0
      0xD0001000 (fun _ => 0) 0x100000 false 2).st.descriptors ⟨0, 0⟩ 0
      = L2_DESCRIPTOR_FAULT ∧
    SCXLNXCommL2PageDescriptorToPage mapConfigAligned
      ((SCXLNXCommFillDescriptorTable mapConfigAligned mapEnv0 mapState0 shmemDesc0
        0xD0001000 (fun _ => 0) 0x100000 false 2).st.descriptors ⟨0, 0⟩ 1)
      = mapConfigAligned.vmalloc_to_page 0xD0001000 ∧
    SCXLNXCommL2PageDescriptorToPage mapConfigAligned
      ((SCXLNXCommFillDescriptorTable mapConfigAligned mapEnv0 mapState0 shmemDesc0
        0xD0001000 (fun _ => 0) 0x100000 false 2).st.descriptors ⟨0, 0⟩ 255)
      = mapConfigAligned.vmalloc_to_page (0xD0001000 + 254 * 4096) ∧
    SCXLNXCommL2PageDescriptorToPage mapConfigAligned
      ((SCXLNXCommFillDescriptorTable mapConfigAligned mapEnv0 mapState0 shmemDesc0
        0xD0001000 (fun _ => 0) 0x100000 false 2).st.descriptors ⟨0, 3⟩ 0)
      = mapConfigAligned.vmalloc_to_page (0xD0001000 + 256 * 4096) ∧
    (SCXLNXCommFillDescriptorTable mapConfigAligned mapEnv0 mapState0 shmemDesc0
      0xD0001000 (fun _ => 0) 0x100000 false 2).st.descriptors ⟨0, 3⟩ 1
      = L2_DESCRIPTOR_FAULT ∧
    (filledEntries mapConfigAligned
      (SCXLNXCommFillDescriptorTable mapConfigAligned mapEnv0 mapState0 shmemDesc0
        0xD0001000 (fun _ => 0) 0x100000 false 2).st
      (SCXLNXCommFillDescriptorTable mapConfigAligned mapEnv0 mapState0 shmemDesc0
        0xD0001000 (fun _ => 0) 0x100000 false 2).pShmemDesc
      (SCXLNXCommFillDescriptorTable mapConfigAligned mapEnv0 mapState0 shmemDesc0
        0xD0001000 (fun _ => 0) 0x100000 false 2).pShmemDesc.nNumberOfCoarsePageTables
      0).length = 256 ∧
    (filledEntries mapConfigAligned
      (SCXLNXCommFillDescriptorTable mapConfigAligned mapEnv0 mapState0 shmemDesc0
        0xD0001000 (fun _ => 0) 0x100000 false 2).st
      (SCXLNXCommFillDescriptorTable mapConfigAligned mapEnv0 mapState0 shmemDesc0
        0xD0001000 (fun _ => 0) 0x100000 false 2).pShmemDesc
      (SCXLNXCommFillDescriptorTable mapConfigAligned mapEnv0 mapState0 shmemDesc0
        0xD0001000 (fun _ => 0) 0x100000 false 2).pShmemDesc.nNumberOfCoarsePageTables
      0).getD 255 0 = 0xD0101 ∧
    mapConfigAligned.vmalloc_to_page (0xD0001000 + 255 * 4096) = 0xD0100 ∧
    mapConfigAligned.vmalloc_to_page (0xD0001000 + 256 * 4096) = 0xD0101 ∧
    0xD0001000 + 256 * 4096 = 0xD0001000 + 0x100000 ∧
    (0xD0100 : Nat) ∉
      filledEntries mapConfigAligned
        (SCXLNXCommFillDescriptorTable mapConfigAligned mapEnv0 mapState0 shmemDesc0
          0xD0001000 (fun _ => 0) 0x100000 false 2).st
        (SCXLNXCommFillDescriptorTable mapConfigAligned mapEnv0 mapState0 shmemDesc0
          0xD0001000 (fun _ => 0) 0x100000 false 2).pShmemDesc
        (SCXLNXCommFillDescriptorTable mapConfigAligned mapEnv0 mapState0 shmemDesc0
          0xD0001000 (fun _ => 0) 0x100000 false 2).pShmemDesc.nNumberOfCoarsePageTables
        0 := by
  have hfilled := filled_entries_are_mapped_pages mapConfigAligned mapEnv0 mapState0
    shmemDesc0 0xD0001000 (fun _ => 0) 0x100000 false 2 [] (by decide) (by decide)
    (fun _ => by decide) (fun _ => ownershipInv_init) (fun h => absurd (Or.inl rfl) h)
  refine ⟨by decide, by decide, by decide, by decide, by decide, by decide, by decide,
    by decide, by decide, by decide, by decide, by decide, ?_, ?_, by decide, by decide,
    by decide, ?_⟩
  · rw [hfilled]; decide
  · rw [hfilled]; decide
  · rw [hfilled]; decide

end SCXLNX
